import Mathlib

/-!
# Cyrus IMAP mailbox store: index and header codecs, upgrade, expunge, rename, sync, reconstruct, locks, paths

A shallow embedding of `imap/mailbox.c` and `imap/mailbox.h`, and of the parts
of `imap/reconstruct.c` that validate user flags, sort UIDs and write the
header of the rebuilt index.

Conventions of the embedding.

* A mapped file or a C buffer is a `List Byte`; a pointer into it is an offset.
  Reading past the end yields the byte 0 and storing past the end is dropped
  (both are undefined behaviour in C); every theorem that depends on an access
  being in bounds carries the bound as a hypothesis.
* The C data model is LP64: `unsigned`, `int` and `bit32` have 32 bits,
  `unsigned long`, `size_t`, `long` and `time_t` have 64 bits.  Values of the
  unsigned types are `Nat`, values of the signed types are `Int`; wrap-around is
  written out with `%` wherever a C operation can wrap.
* A C string is the `List Byte` of its characters before the terminating NUL,
  so that no byte of it is 0 (`cstring`); a `char *` that may be null is an
  `Option`.
* The byte order of the host is a parameter `le` (`true` on a little-endian
  host).  `htonl` and `ntohl` are defined from it, and a `bit32` load or store
  through a pointer (`load32`, `store32`) uses the host order.
-/

namespace Cyrus

/-! ## Bytes, words and byte order -/

abbrev Byte := Fin 256

/-- The byte holding the low eight bits of `v`. -/
def byteOf (v : Nat) : Byte := ⟨v % 256, Nat.mod_lt v (by decide)⟩

/-- The value of the byte at offset `i` of `mem` (0 past the end). -/
def byteAt (mem : List Byte) (i : Nat) : Nat := (mem.getD i 0).val

/-- Conversion of a signed value to `bit32` (C conversion to an unsigned type). -/
def toU32 (x : Int) : Nat := (x % 4294967296).toNat

/-- Conversion of a `bit32` value to `int` (two's complement). -/
def toInt32 (v : Nat) : Int :=
  if v % 4294967296 < 2147483648 then (v % 4294967296 : Nat) else (v % 4294967296 : Nat) - 4294967296

/-- Reversal of the four bytes of a 32-bit word. -/
def bswap32 (v : Nat) : Nat :=
  (v % 256) * 16777216 + (v / 256 % 256) * 65536 + (v / 65536 % 256) * 256 + (v / 16777216 % 256)

/-- The C library `htonl`: host order to network (big-endian) order. -/
def htonl (le : Bool) (hostlong : Nat) : Nat :=
  if le then bswap32 (hostlong % 4294967296) else hostlong % 4294967296

/-- The C library `ntohl`: network (big-endian) order to host order. -/
def ntohl (le : Bool) (netlong : Nat) : Nat :=
  if le then bswap32 (netlong % 4294967296) else netlong % 4294967296

/-- The C expression `*((bit32 *)(mem+off))` used as a value. -/
def load32 (le : Bool) (mem : List Byte) (off : Nat) : Nat :=
  if le then
    byteAt mem off + byteAt mem (off + 1) * 256 + byteAt mem (off + 2) * 65536
      + byteAt mem (off + 3) * 16777216
  else
    byteAt mem off * 16777216 + byteAt mem (off + 1) * 65536 + byteAt mem (off + 2) * 256
      + byteAt mem (off + 3)

/-- The C statement `*((bit32 *)(mem+off)) = v`. -/
def store32 (le : Bool) (mem : List Byte) (off : Nat) (v : Nat) : List Byte :=
  if le then
    (((mem.set off (byteOf v)).set (off + 1) (byteOf (v / 256))).set (off + 2)
      (byteOf (v / 65536))).set (off + 3) (byteOf (v / 16777216))
  else
    (((mem.set off (byteOf (v / 16777216))).set (off + 1) (byteOf (v / 65536))).set (off + 2)
      (byteOf (v / 256))).set (off + 3) (byteOf v)

/-- The big-endian 32-bit integer stored at offset `off` of `mem`. -/
def be32 (mem : List Byte) (off : Nat) : Nat :=
  byteAt mem off * 16777216 + byteAt mem (off + 1) * 65536 + byteAt mem (off + 2) * 256
    + byteAt mem (off + 3)

/-- Storing `v` as a big-endian 32-bit integer at offset `off` of `mem`. -/
def putBE32 (mem : List Byte) (off : Nat) (v : Nat) : List Byte :=
  (((mem.set off (byteOf (v / 16777216))).set (off + 1) (byteOf (v / 65536))).set (off + 2)
    (byteOf (v / 256))).set (off + 3) (byteOf v)

/-- The bytes `mem[off .. off+len)`. -/
def slice (mem : List Byte) (off len : Nat) : List Byte := (mem.drop off).take len

/-- The C call `memcpy(dst, src, src.length)`: `src` replaces the start of `dst`. -/
def memcpy (dst src : List Byte) : List Byte := src ++ dst.drop src.length

/-! ## Constants of `mailbox.h` -/

def MAX_USER_FLAGS : Nat := 16 * 8
def MAILBOX_MINOR_VERSION : Nat := 6
def BIT32_MAX : Nat := 4294967295

def OFFSET_GENERATION_NO : Nat := 0
def OFFSET_FORMAT : Nat := 4
def OFFSET_MINOR_VERSION : Nat := 8
def OFFSET_START_OFFSET : Nat := 12
def OFFSET_RECORD_SIZE : Nat := 16
def OFFSET_EXISTS : Nat := 20
def OFFSET_LAST_APPENDDATE : Nat := 24
def OFFSET_LAST_UID : Nat := 28
def OFFSET_QUOTA_RESERVED_FIELD : Nat := 32
def OFFSET_QUOTA_MAILBOX_USED : Nat := 36
def OFFSET_POP3_LAST_LOGIN : Nat := 40
def OFFSET_UIDVALIDITY : Nat := 44
def OFFSET_DELETED : Nat := 48
def OFFSET_ANSWERED : Nat := 52
def OFFSET_FLAGGED : Nat := 56
def OFFSET_POP3_NEW_UIDL : Nat := 60
def OFFSET_LEAKED_CACHE : Nat := 64
def OFFSET_SPARE1 : Nat := 68
def OFFSET_SPARE2 : Nat := 72

def OFFSET_UID : Nat := 0
def OFFSET_INTERNALDATE : Nat := 4
def OFFSET_SENTDATE : Nat := 8
def OFFSET_SIZE : Nat := 12
def OFFSET_HEADER_SIZE : Nat := 16
def OFFSET_CONTENT_OFFSET : Nat := 20
def OFFSET_CACHE_OFFSET : Nat := 24
def OFFSET_LAST_UPDATED : Nat := 28
def OFFSET_SYSTEM_FLAGS : Nat := 32
def OFFSET_USER_FLAGS : Nat := 36
def OFFSET_CONTENT_LINES : Nat := OFFSET_USER_FLAGS + MAX_USER_FLAGS / 8
def OFFSET_CACHE_VERSION : Nat := OFFSET_CONTENT_LINES + 4

def INDEX_HEADER_SIZE : Nat := OFFSET_SPARE2 + 4
def INDEX_RECORD_SIZE : Nat := OFFSET_CACHE_VERSION + 4

def NUM_CACHE_FIELDS : Nat := 10

def FLAG_ANSWERED : Nat := 1
def FLAG_FLAGGED : Nat := 2
def FLAG_DELETED : Nat := 4
def FLAG_DRAFT : Nat := 8

/-- The nonzero return codes of the functions embedded here. -/
inductive imap_err where
  | IMAP_IOERROR
  | IMAP_MAILBOX_BADFORMAT
  | IMAP_MAILBOX_POPLOCKED
  | IMAP_QUOTAROOT_NONEXISTENT
  | IMAP_QUOTA_EXCEEDED
  | IMAP_MAILBOX_NOTSUPPORTED
deriving DecidableEq, Repr

export imap_err (IMAP_IOERROR IMAP_MAILBOX_BADFORMAT IMAP_MAILBOX_POPLOCKED
  IMAP_QUOTAROOT_NONEXISTENT IMAP_QUOTA_EXCEEDED IMAP_MAILBOX_NOTSUPPORTED)

/-! ## Index records -/

/-- The C `struct index_record`. -/
structure index_record where
  uid : Nat
  internaldate : Int
  sentdate : Int
  size : Nat
  header_size : Nat
  content_offset : Nat
  cache_offset : Nat
  last_updated : Int
  system_flags : Nat
  user_flags : List Nat
  content_lines : Nat
  cache_version : Nat
deriving DecidableEq, Repr

/-- The fields of the C `struct mailbox` that the code embedded here uses.
`header_base`, `index_base` and `cache_base` are the mapped files, `header_len`,
`index_len` and `cache_len` being their lengths.  A `char *` field is an
`Option (List Byte)`: `none` is the null pointer and `some s` a C string with
the bytes `s` before its terminating NUL.  `quota_root`, `quota_used` and
`quota_limit` are `quota.root`, `quota.used` and `quota.limit`. -/
structure mailbox where
  header_fd : Int
  index_fd : Int
  cache_fd : Int
  header_base : List Byte
  index_base : List Byte
  cache_base : List Byte
  header_lock_count : Int
  index_lock_count : Int
  seen_lock_count : Int
  pop_lock_count : Int
  name : Option (List Byte)
  acl : Option (List Byte)
  uniqueid : Option (List Byte)
  flagname : List (Option (List Byte))
  generation_no : Nat
  format : Int
  minor_version : Int
  start_offset : Nat
  record_size : Nat
  «exists» : Nat
  last_appenddate : Int
  last_uid : Nat
  quota_mailbox_used : Nat
  pop3_last_login : Nat
  uidvalidity : Nat
  deleted : Nat
  answered : Nat
  flagged : Nat
  dirty : Int
  pop3_new_uidl : Int
  leaked_cache_records : Nat
  quota_root : Option (List Byte)
  quota_used : Nat
  quota_limit : Int
deriving DecidableEq, Repr

/-- The C macro `zeromailbox`: every field cleared, the file descriptors set
to -1. -/
def zeromailbox : mailbox :=
  { header_fd := -1, index_fd := -1, cache_fd := -1, header_base := [], index_base := [],
    cache_base := [], header_lock_count := 0, index_lock_count := 0, seen_lock_count := 0,
    pop_lock_count := 0, name := none, acl := none, uniqueid := none,
    flagname := List.replicate MAX_USER_FLAGS none, generation_no := 0, format := 0,
    minor_version := 0, start_offset := 0, record_size := 0, «exists» := 0,
    last_appenddate := 0, last_uid := 0, quota_mailbox_used := 0, pop3_last_login := 0,
    uidvalidity := 0, deleted := 0, answered := 0, flagged := 0, dirty := 0,
    pop3_new_uidl := 0, leaked_cache_records := 0, quota_root := none, quota_used := 0,
    quota_limit := 0 }

/-- The mapped length of the index file. -/
def mailbox.index_len (m : mailbox) : Nat := m.index_base.length

/-- The mapped length of the cache file. -/
def mailbox.cache_len (m : mailbox) : Nat := m.cache_base.length

/-- The C function `mailbox_read_index_record`.  `msgno` is an `unsigned`;
`msgno-1` is computed in `unsigned` and the offset in `unsigned long`. -/
def mailbox_read_index_record (le : Bool) (m : mailbox) (msgno : Nat) :
    Except imap_err index_record :=
  let offset := (m.start_offset
    + ((msgno + 4294967295) % 4294967296) * m.record_size) % 18446744073709551616
  if (offset + INDEX_RECORD_SIZE) % 18446744073709551616 > m.index_len then
    .error IMAP_IOERROR
  else
    let buf := m.index_base.drop offset
    .ok {
      uid := htonl le (load32 le buf OFFSET_UID)
      internaldate := htonl le (load32 le buf OFFSET_INTERNALDATE)
      sentdate := htonl le (load32 le buf OFFSET_SENTDATE)
      size := htonl le (load32 le buf OFFSET_SIZE)
      header_size := htonl le (load32 le buf OFFSET_HEADER_SIZE)
      content_offset := htonl le (load32 le buf OFFSET_CONTENT_OFFSET)
      cache_offset := htonl le (load32 le buf OFFSET_CACHE_OFFSET)
      last_updated := htonl le (load32 le buf OFFSET_LAST_UPDATED)
      system_flags := htonl le (load32 le buf OFFSET_SYSTEM_FLAGS)
      user_flags := (List.range (MAX_USER_FLAGS / 32)).map
        (fun n => htonl le (load32 le buf (OFFSET_USER_FLAGS + 4 * n)))
      content_lines := htonl le (load32 le buf OFFSET_CONTENT_LINES)
      cache_version := htonl le (load32 le buf OFFSET_CACHE_VERSION) }

/-- The C function `mailbox_index_record_to_buf`; the result is `buf` after the
stores. -/
def mailbox_index_record_to_buf (le : Bool) (record : index_record) (buf : List Byte) :
    List Byte :=
  let buf := store32 le buf OFFSET_UID (htonl le record.uid)
  let buf := store32 le buf OFFSET_INTERNALDATE (htonl le (toU32 record.internaldate))
  let buf := store32 le buf OFFSET_SENTDATE (htonl le (toU32 record.sentdate))
  let buf := store32 le buf OFFSET_SIZE (htonl le record.size)
  let buf := store32 le buf OFFSET_HEADER_SIZE (htonl le record.header_size)
  let buf := store32 le buf OFFSET_CONTENT_OFFSET (htonl le record.content_offset)
  let buf := store32 le buf OFFSET_CACHE_OFFSET (htonl le record.cache_offset)
  let buf := store32 le buf OFFSET_LAST_UPDATED (htonl le (toU32 record.last_updated))
  let buf := store32 le buf OFFSET_SYSTEM_FLAGS (htonl le record.system_flags)
  let buf := (List.range (MAX_USER_FLAGS / 32)).foldl
    (fun b n => store32 le b (OFFSET_USER_FLAGS + 4 * n) (htonl le (record.user_flags.getD n 0)))
    buf
  let buf := store32 le buf OFFSET_CONTENT_LINES (htonl le record.content_lines)
  store32 le buf OFFSET_CACHE_VERSION (htonl le record.cache_version)


/-- The record whose fields are the big-endian 32-bit integers stored at the
fixed field offsets from byte `off` of `mem` (the layout of `mailbox.h`). -/
def recordBE (mem : List Byte) (off : Nat) : index_record :=
  { uid := be32 mem (off + OFFSET_UID)
    internaldate := be32 mem (off + OFFSET_INTERNALDATE)
    sentdate := be32 mem (off + OFFSET_SENTDATE)
    size := be32 mem (off + OFFSET_SIZE)
    header_size := be32 mem (off + OFFSET_HEADER_SIZE)
    content_offset := be32 mem (off + OFFSET_CONTENT_OFFSET)
    cache_offset := be32 mem (off + OFFSET_CACHE_OFFSET)
    last_updated := be32 mem (off + OFFSET_LAST_UPDATED)
    system_flags := be32 mem (off + OFFSET_SYSTEM_FLAGS)
    user_flags := [be32 mem (off + OFFSET_USER_FLAGS), be32 mem (off + OFFSET_USER_FLAGS + 4),
      be32 mem (off + OFFSET_USER_FLAGS + 8), be32 mem (off + OFFSET_USER_FLAGS + 12)]
    content_lines := be32 mem (off + OFFSET_CONTENT_LINES)
    cache_version := be32 mem (off + OFFSET_CACHE_VERSION) }

/-- The record that a reader written with `ntohl`, as in `mailbox_expunge` and
`mailbox_calculate_flagcounts`, obtains from the bytes at `off` of `mem`. -/
def recordNtohl (le : Bool) (mem : List Byte) (off : Nat) : index_record :=
  { uid := ntohl le (load32 le mem (off + OFFSET_UID))
    internaldate := ntohl le (load32 le mem (off + OFFSET_INTERNALDATE))
    sentdate := ntohl le (load32 le mem (off + OFFSET_SENTDATE))
    size := ntohl le (load32 le mem (off + OFFSET_SIZE))
    header_size := ntohl le (load32 le mem (off + OFFSET_HEADER_SIZE))
    content_offset := ntohl le (load32 le mem (off + OFFSET_CONTENT_OFFSET))
    cache_offset := ntohl le (load32 le mem (off + OFFSET_CACHE_OFFSET))
    last_updated := ntohl le (load32 le mem (off + OFFSET_LAST_UPDATED))
    system_flags := ntohl le (load32 le mem (off + OFFSET_SYSTEM_FLAGS))
    user_flags := [ntohl le (load32 le mem (off + OFFSET_USER_FLAGS)),
      ntohl le (load32 le mem (off + OFFSET_USER_FLAGS + 4)),
      ntohl le (load32 le mem (off + OFFSET_USER_FLAGS + 8)),
      ntohl le (load32 le mem (off + OFFSET_USER_FLAGS + 12))]
    content_lines := ntohl le (load32 le mem (off + OFFSET_CONTENT_LINES))
    cache_version := ntohl le (load32 le mem (off + OFFSET_CACHE_VERSION)) }

/-! ## The index header -/

/-- Outcomes of the operating-system and collaborator calls made by the
functions below (locks, `fopen`, `fflush`/`fsync`, `rename`, `retry_write`, `quota_read`,
`quota_write`).
A lock call is represented by its return code only: `none` is 0, and the
uncontended case is assumed in which taking a lock does not remap the files.
`newheader_fd` is what `open` returns for the new header file (-1 on failure),
and `rename_header_ok` tells whether `fsync`, `lock_blocking` and `rename` of
the new header file all succeed. -/
structure os_env where
  lock_header : Option imap_err
  lock_index : Option imap_err
  lock_pop : Option imap_err
  fopen_index_ok : Bool
  fopen_cache_ok : Bool
  write_ok : Bool
  quota_read : Option imap_err
  quota_write_ok : Bool
  rename_index_ok : Bool
  rename_cache_ok : Bool
  newheader_fd : Int
  rename_header_ok : Bool
deriving DecidableEq, Repr

/-- An environment in which every call succeeds. -/
def os_ok : os_env :=
  { lock_header := none, lock_index := none, lock_pop := none, fopen_index_ok := true,
    fopen_cache_ok := true, write_ok := true, quota_read := none, quota_write_ok := true,
    rename_index_ok := true, rename_cache_ok := true, newheader_fd := 5,
    rename_header_ok := true }

/-- The three lock acquisitions that open `mailbox_upgrade_index`,
`mailbox_calculate_flagcounts` and `mailbox_expunge`: the first failing call's
code is returned (after the locks already taken are released). -/
def lock_all (env : os_env) : Option imap_err :=
  match env.lock_header with
  | some r => some r
  | none =>
    match env.lock_index with
    | some r => some r
    | none => env.lock_pop

/-- State of the loop of `mailbox_calculate_flagcounts`:
`numansweredflag`, `numdeletedflag`, `numflaggedflag`. -/
structure flagcounts where
  numansweredflag : Nat
  numdeletedflag : Nat
  numflaggedflag : Nat
deriving DecidableEq, Repr

/-- The number of tests of `msgno <= mailbox->exists` after which a loop over
the `unsigned` `msgno` that has not been left is never left: `msgno` has then
taken each of its 2^32 values, and the next passes repeat the earlier ones. -/
def MSGNO_TESTS : Nat := 4294967296

/-- The loop `for (msgno = ...; msgno <= mailbox->exists; msgno++)` of
`mailbox_calculate_flagcounts`, with `n` tests of its condition left; `msgno`
is an `unsigned`, so that `msgno++` and `msgno - 1` wrap around, and `exists`
is an `unsigned long`.  The loop is left by its condition or by the `return`
of the sanity check.  The result is `none` when it has not been left after `n`
tests. -/
def calculate_flagcounts_loop (le : Bool) (m : mailbox) :
    Nat → Nat → flagcounts → Option (Except imap_err flagcounts)
  | 0, _, _ => none
  | n + 1, msgno, c =>
    if msgno ≤ m.«exists» then
      let bufp := m.index_base.drop
        (m.start_offset + ((msgno + 4294967295) % 4294967296) * m.record_size)
      if load32 le bufp OFFSET_UID = 0 then some (.error IMAP_IOERROR)
      else
        let sysflags := ntohl le (load32 le bufp OFFSET_SYSTEM_FLAGS)
        let c := if sysflags &&& FLAG_ANSWERED ≠ 0 then
          { c with numansweredflag := (c.numansweredflag + 1) % 4294967296 } else c
        let c := if sysflags &&& FLAG_DELETED ≠ 0 then
          { c with numdeletedflag := (c.numdeletedflag + 1) % 4294967296 } else c
        let c := if sysflags &&& FLAG_FLAGGED ≠ 0 then
          { c with numflaggedflag := (c.numflaggedflag + 1) % 4294967296 } else c
        calculate_flagcounts_loop le m n ((msgno + 1) % 4294967296) c
    else some (.ok c)

/-- The C function `mailbox_calculate_flagcounts`: its return code, with the
mailbox when that is 0; `none` when the function does not return because its
loop is never left (as for `exists` = 2^32 - 1 and records that all pass the
sanity check: `msgno <= mailbox->exists` then holds for every `msgno`). -/
def mailbox_calculate_flagcounts (le : Bool) (env : os_env) (m : mailbox) :
    Option (Except imap_err mailbox) :=
  match lock_all env with
  | some r => some (.error r)
  | none =>
    match calculate_flagcounts_loop le m MSGNO_TESTS 1 ⟨0, 0, 0⟩ with
    | none => none
    | some (.error r) => some (.error r)
    | some (.ok c) =>
      some (.ok { m with answered := c.numansweredflag, deleted := c.numdeletedflag,
                         flagged := c.numflaggedflag })

/-- How `mailbox_read_index_header` ends: with an error code and no upgrade,
by calling `mailbox_upgrade_index` on the decoded snapshot (after which it
returns `IMAP_IOERROR` or the result of a fresh `mailbox_open_index`), by
returning 0 with the decoded snapshot, or not at all, when the flag recount
does not return. -/
inductive index_header_result where
  | error (r : imap_err)
  | upgrade (m : mailbox)
  | ok (m : mailbox)
  | not_returned
deriving DecidableEq, Repr

/-- The C function `mailbox_read_index_header`, up to the point where it
returns or calls `mailbox_upgrade_index`.  `reconstruct` is the global
`mailbox_doing_reconstruct`.  The local names stand for the fields of
`*mailbox` that the function assigns, in the order of the source. -/
def mailbox_read_index_header (le : Bool) (reconstruct : Bool) (env : os_env) (m : mailbox) :
    index_header_result :=
  if m.index_fd = -1 then .error IMAP_MAILBOX_BADFORMAT
  else if m.index_len < OFFSET_POP3_LAST_LOGIN ∨
      m.index_len < ntohl le (load32 le m.index_base OFFSET_START_OFFSET) then
    .error IMAP_MAILBOX_BADFORMAT
  else
    let generation_no := if reconstruct then
      ntohl le (load32 le m.index_base OFFSET_GENERATION_NO) else m.generation_no
    let format := toInt32 (ntohl le (load32 le m.index_base OFFSET_FORMAT))
    let minor_version := toInt32 (ntohl le (load32 le m.index_base OFFSET_MINOR_VERSION))
    let quota_upgrade_offset : Nat := if minor_version ≤ (5 : Int) then (4 : Nat) else 0
    let start_offset := ntohl le (load32 le m.index_base OFFSET_START_OFFSET)
    let record_size := ntohl le (load32 le m.index_base OFFSET_RECORD_SIZE)
    let exists_ := ntohl le (load32 le m.index_base OFFSET_EXISTS)
    let last_appenddate : Int := ntohl le (load32 le m.index_base OFFSET_LAST_APPENDDATE)
    let last_uid := ntohl le (load32 le m.index_base OFFSET_LAST_UID)
    let quota_mailbox_used :=
      ntohl le (load32 le m.index_base (OFFSET_QUOTA_MAILBOX_USED - quota_upgrade_offset))
    let pop3_last_login :=
      if start_offset < OFFSET_POP3_LAST_LOGIN - quota_upgrade_offset + 4 then 0
      else ntohl le (load32 le m.index_base (OFFSET_POP3_LAST_LOGIN - quota_upgrade_offset))
    let uidvalidity :=
      if start_offset < OFFSET_UIDVALIDITY - quota_upgrade_offset + 4 then 1
      else ntohl le (load32 le m.index_base (OFFSET_UIDVALIDITY - quota_upgrade_offset))
    let m : mailbox := { m with
      generation_no := generation_no, format := format, minor_version := minor_version,
      start_offset := start_offset, record_size := record_size, «exists» := exists_,
      last_appenddate := last_appenddate, last_uid := last_uid,
      quota_mailbox_used := quota_mailbox_used, pop3_last_login := pop3_last_login,
      uidvalidity := uidvalidity }
    let counted : Option (Except imap_err (mailbox × Bool)) :=
      if start_offset < OFFSET_FLAGGED - quota_upgrade_offset + 4 then
        match mailbox_calculate_flagcounts le env m with
        | none => none
        | some (.error _) => some (.error IMAP_IOERROR)
        | some (.ok m) => some (.ok (m, true))
      else
        some (.ok ({ m with
          deleted := ntohl le (load32 le m.index_base (OFFSET_DELETED - quota_upgrade_offset)),
          answered := ntohl le (load32 le m.index_base (OFFSET_ANSWERED - quota_upgrade_offset)),
          flagged := ntohl le (load32 le m.index_base (OFFSET_FLAGGED - quota_upgrade_offset)),
          dirty := 0 }, false))
    match counted with
    | none => .not_returned
    | some (.error r) => .error r
    | some (.ok (m, upgrade)) =>
      let pop3_new_uidl : Int :=
        if start_offset < OFFSET_POP3_NEW_UIDL - quota_upgrade_offset + 4 then
          (if exists_ = 0 then 1 else 0)
        else
          (if exists_ = 0 ∨ ntohl le (load32 le m.index_base
            (OFFSET_POP3_NEW_UIDL - quota_upgrade_offset)) ≠ 0 then 1 else 0)
      let upgrade :=
        if start_offset < OFFSET_POP3_NEW_UIDL - quota_upgrade_offset + 4 then true else upgrade
      let leaked_cache_records :=
        if start_offset < OFFSET_LEAKED_CACHE - quota_upgrade_offset + 4 then 0
        else ntohl le (load32 le m.index_base (OFFSET_LEAKED_CACHE - quota_upgrade_offset))
      let upgrade :=
        if start_offset < OFFSET_LEAKED_CACHE - quota_upgrade_offset + 4 then true else upgrade
      let upgrade := if record_size < INDEX_RECORD_SIZE then true else upgrade
      let m : mailbox := { m with
        pop3_new_uidl := pop3_new_uidl, leaked_cache_records := leaked_cache_records }
      if upgrade then .upgrade m
      else if !reconstruct ∧ minor_version < (MAILBOX_MINOR_VERSION : Int) then
        .error IMAP_MAILBOX_BADFORMAT
      else .ok m

/-- The buffer `buf` of `mailbox_write_index_header` after its nineteen stores. -/
def index_header_buf (le : Bool) (m : mailbox) : List Byte :=
  let buf : List Byte := List.replicate INDEX_HEADER_SIZE 0
  let buf := store32 le buf OFFSET_GENERATION_NO (htonl le m.generation_no)
  let buf := store32 le buf OFFSET_FORMAT (htonl le (toU32 m.format))
  let buf := store32 le buf OFFSET_MINOR_VERSION (htonl le (toU32 m.minor_version))
  let buf := store32 le buf OFFSET_START_OFFSET (htonl le m.start_offset)
  let buf := store32 le buf OFFSET_RECORD_SIZE (htonl le m.record_size)
  let buf := store32 le buf OFFSET_EXISTS (htonl le m.«exists»)
  let buf := store32 le buf OFFSET_LAST_APPENDDATE (htonl le (toU32 m.last_appenddate))
  let buf := store32 le buf OFFSET_LAST_UID (htonl le m.last_uid)
  let buf := store32 le buf OFFSET_QUOTA_RESERVED_FIELD (htonl le 0)
  let buf := store32 le buf OFFSET_QUOTA_MAILBOX_USED (htonl le m.quota_mailbox_used)
  let buf := store32 le buf OFFSET_POP3_LAST_LOGIN (htonl le m.pop3_last_login)
  let buf := store32 le buf OFFSET_UIDVALIDITY (htonl le m.uidvalidity)
  let buf := store32 le buf OFFSET_DELETED (htonl le m.deleted)
  let buf := store32 le buf OFFSET_ANSWERED (htonl le m.answered)
  let buf := store32 le buf OFFSET_FLAGGED (htonl le m.flagged)
  let buf := store32 le buf OFFSET_POP3_NEW_UIDL (htonl le (toU32 m.pop3_new_uidl))
  let buf := store32 le buf OFFSET_LEAKED_CACHE (htonl le m.leaked_cache_records)
  let buf := store32 le buf OFFSET_SPARE1 (htonl le 0)
  store32 le buf OFFSET_SPARE2 (htonl le 0)

/-- The C function `mailbox_write_index_header`.  The result is `none` when the
assertion `index_lock_count != 0` fails, and otherwise the return code, with
the bytes handed to `retry_write` at file offset 0 when it is 0. -/
def mailbox_write_index_header (le : Bool) (env : os_env) (m : mailbox) :
    Option (Except imap_err (List Byte)) :=
  if m.index_lock_count = 0 then none
  else
    let buf := index_header_buf le m
    let header_size := if m.start_offset < INDEX_HEADER_SIZE then m.start_offset
      else INDEX_HEADER_SIZE
    if env.write_ok then some (.ok (buf.take header_size)) else some (.error IMAP_IOERROR)

/-- Whether `mailbox_read_index_header` called `mailbox_upgrade_index`. -/
def index_header_result.upgraded : index_header_result → Bool
  | .upgrade _ => true
  | _ => false

/-- The `quota_upgrade_offset` that `mailbox_read_index_header` derives from the
stored minor version of the index `mem`. -/
def stored_quota_upgrade_offset (mem : List Byte) : Nat :=
  if toInt32 (be32 mem OFFSET_MINOR_VERSION) ≤ (5 : Int) then 4 else 0

/-! ## Opening the index and the cache -/

def MAXTRIES : Nat := 60

/-- What one `open` of the two files finds: the contents of `cyrus.index` and of
`cyrus.cache`, `none` when the `open` fails. -/
structure files_obs where
  index : Option (List Byte)
  cache : Option (List Byte)
deriving DecidableEq, Repr

/-- How one pass through the body of the `do` loop of `mailbox_open_index` ends. -/
inductive open_attempt where
  | returned (r : imap_err)
  | broke (m : mailbox)
  | compared (m : mailbox) (index_gen cache_gen : Nat)
deriving DecidableEq, Repr

/-- The body of the `do` loop of `mailbox_open_index`.  A successful `open`
is given the descriptor 0. -/
def open_index_attempt (le : Bool) (reconstruct : Bool) (o : files_obs) (m : mailbox) :
    open_attempt :=
  let m : mailbox := match o.index with
    | some f => { m with index_fd := 0, index_base := f }
    | none => { m with index_fd := -1 }
  if reconstruct then .broke m
  else if m.index_fd = -1 then .returned IMAP_IOERROR
  else
    let m : mailbox := match o.cache with
      | some f => { m with cache_fd := 0, cache_base := f }
      | none => { m with cache_fd := -1 }
    if m.cache_fd = -1 then .returned IMAP_IOERROR
    else if m.index_len < 4 ∨ m.cache_len < 4 then .returned IMAP_MAILBOX_BADFORMAT
    else
      let index_gen := ntohl le (load32 le m.index_base OFFSET_GENERATION_NO)
      let cache_gen := ntohl le (load32 le m.cache_base OFFSET_GENERATION_NO)
      if index_gen ≠ cache_gen then
        .compared { m with index_base := [], cache_base := [] } index_gen cache_gen
      else .compared m index_gen cache_gen

/-- The `do ... while (index_gen != cache_gen && tries++ < MAXTRIES)` loop of
`mailbox_open_index` followed by the rest of the function; `left` is
`MAXTRIES - tries` and `obs tries` is what the files hold at that attempt. -/
def open_index_loop (le : Bool) (reconstruct : Bool) (env : os_env) (obs : Nat → files_obs)
    (m : mailbox) : Nat → Nat → index_header_result
  | left, tries =>
    match open_index_attempt le reconstruct (obs tries) m with
    | .returned r => .error r
    | .broke m => mailbox_read_index_header le reconstruct env { m with generation_no := 0 }
    | .compared m index_gen cache_gen =>
      if index_gen ≠ cache_gen then
        match left with
        | 0 => .error IMAP_MAILBOX_BADFORMAT
        | left + 1 => open_index_loop le reconstruct env obs m left (tries + 1)
      else mailbox_read_index_header le reconstruct env { m with generation_no := index_gen }

/-- The C function `mailbox_open_index`, up to the point where the
`mailbox_read_index_header` it ends with returns or calls
`mailbox_upgrade_index`. -/
def mailbox_open_index (le : Bool) (reconstruct : Bool) (env : os_env) (obs : Nat → files_obs)
    (m : mailbox) : index_header_result :=
  let m : mailbox := if m.index_fd ≠ -1 then { m with index_base := [] } else m
  let m : mailbox := if m.cache_fd ≠ -1 then { m with cache_base := [] } else m
  open_index_loop le reconstruct env obs m MAXTRIES 0

/-- An index of 64 bytes whose header stores minor version 6, start offset 64
and record size 60, all other words being 0. -/
def old_header_index : List Byte :=
  [0, 0, 0, 0, 0, 0, 0, 0, 0, 0, 0, 6, 0, 0, 0, 64, 0, 0, 0, 60,
   0, 0, 0, 0, 0, 0, 0, 0, 0, 0, 0, 0, 0, 0, 0, 0, 0, 0, 0, 0,
   0, 0, 0, 0, 0, 0, 0, 0, 0, 0, 0, 0, 0, 0, 0, 0, 0, 0, 0, 0,
   0, 0, 0, 0]

/-- A 64-byte index file: four bytes, then one record of 60 bytes with
distinct byte values. -/
def sample_record_index : List Byte :=
  [9, 9, 9, 9,
   0, 0, 0, 7, 65, 2, 3, 4, 65, 2, 3, 5, 0, 0, 4, 0, 0, 0, 1, 0,
   0, 0, 1, 0, 0, 0, 0, 4, 65, 2, 3, 6, 0, 0, 0, 5, 128, 0, 0, 1,
   0, 0, 0, 2, 0, 0, 0, 3, 255, 255, 255, 255, 0, 0, 0, 12, 0, 0, 0, 2]

/-- The snapshot whose fields are the big-endian words of the mapped index of
`m` at the header offsets of the current layout (`pop3_new_uidl` being the
truth value `!exists || word`). -/
def snapshotBE (m : mailbox) : mailbox :=
  { m with
    generation_no := be32 m.index_base OFFSET_GENERATION_NO,
    format := toInt32 (be32 m.index_base OFFSET_FORMAT),
    minor_version := toInt32 (be32 m.index_base OFFSET_MINOR_VERSION),
    start_offset := be32 m.index_base OFFSET_START_OFFSET,
    record_size := be32 m.index_base OFFSET_RECORD_SIZE,
    «exists» := be32 m.index_base OFFSET_EXISTS,
    last_appenddate := be32 m.index_base OFFSET_LAST_APPENDDATE,
    last_uid := be32 m.index_base OFFSET_LAST_UID,
    quota_mailbox_used := be32 m.index_base OFFSET_QUOTA_MAILBOX_USED,
    pop3_last_login := be32 m.index_base OFFSET_POP3_LAST_LOGIN,
    uidvalidity := be32 m.index_base OFFSET_UIDVALIDITY,
    deleted := be32 m.index_base OFFSET_DELETED,
    answered := be32 m.index_base OFFSET_ANSWERED,
    flagged := be32 m.index_base OFFSET_FLAGGED,
    dirty := 0,
    pop3_new_uidl :=
      (if be32 m.index_base OFFSET_EXISTS = 0 ∨ be32 m.index_base OFFSET_POP3_NEW_UIDL ≠ 0
        then 1 else 0),
    leaked_cache_records := be32 m.index_base OFFSET_LEAKED_CACHE }

/-- A 76-byte index header of the current layout (minor version 6, start offset
76, record size 60, `exists` = 1) whose `pop3_new_uidl` word is 2 and whose
second spare word is 1. -/
def unnormalised_header : List Byte :=
  [0, 0, 0, 5, 0, 0, 0, 0, 0, 0, 0, 6, 0, 0, 0, 76, 0, 0, 0, 60,
   0, 0, 0, 1, 0, 0, 0, 0, 0, 0, 0, 9, 0, 0, 0, 0, 0, 0, 1, 0,
   0, 0, 0, 0, 0, 0, 0, 3, 0, 0, 0, 0, 0, 0, 0, 0, 0, 0, 0, 0,
   0, 0, 0, 2, 0, 0, 0, 0, 0, 0, 0, 0, 0, 0, 0, 1]

/-- A 76-byte index header of the current layout (minor version 6, start offset
76, record size 60, `exists` = 1) with `pop3_new_uidl` = 1 and zero reserved
words. -/
def current_header : List Byte :=
  [0, 0, 0, 5, 0, 0, 0, 0, 0, 0, 0, 6, 0, 0, 0, 76, 0, 0, 0, 60,
   0, 0, 0, 1, 0, 0, 0, 0, 0, 0, 0, 9, 0, 0, 0, 0, 0, 0, 1, 0,
   0, 0, 0, 0, 0, 0, 0, 3, 0, 0, 0, 0, 0, 0, 0, 0, 0, 0, 0, 0,
   0, 0, 0, 1, 0, 0, 0, 0, 0, 0, 0, 0, 0, 0, 0, 0]

/-! ## Appending records -/

/-- The timestamp sanity check that `mailbox_append_index` applies to
`record[i]` before encoding it; `now` is `time(NULL)`. -/
def append_sanity_check (now : Int) (r : index_record) : index_record :=
  let r := if r.internaldate ≤ 0 then { r with internaldate := now } else r
  let r := if r.sentdate ≤ 0 then { r with sentdate := now } else r
  let r := if r.last_updated ≤ 0 then { r with internaldate := now } else r
  r

/-- One iteration of the loop of `mailbox_append_index`: `record[i]` is checked
in place and encoded at `p = buf + i*record_size`. -/
def append_index_step (le : Bool) (m : mailbox) (now : Int)
    (st : List index_record × List Byte) (i : Nat) : List index_record × List Byte :=
  match st.1.get? i with
  | none => st
  | some r =>
    let r := append_sanity_check now r
    let p := i * m.record_size
    (st.1.set i r, st.2.take p ++ mailbox_index_record_to_buf le r (st.2.drop p))

/-- The C function `mailbox_append_index`.  The result is `none` when the
assertion `index_lock_count != 0` fails; otherwise the return code and, when it
is 0, the array `record` after the call, the file offset `last_offset` and the
`len` bytes written there. -/
def mailbox_append_index (le : Bool) (env : os_env) (m : mailbox) (record : List index_record)
    (start num : Nat) (now : Int) :
    Option (Except imap_err (List index_record × Nat × List Byte)) :=
  if m.index_lock_count = 0 then none
  else if m.record_size < INDEX_RECORD_SIZE then some (.error IMAP_MAILBOX_BADFORMAT)
  else
    let len := num * m.record_size
    let buf : List Byte := List.replicate len 0
    let st := (List.range num).foldl (append_index_step le m now) (record, buf)
    let last_offset := m.start_offset + start * m.record_size
    if env.write_ok then some (.ok (st.1, last_offset, st.2)) else some (.error IMAP_IOERROR)

/-- A record with positive `internaldate` and `sentdate` and a zero
`last_updated`. -/
def stale_record : index_record :=
  { uid := 1, internaldate := 5, sentdate := 7, size := 100, header_size := 10,
    content_offset := 10, cache_offset := 4, last_updated := 0, system_flags := 0,
    user_flags := [0, 0, 0, 0], content_lines := 3, cache_version := 2 }

/-! ## Upgrading the index -/

/-- The header that `mailbox_upgrade_index` writes: `buf` after `memset` and
seventeen stores. -/
def upgrade_header_buf (le : Bool) (m : mailbox) : List Byte :=
  let buf : List Byte := List.replicate INDEX_HEADER_SIZE 0
  let buf := store32 le buf OFFSET_GENERATION_NO (htonl le m.generation_no)
  let buf := store32 le buf OFFSET_FORMAT (htonl le (toU32 m.format))
  let buf := store32 le buf OFFSET_MINOR_VERSION (htonl le (toU32 m.minor_version))
  let buf := store32 le buf OFFSET_START_OFFSET (htonl le m.start_offset)
  let buf := store32 le buf OFFSET_RECORD_SIZE (htonl le m.record_size)
  let buf := store32 le buf OFFSET_EXISTS (htonl le m.«exists»)
  let buf := store32 le buf OFFSET_LAST_APPENDDATE (htonl le (toU32 m.last_appenddate))
  let buf := store32 le buf OFFSET_LAST_UID (htonl le m.last_uid)
  let buf := store32 le buf OFFSET_QUOTA_MAILBOX_USED (htonl le m.quota_mailbox_used)
  let buf := store32 le buf OFFSET_POP3_LAST_LOGIN (htonl le m.pop3_last_login)
  let buf := store32 le buf OFFSET_UIDVALIDITY (htonl le m.uidvalidity)
  let buf := store32 le buf OFFSET_DELETED (htonl le m.deleted)
  let buf := store32 le buf OFFSET_ANSWERED (htonl le m.answered)
  let buf := store32 le buf OFFSET_FLAGGED (htonl le m.flagged)
  let buf := store32 le buf OFFSET_POP3_NEW_UIDL (htonl le (toU32 m.pop3_new_uidl))
  store32 le buf OFFSET_LEAKED_CACHE (htonl le m.leaked_cache_records)

/-- The stores into `buf` made for one record by `mailbox_upgrade_index` when
`recsize_diff` is nonzero. -/
def upgrade_record_buf (le : Bool) (oldrecord_size : Nat) (buf : List Byte) : List Byte :=
  let buf := if oldrecord_size < OFFSET_CONTENT_LINES + 4 then
    store32 le buf OFFSET_CONTENT_LINES (htonl le BIT32_MAX) else buf
  if oldrecord_size < OFFSET_CACHE_VERSION + 4 then
    store32 le buf OFFSET_CACHE_VERSION (htonl le 0) else buf

/-- The loop `for (msgno = 1; msgno <= mailbox->exists; msgno++)` of
`mailbox_upgrade_index`, with `n` tests of its condition left; the state is
`buf` and the bytes written to the new index so far.  `msgno` is an `unsigned`,
so that `msgno++` and `msgno - 1` wrap around, and `exists` is an
`unsigned long`; `oldstart_offset`, `oldrecord_size` and `recsize_diff` are
`bit32`, and the product `(msgno - 1)*oldrecord_size` is computed in 32 bits
and added to the pointer.  The loop is left by its condition only.  The result
is `none` when it has not been left after `n` tests. -/
def upgrade_index_loop (le : Bool) (index_base : List Byte) (exists_ : Nat)
    (oldstart_offset oldrecord_size recsize_diff : Nat) :
    Nat → Nat → List Byte × List Byte → Option (List Byte × List Byte)
  | 0, _, _ => none
  | n + 1, msgno, (buf, newindex) =>
    if msgno ≤ exists_ then
      let bufp := index_base.drop
        (oldstart_offset + (((msgno + 4294967295) % 4294967296) * oldrecord_size) % 4294967296)
      let newindex := newindex ++ bufp.take oldrecord_size
      if recsize_diff ≠ 0 then
        let buf := upgrade_record_buf le oldrecord_size buf
        upgrade_index_loop le index_base exists_ oldstart_offset oldrecord_size recsize_diff n
          ((msgno + 1) % 4294967296)
          (buf, newindex ++ (buf.drop oldrecord_size).take recsize_diff)
      else
        upgrade_index_loop le index_base exists_ oldstart_offset oldrecord_size recsize_diff n
          ((msgno + 1) % 4294967296) (buf, newindex)
    else some (buf, newindex)

/-- The C function `mailbox_upgrade_index`: the return code and, when it is 0,
the snapshot after the call and the contents of the index file that replaces
the old one; `none` when the function does not return because its loop is
never left (for `exists` of 2^32 - 1 or more, where `msgno <= mailbox->exists`
holds for every `msgno`). -/
def mailbox_upgrade_index (le : Bool) (env : os_env) (m : mailbox) :
    Option (Except imap_err (mailbox × List Byte)) :=
  match lock_all env with
  | some r => some (.error r)
  | none =>
    if !env.fopen_index_ok then some (.error IMAP_IOERROR)
    else
      let oldstart_offset := m.start_offset % 4294967296
      let oldrecord_size := m.record_size % 4294967296
      let m : mailbox := { m with
        minor_version := MAILBOX_MINOR_VERSION, start_offset := INDEX_HEADER_SIZE,
        record_size := INDEX_RECORD_SIZE }
      let recsize_diff := (INDEX_RECORD_SIZE + 4294967296 - oldrecord_size) % 4294967296
      let buf := upgrade_header_buf le m
      let newindex := buf.take INDEX_HEADER_SIZE
      let buf := List.replicate INDEX_RECORD_SIZE (0 : Byte) ++ buf.drop INDEX_RECORD_SIZE
      match upgrade_index_loop le m.index_base m.«exists» oldstart_offset oldrecord_size
          recsize_diff MSGNO_TESTS 1 (buf, newindex) with
      | none => none
      | some st =>
        if !env.write_ok then some (.error IMAP_IOERROR)
        else if !env.rename_index_ok then some (.error IMAP_IOERROR)
        else some (.ok (m, st.2))

/-- An index in the layout of minor version 5: a 64-byte header (start offset
64, record size 56, `exists` = 2, generation 3) and two records of 56 bytes. -/
def old_index : List Byte :=
  [0, 0, 0, 3, 0, 0, 0, 0, 0, 0, 0, 5, 0, 0, 0, 64, 0, 0, 0, 56,
   0, 0, 0, 2, 0, 0, 0, 0, 0, 0, 0, 9, 0, 0, 1, 0, 0, 0, 0, 0,
   0, 0, 0, 3, 0, 0, 0, 0, 0, 0, 0, 0, 0, 0, 0, 0, 0, 0, 0, 1,
   0, 0, 0, 0,
   0, 0, 0, 7, 65, 2, 3, 4, 65, 2, 3, 5, 0, 0, 0, 100, 0, 0, 0, 10,
   0, 0, 0, 10, 0, 0, 0, 4, 65, 2, 3, 6, 0, 0, 0, 0, 0, 0, 0, 0,
   0, 0, 0, 0, 0, 0, 0, 0, 0, 0, 0, 0, 0, 0, 0, 12,
   0, 0, 0, 9, 65, 2, 3, 4, 65, 2, 3, 5, 0, 0, 0, 156, 0, 0, 0, 10,
   0, 0, 0, 10, 0, 0, 0, 40, 65, 2, 3, 6, 0, 0, 0, 4, 0, 0, 0, 0,
   0, 0, 0, 0, 0, 0, 0, 0, 0, 0, 0, 0, 0, 0, 0, 15]

/-- An upgradable snapshot: the index `old_index` as `mailbox_read_index_header`
decodes it. -/
def old_index_snapshot : mailbox :=
  { zeromailbox with
    index_fd := 3, cache_fd := 4, index_base := old_index, generation_no := 3, minor_version := 5, start_offset := 64,
    record_size := 56, «exists» := 2, last_uid := 9, quota_mailbox_used := 256,
    uidvalidity := 3, pop3_new_uidl := 1 }

/-! ## Expunge -/

/-- State of the record loop of `mailbox_expunge`: the record buffer `buf`,
the bytes written so far to `cyrus.index.NEW` and `cyrus.cache.NEW`, the array
`deleted` with its fill count, and the counters. -/
structure expunge_state where
  buf : List Byte
  newindex : List Byte
  newcache : List Byte
  deleted : List Nat
  numdeleted : Nat
  quotadeleted : Nat
  numansweredflag : Nat
  numdeletedflag : Nat
  numflaggedflag : Nat
  new_cache_total_size : Nat
deriving DecidableEq, Repr

/-- The offset reached from `off` by `NUM_CACHE_FIELDS` applications of
`CACHE_ITEM_NEXT`.  The macro is defined outside `mailbox.c`; it is the
parameter `cache_item_next`, which maps the mapped cache and the offset of an
item to the offset of the next item. -/
def cache_record_end (cache_item_next : List Byte → Nat → Nat) (cache : List Byte) (off : Nat) :
    Nat :=
  (cache_item_next cache)^[NUM_CACHE_FIELDS] off

/-- The body of the record loop of `mailbox_expunge` for message `msgno`
(`fixcache` is 1).  `decideproc` is `none` for a null pointer; otherwise it is
called on the record buffer. -/
def expunge_record (le : Bool) (cache_item_next : List Byte → Nat → Nat)
    (decideproc : Option (List Byte → Bool)) (m : mailbox) (st : expunge_state) (msgno : Nat) :
    Except imap_err expunge_state :=
  let buf := memcpy st.buf
    (slice m.index_base (m.start_offset + (msgno - 1) * m.record_size) m.record_size)
  if load32 le buf OFFSET_UID = 0 then .error IMAP_IOERROR
  else if (match decideproc with
      | some f => f buf
      | none => ntohl le (load32 le buf OFFSET_SYSTEM_FLAGS) &&& FLAG_DELETED ≠ 0) then
    let sysflags := ntohl le (load32 le buf OFFSET_SYSTEM_FLAGS)
    .ok { st with
      buf := buf,
      deleted := st.deleted ++ [ntohl le (load32 le buf OFFSET_UID)],
      numdeleted := (st.numdeleted + 1) % 4294967296,
      quotadeleted := (st.quotadeleted + ntohl le (load32 le buf OFFSET_SIZE)) % 4294967296,
      numansweredflag := (if sysflags &&& FLAG_ANSWERED ≠ 0 then
        (st.numansweredflag + 1) % 4294967296 else st.numansweredflag),
      numdeletedflag := (if sysflags &&& FLAG_DELETED ≠ 0 then
        (st.numdeletedflag + 1) % 4294967296 else st.numdeletedflag),
      numflaggedflag := (if sysflags &&& FLAG_FLAGGED ≠ 0 then
        (st.numflaggedflag + 1) % 4294967296 else st.numflaggedflag) }
  else
    let cache_offset := ntohl le (load32 le buf OFFSET_CACHE_OFFSET)
    let buf := store32 le buf OFFSET_CACHE_OFFSET (htonl le st.new_cache_total_size)
    let cache_record_size := cache_record_end cache_item_next m.cache_base cache_offset - cache_offset
    .ok { st with
      buf := buf,
      newindex := st.newindex ++ buf.take m.record_size,
      newcache := st.newcache ++ slice m.cache_base cache_offset cache_record_size,
      new_cache_total_size :=
        (st.new_cache_total_size + cache_record_size) % 18446744073709551616 }

/-- The loop `for (msgno = ...; msgno <= mailbox->exists; msgno++)` of
`mailbox_expunge`, with `n` iterations left. -/
def expunge_loop (le : Bool) (cache_item_next : List Byte → Nat → Nat)
    (decideproc : Option (List Byte → Bool)) (m : mailbox) :
    Nat → Nat → expunge_state → Except imap_err expunge_state
  | 0, _, st => .ok st
  | n + 1, msgno, st =>
    match expunge_record le cache_item_next decideproc m st msgno with
    | .error r => .error r
    | .ok st => expunge_loop le cache_item_next decideproc m n (msgno + 1) st

/-- The buffer `buf` of `mailbox_expunge` when it is written back as the new
index header: the stores that fix up `exists`, the leaked-cache count, the
flag counters, `quota_mailbox_used` and the start offset. -/
def expunge_fix_header (le : Bool) (m : mailbox) (st : expunge_state) (buf : List Byte) :
    List Byte :=
  let newexists := (ntohl le (load32 le buf OFFSET_EXISTS) + 4294967296 - st.numdeleted)
    % 4294967296
  let buf := store32 le buf OFFSET_EXISTS (htonl le newexists)
  let buf := store32 le buf OFFSET_LEAKED_CACHE (htonl le 0)
  let newanswered := (ntohl le (load32 le buf OFFSET_ANSWERED) + 4294967296
    - st.numansweredflag) % 4294967296
  let buf := store32 le buf OFFSET_ANSWERED (htonl le newanswered)
  let newdeleted := (ntohl le (load32 le buf OFFSET_DELETED) + 4294967296
    - st.numdeletedflag) % 4294967296
  let buf := store32 le buf OFFSET_DELETED (htonl le newdeleted)
  let newflagged := (ntohl le (load32 le buf OFFSET_FLAGGED) + 4294967296
    - st.numflaggedflag) % 4294967296
  let buf := store32 le buf OFFSET_FLAGGED (htonl le newflagged)
  let buf := store32 le buf OFFSET_QUOTA_MAILBOX_USED
    (htonl le ((ntohl le (load32 le buf OFFSET_QUOTA_MAILBOX_USED) + 4294967296
      - st.quotadeleted) % 4294967296))
  if m.start_offset < INDEX_HEADER_SIZE then
    store32 le buf OFFSET_START_OFFSET (htonl le INDEX_HEADER_SIZE)
  else buf

/-- What a successful `mailbox_expunge` leaves behind: the new `cyrus.index`,
the contents of `cyrus.cache.NEW` and whether it was renamed over
`cyrus.cache`, the new `quota.used`, and the UIDs whose message files are
unlinked. -/
structure expunge_result where
  index : List Byte
  cache : List Byte
  cache_renamed : Bool
  quota_used : Nat
  unlinked : List Nat
deriving DecidableEq, Repr

/-- The C function `mailbox_expunge` (with `fixcache` = 1, as compiled). -/
def mailbox_expunge (le : Bool) (env : os_env) (cache_item_next : List Byte → Nat → Nat)
    (decideproc : Option (List Byte → Bool)) (m : mailbox) : Except imap_err expunge_result :=
  match lock_all env with
  | some r => .error r
  | none =>
    if !env.fopen_index_ok then .error IMAP_IOERROR
    else if !env.fopen_cache_ok then .error IMAP_IOERROR
    else
      let buf : List Byte := List.replicate
        (if m.start_offset > m.record_size then m.start_offset else m.record_size) 0
      let buf := memcpy buf (m.index_base.take m.start_offset)
      let buf := store32 le buf OFFSET_GENERATION_NO (htonl le (m.generation_no + 1))
      let newcache := buf.take 4
      let newindex := buf.take m.start_offset
      let newindex := newindex ++ (List.range' m.start_offset (INDEX_HEADER_SIZE - m.start_offset)).map
        (fun n => if n = OFFSET_UIDVALIDITY + 3 then (1 : Byte) else 0)
      let st0 : expunge_state :=
        { buf := buf, newindex := newindex, newcache := newcache, deleted := [], numdeleted := 0,
          quotadeleted := 0, numansweredflag := 0, numdeletedflag := 0, numflaggedflag := 0,
          new_cache_total_size := 4 }
      match expunge_loop le cache_item_next decideproc m m.«exists» 1 st0 with
      | .error r => .error r
      | .ok st =>
        if (st.newindex.take m.start_offset).length ≠ m.start_offset then .error IMAP_IOERROR
        else
          let buf := memcpy st.buf (st.newindex.take m.start_offset)
          let buf := expunge_fix_header le m st buf
          let newindex := memcpy st.newindex (buf.take m.start_offset)
          if !env.write_ok then .error IMAP_IOERROR
          else
            let quota : Except imap_err Nat :=
              match env.quota_read with
              | none =>
                .ok (if m.quota_used ≥ st.quotadeleted then m.quota_used - st.quotadeleted else 0)
              | some r => if r ≠ IMAP_QUOTAROOT_NONEXISTENT then .error IMAP_IOERROR
                else .ok m.quota_used
            match quota with
            | .error r => .error r
            | .ok used =>
              if !env.rename_index_ok then .error IMAP_IOERROR
              else .ok { index := newindex, cache := st.newcache,
                         cache_renamed := env.rename_cache_ok,
                         quota_used := (if env.quota_write_ok then used else m.quota_used),
                         unlinked := st.deleted.take st.numdeleted }

/-- An instance of `CACHE_ITEM_NEXT` used in examples: an item is a big-endian
32-bit length followed by that many bytes, padded to a multiple of four. -/
def sample_cache_item_next (cache : List Byte) (off : Nat) : Nat :=
  off + 4 + (3 + be32 cache off) / 4 * 4

/-- A cache blob of ten items: one item holding four bytes `b`, then nine empty
items. -/
def sample_blob (b : Byte) : List Byte :=
  [0, 0, 0, 4, b, b, b, b] ++ List.replicate 36 0

/-- A cache file with generation number 5 and three blobs. -/
def sample_cache : List Byte :=
  [0, 0, 0, 5] ++ sample_blob 1 ++ sample_blob 2 ++ sample_blob 3

/-- A 60-byte index record with the given UID, size, cache offset and system
flags (each below 256), all other fields being 0. -/
def sample_record (uid size cache_offset system_flags : Byte) : List Byte :=
  [0, 0, 0, uid] ++ List.replicate 8 0 ++ [0, 0, 0, size] ++ List.replicate 8 0
    ++ [0, 0, 0, cache_offset] ++ List.replicate 4 0 ++ [0, 0, 0, system_flags]
    ++ List.replicate 24 0

/-- An index of the current layout with generation number 5 and three records:
UIDs 1, 2, 3 of sizes 100, 200, 50, the second flagged deleted and answered
(system flags 5); the header counts one deleted, one answered and no flagged
message and 350 bytes. -/
def sample_index : List Byte :=
  [0, 0, 0, 5, 0, 0, 0, 0, 0, 0, 0, 6, 0, 0, 0, 76, 0, 0, 0, 60,
   0, 0, 0, 3, 0, 0, 0, 0, 0, 0, 0, 3, 0, 0, 0, 0, 0, 0, 1, 94,
   0, 0, 0, 0, 0, 0, 0, 9, 0, 0, 0, 1, 0, 0, 0, 1, 0, 0, 0, 0,
   0, 0, 0, 1, 0, 0, 0, 0, 0, 0, 0, 0, 0, 0, 0, 0]
  ++ sample_record 1 100 4 0 ++ sample_record 2 200 48 5 ++ sample_record 3 50 92 0

/-- The mailbox with `sample_index` and `sample_cache` mapped and the index
header decoded. -/
def sample_mailbox : mailbox :=
  { zeromailbox with
    index_fd := 3, cache_fd := 4, index_base := sample_index, cache_base := sample_cache,
    header_lock_count := 1,
    index_lock_count := 1, generation_no := 5, minor_version := 6, start_offset := 76,
    record_size := 60, «exists» := 3, last_uid := 3, quota_mailbox_used := 350,
    uidvalidity := 9, deleted := 1, answered := 1, pop3_new_uidl := 1, quota_used := 1000 }

/-- Record `k` (counted from 0) of the mapped index of `m`. -/
def old_record (m : mailbox) (k : Nat) : List Byte :=
  slice m.index_base (m.start_offset + k * m.record_size) m.record_size

/-- The big-endian word at offset `off` of record `k` of the mapped index. -/
def old_field (m : mailbox) (k off : Nat) : Nat :=
  be32 m.index_base (m.start_offset + k * m.record_size + off)

/-- The bytes of the record buffer of `mailbox_expunge` that lie behind the
record: what is left there of the copied index header. -/
def expunge_buf_tail (m : mailbox) : List Byte :=
  (memcpy (List.replicate
      (if m.start_offset > m.record_size then m.start_offset else m.record_size) (0 : Byte))
    (m.index_base.take m.start_offset)).drop m.record_size

/-- Whether `mailbox_expunge` expunges record `k`: the decide-proc applied to the
record buffer holding that record, or, for a null decide-proc, the
`FLAG_DELETED` bit of the record's system flags. -/
def expunge_selects (decideproc : Option (List Byte → Bool)) (m : mailbox) (k : Nat) : Bool :=
  match decideproc with
  | some f => f (old_record m k ++ expunge_buf_tail m)
  | none => decide (be32 (old_record m k ++ expunge_buf_tail m) OFFSET_SYSTEM_FLAGS
      &&& FLAG_DELETED ≠ 0)

/-- The records that `mailbox_expunge` expunges, in index order. -/
def expunged (decideproc : Option (List Byte → Bool)) (m : mailbox) : List Nat :=
  (List.range m.«exists»).filter (fun k => expunge_selects decideproc m k)

/-- The records that `mailbox_expunge` keeps, in index order. -/
def kept (decideproc : Option (List Byte → Bool)) (m : mailbox) : List Nat :=
  (List.range m.«exists»).filter (fun k => !expunge_selects decideproc m k)

/-- The offset just past ten consecutive cache items of which the first starts
at `off`, written out as the ten steps from an item to the next; this follows
the specification's description of a cache blob, not the loop of
`mailbox_expunge`. -/
def ten_items_end (cache_item_next : List Byte → Nat → Nat) (cache : List Byte) (off : Nat) :
    Nat :=
  cache_item_next cache (cache_item_next cache (cache_item_next cache (cache_item_next cache
    (cache_item_next cache (cache_item_next cache (cache_item_next cache (cache_item_next cache
      (cache_item_next cache (cache_item_next cache off)))))))))

/-- The cache blob of record `k` as the specification describes it: the bytes
of the ten consecutive cache items that start at the record's cache offset. -/
def cache_blob (cache_item_next : List Byte → Nat → Nat) (m : mailbox) (k : Nat) : List Byte :=
  slice m.cache_base (old_field m k OFFSET_CACHE_OFFSET)
    (ten_items_end cache_item_next m.cache_base (old_field m k OFFSET_CACHE_OFFSET)
      - old_field m k OFFSET_CACHE_OFFSET)

/-- The length of the cache blob of record `k`: the distance from the record's
cache offset to the end of the tenth item. -/
def cache_blob_size (cache_item_next : List Byte → Nat → Nat) (m : mailbox) (k : Nat) : Nat :=
  ten_items_end cache_item_next m.cache_base (old_field m k OFFSET_CACHE_OFFSET)
    - old_field m k OFFSET_CACHE_OFFSET

/-- The new cache offsets of the kept records `ks`, the first blob going to
offset `nc` of the new cache. -/
def new_cache_offsets (cache_item_next : List Byte → Nat → Nat) (m : mailbox) :
    Nat → List Nat → List Nat
  | _, [] => []
  | nc, k :: ks =>
    nc :: new_cache_offsets cache_item_next m
      ((nc + cache_blob_size cache_item_next m k) % 18446744073709551616) ks

/-- The value of `new_cache_total_size` after the kept records `ks`. -/
def new_cache_end (cache_item_next : List Byte → Nat → Nat) (m : mailbox) :
    Nat → List Nat → Nat
  | nc, [] => nc
  | nc, k :: ks =>
    new_cache_end cache_item_next m
      ((nc + cache_blob_size cache_item_next m k) % 18446744073709551616) ks

/-- The record written to the new index for the kept record `k` whose blob goes
to offset `nc` of the new cache. -/
def compacted_record (m : mailbox) (k nc : Nat) : List Byte :=
  putBE32 (old_record m k) OFFSET_CACHE_OFFSET (nc % 4294967296)

/-- The index of `m` can be walked by `mailbox_expunge`: records have at least
the current size, the header reaches at least to the end of the leaked-cache
field, the `exists` records lie inside the mapped index, and every record has a
nonzero UID. -/
def index_readable (m : mailbox) : Prop :=
  INDEX_RECORD_SIZE ≤ m.record_size ∧ OFFSET_LEAKED_CACHE + 4 ≤ m.start_offset ∧
  m.start_offset + m.«exists» * m.record_size ≤ m.index_len ∧
  (∀ k, k < m.«exists» → old_field m k OFFSET_UID ≠ 0)

instance (m : mailbox) : Decidable (index_readable m) := by
  unfold index_readable
  infer_instance

/-- The index of `m` is well formed: it is readable and its header counters
agree with its records (invariants I3 to I5 of the specification). -/
def index_consistent (m : mailbox) : Prop :=
  index_readable m ∧
  be32 m.index_base OFFSET_EXISTS = m.«exists» ∧
  be32 m.index_base OFFSET_QUOTA_MAILBOX_USED
    = ((List.range m.«exists»).map (fun k => old_field m k OFFSET_SIZE)).sum ∧
  be32 m.index_base OFFSET_DELETED = ((List.range m.«exists»).filter
    (fun k => decide (old_field m k OFFSET_SYSTEM_FLAGS &&& FLAG_DELETED ≠ 0))).length ∧
  be32 m.index_base OFFSET_ANSWERED = ((List.range m.«exists»).filter
    (fun k => decide (old_field m k OFFSET_SYSTEM_FLAGS &&& FLAG_ANSWERED ≠ 0))).length ∧
  be32 m.index_base OFFSET_FLAGGED = ((List.range m.«exists»).filter
    (fun k => decide (old_field m k OFFSET_SYSTEM_FLAGS &&& FLAG_FLAGGED ≠ 0))).length

instance (m : mailbox) : Decidable (index_consistent m) := by
  unfold index_consistent
  infer_instance

/-- Every record's cache offset points at `NUM_CACHE_FIELDS` cache items that
lie inside the mapped cache (invariant I7 of the specification), so that
`mailbox_expunge` reads no byte outside the mapping. -/
def cache_readable (cache_item_next : List Byte → Nat → Nat) (m : mailbox) : Prop :=
  ∀ k, k < m.«exists» →
    old_field m k OFFSET_CACHE_OFFSET
      ≤ cache_record_end cache_item_next m.cache_base (old_field m k OFFSET_CACHE_OFFSET) ∧
    cache_record_end cache_item_next m.cache_base (old_field m k OFFSET_CACHE_OFFSET)
      ≤ m.cache_len

instance (cache_item_next : List Byte → Nat → Nat) (m : mailbox) :
    Decidable (cache_readable cache_item_next m) := by
  unfold cache_readable
  infer_instance

/-- The start offset of the records in the index written by `mailbox_expunge`:
a header shorter than `INDEX_HEADER_SIZE` is grown to that size. -/
def expunge_start_offset (m : mailbox) : Nat :=
  if m.start_offset < INDEX_HEADER_SIZE then INDEX_HEADER_SIZE else m.start_offset

/-- The calls of `mailbox_expunge` to the operating system and to the quota
database succeed (a missing quota root counts as success, as in the source). -/
def expunge_env_ok (env : os_env) : Prop :=
  lock_all env = none ∧ env.fopen_index_ok = true ∧ env.fopen_cache_ok = true ∧
  env.write_ok = true ∧
  (env.quota_read = none ∨ env.quota_read = some IMAP_QUOTAROOT_NONEXISTENT) ∧
  env.rename_index_ok = true

instance (env : os_env) : Decidable (expunge_env_ok env) := by
  unfold expunge_env_ok
  infer_instance

/-! ## The header file -/

/-- The bytes of a string literal of the source, one per character. -/
def ascii (s : String) : List Byte := s.toList.map (fun c => byteOf c.toNat)

/-- The C macro `MAILBOX_HEADER_MAGIC`, without its terminating NUL: four
bytes given in octal, and three lines of text. -/
def MAILBOX_HEADER_MAGIC : List Byte :=
  [161, 2, 139, 13] ++ ascii "Cyrus mailbox header" ++ [10] ++
  [34] ++ ascii "The best thing about this system was that it had lots of goals." ++ [34, 10] ++
  [9] ++ ascii "--Jim Morris on Andrew" ++ [10]

/-- The mapped length of the header file. -/
def mailbox.header_len (m : mailbox) : Nat := m.header_base.length

/-- The contents of a C string: no byte of it is NUL. -/
def cstring (s : List Byte) : Prop := (0 : Byte) ∉ s

instance (s : List Byte) : Decidable (cstring s) := by
  unfold cstring; infer_instance

/-- The C library function `memchr` on the `n` bytes at offset `p` of `mem`:
the offset of the first byte equal to `c`, `none` for a null result. -/
def memchr (mem : List Byte) (p : Nat) (c : Byte) (n : Nat) : Option Nat :=
  if c ∈ slice mem p n then some (p + (slice mem p n).indexOf c) else none

/-- The function `xstrndup` of `lib/xmalloc.c` applied to the `len` bytes at
offset `p` of `mem`: `strncpy` copies them up to the first NUL. -/
def xstrndup (mem : List Byte) (p len : Nat) : List Byte :=
  (slice mem p len).takeWhile (fun b => b ≠ 0)

/-- How `mailbox_read_header` ends: with an error code, at the point where it
starts generating a unique id for a header in the old format (after which it
locks the header, opens the index, writes the header and returns 0), or by
returning 0 for a header in the current format. -/
inductive header_result where
  | error (r : imap_err)
  | oldformat (m : mailbox)
  | ok (m : mailbox)
deriving DecidableEq, Repr

/-- The two loops of `mailbox_read_header` that fill `flagname`, with `n` slots
left to fill; `name` and `eol` are offsets into the header `mem`.  Once `name`
is past `eol` the remaining slots are set to null. -/
def read_flagnames (mem : List Byte) (eol : Nat) : Nat → Nat → List (Option (List Byte))
  | 0, _ => []
  | n + 1, name =>
    if name ≤ eol then
      let p := match memchr mem name 32 (eol - name) with
        | some p => p
        | none => eol
      (if name ≠ p then some (xstrndup mem name (p - name)) else none)
        :: read_flagnames mem eol n (p + 1)
    else List.replicate (n + 1) none

/-- The C function `mailbox_read_header`, up to the point where it returns or
starts generating a unique id. -/
def mailbox_read_header (m : mailbox) : header_result :=
  if m.header_len < MAILBOX_HEADER_MAGIC.length ∨
      m.header_base.take MAILBOX_HEADER_MAGIC.length ≠ MAILBOX_HEADER_MAGIC then
    .error IMAP_MAILBOX_BADFORMAT
  else
    let p := MAILBOX_HEADER_MAGIC.length
    let tab := memchr m.header_base p 9 (m.header_len - p)
    match memchr m.header_base p 10 (m.header_len - p) with
    | none => .error IMAP_MAILBOX_BADFORMAT
    | some eol =>
      let oldformat : Bool := match tab with
        | none => true
        | some tab => decide (tab > eol)
      let tab : Nat := match tab with
        | none => eol
        | some tab => if tab > eol then eol else tab
      let quota_root := if p < tab then some (xstrndup m.header_base p (tab - p)) else none
      if oldformat = false ∧ tab + 1 = eol then .error IMAP_MAILBOX_BADFORMAT
      else
        let uniqueid := if oldformat then none
          else some (xstrndup m.header_base (tab + 1) (eol - (tab + 1)))
        let p := eol + 1
        match memchr m.header_base p 10 (m.header_len - p) with
        | none => .error IMAP_MAILBOX_BADFORMAT
        | some eol =>
          let flagname := read_flagnames m.header_base eol MAX_USER_FLAGS p
          let m : mailbox := { m with
            quota_root := quota_root, uniqueid := uniqueid, flagname := flagname }
          if oldformat then .oldformat m else .ok m

/-- The C function `mailbox_read_header_acl`. -/
def mailbox_read_header_acl (m : mailbox) : Except imap_err mailbox :=
  if m.header_len < MAILBOX_HEADER_MAGIC.length ∨
      m.header_base.take MAILBOX_HEADER_MAGIC.length ≠ MAILBOX_HEADER_MAGIC then
    .error IMAP_MAILBOX_BADFORMAT
  else
    let p := MAILBOX_HEADER_MAGIC.length
    match memchr m.header_base p 10 (m.header_len - p) with
    | none => .error IMAP_MAILBOX_BADFORMAT
    | some eol =>
      let p := eol + 1
      match memchr m.header_base p 10 (m.header_len - p) with
      | none => .error IMAP_MAILBOX_BADFORMAT
      | some eol =>
        let p := eol + 1
        match memchr m.header_base p 10 (m.header_len - p) with
        | none => .error IMAP_MAILBOX_BADFORMAT
        | some eol => .ok { m with acl := some (xstrndup m.header_base p (eol - p)) }

/-- What the loop over `flagname` of `mailbox_write_header` writes for one
slot: the name and a space, and nothing for a null slot. -/
def header_flag_text : Option (List Byte) → List Byte
  | some name => name ++ [32]
  | none => []

/-- The bytes that `mailbox_write_header` writes to the new header file. -/
def header_text (quota_root uniqueid : List Byte) (flagname : List (Option (List Byte)))
    (acl : List Byte) : List Byte :=
  MAILBOX_HEADER_MAGIC ++ (quota_root ++ [9] ++ uniqueid ++ [10])
    ++ (flagname.take MAX_USER_FLAGS).flatMap header_flag_text
    ++ ([10] ++ acl ++ [10])

/-- The C function `mailbox_write_header`.  The result is `none` when the
assertion `header_lock_count != 0` fails or `strlen` is applied to a null
`uniqueid` or `acl`; `env.write_ok = false` stands for a failure of the first
`write`.  On success the mailbox has the new file mapped as its header. -/
def mailbox_write_header (env : os_env) (m : mailbox) : Option (Except imap_err mailbox) :=
  if m.header_lock_count = 0 then none
  else if env.newheader_fd = -1 then some (.error IMAP_IOERROR)
  else if !env.write_ok then some (.error IMAP_IOERROR)
  else
    match m.uniqueid, m.acl with
    | some uniqueid, some acl =>
      let quota_root := m.quota_root.getD []
      if !env.rename_header_ok then some (.error IMAP_IOERROR)
      else some (.ok { m with
        header_fd := env.newheader_fd,
        header_base := header_text quota_root uniqueid m.flagname acl })
    | _, _ => none

/-- A slot of the flag name table as the header format can hold it: null, or a
nonempty C string without space and newline. -/
def flagname_ok : Option (List Byte) → Prop
  | none => True
  | some s => s ≠ [] ∧ cstring s ∧ (32 : Byte) ∉ s ∧ (10 : Byte) ∉ s

instance (x : Option (List Byte)) : Decidable (flagname_ok x) := by
  cases x <;> unfold flagname_ok <;> infer_instance

/-- A mailbox holding its header lock, with a quota root, a unique id, an ACL
and the user flag `work` in slot 1, slot 0 being null. -/
def sample_header_mailbox : mailbox :=
  { zeromailbox with
    header_lock_count := 1, uniqueid := some (ascii "1a2b3c4d5e6f7a8b"),
    acl := some (ascii "anyone" ++ [9] ++ ascii "lrs" ++ [9]),
    quota_root := some (ascii "user.jane"),
    flagname := [none, some (ascii "work")] ++ List.replicate 126 none }

/-! ## Unique ids -/

def PRIME : Nat := 2147484043

/-- A `char` of a name converted to `unsigned long`, `char` being signed: a
byte above 127 is a negative number and wraps around. -/
def char_to_ulong (c : Byte) : Nat :=
  if c.val < 128 then c.val else 18446744073709551616 - 256 + c.val

/-- The conversion `%08lx` of `snprintf`: lower-case hexadecimal digits, padded
with zeros on the left to eight characters. -/
def hex08 (v : Nat) : List Byte :=
  let digits := (Nat.toDigits 16 v).map (fun c => byteOf c.toNat)
  List.replicate (8 - digits.length) 48 ++ digits

/-- The C function `mailbox_make_uniqueid`: the string left in `uniqueid`.
`hash` and `uidvalidity` are `unsigned long`; `snprintf` keeps at most
`outlen - 1` characters. -/
def mailbox_make_uniqueid (name : List Byte) (uidvalidity : Nat) (outlen : Nat) : List Byte :=
  let hash := name.foldl
    (fun hash c =>
      ((hash * 251 % 18446744073709551616 + char_to_ulong c) % 18446744073709551616) % PRIME) 0
  (hex08 hash ++ hex08 uidvalidity).take (outlen - 1)

/-! ## Creating a mailbox -/

def MAILBOX_FORMAT_NORMAL : Int := 0
def MAILBOX_FORMAT_NETNEWS : Int := 1

/-- Outcomes of the calls that `mailbox_create` makes besides those of
`os_env`: whether `cyrus_mkdir` and `mkdir` (or `stat`) succeed, the quota root
found by `quota_findroot` (`none` when there is none), whether the path passes
the bounds checks, the descriptors returned by the three calls of `open` (-1 on
failure), whether the two calls of `lock_reopen` succeed, the value of
`time(0)`, whether the initial cache is written and synced, and the return code
of `seen_create_mailbox`. -/
structure create_env where
  mkdir_ok : Bool
  quota_root : Option (List Byte)
  path_fits : Bool
  header_fd : Int
  lock_header_ok : Bool
  index_fd : Int
  lock_index_ok : Bool
  cache_fd : Int
  now : Nat
  cache_write_ok : Bool
  seen_create : Option imap_err

/-- What `mailbox_create` leaves behind when it gets as far as storing the
mailbox through `mailboxp`: its return code (`none` is 0), the mailbox, and
the contents of the new index and cache files. -/
structure create_result where
  r : Option imap_err
  mailbox : mailbox
  index_file : List Byte
  cache_file : List Byte

/-- The C function `mailbox_create` called with a non-null `mailboxp`.  The
result is `none` when `xstrdup` is applied to a null `acl` or an assertion of a
callee fails, `.error r` when the function returns `r` before it stores the
mailbox, and the `create_result` otherwise. -/
def mailbox_create (le : Bool) (env : os_env) (cenv : create_env) (name : List Byte)
    (acl uniqueid : Option (List Byte)) (format : Int) :
    Option (Except imap_err create_result) :=
  if !cenv.mkdir_ok then some (.error IMAP_IOERROR)
  else if !cenv.path_fits then some (.error IMAP_IOERROR)
  else if cenv.header_fd = -1 then some (.error IMAP_IOERROR)
  else if !cenv.lock_header_ok then some (.error IMAP_IOERROR)
  else if acl = none then none
  else if cenv.index_fd = -1 then some (.error IMAP_IOERROR)
  else if !cenv.lock_index_ok then some (.error IMAP_IOERROR)
  else if cenv.cache_fd = -1 then some (.error IMAP_IOERROR)
  else
    let mailbox : mailbox := { zeromailbox with
      header_fd := cenv.header_fd, header_lock_count := 1,
      name := some name, acl := acl,
      index_fd := cenv.index_fd, index_lock_count := 1,
      cache_fd := cenv.cache_fd,
      quota_root := cenv.quota_root,
      generation_no := 0, format := format, minor_version := MAILBOX_MINOR_VERSION,
      start_offset := INDEX_HEADER_SIZE, record_size := INDEX_RECORD_SIZE,
      «exists» := 0, last_appenddate := 0, last_uid := 0, quota_mailbox_used := 0,
      pop3_last_login := 0, uidvalidity := cenv.now, deleted := 0, answered := 0, flagged := 0,
      pop3_new_uidl := 1,
      uniqueid := (match uniqueid with
        | none => some (mailbox_make_uniqueid name cenv.now 32)
        | some uniqueid => some uniqueid) }
    match mailbox_write_header env mailbox with
    | none => none
    | some (.error r) =>
      some (.ok { r := some r, mailbox := mailbox, index_file := [], cache_file := [] })
    | some (.ok mailbox) =>
      match mailbox_write_index_header le env mailbox with
      | none => none
      | some (.error r) =>
        some (.ok { r := some r, mailbox := mailbox, index_file := [], cache_file := [] })
      | some (.ok index_file) =>
        if !cenv.cache_write_ok then
          some (.ok { r := some IMAP_IOERROR, mailbox := mailbox, index_file := index_file,
                      cache_file := [] })
        else
          some (.ok { r := cenv.seen_create, mailbox := mailbox, index_file := index_file,
                      cache_file := List.replicate 4 0 })

/-! ## Renaming a mailbox -/

/-- How `mailbox_copyfile` (called with `nolink` = 0) ends: `link` succeeded,
so that both names denote one file; the bytes were copied into a new file; or
the function returned an error code. -/
inductive copy_outcome where
  | linked
  | copied
  | failed (r : imap_err)
deriving DecidableEq, Repr

/-- The return code of `mailbox_copyfile`. -/
def copy_outcome.code : copy_outcome → Option imap_err
  | .failed r => some r
  | _ => none

/-- What the system calls of one call of `mailbox_copyfile` return: whether the
first `link(from, to)` returns 0; whether `errno` is `EEXIST` after it, which
is so when a file `to` exists already; whether `unlink(to)` does not return -1;
whether the second `link(from, to)` returns 0; whether `open` of `to` and of
`from` and `fstat` succeed; and whether `retry_write` and `fsync` succeed. -/
structure copyfile_obs where
  link : Bool
  eexist : Bool
  unlink : Bool
  relink : Bool
  open_to : Bool
  open_from : Bool
  fstat : Bool
  write : Bool
deriving DecidableEq, Repr

/-- What a call of `mailbox_copyfile` leaves: its return code (`none` is 0) and
whether it has removed the file `to` that was there by a successful
`unlink(to)`. -/
structure copyfile_result where
  code : Option imap_err
  unlinked : Bool
deriving DecidableEq, Repr

/-- The part of `mailbox_copyfile` from `destfd = open(to, ...)` on, which
copies the bytes. -/
def copyfile_bytes (o : copyfile_obs) (unlinked : Bool) : copyfile_result :=
  if !o.open_to then { code := some IMAP_IOERROR, unlinked := unlinked }
  else if !o.open_from then { code := some IMAP_IOERROR, unlinked := unlinked }
  else if !o.fstat then { code := some IMAP_IOERROR, unlinked := unlinked }
  else if !o.write then { code := some IMAP_IOERROR, unlinked := unlinked }
  else { code := none, unlinked := unlinked }

/-- The C function `mailbox_copyfile`. -/
def mailbox_copyfile (nolink : Bool) (o : copyfile_obs) : copyfile_result :=
  if !nolink then
    if o.link then { code := none, unlinked := false }
    else if o.eexist then
      if !o.unlink then { code := some IMAP_IOERROR, unlinked := false }
      else if o.relink then { code := none, unlinked := true }
      else copyfile_bytes o true
    else copyfile_bytes o false
  else copyfile_bytes o false

/-- Outcomes of the calls that `mailbox_rename_copy` and `mailbox_sync` make
besides those of `os_env` and `create_env`: the return code of `quota_read`
and the `used` and `limit` it loads, the constant `QUOTA_UNITS` (not defined in
these sources), how the copies of the index and cache files end, what `dup`
returns, what the system calls of `mailbox_copyfile` return when the message
file of a UID is copied, and the return codes of `seen_copy` and
`quota_write`. -/
structure rename_env where
  quota_read : Option imap_err
  quota_used : Nat
  quota_limit : Int
  QUOTA_UNITS : Nat
  copy_index : copy_outcome
  copy_cache : copy_outcome
  dup_index_fd : Int
  copy_message : Nat → copyfile_obs
  seen_copy : Option imap_err
  quota_write : Option imap_err

/-- The loop `Copy flag names` of `mailbox_rename_copy` and `mailbox_sync`:
every non-null name of the old table replaces the entry of the new one. -/
def copy_flagnames (oldflagname newflagname : List (Option (List Byte))) :
    List (Option (List Byte)) :=
  (List.range MAX_USER_FLAGS).map (fun flag =>
    match oldflagname.getD flag none with
    | some name => some name
    | none => newflagname.getD flag none)

/-- The block `Check quota if necessary` of `mailbox_rename_copy` and
`mailbox_sync`: the mailbox with the loaded quota and the value of `r` after
it.  The limit is multiplied as an `unsigned`. -/
def rename_check_quota (renv : rename_env) (oldmailbox newmailbox : mailbox) :
    mailbox × Option imap_err :=
  match newmailbox.quota_root with
  | none => (newmailbox, none)
  | some root =>
    let newmailbox : mailbox := match renv.quota_read with
      | none => { newmailbox with quota_used := renv.quota_used, quota_limit := renv.quota_limit }
      | some _ => newmailbox
    let r := renv.quota_read
    let r :=
      if oldmailbox.quota_root ≠ some root then
        if r = none ∧ newmailbox.quota_limit ≥ 0 ∧
            (newmailbox.quota_used + oldmailbox.quota_mailbox_used) % 18446744073709551616 >
              (toU32 newmailbox.quota_limit * renv.QUOTA_UNITS) % 4294967296 then
          some IMAP_QUOTA_EXCEEDED
        else r
      else r
    (newmailbox, r)

/-- The loop `Copy over message files` of `mailbox_rename_copy`, with `n`
iterations left: the value of `r` after it and the UIDs of the files copied.
The result is `none` when the assertion of `mailbox_message_get_fname` on the
format fails. -/
def rename_copy_messages (le : Bool) (renv : rename_env) (oldmailbox : mailbox) :
    Nat → Nat → List Nat → Option (Option imap_err × List Nat)
  | 0, _, copied => some (none, copied)
  | n + 1, msgno, copied =>
    match mailbox_read_index_record le oldmailbox msgno with
    | .error r => some (some r, copied)
    | .ok record =>
      if oldmailbox.format = MAILBOX_FORMAT_NETNEWS then none
      else
        match (mailbox_copyfile false (renv.copy_message record.uid)).code with
        | some r => some (some r, copied)
        | none => rename_copy_messages le renv oldmailbox n (msgno + 1) (copied ++ [record.uid])

/-- The end of the block `Re-open index file and store new uidvalidity` of
`mailbox_rename_copy` and `mailbox_sync`: the assignment of `generation_no`
and the call of `mailbox_write_index_header`, which writes through the
descriptor of the new mailbox into the index file of the old one, unless the
descriptor is -1.  The result is the new mailbox and the contents of that file,
`none` when the assertion of `mailbox_write_index_header` fails. -/
def rename_store_header (le : Bool) (env : os_env) (oldmailbox newmailbox : mailbox) :
    Option (mailbox × List Byte) :=
  let newmailbox : mailbox := { newmailbox with
    generation_no := oldmailbox.generation_no % 4294967296 }
  match mailbox_write_index_header le env newmailbox with
  | none => none
  | some (.error _) => some (newmailbox, oldmailbox.index_base)
  | some (.ok header) =>
    if newmailbox.index_fd = -1 then some (newmailbox, oldmailbox.index_base)
    else some (newmailbox, memcpy oldmailbox.index_base header)

/-- The block `Re-open index file and store new uidvalidity` of
`mailbox_rename_copy` and `mailbox_sync`.  The descriptor returned by `dup`
denotes the index file of the old mailbox, whose contents `oldmailbox` has
mapped, so that `mailbox_read_index_header` maps and decodes these; when `dup`
fails, `mailbox_read_index_header` returns at once.  The result is the new
mailbox and the contents of the old index file after the block; it is `none`
when an assertion fails, and also when `mailbox_read_index_header` on an open
descriptor does not return 0, a case not followed here. -/
def rename_reopen_index (le reconstruct : Bool) (env : os_env) (renv : rename_env)
    (oldmailbox newmailbox : mailbox) : Option (mailbox × List Byte) :=
  let newmailbox : mailbox := { newmailbox with index_fd := renv.dup_index_fd }
  if newmailbox.index_fd = -1 then rename_store_header le env oldmailbox newmailbox
  else
    match mailbox_read_index_header le reconstruct env
        { newmailbox with index_base := oldmailbox.index_base } with
    | .ok newmailbox => rename_store_header le env oldmailbox newmailbox
    | _ => none

/-- What `mailbox_rename_copy` leaves behind once it has created the new
mailbox: its return code (`none` is 0), the new mailbox, the values stored
through `olduidvalidityp` and `newuidvalidityp`, the contents of the index file
of the new mailbox and of that of the old one, the `used` committed by
`quota_write` if any, and the UIDs of the message files of the new mailbox. -/
structure rename_result where
  r : Option imap_err
  newmailbox : mailbox
  olduidvalidity : Nat
  newuidvalidity : Nat
  new_index : List Byte
  old_index : List Byte
  quota_used : Option Nat
  copied : List Nat

/-- The C function `mailbox_rename_copy`.  The result is `none` when an
assertion fails, a null string is dereferenced, or `rename_reopen_index` is
`none`; `.error r` when `mailbox_create` returns `r`; and the `rename_result`
otherwise.  Where the function closes the new mailbox before it returns, the
result holds `zeromailbox`. -/
def mailbox_rename_copy (le reconstruct : Bool) (env : os_env) (cenv : create_env)
    (renv : rename_env) (oldmailbox : mailbox) (newname : List Byte) :
    Option (Except imap_err rename_result) :=
  if ¬ (oldmailbox.header_lock_count > 0 ∧ oldmailbox.index_lock_count > 0) then none
  else
    match mailbox_create le env cenv newname oldmailbox.acl oldmailbox.uniqueid
        oldmailbox.format with
    | none => none
    | some (.error r) => some (.error r)
    | some (.ok created) =>
      match created.r, oldmailbox.name with
      | some r, _ => some (.error r)
      | none, none => none
      | none, some name =>
        let newmailbox := created.mailbox
        let newmailbox : mailbox :=
          if name = newname then { newmailbox with uidvalidity := oldmailbox.uidvalidity }
          else newmailbox
        let res : rename_result :=
          { r := none, newmailbox := zeromailbox,
            olduidvalidity := oldmailbox.uidvalidity % 4294967296,
            newuidvalidity := newmailbox.uidvalidity % 4294967296,
            new_index := created.index_file, old_index := oldmailbox.index_base,
            quota_used := none, copied := [] }
        let newmailbox : mailbox := { newmailbox with
          flagname := copy_flagnames oldmailbox.flagname newmailbox.flagname }
        match mailbox_write_header env newmailbox with
        | none => none
        | some (.error r) => some (.ok { res with r := some r })
        | some (.ok newmailbox) =>
          let (newmailbox, r) := rename_check_quota renv oldmailbox newmailbox
          if r ≠ none ∧ r ≠ some IMAP_QUOTAROOT_NONEXISTENT then
            some (.ok { res with r := r })
          else
            let r := renv.copy_index.code
            let r := if r = none then renv.copy_cache.code else r
            if r ≠ none then
              some (.ok { res with
                r := r,
                new_index := (match renv.copy_index with
                  | .failed _ => []
                  | _ => oldmailbox.index_base) })
            else
              match rename_reopen_index le reconstruct env renv oldmailbox newmailbox with
              | none => none
              | some (newmailbox, old_index) =>
                let new_index := match renv.copy_index with
                  | .linked => old_index
                  | _ => oldmailbox.index_base
                match rename_copy_messages le renv oldmailbox oldmailbox.«exists» 1 [] with
                | none => none
                | some (r, copied) =>
                  let r := if r = none then renv.seen_copy else r
                  let (newmailbox, r, quota_used) :=
                    if r = none ∧ newmailbox.quota_root ≠ none then
                      let used := (newmailbox.quota_used + oldmailbox.quota_mailbox_used)
                        % 18446744073709551616
                      (({ newmailbox with quota_used := used } : mailbox), renv.quota_write,
                        if renv.quota_write = none then some used else none)
                    else (newmailbox, r, none)
                  some (.ok { res with
                    r := r, newmailbox := newmailbox, new_index := new_index,
                    old_index := old_index, quota_used := quota_used,
                    copied := if r = none then copied else [] })

/-- An environment for `mailbox_create` in which every call succeeds, no quota
root applies and the time is 2000. -/
def create_ok : create_env :=
  { mkdir_ok := true, quota_root := none, path_fits := true, header_fd := 6,
    lock_header_ok := true, index_fd := 7, lock_index_ok := true, cache_fd := 8, now := 2000,
    cache_write_ok := true, seen_create := none }

/-- The system calls of a `mailbox_copyfile` whose first `link` succeeds, as it
does when no file `to` exists yet. -/
def copyfile_links : copyfile_obs :=
  { link := true, eexist := false, unlink := true, relink := true, open_to := true,
    open_from := true, fstat := true, write := true }

/-- The system calls of a `mailbox_copyfile` onto a file `to` that exists: the
first `link` fails with `EEXIST`, and `unlink` and the second `link`
succeed. -/
def copyfile_replaces : copyfile_obs :=
  { link := false, eexist := true, unlink := true, relink := true, open_to := true,
    open_from := true, fstat := true, write := true }

/-- An environment for `mailbox_rename_copy` and `mailbox_sync` in which every
call succeeds, the index and the cache being copied rather than linked, the
message files being linked, and the quota root, if there is one, has 1000 bytes
in use and no limit. -/
def rename_ok : rename_env :=
  { quota_read := none, quota_used := 1000, quota_limit := -1, QUOTA_UNITS := 1024,
    copy_index := .copied, copy_cache := .copied, dup_index_fd := 9,
    copy_message := fun _ => copyfile_links, seen_copy := none, quota_write := none }

/-- The environment `rename_ok` for a destination that holds the message files
of the UIDs `present`: `link` onto one of these fails with `EEXIST`. -/
def rename_onto (present : List Nat) : rename_env :=
  { rename_ok with
    copy_message := fun uid => if uid ∈ present then copyfile_replaces else copyfile_links }

/-- The mailbox `sample_mailbox` (three messages, `uidvalidity` 9) with the name
`user.jane`, an ACL and a unique id. -/
def sample_named_mailbox : mailbox :=
  { sample_mailbox with
    name := some (ascii "user.jane"),
    acl := some (ascii "jane" ++ [9] ++ ascii "lrswipcda" ++ [9]),
    uniqueid := some (ascii "1a2b3c4d00000009") }

/-! ## Synchronising a mailbox -/

/-- State of the loop of `mailbox_sync` that settles the message files:
`newmsgno`, the UIDs of the message files unlinked in the new mailbox (by the
loop itself or by `mailbox_copyfile`), and the UIDs of the message files copied
to it. -/
structure sync_state where
  newmsgno : Nat
  unlinked : List Nat
  copied : List Nat
deriving DecidableEq, Repr

/-- The `do ... while` loop of `mailbox_sync` for the old record with UID
`olduid`, with at most `n` iterations left (every iteration advances
`newmsgno`, and the loop goes on only while `newmsgno <= newmailbox.exists`, so
`newmailbox.exists + 1 - newmsgno` iterations suffice).  The result is the
value of `r` (not 0 when a record of the new mailbox cannot be read, which
ends in `goto fail`) and the state; it is `none` when the assertion of
`mailbox_message_get_fname` on the format fails. -/
def sync_skip (le : Bool) (newmailbox : mailbox) (olduid : Nat) :
    Nat → sync_state → Option (Option imap_err × sync_state)
  | 0, st => some (none, st)
  | n + 1, st =>
    match mailbox_read_index_record le newmailbox st.newmsgno with
    | .error r => some (some r, st)
    | .ok newrecord =>
      let st : sync_state := { st with newmsgno := st.newmsgno + 1 }
      if newrecord.uid < olduid then
        if newmailbox.format = MAILBOX_FORMAT_NETNEWS then none
        else
          let st : sync_state := { st with unlinked := st.unlinked ++ [newrecord.uid] }
          if st.newmsgno ≤ newmailbox.«exists» then sync_skip le newmailbox olduid n st
          else some (none, st)
      else some (none, st)

/-- The loop `for (oldmsgno = 1; oldmsgno <= oldmailbox.exists; oldmsgno++)` of
`mailbox_sync`, with `n` iterations left; `r` is the value of the variable `r`
on entry.  The message file of an old record is copied by `mailbox_copyfile`,
whose `unlink` of a file that exists in the new mailbox is recorded with the
UIDs unlinked.  The result is the value of `r` when the loop is left (by its
condition, by `break` or by `goto fail`) and the state, or `none` when an
assertion of `mailbox_message_get_fname` fails. -/
def sync_settle (le : Bool) (renv : rename_env) (oldmailbox newmailbox : mailbox) :
    Nat → Nat → Option imap_err → sync_state → Option (Option imap_err × sync_state)
  | 0, _, r, st => some (r, st)
  | n + 1, oldmsgno, _, st =>
    match mailbox_read_index_record le oldmailbox oldmsgno with
    | .error r => some (some r, st)
    | .ok oldrecord =>
      let skipped : Option (Option imap_err × sync_state) :=
        if st.newmsgno ≤ newmailbox.«exists» then
          sync_skip le newmailbox oldrecord.uid (newmailbox.«exists» + 1 - st.newmsgno) st
        else some (none, st)
      match skipped with
      | none => none
      | some (some r, st) => some (some r, st)
      | some (none, st) =>
        if st.newmsgno > newmailbox.«exists» then
          if oldmailbox.format = MAILBOX_FORMAT_NETNEWS then none
          else
            let copy := mailbox_copyfile false (renv.copy_message oldrecord.uid)
            let st : sync_state :=
              if copy.unlinked then { st with unlinked := st.unlinked ++ [oldrecord.uid] }
              else st
            match copy.code with
            | some r => some (some r, st)
            | none =>
              sync_settle le renv oldmailbox newmailbox n (oldmsgno + 1) none
                { st with copied := st.copied ++ [oldrecord.uid] }
        else sync_settle le renv oldmailbox newmailbox n (oldmsgno + 1) none st

/-- What `mailbox_sync` leaves behind once both mailboxes are open: its return
code (`none` is 0), the new mailbox, the values stored through
`olduidvalidityp` and `newuidvalidityp`, the UIDs of the message files unlinked
in and copied to the new mailbox, the contents of the index file of the new
mailbox and of that of the old one, and the `used` committed by `quota_write`
if any. -/
structure sync_result where
  r : Option imap_err
  newmailbox : mailbox
  olduidvalidity : Nat
  newuidvalidity : Nat
  unlinked : List Nat
  copied : List Nat
  new_index : List Byte
  old_index : List Byte
  quota_used : Option Nat

/-- The step of `mailbox_sync` that creates the new mailbox or opens and locks
it: the return code when it is not 0, or the new mailbox and the contents of
its index file; `none` when `mailbox_create` is `none`. -/
def sync_open_new (le : Bool) (env : os_env) (cenv : create_env) (oldmailbox : mailbox)
    (newname : List Byte) (docreate : Bool) (open_new : Except imap_err mailbox) :
    Option (Except imap_err (mailbox × List Byte)) :=
  if docreate then
    match mailbox_create le env cenv newname oldmailbox.acl oldmailbox.uniqueid
        oldmailbox.format with
    | none => none
    | some (.error r) => some (.error r)
    | some (.ok created) =>
      match created.r with
      | some r => some (.error r)
      | none => some (.ok (created.mailbox, created.index_file))
  else
    match open_new with
    | .error r => some (.error r)
    | .ok newmailbox => some (.ok (newmailbox, newmailbox.index_base))

/-- The C function `mailbox_sync`.  `oldheader` is the old mailbox as
`mailbox_open_header_path` leaves it, `open_old` what locking its header,
opening its index and locking the index give: the return code or the mailbox;
`open_new` is the same for the new mailbox when `docreate` is 0.  The result
is `none` when an assertion fails, a null string is dereferenced or
`rename_reopen_index` is `none`; `.error r` when the function returns `r`
before both mailboxes are open; and the `sync_result` otherwise.  Where the
function closes the new mailbox before it returns, the result holds
`zeromailbox`. -/
def mailbox_sync (le reconstruct : Bool) (env : os_env) (cenv : create_env)
    (renv : rename_env) (oldheader : mailbox) (open_old : Except imap_err mailbox)
    (newname : List Byte) (docreate : Bool) (open_new : Except imap_err mailbox) :
    Option (Except imap_err sync_result) :=
  if oldheader.format = MAILBOX_FORMAT_NETNEWS then some (.error IMAP_MAILBOX_NOTSUPPORTED)
  else
    match open_old with
    | .error r => some (.error r)
    | .ok oldmailbox =>
      match sync_open_new le env cenv oldmailbox newname docreate open_new with
      | none => none
      | some (.error r) => some (.error r)
      | some (.ok (newmailbox, new_index)) =>
        let newmailbox : mailbox := { newmailbox with uidvalidity := oldmailbox.uidvalidity }
        let res : sync_result :=
          { r := none, newmailbox := zeromailbox,
            olduidvalidity := oldmailbox.uidvalidity % 4294967296,
            newuidvalidity := newmailbox.uidvalidity % 4294967296,
            unlinked := [], copied := [],
            new_index := new_index, old_index := oldmailbox.index_base, quota_used := none }
        let newmailbox : mailbox := { newmailbox with
          flagname := copy_flagnames oldmailbox.flagname newmailbox.flagname }
        match mailbox_write_header env newmailbox with
        | none => none
        | some (.error r) => some (.ok { res with r := some r })
        | some (.ok newmailbox) =>
          let (newmailbox, r) := rename_check_quota renv oldmailbox newmailbox
          if r ≠ none ∧ r ≠ some IMAP_QUOTAROOT_NONEXISTENT then
            some (.ok { res with r := r })
          else
            match sync_settle le renv oldmailbox newmailbox oldmailbox.«exists» 1 r
                { newmsgno := 1, unlinked := [], copied := [] } with
            | none => none
            | some (r, st) =>
              let r := if r = none then renv.seen_copy else r
              let res : sync_result := { res with unlinked := st.unlinked, copied := st.copied }
              if r ≠ none then some (.ok { res with r := r })
              else
                let r := renv.copy_index.code
                let r := if r = none then renv.copy_cache.code else r
                if r ≠ none then
                  some (.ok { res with
                    r := r,
                    new_index := (match renv.copy_index with
                      | .failed _ => []
                      | _ => oldmailbox.index_base) })
                else
                  match rename_reopen_index le reconstruct env renv oldmailbox newmailbox with
                  | none => none
                  | some (newmailbox, old_index) =>
                    let new_index := match renv.copy_index with
                      | .linked => old_index
                      | _ => oldmailbox.index_base
                    let res : sync_result := { res with
                      new_index := new_index, old_index := old_index }
                    if newmailbox.quota_root ≠ none then
                      let used := (newmailbox.quota_used + oldmailbox.quota_mailbox_used)
                        % 18446744073709551616
                      match renv.quota_write with
                      | some r => some (.ok { res with r := some r })
                      | none =>
                        some (.ok { res with
                          newmailbox := { newmailbox with quota_used := used },
                          quota_used := some used })
                    else some (.ok { res with newmailbox := newmailbox })

/-- An open and locked mailbox with one message of 100 bytes per UID of `uids`
(each below 256), `last_uid` 9, `uidvalidity` 9, the quota root `user.jane` and
the given quota usage of its own; its index is of the current layout and holds
the header fields of the mailbox and one 60-byte record per UID. -/
def mailbox_of_uids (uids : List Byte) (quota_mailbox_used : Nat) : mailbox :=
  let m : mailbox := { zeromailbox with
    header_fd := 2, index_fd := 3, cache_fd := 4,
    header_lock_count := 1, index_lock_count := 1,
    name := some (ascii "user.jane"),
    acl := some (ascii "jane" ++ [9] ++ ascii "lrswipcda" ++ [9]),
    uniqueid := some (ascii "1a2b3c4d00000009"),
    generation_no := 5, minor_version := 6, start_offset := 76, record_size := 60,
    «exists» := uids.length, last_uid := 9, quota_mailbox_used := quota_mailbox_used,
    uidvalidity := 9, pop3_new_uidl := 1, quota_root := some (ascii "user.jane") }
  { m with
    index_base := index_header_buf true m
      ++ (uids.map (fun uid => sample_record uid 100 0 0)).flatten }

/-! ## Reconstruct -/

/-- The C function `compare_uid` of `reconstruct.c`: the difference of two
`unsigned long` converted to the `int` that is returned, which keeps its low 32
bits. -/
def compare_uid (a b : Nat) : Int :=
  toInt32 (((a + 18446744073709551616 - b) % 18446744073709551616) % 4294967296)

/-- State of the loop `Validate user flags` of `reconstruct`: the table
`mailbox.flagname` and the array `valid_user_flags`. -/
structure validate_state where
  flagname : List (Option (List Byte))
  valid_user_flags : List Nat
deriving DecidableEq, Repr

/-- One iteration of the loop `Validate user flags` of `reconstruct`.
`imparse_isatom` is a function of `lib/imparse.c`, which is not part of these
sources.  The `int` 1 shifted by `flag&31` is stored into a `bit32`. -/
def validate_user_flag (imparse_isatom : List Byte → Bool) (st : validate_state) (flag : Nat) :
    validate_state :=
  match st.flagname.getD flag none with
  | none => st
  | some name =>
    let flagname :=
      if (flag ≠ 0 ∧ st.flagname.getD (flag - 1) none = none) ∨ imparse_isatom name = false then
        st.flagname.set flag none
      else st.flagname
    { flagname := flagname,
      valid_user_flags := st.valid_user_flags.set (flag / 32)
        ((st.valid_user_flags.getD (flag / 32) 0 ||| 1 <<< (flag &&& 31)) % 4294967296) }

/-- The block `Validate user flags` of `reconstruct`: `valid_user_flags` is
cleared and the loop runs over the `MAX_USER_FLAGS` slots. -/
def reconstruct_validate_flags (imparse_isatom : List Byte → Bool)
    (flagname : List (Option (List Byte))) : validate_state :=
  (List.range MAX_USER_FLAGS).foldl (validate_user_flag imparse_isatom)
    { flagname := flagname, valid_user_flags := List.replicate (MAX_USER_FLAGS / 32) 0 }

/-- The branch `Use data in old index file, subject to validity checks` of
`reconstruct`: what `message_index` inherits from the old record. -/
def reconstruct_inherit (valid_user_flags : List Nat) (old_index message_index : index_record) :
    index_record :=
  { message_index with
    internaldate := old_index.internaldate,
    system_flags := old_index.system_flags &&&
      (FLAG_ANSWERED ||| FLAG_FLAGGED ||| FLAG_DELETED ||| FLAG_DRAFT),
    user_flags := (List.range (MAX_USER_FLAGS / 32)).map
      (fun i => old_index.user_flags.getD i 0 &&& valid_user_flags.getD i 0) }

/-- The block `Attempt to open/lock index` of `reconstruct`.  `opened` is what
`mailbox_open_index` gives: its return code, or the mailbox when that is 0;
`now` is `time(0)`. -/
def reconstruct_open_index (now : Nat) (m : mailbox) (opened : Except imap_err mailbox) :
    mailbox :=
  match opened with
  | .error _ => { m with
      «exists» := 0, last_uid := 0, last_appenddate := 0, uidvalidity := now,
      pop3_new_uidl := 1, index_lock_count := 1, pop3_last_login := 0 }
  | .ok m => { m with index_lock_count := 1, pop3_last_login := 0 }

/-- The block `Write out new index file header` of `reconstruct`: the mailbox
and the 76 bytes written at the start of the new index.  `uid` is the array of
UIDs after `qsort`, `buf` the buffer as the loop over the messages leaves it,
`new_exists`, `new_quota` and the three flag counts are the totals of that
loop, and `time(0)` is taken to give `now` at each call. -/
def reconstruct_index_header (le : Bool) (now : Nat) (uid : List Nat)
    (new_exists new_quota new_deleted new_answered new_flagged : Nat) (buf : List Byte)
    (m : mailbox) : mailbox × List Byte :=
  let m : mailbox :=
    if uid.length ≠ 0 ∧ m.last_uid < uid.getD (uid.length - 1) 0 then
      { m with last_uid := (uid.getD (uid.length - 1) 0 + 100) % 18446744073709551616 }
    else m
  let m : mailbox :=
    if m.last_appenddate = 0 ∨ m.last_appenddate > (now : Int) then
      { m with last_appenddate := now }
    else m
  let m : mailbox :=
    if m.uidvalidity = 0 ∨ m.uidvalidity > now then { m with uidvalidity := now } else m
  let buf := store32 le buf OFFSET_GENERATION_NO (htonl le (m.generation_no + 1))
  let buf := store32 le buf OFFSET_FORMAT (htonl le (toU32 m.format))
  let buf := store32 le buf OFFSET_MINOR_VERSION (htonl le MAILBOX_MINOR_VERSION)
  let buf := store32 le buf OFFSET_START_OFFSET (htonl le INDEX_HEADER_SIZE)
  let buf := store32 le buf OFFSET_RECORD_SIZE (htonl le INDEX_RECORD_SIZE)
  let buf := store32 le buf OFFSET_EXISTS (htonl le new_exists)
  let buf := store32 le buf OFFSET_LAST_APPENDDATE (htonl le (toU32 m.last_appenddate))
  let buf := store32 le buf OFFSET_LAST_UID (htonl le m.last_uid)
  let buf := store32 le buf OFFSET_QUOTA_MAILBOX_USED (htonl le new_quota)
  let buf := store32 le buf OFFSET_POP3_LAST_LOGIN (htonl le m.pop3_last_login)
  let buf := store32 le buf OFFSET_UIDVALIDITY (htonl le m.uidvalidity)
  let buf := store32 le buf OFFSET_DELETED (htonl le new_deleted)
  let buf := store32 le buf OFFSET_ANSWERED (htonl le new_answered)
  let buf := store32 le buf OFFSET_FLAGGED (htonl le new_flagged)
  let buf := store32 le buf OFFSET_POP3_NEW_UIDL (htonl le (toU32 m.pop3_new_uidl))
  let buf := store32 le buf OFFSET_LEAKED_CACHE (htonl le 0)
  (m, buf.take INDEX_HEADER_SIZE)

/-- An instance of `imparse_isatom` used in examples: a nonempty string of
printable ASCII characters other than space and the atom specials
`( ) { % * " \`. -/
def sample_isatom (s : List Byte) : Bool :=
  decide (s ≠ [] ∧ ∀ c ∈ s, 32 < c.val ∧ c.val < 127 ∧
    c ∉ ([40, 41, 123, 37, 42, 34, 92] : List Byte))

/-- An index record with UID 7 whose user flags 0 and 1 are set. -/
def flagged_record : index_record :=
  { uid := 7, internaldate := 1000, sentdate := 900, size := 100, header_size := 40,
    content_offset := 40, cache_offset := 4, last_updated := 1000, system_flags := 0,
    user_flags := [3, 0, 0, 0], content_lines := 0, cache_version := 0 }

/-- The record `zero_index` of `reconstruct` with `uid` stored into it: every
other field is 0. -/
def zero_index (uid : Nat) : index_record :=
  { uid := uid, internaldate := 0, sentdate := 0, size := 0, header_size := 0,
    content_offset := 0, cache_offset := 0, last_updated := 0, system_flags := 0,
    user_flags := [0, 0, 0, 0], content_lines := 0, cache_version := 0 }


/-! ## Cached headers -/

def MAX_CACHED_HEADER_SIZE : Nat := 32

/-- The table `mailbox_cache_headers`: header names with their
`min_cache_version`. -/
def mailbox_cache_headers : List (List Byte × Nat) :=
  [ (ascii "priority", 0), (ascii "references", 0), (ascii "resent-from", 0),
    (ascii "newsgroups", 0), (ascii "followup-to", 0),
    (ascii "x-mailer", 1), (ascii "x-trace", 1),
    (ascii "x-ref", 2), (ascii "x-priority", 2), (ascii "x-msmail-priority", 2),
    (ascii "x-msoesrec", 2),
    (ascii "bcc", BIT32_MAX), (ascii "cc", BIT32_MAX), (ascii "date", BIT32_MAX),
    (ascii "delivery-date", BIT32_MAX), (ascii "envelope-to", BIT32_MAX),
    (ascii "from", BIT32_MAX), (ascii "in-reply-to", BIT32_MAX),
    (ascii "mime-version", BIT32_MAX), (ascii "reply-to", BIT32_MAX),
    (ascii "received", BIT32_MAX), (ascii "return-path", BIT32_MAX),
    (ascii "sender", BIT32_MAX), (ascii "subject", BIT32_MAX), (ascii "to", BIT32_MAX) ]

/-- The C library function `tolower` in the "C" locale, on the value of a
character taken as `unsigned char`. -/
def tolower (c : Byte) : Byte :=
  if 65 ≤ c.val ∧ c.val ≤ 90 then byteOf (c.val + 32) else c

/-- The C function `is_cached_header`; `hdr` is a C string, so that `hdr[i]`
past its last character is the terminating NUL.  The `bit32` of the table and
`BIT32_MAX` are converted to the `int` that is returned. -/
def is_cached_header (hdr : List Byte) : Int :=
  match mailbox_cache_headers.find? (fun e => e.1 = hdr) with
  | some e => toInt32 e.2
  | none =>
    if hdr.getD 0 0 = 120 ∧ hdr.getD 1 0 = 45 then toInt32 BIT32_MAX
    else 1

/-- The loop of `mailbox_cached_header` with `n` for `MAX_CACHED_HEADER_SIZE - 1 - i`:
the rest of `s` and the bytes stored into `hdr`. -/
def cached_header_copy : Nat → List Byte → List Byte → List Byte × List Byte
  | 0, s, hdr => (s, hdr)
  | _ + 1, [], hdr => ([], hdr)
  | n + 1, c :: s, hdr => cached_header_copy n s (hdr ++ [tolower c])

/-- The C function `mailbox_cached_header`. -/
def mailbox_cached_header (s : List Byte) : Int :=
  let (s, hdr) := cached_header_copy (MAX_CACHED_HEADER_SIZE - 1) s []
  if s ≠ [] then toInt32 BIT32_MAX
  else is_cached_header hdr

/-- The loop of `mailbox_cached_header_inline` followed by the final `return`,
with `n` for `MAX_CACHED_HEADER_SIZE - 1 - i`; `buf` holds the bytes stored so
far.  `text` is a C string: the byte after its last character is NUL. -/
def cached_header_inline_loop (text : List Byte) : Nat → Nat → List Byte → Int
  | 0, _, _ => toInt32 BIT32_MAX
  | n + 1, i, buf =>
    if text.getD i 0 = 0 ∨ text.getD i 0 = 13 ∨ text.getD i 0 = 10 then toInt32 BIT32_MAX
    else if text.getD i 0 = 58 then is_cached_header buf
    else cached_header_inline_loop text n (i + 1) (buf ++ [tolower (text.getD i 0)])

/-- The C function `mailbox_cached_header_inline`. -/
def mailbox_cached_header_inline (text : List Byte) : Int :=
  cached_header_inline_loop text (MAX_CACHED_HEADER_SIZE - 1) 0 []

/-- A header name of 31 characters. -/
def long_header_name : List Byte := ascii "list-unsubscribe-post-extension"

/-! ## Unique ids: the hash in closed form -/

/-- The hash of a mailbox name as the specification words it: the bytes are
folded from left to right by `h := (h * 251 + byte) mod 2147484043`, from 0. -/
def uniqueid_hash (name : List Byte) : Nat :=
  name.foldl (fun h c => (h * 251 + c.val) % 2147484043) 0

/-- The value of a lower-case hexadecimal digit. -/
def hexdigit (b : Byte) : Nat :=
  if 48 ≤ b.val ∧ b.val ≤ 57 then b.val - 48 else b.val - 87

/-- The number that a string of hexadecimal digits denotes. -/
def hexval (s : List Byte) : Nat := s.foldl (fun v b => v * 16 + hexdigit b) 0

/-! ## `mailbox_stat` -/

/-- The C function `mailbox_stat`.  `mbpath`, `header`, `index` and `cache`
tell whether the pointer of that name is non-null; `stat_header`, `stat_index`
and `stat_cache` are what `stat` returns for `cyrus.header`, `cyrus.index` and
`cyrus.cache` when it is called.  The result is `none` when the assertion
fails. -/
def mailbox_stat (stat_header stat_index stat_cache : Int) (mbpath header index cache : Bool) :
    Option Nat :=
  if !(mbpath && (header || index)) then none
  else
    let r : Int := 0
    let ret : Nat := 0
    let r : Int := if header then stat_header else r
    let ret : Nat := if header ∧ stat_header ≠ 0 then ret ||| 1 else ret
    let run_index : Bool := decide (r = 0) && index
    let r : Int := if run_index then stat_index else r
    let ret : Nat := if run_index ∧ stat_index ≠ 0 then ret ||| 2 else ret
    let run_cache : Bool := decide (r = 0) && cache
    let ret : Nat := if run_cache ∧ stat_cache ≠ 0 then ret ||| 4 else ret
    some ret

/-! ## Locks -/

def INT_MAX : Int := 2147483647
def INT_MIN : Int := -2147483648

/-- The four lock counters of the C `struct mailbox`, each an `int`. -/
structure lock_counts where
  header_lock_count : Int
  index_lock_count : Int
  seen_lock_count : Int
  pop_lock_count : Int
deriving DecidableEq, Repr

/-- The calls of the lock functions to the lock library: `lock_reopen` on
`header_fd`, `lock_blocking` on `index_fd`, `lock_nonblocking` on `cache_fd`,
and `lock_unlock` on each of the three descriptors. -/
inductive os_call where
  | lock_reopen_header
  | lock_blocking_index
  | lock_nonblocking_cache
  | lock_unlock_header
  | lock_unlock_index
  | lock_unlock_cache
deriving DecidableEq, Repr

/-- How a call of a lock function ends: an `assert` fails, in the function or
in a lock function called below it; a counter overflows (undefined behaviour
for an `int`); the call has not returned (a callee does not return, or the loop
of `mailbox_lock_index` is still running after the observations given); or it
returns `r` (`none` is 0, and stands for the plain return of a `void`
function), leaving the counters `c`, after the calls `os` to the lock library.

The lock functions decide by the counters, by what the lock library and `stat`
return, and by what `mailbox_read_header`, `mailbox_open_index` and
`mailbox_read_index_header` do, which are inputs here: see `header_lock_obs`
and `reread_obs`. -/
inductive lock_result where
  | assertion_failed
  | undefined
  | not_returned
  | returned (r : Option imap_err) (c : lock_counts) (os : List os_call)
deriving DecidableEq, Repr

/-- The C function `mailbox_unlock_header`.  What `lock_unlock` returns only
decides whether a message is logged. -/
def mailbox_unlock_header (c : lock_counts) : lock_result :=
  if c.header_lock_count = 0 then .assertion_failed
  else if c.header_lock_count = INT_MIN then .undefined
  else
    let c : lock_counts := { c with header_lock_count := c.header_lock_count - 1 }
    if c.header_lock_count = 0 then .returned none c [.lock_unlock_header]
    else .returned none c []

/-- The C function `mailbox_unlock_index`. -/
def mailbox_unlock_index (c : lock_counts) : lock_result :=
  if c.index_lock_count = 0 then .assertion_failed
  else if c.index_lock_count = INT_MIN then .undefined
  else
    let c : lock_counts := { c with index_lock_count := c.index_lock_count - 1 }
    if c.index_lock_count = 0 then .returned none c [.lock_unlock_index]
    else .returned none c []

/-- The C function `mailbox_unlock_pop`. -/
def mailbox_unlock_pop (c : lock_counts) : lock_result :=
  if c.pop_lock_count = 0 then .assertion_failed
  else if c.pop_lock_count = INT_MIN then .undefined
  else
    let c : lock_counts := { c with pop_lock_count := c.pop_lock_count - 1 }
    if c.pop_lock_count = 0 then .returned none c [.lock_unlock_cache]
    else .returned none c []

/-- What a first acquisition of the header lock finds: the return value of
`lock_reopen`, whether `sbuf.st_ino != mailbox->header_ino`, and what
`mailbox_read_header` returns (`none` when it does not return).  The lock
functions that `mailbox_read_header` may reach are called with
`header_lock_count` above 0 and with the `seen_lock_count` = 0 that
`mailbox_lock_header` has asserted; it is taken to leave the counters as it
finds them. -/
structure header_lock_obs where
  lock_reopen : Int
  ino_changed : Bool
  read_header : Option (Option imap_err)
deriving DecidableEq, Repr

/-- The C function `mailbox_lock_header`; `reconstruct` is the global
`mailbox_doing_reconstruct`. -/
def mailbox_lock_header (reconstruct : Bool) (o : header_lock_obs) (c : lock_counts) :
    lock_result :=
  if c.header_lock_count = INT_MAX then .undefined
  else
    let old := c.header_lock_count
    let c : lock_counts := { c with header_lock_count := c.header_lock_count + 1 }
    if old ≠ 0 then .returned none c []
    else if c.index_lock_count ≠ 0 then .assertion_failed
    else if c.seen_lock_count ≠ 0 then .assertion_failed
    else if o.lock_reopen ≠ 0 then
      .returned (some IMAP_IOERROR) { c with header_lock_count := c.header_lock_count - 1 }
        [.lock_reopen_header]
    else if o.ino_changed then
      match o.read_header with
      | none => .not_returned
      | some none => .returned none c [.lock_reopen_header]
      | some (some r) =>
        if reconstruct then .returned none c [.lock_reopen_header]
        else
          match mailbox_unlock_header c with
          | .returned _ c os => .returned (some r) c (.lock_reopen_header :: os)
          | other => other
    else .returned none c [.lock_reopen_header]

/-- What a call of `mailbox_open_index` or of `mailbox_read_index_header` from
a lock function of the index does, as far as the locks go.  It calls no lock
function and returns `r` (`none` is 0); or it calls none and does not return;
or `mailbox_read_index_header` finds a header whose flag counts are missing or
that is of an older layout and calls `mailbox_calculate_flagcounts` or
`mailbox_upgrade_index`.  Each of these two begins with `mailbox_lock_header`,
which finds `o`.  When that call returns 0, the header lock was held before
(with `index_lock_count` not 0 a first acquisition trips the assertion); what
follows are `mailbox_lock_index_for_upgrade`, re-entrant there,
`mailbox_lock_pop`, which has no assertion, and on every path the unlock calls
that pair with the lock calls made, `mailbox_unlock_header` last; `rest` is the
code that the callee returns in the end (`none` when it does not return).  The
calls to the lock library that the callee makes through `mailbox_lock_pop` and
`mailbox_unlock_pop` are not listed among those of the lock function. -/
inductive reread_obs where
  | returns (r : Option imap_err)
  | not_returned
  | relocks (o : header_lock_obs) (rest : Option (Option imap_err))
deriving DecidableEq, Repr

/-- A call of `mailbox_open_index` or of `mailbox_read_index_header` from a
lock function of the index, on the counters `c`.  The `mailbox_lock_header` and
the last `mailbox_unlock_header` of `mailbox_calculate_flagcounts` and
`mailbox_upgrade_index` are carried out on the counters; when
`mailbox_lock_header` does not return 0, either function returns its code and
`mailbox_read_index_header` returns `IMAP_IOERROR`. -/
def index_reread (reconstruct : Bool) (o : reread_obs) (c : lock_counts) : lock_result :=
  match o with
  | .returns r => .returned r c []
  | .not_returned => .not_returned
  | .relocks ho rest =>
    match mailbox_lock_header reconstruct ho c with
    | .returned none c os =>
      match rest with
      | none => .not_returned
      | some r =>
        match mailbox_unlock_header c with
        | .returned _ c os1 => .returned r c (os ++ os1)
        | other => other
    | .returned (some _) c os => .returned (some IMAP_IOERROR) c os
    | other => other

/-- What one pass through the loop of `mailbox_lock_index` finds: the return
values of `lock_blocking` and of `stat`, whether
`sbuffd.st_ino == sbuffile.st_ino`, and what `mailbox_open_index` does. -/
structure index_lock_obs where
  lock_blocking : Int
  stat : Int
  same_ino : Bool
  open_index : reread_obs
deriving DecidableEq, Repr

/-- How the loop `for (;;)` of `mailbox_lock_index` and of
`mailbox_lock_index_for_upgrade` ends: the function is left from inside the
loop, or the loop is left by `break` with the counters `c`. -/
inductive index_lock_loop where
  | ended (res : lock_result)
  | broke (c : lock_counts) (os : List os_call)
deriving DecidableEq, Repr

/-- The loop `for (;;)` of `mailbox_lock_index`, which
`mailbox_lock_index_for_upgrade` repeats word for word; the list holds what the
successive passes find, and `os` the calls to the lock library so far. -/
def lock_index_loop (reconstruct : Bool) :
    lock_counts → List index_lock_obs → List os_call → index_lock_loop
  | _, [], _ => .ended .not_returned
  | c, o :: rest, os =>
    if o.lock_blocking = -1 then
      .ended (.returned (some IMAP_IOERROR) { c with index_lock_count := c.index_lock_count - 1 }
        (os ++ [.lock_blocking_index]))
    else if o.stat = -1 then
      match mailbox_unlock_index c with
      | .returned _ c os1 =>
        .ended (.returned (some IMAP_IOERROR) c (os ++ [.lock_blocking_index] ++ os1))
      | other => .ended other
    else if o.same_ino then .broke c (os ++ [.lock_blocking_index])
    else
      match index_reread reconstruct o.open_index c with
      | .returned none c os1 =>
        lock_index_loop reconstruct c rest (os ++ [.lock_blocking_index] ++ os1)
      | .returned (some r) c os1 =>
        .ended (.returned (some r) c (os ++ [.lock_blocking_index] ++ os1))
      | other => .ended other

/-- The part of `mailbox_lock_index` that follows its loop: the call of
`mailbox_read_index_header` and the return; `loop` is how the loop has
ended. -/
def lock_index_read_header (reconstruct : Bool) (read_index_header : reread_obs) :
    index_lock_loop → lock_result
  | .ended res => res
  | .broke c os =>
    match index_reread reconstruct read_index_header c with
    | .returned none c os1 => .returned none c (os ++ os1)
    | .returned (some r) c os1 =>
      if reconstruct then .returned none c (os ++ os1)
      else
        match mailbox_unlock_index c with
        | .returned _ c os2 => .returned (some r) c (os ++ os1 ++ os2)
        | other => other
    | other => other

/-- The C function `mailbox_lock_index`; `passes` is what the passes through
its loop find and `read_index_header` what `mailbox_read_index_header` does. -/
def mailbox_lock_index (reconstruct : Bool) (passes : List index_lock_obs)
    (read_index_header : reread_obs) (c : lock_counts) : lock_result :=
  if c.index_lock_count = INT_MAX then .undefined
  else
    let old := c.index_lock_count
    let c : lock_counts := { c with index_lock_count := c.index_lock_count + 1 }
    if old ≠ 0 then .returned none c []
    else if c.seen_lock_count ≠ 0 then .assertion_failed
    else
      lock_index_read_header reconstruct read_index_header
        (lock_index_loop reconstruct c passes [])

/-- The part of `mailbox_lock_index_for_upgrade` that follows its loop: the
`return 0`; `loop` is how the loop has ended. -/
def lock_index_return : index_lock_loop → lock_result
  | .ended res => res
  | .broke c os => .returned none c os

/-- The C function `mailbox_lock_index_for_upgrade`. -/
def mailbox_lock_index_for_upgrade (reconstruct : Bool) (passes : List index_lock_obs)
    (c : lock_counts) : lock_result :=
  if c.index_lock_count = INT_MAX then .undefined
  else
    let old := c.index_lock_count
    let c : lock_counts := { c with index_lock_count := c.index_lock_count + 1 }
    if old ≠ 0 then .returned none c []
    else if c.seen_lock_count ≠ 0 then .assertion_failed
    else lock_index_return (lock_index_loop reconstruct c passes [])

/-- What a first acquisition of the POP lock finds: the return value of
`lock_nonblocking`, and whether `errno` is one of `EWOULDBLOCK`, `EAGAIN` and
`EACCES`. -/
structure pop_lock_obs where
  lock_nonblocking : Int
  errno_busy : Bool
deriving DecidableEq, Repr

/-- The C function `mailbox_lock_pop`. -/
def mailbox_lock_pop (o : pop_lock_obs) (c : lock_counts) : lock_result :=
  if c.pop_lock_count = INT_MAX then .undefined
  else
    let old := c.pop_lock_count
    let c : lock_counts := { c with pop_lock_count := c.pop_lock_count + 1 }
    if old ≠ 0 then .returned none c []
    else if o.lock_nonblocking = -1 then
      let c : lock_counts := { c with pop_lock_count := c.pop_lock_count - 1 }
      if o.errno_busy then .returned (some IMAP_MAILBOX_POPLOCKED) c [.lock_nonblocking_cache]
      else .returned (some IMAP_IOERROR) c [.lock_nonblocking_cache]
    else .returned none c [.lock_nonblocking_cache]

/-- The three locks that have a lock and an unlock function in `mailbox.c`. -/
inductive lock_kind where
  | header
  | index
  | pop
deriving DecidableEq, Repr

/-- The counter of a lock. -/
def lock_counts.count (c : lock_counts) : lock_kind → Int
  | .header => c.header_lock_count
  | .index => c.index_lock_count
  | .pop => c.pop_lock_count

/-- The counters with the counter of one lock replaced. -/
def lock_counts.setCount (c : lock_counts) : lock_kind → Int → lock_counts
  | .header, v => { c with header_lock_count := v }
  | .index, v => { c with index_lock_count := v }
  | .pop, v => { c with pop_lock_count := v }

/-- The lock that a call to the lock library requests, if it requests one. -/
def os_call.requests : os_call → Option lock_kind
  | .lock_reopen_header => some .header
  | .lock_blocking_index => some .index
  | .lock_nonblocking_cache => some .pop
  | _ => none

/-- The lock that a call to the lock library releases, if it releases one. -/
def os_call.releases : os_call → Option lock_kind
  | .lock_unlock_header => some .header
  | .lock_unlock_index => some .index
  | .lock_unlock_cache => some .pop
  | _ => none

/-- A call of one of the lock and unlock functions on a handle, with what the
call finds. -/
inductive lock_call where
  | lock_header (o : header_lock_obs)
  | lock_index (passes : List index_lock_obs) (read_index_header : reread_obs)
  | lock_index_for_upgrade (passes : List index_lock_obs)
  | lock_pop (o : pop_lock_obs)
  | unlock_header
  | unlock_index
  | unlock_pop
deriving DecidableEq, Repr

/-- The lock that a call acquires, for the lock functions. -/
def lock_call.locks : lock_call → Option lock_kind
  | .lock_header _ => some .header
  | .lock_index _ _ => some .index
  | .lock_index_for_upgrade _ => some .index
  | .lock_pop _ => some .pop
  | _ => none

/-- The lock that a call gives up, for the unlock functions. -/
def lock_call.unlocks : lock_call → Option lock_kind
  | .unlock_header => some .header
  | .unlock_index => some .index
  | .unlock_pop => some .pop
  | _ => none

/-- The call carried out on the counters `c`. -/
def lock_call.run (reconstruct : Bool) : lock_call → lock_counts → lock_result
  | .lock_header o, c => mailbox_lock_header reconstruct o c
  | .lock_index passes rd, c => mailbox_lock_index reconstruct passes rd c
  | .lock_index_for_upgrade passes, c => mailbox_lock_index_for_upgrade reconstruct passes c
  | .lock_pop o, c => mailbox_lock_pop o c
  | .unlock_header, c => mailbox_unlock_header c
  | .unlock_index, c => mailbox_unlock_index c
  | .unlock_pop, c => mailbox_unlock_pop c

/-- One call of a sequence: the counters before it, the call, the counters
after it and the calls it made to the lock library. -/
structure lock_step where
  before : lock_counts
  call : lock_call
  after : lock_counts
  os : List os_call
deriving DecidableEq, Repr

/-- A sequence of calls on one handle, each of which succeeds (a lock function
returns 0, an unlock function returns): the steps in order, `none` when one of
the calls does not succeed. -/
def lock_run (reconstruct : Bool) : lock_counts → List lock_call → Option (List lock_step)
  | _, [] => some []
  | c, call :: rest =>
    match call.run reconstruct c with
    | .returned none c1 os =>
      (lock_run reconstruct c1 rest).map
        (fun steps => { before := c, call := call, after := c1, os := os } :: steps)
    | _ => none

/-- A handle on which no lock is held. -/
def no_locks : lock_counts :=
  { header_lock_count := 0, index_lock_count := 0, seen_lock_count := 0, pop_lock_count := 0 }

/-- A pass through the loop of `mailbox_lock_index` in which the lock is
granted and the index file is still the one that is open. -/
def pass_ok : index_lock_obs :=
  { lock_blocking := 0, stat := 0, same_ino := true, open_index := .returns none }

/-- A pass through the loop of `mailbox_lock_index` in which the lock is
granted, the index file has been replaced and `mailbox_open_index` returns
`IMAP_IOERROR`. -/
def pass_reopen_fails : index_lock_obs :=
  { lock_blocking := 0, stat := 0, same_ino := false,
    open_index := .returns (some IMAP_IOERROR) }

/-! ## Paths of mailboxes -/

/-- The string that `snprintf(buf, size, ...)` leaves in `buf` for the
formatted output `text` and `size > 0`: at most `size - 1` bytes are kept, and
the string ends before the first NUL among them. -/
def snprintf (size : Nat) (text : List Byte) : List Byte :=
  (text.take (size - 1)).takeWhile (fun b => b ≠ 0)

/-- The C library function `strchr` on a C string: the offset of the first
occurrence of `c`, `none` for a null result. -/
def strchr (s : List Byte) (c : Byte) : Option Nat :=
  if c ∈ s then some (s.indexOf c) else none

/-- The conversion `(char)` of an `int`, as the byte stored. -/
def to_char (x : Int) : Byte := byteOf (x % 256).toNat

/-- The final loop of `mailbox_hash_mbox`: every `.` becomes `/`. -/
def dots_to_slashes (s : List Byte) : List Byte :=
  s.map (fun b => if b = 46 then 47 else b)

/-- The C function `mailbox_hash_mbox`: the string left in `buf`, `none` when
`buf_len` is 0 (nothing is stored then and `strlen(buf)` reads what the caller
left).  `config_virtdomains` and `config_hashimapspool` are the globals of these
names; the macro `FNAME_DOMAINDIR` and the function `dir_hash_c` are not part of
these sources and are parameters.  `root` and `name` are C strings.  The three
`snprintf` write one after the other, each into what the earlier ones left of
the buffer, and the final loop runs over the output of the last one. -/
def mailbox_hash_mbox (config_virtdomains config_hashimapspool : Bool)
    (FNAME_DOMAINDIR : List Byte) (dir_hash_c : List Byte → Int)
    (buf_len : Nat) (root name : List Byte) : Option (List Byte) :=
  if buf_len = 0 then none
  else
    let out_root := snprintf buf_len root
    let buf_len := buf_len - out_root.length
    let split : Option Nat := if config_virtdomains then strchr name 33 else none
    let out_domain : List Byte := match split with
      | some p =>
        if config_hashimapspool then
          snprintf buf_len
            (FNAME_DOMAINDIR ++ [to_char (dir_hash_c (name.take p))] ++ [47] ++ name.take p)
        else snprintf buf_len (FNAME_DOMAINDIR ++ name.take p)
      | none => []
    let name : List Byte := match split with
      | some p => name.drop (p + 1)
      | none => name
    let buf_len := buf_len - out_domain.length
    let out_name : List Byte :=
      if config_hashimapspool then
        let idx : List Byte := match strchr name 46 with
          | none => name
          | some i => name.drop (i + 1)
        snprintf buf_len ([47] ++ [to_char (dir_hash_c idx)] ++ [47] ++ name)
      else snprintf buf_len ([47] ++ name)
    some (out_root ++ out_domain ++ dots_to_slashes out_name)

/-- A bucket function used in examples, standing for `dir_hash_c`: the first
character in lower case if that is a letter, and `q` otherwise. -/
def sample_dir_hash_c (name : List Byte) : Int :=
  if 97 ≤ (tolower (name.getD 0 0)).val ∧ (tolower (name.getD 0 0)).val ≤ 122 then
    ((tolower (name.getD 0 0)).val : Int)
  else 113

/-! ## Synchronising a mailbox: the UIDs of an index -/

/-- The UIDs of the records 1 to `exists` of the index of `m`, in order, as
`mailbox_read_index_record` reads them (a record that cannot be read is left
out). -/
def record_uids (le : Bool) (m : mailbox) : List Nat :=
  (List.range m.«exists»).filterMap (fun k =>
    match mailbox_read_index_record le m (k + 1) with
    | .ok record => some record.uid
    | .error _ => none)

/-- The header lock taken twice and given up twice, with the index lock taken
and given up in between. -/
def nested_lock_calls : List lock_call :=
  [ .lock_header { lock_reopen := 0, ino_changed := false, read_header := some none },
    .lock_header { lock_reopen := 0, ino_changed := false, read_header := some none },
    .lock_index [pass_ok] (.returns none),
    .unlock_index,
    .unlock_header,
    .unlock_header ]

/-! ## Opening the index and the cache: the generation check -/

/-- What the generation check of `mailbox_open_index` finds when it goes on to
another attempt: both files hold the four bytes of a generation number, and
the two numbers differ. -/
def generations_differ (index cache : List Byte) : Prop :=
  4 ≤ index.length ∧ 4 ≤ cache.length ∧
    be32 index OFFSET_GENERATION_NO ≠ be32 cache OFFSET_GENERATION_NO

instance (index cache : List Byte) : Decidable (generations_differ index cache) := by
  unfold generations_differ; infer_instance

/-- An index whose generation number is 4, one behind that of `sample_cache`. -/
def stale_index : List Byte := [0, 0, 0, 4] ++ sample_index.drop 4

/-! ## An index on which the flag recount never ends -/

/-- An index of 116 bytes: a header of 56 bytes that stores minor version 6,
start offset 56, record size 0 and `exists` 0xFFFFFFFF, followed by the 60
bytes of a record with UID 1. -/
def endless_recount_index : List Byte :=
  [0, 0, 0, 0, 0, 0, 0, 0, 0, 0, 0, 6, 0, 0, 0, 56, 0, 0, 0, 0,
   255, 255, 255, 255, 0, 0, 0, 0, 0, 0, 0, 0, 0, 0, 0, 0, 0, 0, 0, 0,
   0, 0, 0, 0, 0, 0, 0, 0, 0, 0, 0, 0, 0, 0, 0, 0]
  ++ sample_record 1 100 4 0

/-- A pass through the loop of `mailbox_lock_index` in which the lock is
granted, the index file has been replaced, and the `mailbox_open_index` that
follows finds an index to upgrade: `mailbox_upgrade_index` calls
`mailbox_lock_header`, where `lock_reopen` would succeed. -/
def pass_reopen_upgrades : index_lock_obs :=
  { lock_blocking := 0, stat := 0, same_ino := false,
    open_index := .relocks { lock_reopen := 0, ino_changed := false, read_header := some none }
      (some none) }

/-! # Theorems -/

/-! ## Bytes and words -/

theorem byteAt_lt (mem : List Byte) (i : Nat) : byteAt mem i < 256 := (mem.getD i 0).isLt

theorem byteOf_eq_iff (a b : Nat) : byteOf a = byteOf b ↔ a % 256 = b % 256 := by
  simp [byteOf, Fin.ext_iff]

theorem htonl_eq_ntohl (le : Bool) (v : Nat) : htonl le v = ntohl le v := rfl

theorem ntohl_load32 (le : Bool) (mem : List Byte) (off : Nat) :
    ntohl le (load32 le mem off) = be32 mem off := by
  have h0 := byteAt_lt mem off
  have h1 := byteAt_lt mem (off + 1)
  have h2 := byteAt_lt mem (off + 2)
  have h3 := byteAt_lt mem (off + 3)
  cases le <;> simp only [ntohl, load32, be32, bswap32, if_true, if_false, Bool.false_eq_true] <;> omega

theorem htonl_load32 (le : Bool) (mem : List Byte) (off : Nat) :
    htonl le (load32 le mem off) = be32 mem off := ntohl_load32 le mem off

theorem bswap32_bytes (w : Nat) :
    bswap32 w % 256 = w / 16777216 % 256 ∧ bswap32 w / 256 % 256 = w / 65536 % 256 ∧
    bswap32 w / 65536 % 256 = w / 256 % 256 ∧ bswap32 w / 16777216 % 256 = w % 256 := by
  unfold bswap32
  have h0 : w % 256 < 256 := Nat.mod_lt _ (by decide)
  have h1 : w / 256 % 256 < 256 := Nat.mod_lt _ (by decide)
  have h2 : w / 65536 % 256 < 256 := Nat.mod_lt _ (by decide)
  have h3 : w / 16777216 % 256 < 256 := Nat.mod_lt _ (by decide)
  generalize w % 256 = a0 at *
  generalize w / 256 % 256 = a1 at *
  generalize w / 65536 % 256 = a2 at *
  generalize w / 16777216 % 256 = a3 at *
  omega

theorem store32_htonl (le : Bool) (mem : List Byte) (off v : Nat) :
    store32 le mem off (htonl le v) = putBE32 mem off (v % 4294967296) := by
  cases le
  · simp only [store32, htonl, putBE32, if_false, Bool.false_eq_true]
  · simp only [store32, htonl, putBE32, if_true]
    obtain ⟨b0, b1, b2, b3⟩ := bswap32_bytes (v % 4294967296)
    have e0 : byteOf (bswap32 (v % 4294967296)) = byteOf (v % 4294967296 / 16777216) := by
      rw [byteOf_eq_iff]; exact b0
    have e1 : byteOf (bswap32 (v % 4294967296) / 256) = byteOf (v % 4294967296 / 65536) := by
      rw [byteOf_eq_iff]; exact b1
    have e2 : byteOf (bswap32 (v % 4294967296) / 65536) = byteOf (v % 4294967296 / 256) := by
      rw [byteOf_eq_iff]; exact b2
    have e3 : byteOf (bswap32 (v % 4294967296) / 16777216) = byteOf (v % 4294967296) := by
      rw [byteOf_eq_iff]; exact b3
    rw [e0, e1, e2, e3]

theorem be32_lt (mem : List Byte) (off : Nat) : be32 mem off < 4294967296 := by
  have h0 := byteAt_lt mem off
  have h1 := byteAt_lt mem (off + 1)
  have h2 := byteAt_lt mem (off + 2)
  have h3 := byteAt_lt mem (off + 3)
  unfold be32; omega

theorem length_putBE32 (mem : List Byte) (off v : Nat) : (putBE32 mem off v).length = mem.length := by
  simp [putBE32]

theorem byteAt_set (mem : List Byte) (i j : Nat) (b : Byte) :
    byteAt (mem.set i b) j = if i = j ∧ j < mem.length then b.val else byteAt mem j := by
  unfold byteAt
  by_cases h : i = j
  · subst h
    by_cases hl : i < mem.length
    · simp [List.getD_eq_getElem?_getD, hl]
    · rw [List.set_eq_of_length_le (Nat.le_of_not_lt hl)]; simp [hl]
  · simp [List.getD_eq_getElem?_getD, h, List.getElem?_set_ne h]

theorem byteAt_putBE32 (mem : List Byte) (off v j : Nat) (h : off + 4 ≤ mem.length) :
    byteAt (putBE32 mem off v) j =
      if j = off then v / 16777216 % 256
      else if j = off + 1 then v / 65536 % 256
      else if j = off + 2 then v / 256 % 256
      else if j = off + 3 then v % 256
      else byteAt mem j := by
  simp only [putBE32, byteAt_set, List.length_set, byteOf]
  by_cases h0 : j = off
  · subst h0; simp; omega
  by_cases h1 : j = off + 1
  · subst h1; simp; omega
  by_cases h2 : j = off + 2
  · subst h2; simp; omega
  by_cases h3 : j = off + 3
  · subst h3; simp; omega
  have e0 : ¬ (off = j) := fun e => h0 e.symm
  have e1 : ¬ (off + 1 = j) := fun e => h1 e.symm
  have e2 : ¬ (off + 2 = j) := fun e => h2 e.symm
  have e3 : ¬ (off + 3 = j) := fun e => h3 e.symm
  simp [h0, h1, h2, h3, e0, e1, e2, e3]


theorem be32_mod (mem : List Byte) (off : Nat) : be32 mem off % 4294967296 = be32 mem off :=
  Nat.mod_eq_of_lt (be32_lt mem off)

theorem be32_bytes (mem : List Byte) (off : Nat) :
    be32 mem off / 16777216 % 256 = byteAt mem off ∧
    be32 mem off / 65536 % 256 = byteAt mem (off + 1) ∧
    be32 mem off / 256 % 256 = byteAt mem (off + 2) ∧
    be32 mem off % 256 = byteAt mem (off + 3) := by
  have h0 := byteAt_lt mem off
  have h1 := byteAt_lt mem (off + 1)
  have h2 := byteAt_lt mem (off + 2)
  have h3 := byteAt_lt mem (off + 3)
  unfold be32; omega

theorem byteAt_drop (mem : List Byte) (off i : Nat) :
    byteAt (mem.drop off) i = byteAt mem (off + i) := by
  simp [byteAt, List.getD_eq_getElem?_getD, List.getElem?_drop]

theorem be32_drop (mem : List Byte) (off i : Nat) :
    be32 (mem.drop off) i = be32 mem (off + i) := by
  simp only [be32, byteAt_drop, Nat.add_assoc]

theorem byteAt_take (mem : List Byte) (n i : Nat) (h : i < n) :
    byteAt (mem.take n) i = byteAt mem i := by
  simp [byteAt, List.getD_eq_getElem?_getD, List.getElem?_take, h]

theorem be32_take (mem : List Byte) (n i : Nat) (h : i + 4 ≤ n) :
    be32 (mem.take n) i = be32 mem i := by
  simp only [be32]
  rw [byteAt_take _ _ _ (by omega), byteAt_take _ _ _ (by omega), byteAt_take _ _ _ (by omega),
    byteAt_take _ _ _ (by omega)]

theorem be32_slice (mem : List Byte) (off n i : Nat) (h : i + 4 ≤ n) :
    be32 (slice mem off n) i = be32 mem (off + i) := by
  unfold slice; rw [be32_take _ _ _ h, be32_drop]

theorem ext_byteAt (l1 l2 : List Byte) (hl : l1.length = l2.length)
    (h : ∀ i, i < l1.length → byteAt l1 i = byteAt l2 i) : l1 = l2 := by
  apply List.ext_getElem hl
  intro i h1 h2
  have := h i h1
  simp only [byteAt, List.getD_eq_getElem?_getD, List.getElem?_eq_getElem h1,
    List.getElem?_eq_getElem h2, Option.getD_some] at this
  exact Fin.ext this

theorem range_user_flags : List.range (MAX_USER_FLAGS / 32) = [0, 1, 2, 3] := by decide

theorem read_index_record_eq (le : Bool) (m : mailbox) (msgno : Nat)
    (h1 : 1 ≤ msgno) (hmsg : msgno < 4294967296)
    (hs : m.start_offset < 4294967296) (hr : m.record_size < 4294967296) :
    mailbox_read_index_record le m msgno =
      if m.start_offset + (msgno - 1) * m.record_size + INDEX_RECORD_SIZE > m.index_len then
        .error IMAP_IOERROR
      else .ok (recordBE m.index_base (m.start_offset + (msgno - 1) * m.record_size)) := by
  have e1 : (msgno + 4294967295) % 4294967296 = msgno - 1 := by omega
  have hp : (msgno - 1) * m.record_size ≤ 4294967295 * 4294967295 :=
    Nat.mul_le_mul (by omega) (by omega)
  have e2 : (m.start_offset + (msgno - 1) * m.record_size) % 18446744073709551616
      = m.start_offset + (msgno - 1) * m.record_size := by
    apply Nat.mod_eq_of_lt; omega
  have e3 : (m.start_offset + (msgno - 1) * m.record_size + INDEX_RECORD_SIZE) % 18446744073709551616
      = m.start_offset + (msgno - 1) * m.record_size + INDEX_RECORD_SIZE := by
    apply Nat.mod_eq_of_lt
    have : INDEX_RECORD_SIZE = 60 := by decide
    omega
  unfold mailbox_read_index_record
  simp only [e1, e2, e3, htonl_load32, be32_drop, range_user_flags, List.map, recordBE]
  rfl


theorem INDEX_RECORD_SIZE_eq : INDEX_RECORD_SIZE = 60 := rfl
theorem INDEX_HEADER_SIZE_eq : INDEX_HEADER_SIZE = 76 := rfl

theorem byteAt_slice (mem : List Byte) (off n i : Nat) (h : i < n) :
    byteAt (slice mem off n) i = byteAt mem (off + i) := by
  unfold slice; rw [byteAt_take _ _ _ h, byteAt_drop]

theorem toU32_natCast (n : Nat) : toU32 (n : Int) = n % 4294967296 := by
  unfold toU32; omega

theorem byteAt_putBE32_be32 (buf mem : List Byte) (p o i : Nat) (h : p + 4 ≤ buf.length) :
    byteAt (putBE32 buf p (be32 mem o)) i =
      if p ≤ i ∧ i < p + 4 then byteAt mem (o + (i - p)) else byteAt buf i := by
  rw [byteAt_putBE32 _ _ _ _ h]
  obtain ⟨b0, b1, b2, b3⟩ := be32_bytes mem o
  by_cases h0 : i = p
  · subst h0; simp [b0]
  by_cases h1 : i = p + 1
  · subst h1; simp [b1]
  by_cases h2 : i = p + 2
  · subst h2; simp [b2]
  by_cases h3 : i = p + 3
  · subst h3; simp [b3]
  have hn : ¬ (p ≤ i ∧ i < p + 4) := by omega
  simp [h0, h1, h2, h3, hn]

/-- C5 (record round trip): for every block `b` of `INDEX_RECORD_SIZE` = 60 bytes
lying at the position of record `msgno` in the mapped index,
`mailbox_read_index_record` returns a record, and encoding that record with
`mailbox_index_record_to_buf` into a 60-byte buffer yields exactly `b`, on
hosts of either byte order. -/
theorem record_roundtrip (le : Bool) (m : mailbox) (msgno : Nat) (buf b : List Byte)
    (h1 : 1 ≤ msgno) (hmsg : msgno < 4294967296)
    (hs : m.start_offset < 4294967296) (hr : m.record_size < 4294967296)
    (hbuf : buf.length = INDEX_RECORD_SIZE) (hb : b.length = INDEX_RECORD_SIZE)
    (hrec : slice m.index_base (m.start_offset + (msgno - 1) * m.record_size) INDEX_RECORD_SIZE = b) :
    ∃ r, mailbox_read_index_record le m msgno = .ok r ∧
      mailbox_index_record_to_buf le r buf = b := by
  rw [INDEX_RECORD_SIZE_eq] at hbuf hb hrec
  have hlen : m.start_offset + (msgno - 1) * m.record_size + 60 ≤ m.index_len := by
    have := congrArg List.length hrec
    simp only [slice, List.length_take, List.length_drop, hb, mailbox.index_len] at this ⊢
    omega
  refine ⟨recordBE m.index_base (m.start_offset + (msgno - 1) * m.record_size), ?_, ?_⟩
  · rw [read_index_record_eq le m msgno h1 hmsg hs hr, INDEX_RECORD_SIZE_eq, if_neg (by omega)]
  · generalize m.start_offset + (msgno - 1) * m.record_size = off at *
    have hlenr : (mailbox_index_record_to_buf le (recordBE m.index_base off) buf).length = 60 := by
      simp [mailbox_index_record_to_buf, store32_htonl, length_putBE32, range_user_flags, hbuf]
    apply ext_byteAt
    · rw [hlenr, hb]
    · intro i hi
      rw [hlenr] at hi
      rw [← hrec, byteAt_slice _ _ _ _ hi]
      simp only [mailbox_index_record_to_buf, store32_htonl, range_user_flags, List.foldl,
        recordBE, List.getD_cons_zero, List.getD_cons_succ, OFFSET_UID,
        OFFSET_INTERNALDATE, OFFSET_SENTDATE, OFFSET_SIZE, OFFSET_HEADER_SIZE,
        OFFSET_CONTENT_OFFSET, OFFSET_CACHE_OFFSET, OFFSET_LAST_UPDATED, OFFSET_SYSTEM_FLAGS,
        OFFSET_USER_FLAGS, OFFSET_CONTENT_LINES, OFFSET_CACHE_VERSION, MAX_USER_FLAGS]
      simp only [toU32_natCast, Nat.mod_mod, be32_mod]
      interval_cases i <;> simp [byteAt_putBE32_be32, length_putBE32, hbuf]


theorem recordBE_eq_recordNtohl (le : Bool) (mem : List Byte) (off : Nat) :
    recordBE mem off = recordNtohl le mem off := by
  simp only [recordBE, recordNtohl, ntohl_load32]

/-- C7: for `msgno >= 1` (an `unsigned`, the stored `start_offset` and
`record_size` being 32-bit values), `mailbox_read_index_record` returns
`IMAP_IOERROR` exactly when `start_offset + (msgno-1)*record_size +
INDEX_RECORD_SIZE` exceeds the mapped index length; otherwise it returns the
record whose fields are the big-endian 32-bit integers at the fixed offsets from
that position, which is also the record an `ntohl`-based reader obtains. -/
theorem read_index_record_spec (le : Bool) (m : mailbox) (msgno : Nat)
    (h1 : 1 ≤ msgno) (hmsg : msgno < 4294967296)
    (hs : m.start_offset < 4294967296) (hr : m.record_size < 4294967296) :
    (mailbox_read_index_record le m msgno = .error IMAP_IOERROR ↔
      m.start_offset + (msgno - 1) * m.record_size + INDEX_RECORD_SIZE > m.index_len) ∧
    (¬ (m.start_offset + (msgno - 1) * m.record_size + INDEX_RECORD_SIZE > m.index_len) →
      mailbox_read_index_record le m msgno
          = .ok (recordBE m.index_base (m.start_offset + (msgno - 1) * m.record_size)) ∧
        recordBE m.index_base (m.start_offset + (msgno - 1) * m.record_size)
          = recordNtohl le m.index_base (m.start_offset + (msgno - 1) * m.record_size)) := by
  rw [read_index_record_eq le m msgno h1 hmsg hs hr]
  constructor
  · by_cases h : m.start_offset + (msgno - 1) * m.record_size + INDEX_RECORD_SIZE > m.index_len
    · simp [h]
    · simp [h]
  · intro h
    exact ⟨by rw [if_neg h], recordBE_eq_recordNtohl le _ _⟩

/-! ## `mailbox_read_index_header` -/

theorem record_roundtrip_witness :
    ∃ r, mailbox_read_index_record true
        { zeromailbox with index_base := sample_record_index, start_offset := 4,
                           record_size := 60 } 1 = .ok r ∧
      mailbox_index_record_to_buf true r (List.replicate 60 0) = sample_record_index.drop 4 :=
  record_roundtrip true
    { zeromailbox with index_base := sample_record_index, start_offset := 4, record_size := 60 }
    1 (List.replicate 60 0) (sample_record_index.drop 4)
    (by decide) (by decide) (by decide) (by decide) (by decide) (by decide) (by decide)

theorem read_index_record_spec_witness :
    (mailbox_read_index_record false
        { zeromailbox with index_base := sample_record_index, start_offset := 4,
                           record_size := 60 } 1 = .error IMAP_IOERROR ↔
      4 + (1 - 1) * 60 + INDEX_RECORD_SIZE > sample_record_index.length) ∧
    (¬ (4 + (1 - 1) * 60 + INDEX_RECORD_SIZE > sample_record_index.length) →
      mailbox_read_index_record false
        { zeromailbox with index_base := sample_record_index, start_offset := 4,
                           record_size := 60 } 1
          = .ok (recordBE sample_record_index (4 + (1 - 1) * 60)) ∧
        recordBE sample_record_index (4 + (1 - 1) * 60)
          = recordNtohl false sample_record_index (4 + (1 - 1) * 60)) :=
  read_index_record_spec false
    { zeromailbox with index_base := sample_record_index, start_offset := 4, record_size := 60 }
    1 (by decide) (by decide) (by decide) (by decide)
theorem read_index_header_current (le reconstruct : Bool) (env : os_env) (m : mailbox)
    (hfd : m.index_fd ≠ -1) (hlen : INDEX_HEADER_SIZE ≤ m.index_len)
    (hso : be32 m.index_base OFFSET_START_OFFSET = INDEX_HEADER_SIZE)
    (hrs : be32 m.index_base OFFSET_RECORD_SIZE = INDEX_RECORD_SIZE)
    (hmv : be32 m.index_base OFFSET_MINOR_VERSION = MAILBOX_MINOR_VERSION)
    (hgen : reconstruct = false → m.generation_no = be32 m.index_base OFFSET_GENERATION_NO) :
    mailbox_read_index_header le reconstruct env m = .ok (snapshotBE m) := by
  have hgen' : (if reconstruct = true then be32 m.index_base OFFSET_GENERATION_NO
      else m.generation_no) = be32 m.index_base OFFSET_GENERATION_NO := by
    cases reconstruct
    · simp [hgen rfl]
    · simp
  unfold mailbox_read_index_header
  simp only [ntohl_load32, hso, hrs, hmv]
  have hlen' : ¬ (m.index_len < OFFSET_POP3_LAST_LOGIN ∨ m.index_len < INDEX_HEADER_SIZE) := by
    have : INDEX_HEADER_SIZE = 76 := rfl
    have : OFFSET_POP3_LAST_LOGIN = 40 := rfl
    omega
  have hq : (if toInt32 MAILBOX_MINOR_VERSION ≤ (5 : Int) then (4 : Nat) else 0) = 0 := by decide
  have c1 : ¬ (INDEX_HEADER_SIZE < OFFSET_POP3_LAST_LOGIN + 4) := by decide
  have c2 : ¬ (INDEX_HEADER_SIZE < OFFSET_UIDVALIDITY + 4) := by decide
  have c3 : ¬ (INDEX_HEADER_SIZE < OFFSET_FLAGGED + 4) := by decide
  have c4 : ¬ (INDEX_HEADER_SIZE < OFFSET_POP3_NEW_UIDL + 4) := by decide
  have c5 : ¬ (INDEX_HEADER_SIZE < OFFSET_LEAKED_CACHE + 4) := by decide
  have c6 : ¬ (INDEX_RECORD_SIZE < INDEX_RECORD_SIZE) := by decide
  have c7 : ¬ ((!reconstruct) = true ∧ toInt32 MAILBOX_MINOR_VERSION < (MAILBOX_MINOR_VERSION : Int)) := by
    intro h; exact absurd h.2 (by decide)
  simp only [hfd, hlen', hq, c1, c2, c3, c4, c5, c6, c7, if_false, Nat.sub_zero, Bool.false_eq_true,
    hgen']
  unfold snapshotBE
  simp only [hso, hrs, hmv]
theorem toU32_toInt32 (v : Nat) (h : v < 4294967296) : toU32 (toInt32 v) = v := by
  unfold toU32 toInt32
  rw [Nat.mod_eq_of_lt h]
  split_ifs <;> omega

theorem be32_eq_zero (mem : List Byte) (o : Nat) (h : be32 mem o = 0) :
    byteAt mem o = 0 ∧ byteAt mem (o + 1) = 0 ∧ byteAt mem (o + 2) = 0 ∧ byteAt mem (o + 3) = 0 := by
  unfold be32 at h; omega

theorem byteAt_putBE32_zero (buf : List Byte) (p i : Nat) (h : p + 4 ≤ buf.length) :
    byteAt (putBE32 buf p 0) i = if p ≤ i ∧ i < p + 4 then 0 else byteAt buf i := by
  rw [byteAt_putBE32 _ _ _ _ h]
  by_cases h0 : i = p
  · subst h0; simp
  by_cases h1 : i = p + 1
  · subst h1; simp
  by_cases h2 : i = p + 2
  · subst h2; simp
  by_cases h3 : i = p + 3
  · subst h3; simp
  have hn : ¬ (p ≤ i ∧ i < p + 4) := by omega
  simp [h0, h1, h2, h3, hn]

theorem byteAt_replicate_zero (n i : Nat) : byteAt (List.replicate n (0 : Byte)) i = 0 := by
  unfold byteAt
  by_cases h : i < n
  · simp [List.getD_eq_getElem?_getD, List.getElem?_replicate, h]
  · simp [List.getD_eq_getElem?_getD, List.getElem?_replicate, h]

theorem be32_putBE32_same (buf : List Byte) (p v : Nat) (h : p + 4 ≤ buf.length) :
    be32 (putBE32 buf p v) p = v % 4294967296 := by
  unfold be32
  rw [byteAt_putBE32 _ _ _ _ h, byteAt_putBE32 _ _ _ _ h, byteAt_putBE32 _ _ _ _ h,
    byteAt_putBE32 _ _ _ _ h]
  simp
  omega

theorem byteAt_putBE32_ne (buf : List Byte) (p v i : Nat) (h : i < p ∨ p + 4 ≤ i) :
    byteAt (putBE32 buf p v) i = byteAt buf i := by
  unfold putBE32
  rw [byteAt_set, byteAt_set, byteAt_set, byteAt_set]
  rw [if_neg (by omega), if_neg (by omega), if_neg (by omega), if_neg (by omega)]

theorem be32_putBE32_disj (buf : List Byte) (p v o : Nat) (h : o + 4 ≤ p ∨ p + 4 ≤ o) :
    be32 (putBE32 buf p v) o = be32 buf o := by
  unfold be32
  rw [byteAt_putBE32_ne _ _ _ _ (by omega), byteAt_putBE32_ne _ _ _ _ (by omega),
    byteAt_putBE32_ne _ _ _ _ (by omega), byteAt_putBE32_ne _ _ _ _ (by omega)]

theorem be32_replicate_zero (n o : Nat) : be32 (List.replicate n (0 : Byte)) o = 0 := by
  simp [be32, byteAt_replicate_zero]

theorem be32_inj_bytes (l1 l2 : List Byte) (o : Nat) (h : be32 l1 o = be32 l2 o) :
    byteAt l1 o = byteAt l2 o ∧ byteAt l1 (o + 1) = byteAt l2 (o + 1) ∧
    byteAt l1 (o + 2) = byteAt l2 (o + 2) ∧ byteAt l1 (o + 3) = byteAt l2 (o + 3) := by
  obtain ⟨a0, a1, a2, a3⟩ := be32_bytes l1 o
  obtain ⟨b0, b1, b2, b3⟩ := be32_bytes l2 o
  rw [← a0, ← a1, ← a2, ← a3, ← b0, ← b1, ← b2, ← b3, h]
  exact ⟨rfl, rfl, rfl, rfl⟩

theorem ext_be32 (l1 l2 : List Byte) (n : Nat) (h1 : l1.length = 4 * n) (h2 : l2.length = 4 * n)
    (h : ∀ k, k < n → be32 l1 (4 * k) = be32 l2 (4 * k)) : l1 = l2 := by
  apply ext_byteAt _ _ (by rw [h1, h2])
  intro i hi
  obtain ⟨e0, e1, e2, e3⟩ := be32_inj_bytes _ _ _ (h (i / 4) (by omega))
  have hcases : i = 4 * (i / 4) ∨ i = 4 * (i / 4) + 1 ∨ i = 4 * (i / 4) + 2 ∨ i = 4 * (i / 4) + 3 := by
    omega
  rcases hcases with c | c | c | c <;> rw [c] <;> assumption

theorem index_header_buf_snapshotBE (le : Bool) (m : mailbox)
    (hlen : INDEX_HEADER_SIZE ≤ m.index_len)
    (hq : be32 m.index_base OFFSET_QUOTA_RESERVED_FIELD = 0)
    (hs1 : be32 m.index_base OFFSET_SPARE1 = 0) (hs2 : be32 m.index_base OFFSET_SPARE2 = 0)
    (hnu : be32 m.index_base OFFSET_POP3_NEW_UIDL = 1 ∨
      (be32 m.index_base OFFSET_POP3_NEW_UIDL = 0 ∧ be32 m.index_base OFFSET_EXISTS ≠ 0)) :
    index_header_buf le (snapshotBE m) = m.index_base.take INDEX_HEADER_SIZE := by
  have huidl : toU32 (if be32 m.index_base OFFSET_EXISTS = 0 ∨
      be32 m.index_base OFFSET_POP3_NEW_UIDL ≠ 0 then 1 else 0)
      = be32 m.index_base OFFSET_POP3_NEW_UIDL := by
    rcases hnu with h | ⟨h, h'⟩
    · rw [if_pos (Or.inr (by omega)), h]; rfl
    · rw [if_neg (by omega), h]; rfl
  have hbuf : (index_header_buf le (snapshotBE m)).length = 76 := by
    simp [index_header_buf, store32_htonl, length_putBE32, INDEX_HEADER_SIZE_eq]
  rw [INDEX_HEADER_SIZE_eq] at hlen ⊢
  unfold mailbox.index_len at hlen
  apply ext_be32 _ _ 19 hbuf (by rw [List.length_take]; omega)
  intro k hk
  rw [be32_take _ _ _ (by omega)]
  simp only [index_header_buf, snapshotBE, store32_htonl, huidl, toU32_natCast,
    toU32_toInt32 _ (be32_lt _ _), Nat.mod_mod, be32_mod, Nat.zero_mod, INDEX_HEADER_SIZE_eq]
  simp only [OFFSET_GENERATION_NO, OFFSET_FORMAT, OFFSET_MINOR_VERSION, OFFSET_START_OFFSET,
    OFFSET_RECORD_SIZE, OFFSET_EXISTS, OFFSET_LAST_APPENDDATE, OFFSET_LAST_UID,
    OFFSET_QUOTA_RESERVED_FIELD, OFFSET_QUOTA_MAILBOX_USED, OFFSET_POP3_LAST_LOGIN,
    OFFSET_UIDVALIDITY, OFFSET_DELETED, OFFSET_ANSWERED, OFFSET_FLAGGED, OFFSET_POP3_NEW_UIDL,
    OFFSET_LEAKED_CACHE, OFFSET_SPARE1, OFFSET_SPARE2] at hq hs1 hs2 ⊢
  interval_cases k <;>
    simp [be32_putBE32_same, be32_putBE32_disj, length_putBE32, be32_replicate_zero, be32_mod,
      hq, hs1, hs2]
theorem be32_append_left (b rest : List Byte) (o : Nat) (h : o + 4 ≤ b.length) :
    be32 (b ++ rest) o = be32 b o := by
  have e : ∀ i, i < b.length → byteAt (b ++ rest) i = byteAt b i := by
    intro i hi
    simp [byteAt, List.getD_eq_getElem?_getD, List.getElem?_append_left hi]
  unfold be32
  rw [e _ (by omega), e _ (by omega), e _ (by omega), e _ (by omega)]

/-- C6 (amended): for every 76-byte header block `b` of the current layout
(stored start offset 76, record size 60, minor version 6) whose reserved words
(quota-reserved, spare 1, spare 2) are 0 and whose `pop3_new_uidl` word is 1, or
0 with `exists` nonzero, `mailbox_open_index` decodes a snapshot from an index
starting with `b`, and the bytes `mailbox_write_index_header` writes for that
snapshot are exactly `b`. -/
theorem index_header_roundtrip (le reconstruct : Bool) (env : os_env) (obs : Nat → files_obs)
    (m0 : mailbox) (b rest cache : List Byte)
    (hb : b.length = INDEX_HEADER_SIZE)
    (hso : be32 b OFFSET_START_OFFSET = INDEX_HEADER_SIZE)
    (hrs : be32 b OFFSET_RECORD_SIZE = INDEX_RECORD_SIZE)
    (hmv : be32 b OFFSET_MINOR_VERSION = MAILBOX_MINOR_VERSION)
    (hq : be32 b OFFSET_QUOTA_RESERVED_FIELD = 0)
    (hs1 : be32 b OFFSET_SPARE1 = 0) (hs2 : be32 b OFFSET_SPARE2 = 0)
    (hnu : be32 b OFFSET_POP3_NEW_UIDL = 1 ∨
      (be32 b OFFSET_POP3_NEW_UIDL = 0 ∧ be32 b OFFSET_EXISTS ≠ 0))
    (hobs : obs 0 = ⟨some (b ++ rest), some cache⟩)
    (hcache : 4 ≤ cache.length)
    (hgen : be32 cache OFFSET_GENERATION_NO = be32 b OFFSET_GENERATION_NO)
    (hlock : m0.index_lock_count ≠ 0) (hw : env.write_ok = true) :
    ∃ m, mailbox_open_index le reconstruct env obs m0 = .ok m ∧
      mailbox_write_index_header le env m = some (.ok b) := by
  have hb76 : b.length = 76 := hb
  have a0 : be32 (b ++ rest) OFFSET_GENERATION_NO = be32 b OFFSET_GENERATION_NO :=
    be32_append_left _ _ _ (by rw [hb76]; decide)
  -- the state handed to `mailbox_read_index_header`
  have key : ∀ m1 : mailbox, m1.index_fd ≠ -1 → m1.index_base = b ++ rest →
      m1.index_lock_count = m0.index_lock_count →
      (reconstruct = false → m1.generation_no = be32 b OFFSET_GENERATION_NO) →
      ∃ m, mailbox_read_index_header le reconstruct env m1 = .ok m ∧
        mailbox_write_index_header le env m = some (.ok b) := by
    intro m1 hfd hbase hlk hg
    have hlen : INDEX_HEADER_SIZE ≤ m1.index_len := by
      unfold mailbox.index_len; rw [hbase, List.length_append, hb]; omega
    refine ⟨snapshotBE m1, ?_, ?_⟩
    · apply read_index_header_current le reconstruct env m1 hfd hlen
      · rw [hbase, be32_append_left _ _ _ (by rw [hb76]; decide)]; exact hso
      · rw [hbase, be32_append_left _ _ _ (by rw [hb76]; decide)]; exact hrs
      · rw [hbase, be32_append_left _ _ _ (by rw [hb76]; decide)]; exact hmv
      · intro hr; rw [hbase, a0]; exact hg hr
    · have hbuf := index_header_buf_snapshotBE le m1 hlen
        (by rw [hbase, be32_append_left _ _ _ (by rw [hb76]; decide)]; exact hq)
        (by rw [hbase, be32_append_left _ _ _ (by rw [hb76]; decide)]; exact hs1)
        (by rw [hbase, be32_append_left _ _ _ (by rw [hb76]; decide)]; exact hs2)
        (by rw [hbase, be32_append_left _ _ _ (by rw [hb76]; decide),
              be32_append_left _ _ _ (by rw [hb76]; decide)]; exact hnu)
      have htake : (b ++ rest).take INDEX_HEADER_SIZE = b := by
        rw [← hb]; exact List.take_left' rfl
      have hst : (snapshotBE m1).start_offset = INDEX_HEADER_SIZE := by
        show be32 m1.index_base OFFSET_START_OFFSET = INDEX_HEADER_SIZE
        rw [hbase, be32_append_left _ _ _ (by rw [hb76]; decide)]; exact hso
      have hlk' : (snapshotBE m1).index_lock_count ≠ 0 := by
        show m1.index_lock_count ≠ 0
        rw [hlk]; exact hlock
      unfold mailbox_write_index_header
      rw [if_neg hlk', hbuf, hbase, htake, hst]
      simp [hw, hb]
  obtain ⟨m0', hm0', hlk0⟩ : ∃ m0' : mailbox,
      (if (if m0.index_fd ≠ -1 then { m0 with index_base := [] } else m0).cache_fd ≠ -1 then
        { (if m0.index_fd ≠ -1 then { m0 with index_base := [] } else m0) with cache_base := [] }
       else (if m0.index_fd ≠ -1 then { m0 with index_base := [] } else m0)) = m0' ∧
      m0'.index_lock_count = m0.index_lock_count := by
    refine ⟨_, rfl, ?_⟩
    split_ifs <;> rfl
  unfold mailbox_open_index
  simp only [hm0']
  unfold open_index_loop open_index_attempt
  rw [hobs]
  cases reconstruct
  · have hl : ¬ ((b ++ rest).length < 4 ∨ cache.length < 4) := by
      rw [List.length_append, hb76]; omega
    simp only [mailbox.index_len, mailbox.cache_len, ntohl_load32, a0, hgen, hl, if_false,
      Bool.false_eq_true, ne_eq, not_true_eq_false]
    simp only [show ((0 : Int) = -1) = False from by decide, if_false]
    rw [if_neg (fun h => h trivial)]
    exact key _ (by show (0 : Int) ≠ -1; decide) rfl hlk0 (fun _ => rfl)
  · simp only [if_true]
    exact key _ (by show (0 : Int) ≠ -1; decide) rfl hlk0 (fun h => by cases h)

/-- On a mailbox with no index and no cache file open, `mailbox_open_index`
has nothing to unmap and goes straight to its retry loop. -/
theorem mailbox_open_index_fresh (le reconstruct : Bool) (env : os_env) (obs : Nat → files_obs)
    (m : mailbox) (hi : m.index_fd = -1) (hc : m.cache_fd = -1) :
    mailbox_open_index le reconstruct env obs m
      = open_index_loop le reconstruct env obs m MAXTRIES 0 := by
  unfold mailbox_open_index
  simp only [hi, hc, ne_eq, not_true_eq_false, if_false]

/-- C6 (counterexample): for the current-layout header `unnormalised_header`,
whose `pop3_new_uidl` word is 2 and whose last spare byte is 1,
`mailbox_open_index` decodes a snapshot, and `mailbox_write_index_header`
writes 76 bytes for it that differ from the header at bytes 63 and 75. -/
theorem index_header_roundtrip_fails :
    unnormalised_header.length = INDEX_HEADER_SIZE ∧
    be32 unnormalised_header OFFSET_START_OFFSET = INDEX_HEADER_SIZE ∧
    be32 unnormalised_header OFFSET_RECORD_SIZE = INDEX_RECORD_SIZE ∧
    be32 unnormalised_header OFFSET_MINOR_VERSION = MAILBOX_MINOR_VERSION ∧
    ∃ m w, mailbox_open_index true false os_ok
        (fun _ => ⟨some unnormalised_header, some [0, 0, 0, 5]⟩)
        { zeromailbox with index_lock_count := 1 } = .ok m ∧
      mailbox_write_index_header true os_ok m = some (.ok w) ∧
      w ≠ unnormalised_header ∧
      byteAt unnormalised_header 63 = 2 ∧ byteAt w 63 = 1 ∧
      byteAt unnormalised_header 75 = 1 ∧ byteAt w 75 = 0 := by
  refine ⟨by decide, by decide, by decide, by decide, ?_⟩
  exact ⟨_, current_header, (mailbox_open_index_fresh _ _ _ _ _ rfl rfl).trans rfl, rfl,
    by decide, by decide, by decide, by decide, by decide⟩

theorem index_header_roundtrip_witness :
    ∃ m, mailbox_open_index true false os_ok
        (fun _ => ⟨some (current_header ++ sample_record_index.drop 4), some [0, 0, 0, 5]⟩)
        { zeromailbox with index_lock_count := 1 } = .ok m ∧
      mailbox_write_index_header true os_ok m = some (.ok current_header) :=
  index_header_roundtrip true false os_ok
    (fun _ => ⟨some (current_header ++ sample_record_index.drop 4), some [0, 0, 0, 5]⟩)
    { zeromailbox with index_lock_count := 1 } current_header (sample_record_index.drop 4)
    [0, 0, 0, 5] (by decide) (by decide) (by decide) (by decide) (by decide) (by decide)
    (by decide) (by decide) rfl (by decide) (by decide) (by decide) rfl

/-! ## `mailbox_append_index` -/

/-- C8 (the code at the failing input): `mailbox_append_index` called at time
1000 with one record whose `last_updated` is 0 and whose `internaldate` is 5
leaves `last_updated` at 0, in the record and in the encoded bytes, and
replaces the positive `internaldate` by 1000. -/
theorem append_index_last_updated_not_checked :
    ∃ buf, mailbox_append_index true os_ok
        { zeromailbox with index_lock_count := 1, start_offset := 76, record_size := 60 }
        [stale_record] 0 1 1000
      = some (.ok ([{ stale_record with internaldate := 1000 }], 76, buf)) ∧
    stale_record.last_updated = 0 ∧ be32 buf OFFSET_LAST_UPDATED = 0 ∧
    stale_record.internaldate = 5 ∧ be32 buf OFFSET_INTERNALDATE = 1000 :=
  ⟨_, rfl, by decide, by decide, by decide, by decide⟩

theorem length_slice (mem : List Byte) (off n : Nat) (h : off + n ≤ mem.length) :
    (slice mem off n).length = n := by
  simp [slice]; omega

theorem length_flatten_blocks (bs : List (List Byte)) (n : Nat) (hbs : ∀ b ∈ bs, b.length = n) :
    bs.flatten.length = n * bs.length := by
  induction bs with
  | nil => simp
  | cons b bs ih =>
    rw [List.flatten_cons, List.length_append, hbs b (List.mem_cons_self _ _),
      ih (fun x hx => hbs x (List.mem_cons_of_mem _ hx)), List.length_cons]
    ring

theorem drop_flatten_blocks (bs : List (List Byte)) (n k : Nat) (hbs : ∀ b ∈ bs, b.length = n) :
    bs.flatten.drop (n * k) = (bs.drop k).flatten := by
  induction bs generalizing k with
  | nil => simp
  | cons b bs ih =>
    cases k with
    | zero => simp
    | succ k =>
      rw [List.flatten_cons, List.drop_succ_cons, ← ih k (fun x hx => hbs x (List.mem_cons_of_mem _ hx))]
      have hb := hbs b (List.mem_cons_self _ _)
      rw [show n * (k + 1) = b.length + n * k from by rw [hb]; ring, List.drop_append]

theorem slice_flatten_blocks (pre : List Byte) (bs : List (List Byte)) (n k : Nat)
    (hbs : ∀ b ∈ bs, b.length = n) (hk : k < bs.length) :
    slice (pre ++ bs.flatten) (pre.length + n * k) n = bs[k] := by
  unfold slice
  rw [List.drop_append, drop_flatten_blocks bs n k hbs]
  have hd : bs.drop k = bs[k] :: bs.drop (k + 1) := (List.drop_eq_getElem_cons hk)
  rw [hd, List.flatten_cons]
  exact List.take_left' (hbs _ (List.getElem_mem _))


/-! ## `mailbox_upgrade_index` -/

theorem length_upgrade_header_buf (le : Bool) (m : mailbox) :
    (upgrade_header_buf le m).length = 76 := by
  simp [upgrade_header_buf, store32_htonl, length_putBE32, INDEX_HEADER_SIZE_eq]

theorem upgrade_header_buf_fields (le : Bool) (m : mailbox) :
    be32 (upgrade_header_buf le m) OFFSET_GENERATION_NO = m.generation_no % 4294967296 ∧
    be32 (upgrade_header_buf le m) OFFSET_MINOR_VERSION = toU32 m.minor_version ∧
    be32 (upgrade_header_buf le m) OFFSET_START_OFFSET = m.start_offset % 4294967296 ∧
    be32 (upgrade_header_buf le m) OFFSET_RECORD_SIZE = m.record_size % 4294967296 ∧
    be32 (upgrade_header_buf le m) OFFSET_EXISTS = m.«exists» % 4294967296 := by
  have ht : ∀ x : Int, toU32 x % 4294967296 = toU32 x := by
    intro x; unfold toU32; omega
  simp only [upgrade_header_buf, store32_htonl, OFFSET_GENERATION_NO, OFFSET_FORMAT,
    OFFSET_MINOR_VERSION, OFFSET_START_OFFSET,
    OFFSET_RECORD_SIZE, OFFSET_EXISTS, OFFSET_LAST_APPENDDATE, OFFSET_LAST_UID,
    OFFSET_QUOTA_MAILBOX_USED, OFFSET_POP3_LAST_LOGIN,
    OFFSET_UIDVALIDITY, OFFSET_DELETED, OFFSET_ANSWERED, OFFSET_FLAGGED, OFFSET_POP3_NEW_UIDL,
    OFFSET_LEAKED_CACHE, INDEX_HEADER_SIZE_eq]
  refine ⟨?_, ?_, ?_, ?_, ?_⟩ <;>
    simp [be32_putBE32_same, be32_putBE32_disj, length_putBE32, ht]

theorem upgrade_record_buf_eq (le : Bool) (r : Nat) (buf : List Byte) :
    upgrade_record_buf le r buf =
      (if r < 60 then putBE32 (if r < 56 then putBE32 buf 52 4294967295 else buf) 56 0
       else (if r < 56 then putBE32 buf 52 4294967295 else buf)) := by
  simp only [upgrade_record_buf, store32_htonl]
  rfl

theorem length_upgrade_record_buf (le : Bool) (r : Nat) (buf : List Byte) :
    (upgrade_record_buf le r buf).length = buf.length := by
  rw [upgrade_record_buf_eq]
  split_ifs <;> simp [length_putBE32]

theorem putBE32_absorb (buf : List Byte) (p v : Nat) (h : p + 4 ≤ buf.length)
    (hv : be32 buf p = v % 4294967296) : putBE32 buf p v = buf := by
  apply ext_byteAt _ _ (length_putBE32 _ _ _)
  intro i _
  rw [byteAt_putBE32 _ _ _ _ h]
  obtain ⟨b0, b1, b2, b3⟩ := be32_bytes buf p
  rw [hv] at b0 b1 b2 b3
  split_ifs with c0 c1 c2 c3
  · rw [c0, ← b0]; omega
  · rw [c1, ← b1]; omega
  · rw [c2, ← b2]; omega
  · rw [c3, ← b3]; omega
  · rfl

theorem upgrade_record_buf_idem (le : Bool) (r : Nat) (buf : List Byte) (h : buf.length = 76) :
    upgrade_record_buf le r (upgrade_record_buf le r buf) = upgrade_record_buf le r buf := by
  simp only [upgrade_record_buf_eq]
  by_cases h56 : r < 56
  · have h60 : r < 60 := by omega
    simp only [h56, h60, if_true]
    have e1 : putBE32 (putBE32 (putBE32 buf 52 4294967295) 56 0) 52 4294967295
        = putBE32 (putBE32 buf 52 4294967295) 56 0 := by
      apply putBE32_absorb _ _ _ (by simp [length_putBE32, h])
      rw [be32_putBE32_disj _ _ _ _ (by omega), be32_putBE32_same _ _ _ (by omega)]
    rw [e1]
    apply putBE32_absorb _ _ _ (by simp [length_putBE32, h])
    rw [be32_putBE32_same _ _ _ (by simp [length_putBE32, h])]
  · by_cases h60 : r < 60
    · simp only [h56, h60, if_true, if_false]
      apply putBE32_absorb _ _ _ (by simp [length_putBE32, h])
      rw [be32_putBE32_same _ _ _ (by omega)]
    · simp only [h56, h60, if_false]

theorem upgrade_record_buf_fields (le : Bool) (r : Nat) (buf : List Byte) (h : buf.length = 76) :
    (r < 56 → be32 (upgrade_record_buf le r buf) OFFSET_CONTENT_LINES = BIT32_MAX) ∧
    (r < 60 → be32 (upgrade_record_buf le r buf) OFFSET_CACHE_VERSION = 0) := by
  rw [upgrade_record_buf_eq]
  have h52 : OFFSET_CONTENT_LINES = 52 := rfl
  have h56 : OFFSET_CACHE_VERSION = 56 := rfl
  rw [h52, h56]
  constructor
  · intro hr
    rw [if_pos (by omega), if_pos hr, be32_putBE32_disj _ _ _ _ (by omega),
      be32_putBE32_same _ _ _ (by omega)]
    rfl
  · intro hr
    rw [if_pos hr, be32_putBE32_same _ _ _ (by split_ifs <;> simp [length_putBE32, h])]


/-- The loop of `mailbox_upgrade_index` for `exists` below 2^32 - 1: it is left
after `exists` passes, having written one new record per old record. -/
theorem upgrade_index_loop_eq (le : Bool) (ib : List Byte) (ex s r : Nat) (ub : List Byte)
    (hr : r ≤ 60) (hub : upgrade_record_buf le r ub = ub) (hex : ex < 4294967295) :
    ∀ (n fuel msgno : Nat) (buf acc : List Byte), 1 ≤ msgno → msgno + n = ex + 1 → n < fuel →
      s + (msgno - 1 + n) * r < 4294967296 + r → upgrade_record_buf le r buf = ub →
      ∃ b, upgrade_index_loop le ib ex s r ((INDEX_RECORD_SIZE + 4294967296 - r) % 4294967296)
          fuel msgno (buf, acc)
        = some (b, acc ++ ((List.range' msgno n).map
            (fun j => slice ib (s + (j - 1) * r) r ++ slice ub r (60 - r))).flatten) := by
  have hdiff : (INDEX_RECORD_SIZE + 4294967296 - r) % 4294967296 = 60 - r := by
    rw [INDEX_RECORD_SIZE_eq]; omega
  rw [hdiff]
  intro n
  induction n with
  | zero =>
    intro fuel msgno buf acc _ hm hf _ _
    obtain ⟨f, rfl⟩ : ∃ f, fuel = f + 1 := ⟨fuel - 1, by omega⟩
    unfold upgrade_index_loop
    rw [if_neg (by omega)]
    exact ⟨buf, by simp⟩
  | succ n ih =>
    intro fuel msgno buf acc h1 hm hf hw hbuf
    obtain ⟨f, rfl⟩ : ∃ f, fuel = f + 1 := ⟨fuel - 1, by omega⟩
    have hle : (msgno - 1) * r + r ≤ (msgno - 1 + (n + 1)) * r := by
      have : (msgno - 1 + 1) * r ≤ (msgno - 1 + (n + 1)) * r :=
        Nat.mul_le_mul_right _ (by omega)
      have e : (msgno - 1 + 1) * r = (msgno - 1) * r + r := by ring
      omega
    have hprev : (msgno + 4294967295) % 4294967296 = msgno - 1 := by omega
    have hoff : s + ((msgno - 1) * r) % 4294967296 = s + (msgno - 1) * r := by
      rw [Nat.mod_eq_of_lt (a := (msgno - 1) * r) (by omega)]
    have hsucc : (msgno + 1) % 4294967296 = msgno + 1 := by omega
    have hnext : msgno + 1 - 1 + n = msgno - 1 + (n + 1) := by omega
    rw [List.range'_succ, List.map_cons, List.flatten_cons]
    unfold upgrade_index_loop
    rw [if_pos (by omega)]
    simp only [hprev, hoff, hsucc]
    by_cases hd : 60 - r ≠ 0
    · rw [if_pos hd]
      obtain ⟨b, hb⟩ := ih f (msgno + 1) (upgrade_record_buf le r buf)
        (acc ++ List.take r (List.drop (s + (msgno - 1) * r) ib) ++
          List.take (60 - r) (List.drop r (upgrade_record_buf le r buf)))
        (by omega) (by omega) (by omega) (by rw [hnext]; exact hw) (by rw [hbuf]; exact hub)
      refine ⟨b, ?_⟩
      rw [hb, hbuf]
      simp [slice, List.append_assoc]
    · rw [if_neg hd]
      obtain ⟨b, hb⟩ := ih f (msgno + 1) buf
        (acc ++ List.take r (List.drop (s + (msgno - 1) * r) ib))
        (by omega) (by omega) (by omega) (by rw [hnext]; exact hw) hbuf
      refine ⟨b, ?_⟩
      rw [hb]
      have h0 : 60 - r = 0 := by omega
      simp [slice, h0, List.append_assoc]

/-- With `exists` of 2^32 - 1 or more the condition `msgno <= mailbox->exists`
of the loop of `mailbox_upgrade_index` holds for every value of the `unsigned`
`msgno`: the loop is never left. -/
theorem upgrade_index_loop_never_ends (le : Bool) (ib : List Byte) (ex s r d : Nat)
    (hex : 4294967295 ≤ ex) :
    ∀ (fuel msgno : Nat) (st : List Byte × List Byte), msgno < 4294967296 →
      upgrade_index_loop le ib ex s r d fuel msgno st = none := by
  intro fuel
  induction fuel with
  | zero => intro msgno st _; rfl
  | succ f ih =>
    intro msgno st hm
    obtain ⟨buf, acc⟩ := st
    unfold upgrade_index_loop
    rw [if_pos (by omega)]
    have hlt : (msgno + 1) % 4294967296 < 4294967296 := Nat.mod_lt _ (by decide)
    by_cases hd : d ≠ 0
    · rw [if_pos hd]; exact ih _ _ hlt
    · rw [if_neg hd]; exact ih _ _ hlt

/-- For `exists` of 2^32 - 1 or more, `mailbox_upgrade_index` does not return
once it has its locks and its new file. -/
theorem upgrade_index_never_ends (le : Bool) (env : os_env) (m : mailbox)
    (hlock : lock_all env = none) (hfo : env.fopen_index_ok = true)
    (hex : 4294967295 ≤ m.«exists») :
    mailbox_upgrade_index le env m = none := by
  unfold mailbox_upgrade_index
  simp only [hlock, hfo, Bool.not_true, Bool.false_eq_true, if_false]
  rw [upgrade_index_loop_never_ends le _ _ _ _ _ hex _ _ _ (by decide)]


theorem be32_append_right (l1 l2 : List Byte) (o : Nat) (h : l1.length ≤ o) :
    be32 (l1 ++ l2) o = be32 l2 (o - l1.length) := by
  have e : ∀ i, l1.length ≤ i → byteAt (l1 ++ l2) i = byteAt l2 (i - l1.length) := by
    intro i hi
    simp [byteAt, List.getD_eq_getElem?_getD, List.getElem?_append_right hi]
  unfold be32
  rw [e _ (by omega), e _ (by omega), e _ (by omega), e _ (by omega)]
  have e1 : o + 1 - l1.length = o - l1.length + 1 := by omega
  have e2 : o + 2 - l1.length = o - l1.length + 2 := by omega
  have e3 : o + 3 - l1.length = o - l1.length + 3 := by omega
  rw [e1, e2, e3]

theorem slice_slice_prefix (mem : List Byte) (off n r : Nat) (h : r ≤ n) :
    (slice mem off n).take r = slice mem off r := by
  unfold slice
  rw [List.take_take, Nat.min_eq_left h]

/-- C10: for an index whose old record size `r` is a multiple of 4 with
`r <= 60` (the old records lying inside the mapped index, below 4 GiB, and
`exists` below 0xFFFFFFFF, the one value for which the loop over the records is
never left), `mailbox_upgrade_index` with its locks granted and its writes
succeeding returns 0 and writes an index made of a 76-byte header with start
offset 76, record size 60, minor version 6 and the generation number and
`exists` of the snapshot, followed by `exists` records of 60 bytes; record `k`
starts with the `r` bytes of old record `k`, its `content_lines` is
`0xFFFFFFFF` when `r < 56` and its `cache_version` is 0 when `r < 60`. -/
theorem upgrade_index_spec (le : Bool) (env : os_env) (m : mailbox)
    (hlock : lock_all env = none) (hfo : env.fopen_index_ok = true)
    (hw : env.write_ok = true) (hrn : env.rename_index_ok = true)
    (h4 : m.record_size % 4 = 0) (h60 : m.record_size ≤ INDEX_RECORD_SIZE)
    (hgen : m.generation_no < 4294967296) (hex : m.«exists» < 4294967295)
    (hfit : m.start_offset + m.«exists» * m.record_size < 4294967296)
    (hlen : m.start_offset + m.«exists» * m.record_size ≤ m.index_len) :
    ∃ m' f, mailbox_upgrade_index le env m = some (.ok (m', f)) ∧
      m'.start_offset = INDEX_HEADER_SIZE ∧ m'.record_size = INDEX_RECORD_SIZE ∧
      m'.minor_version = MAILBOX_MINOR_VERSION ∧
      f.length = INDEX_HEADER_SIZE + INDEX_RECORD_SIZE * m.«exists» ∧
      be32 f OFFSET_START_OFFSET = INDEX_HEADER_SIZE ∧
      be32 f OFFSET_RECORD_SIZE = INDEX_RECORD_SIZE ∧
      be32 f OFFSET_MINOR_VERSION = MAILBOX_MINOR_VERSION ∧
      be32 f OFFSET_GENERATION_NO = m.generation_no ∧
      be32 f OFFSET_EXISTS = m.«exists» ∧
      ∀ k, k < m.«exists» →
        slice f (INDEX_HEADER_SIZE + INDEX_RECORD_SIZE * k) m.record_size
          = slice m.index_base (m.start_offset + k * m.record_size) m.record_size ∧
        (m.record_size < 56 →
          be32 f (INDEX_HEADER_SIZE + INDEX_RECORD_SIZE * k + OFFSET_CONTENT_LINES) = BIT32_MAX) ∧
        (m.record_size < 60 →
          be32 f (INDEX_HEADER_SIZE + INDEX_RECORD_SIZE * k + OFFSET_CACHE_VERSION) = 0) := by
  rw [INDEX_RECORD_SIZE_eq] at h60
  have hs32 : m.start_offset % 4294967296 = m.start_offset := Nat.mod_eq_of_lt (by omega)
  have hr32 : m.record_size % 4294967296 = m.record_size := Nat.mod_eq_of_lt (by omega)
  obtain ⟨m1, hm1⟩ : ∃ m1 : mailbox, m1 = { m with
      minor_version := MAILBOX_MINOR_VERSION, start_offset := INDEX_HEADER_SIZE,
      record_size := INDEX_RECORD_SIZE } := ⟨_, rfl⟩
  obtain ⟨hdr, hhdr⟩ : ∃ hdr, hdr = upgrade_header_buf le m1 := ⟨_, rfl⟩
  obtain ⟨buf0, hbuf0⟩ : ∃ b, b = List.replicate INDEX_RECORD_SIZE (0 : Byte)
      ++ hdr.drop INDEX_RECORD_SIZE := ⟨_, rfl⟩
  obtain ⟨ub, hubd⟩ : ∃ b, b = upgrade_record_buf le m.record_size buf0 := ⟨_, rfl⟩
  have lhdr : hdr.length = 76 := by rw [hhdr]; exact length_upgrade_header_buf le m1
  have lbuf0 : buf0.length = 76 := by
    rw [hbuf0, List.length_append, List.length_replicate, List.length_drop, lhdr,
      INDEX_RECORD_SIZE_eq]
  have lub : ub.length = 76 := by rw [hubd, length_upgrade_record_buf]; exact lbuf0
  have hub : upgrade_record_buf le m.record_size ub = ub := by
    rw [hubd]; exact upgrade_record_buf_idem le _ _ lbuf0
  have htake : hdr.take INDEX_HEADER_SIZE = hdr :=
    List.take_of_length_le (by rw [lhdr, INDEX_HEADER_SIZE_eq])
  obtain ⟨b, hloop⟩ := upgrade_index_loop_eq le m.index_base m.«exists» m.start_offset
    m.record_size ub h60 hub hex
    m.«exists» MSGNO_TESTS 1 buf0 hdr (le_refl 1) (by omega) (by unfold MSGNO_TESTS; omega)
    (by simp only [Nat.sub_self, Nat.zero_add]; omega) hubd.symm
  obtain ⟨bs, hbs⟩ : ∃ bs : List (List Byte), bs = (List.range' 1 m.«exists»).map
      (fun j => slice m.index_base (m.start_offset + (j - 1) * m.record_size) m.record_size
        ++ slice ub m.record_size (60 - m.record_size)) := ⟨_, rfl⟩
  rw [← hbs] at hloop
  have lbs : bs.length = m.«exists» := by rw [hbs]; simp
  have hblock : ∀ (k : Nat) (hk : k < bs.length), bs[k] =
      slice m.index_base (m.start_offset + k * m.record_size) m.record_size
        ++ slice ub m.record_size (60 - m.record_size) := by
    intro k hk
    simp only [hbs, List.getElem_map, List.getElem_range']
    simp
  have hold : ∀ k, k < m.«exists» →
      (slice m.index_base (m.start_offset + k * m.record_size) m.record_size).length
        = m.record_size := by
    intro k hk
    apply length_slice
    have : (k + 1) * m.record_size ≤ m.«exists» * m.record_size :=
      Nat.mul_le_mul_right _ (by omega)
    have e : (k + 1) * m.record_size = k * m.record_size + m.record_size := by ring
    unfold mailbox.index_len at hlen
    omega
  have hext : (slice ub m.record_size (60 - m.record_size)).length = 60 - m.record_size := by
    apply length_slice; omega
  have hall : ∀ b ∈ bs, b.length = 60 := by
    intro b hb
    obtain ⟨k, hk, rfl⟩ := List.getElem_of_mem hb
    rw [hblock k hk, List.length_append, hold k (by omega), hext]
    omega
  have hfields := upgrade_header_buf_fields le m1
  rw [← hhdr] at hfields
  obtain ⟨f0, f8, f12, f16, f20⟩ := hfields
  refine ⟨m1, hdr ++ bs.flatten, ?_, by rw [hm1], by rw [hm1], by rw [hm1], ?_, ?_, ?_, ?_, ?_,
    ?_, ?_⟩
  · unfold mailbox_upgrade_index
    simp only [hlock, hfo, hw, hrn, hs32, hr32, Bool.not_true, Bool.false_eq_true, if_false]
    rw [← hm1]
    simp only [← hhdr, ← hbuf0, htake]
    have e1 : m1.index_base = m.index_base := by rw [hm1]
    have e2 : m1.«exists» = m.«exists» := by rw [hm1]
    simp only [e1, e2, hloop]
  · rw [List.length_append, lhdr, length_flatten_blocks bs 60 hall, lbs, INDEX_HEADER_SIZE_eq,
      INDEX_RECORD_SIZE_eq]
  · rw [be32_append_left _ _ _ (by rw [lhdr]; decide), f12, hm1]; rfl
  · rw [be32_append_left _ _ _ (by rw [lhdr]; decide), f16, hm1]; rfl
  · rw [be32_append_left _ _ _ (by rw [lhdr]; decide), f8, hm1]; rfl
  · rw [be32_append_left _ _ _ (by rw [lhdr]; decide), f0, hm1]; exact Nat.mod_eq_of_lt hgen
  · rw [be32_append_left _ _ _ (by rw [lhdr]; decide), f20, hm1]; exact Nat.mod_eq_of_lt (show m.«exists» < 4294967296 by omega)
  · intro k hk
    have hkb : k < bs.length := by rw [lbs]; exact hk
    have hsl : slice (hdr ++ bs.flatten) (INDEX_HEADER_SIZE + INDEX_RECORD_SIZE * k) 60
        = slice m.index_base (m.start_offset + k * m.record_size) m.record_size
          ++ slice ub m.record_size (60 - m.record_size) := by
      rw [← hblock k hkb, ← slice_flatten_blocks hdr bs 60 k hall hkb, lhdr]; rfl
    have hfld := upgrade_record_buf_fields le m.record_size buf0 lbuf0
    rw [← hubd] at hfld
    refine ⟨?_, ?_, ?_⟩
    · rw [← slice_slice_prefix _ _ 60 _ h60, hsl]
      exact List.take_left' (hold k hk)
    · intro hlt
      have h52 : m.record_size ≤ 52 := by omega
      have : OFFSET_CONTENT_LINES = 52 := rfl
      rw [this, ← be32_slice _ _ 60 52 (by omega), hsl,
        be32_append_right _ _ _ (by rw [hold k hk]; exact h52), hold k hk,
        be32_slice _ _ _ _ (by omega)]
      have e : m.record_size + (52 - m.record_size) = OFFSET_CONTENT_LINES := by
        rw [this]; omega
      rw [e]; exact hfld.1 hlt
    · intro hlt
      have h56 : m.record_size ≤ 56 := by omega
      have : OFFSET_CACHE_VERSION = 56 := rfl
      rw [this, ← be32_slice _ _ 60 56 (by omega), hsl,
        be32_append_right _ _ _ (by rw [hold k hk]; exact h56), hold k hk,
        be32_slice _ _ _ _ (by omega)]
      have e : m.record_size + (56 - m.record_size) = OFFSET_CACHE_VERSION := by
        rw [this]; omega
      rw [e]; exact hfld.2 hlt

set_option maxRecDepth 4000 in
theorem upgrade_index_spec_witness :
    ∃ m' f, mailbox_upgrade_index true os_ok old_index_snapshot = some (.ok (m', f)) ∧
      f.length = INDEX_HEADER_SIZE + INDEX_RECORD_SIZE * 2 ∧
      be32 f OFFSET_RECORD_SIZE = INDEX_RECORD_SIZE ∧
      be32 f OFFSET_GENERATION_NO = 3 ∧
      ∀ k, k < 2 →
        slice f (INDEX_HEADER_SIZE + INDEX_RECORD_SIZE * k) 56 = slice old_index (64 + k * 56) 56 ∧
        ((56 : Nat) < 60 →
          be32 f (INDEX_HEADER_SIZE + INDEX_RECORD_SIZE * k + OFFSET_CACHE_VERSION) = 0) := by
  obtain ⟨m', f, h0, _, _, _, h1, _, h2, _, h3, _, h4⟩ :=
    upgrade_index_spec true os_ok old_index_snapshot rfl rfl rfl rfl (by decide) (by decide)
      (by decide) (by decide) (by decide) (by decide)
  exact ⟨m', f, h0, h1, h2, h3, fun k hk => ⟨(h4 k hk).1, (h4 k hk).2.2⟩⟩

/-! ## `mailbox_expunge` -/

theorem load32_eq_zero_iff (le : Bool) (mem : List Byte) (o : Nat) :
    load32 le mem o = 0 ↔ be32 mem o = 0 := by
  have h0 := byteAt_lt mem o
  cases le
  · simp only [load32, be32, if_false, Bool.false_eq_true]
  · simp only [load32, be32, if_true]; omega

theorem putBE32_append_left (l1 l2 : List Byte) (p v : Nat) (h : p + 4 ≤ l1.length) :
    putBE32 (l1 ++ l2) p v = putBE32 l1 p v ++ l2 := by
  unfold putBE32
  rw [List.set_append_left _ _ (by omega), List.set_append_left _ _ (by simp; omega),
    List.set_append_left _ _ (by simp; omega), List.set_append_left _ _ (by simp; omega)]

theorem length_old_record (m : mailbox) (k : Nat)
    (h : m.start_offset + (k + 1) * m.record_size ≤ m.index_len) :
    (old_record m k).length = m.record_size := by
  apply length_slice
  have e : (k + 1) * m.record_size = k * m.record_size + m.record_size := by ring
  unfold mailbox.index_len at h
  omega

theorem be32_old_record (m : mailbox) (k off : Nat) (tail : List Byte)
    (h : m.start_offset + (k + 1) * m.record_size ≤ m.index_len)
    (ho : off + 4 ≤ m.record_size) :
    be32 (old_record m k ++ tail) off = old_field m k off := by
  rw [be32_append_left _ _ _ (by rw [length_old_record m k h]; exact ho)]
  exact be32_slice _ _ _ _ ho


theorem expunge_record_eq (le : Bool) (next : List Byte → Nat → Nat)
    (dp : Option (List Byte → Bool)) (m : mailbox) (st : expunge_state) (k : Nat)
    (hrs : INDEX_RECORD_SIZE ≤ m.record_size)
    (hin : m.start_offset + (k + 1) * m.record_size ≤ m.index_len)
    (huid : old_field m k OFFSET_UID ≠ 0)
    (htail : st.buf.drop m.record_size = expunge_buf_tail m) :
    expunge_record le next dp m st (k + 1) =
      .ok (if expunge_selects dp m k then
        { st with
          buf := old_record m k ++ expunge_buf_tail m,
          deleted := st.deleted ++ [old_field m k OFFSET_UID],
          numdeleted := (st.numdeleted + 1) % 4294967296,
          quotadeleted := (st.quotadeleted + old_field m k OFFSET_SIZE) % 4294967296,
          numansweredflag := (if old_field m k OFFSET_SYSTEM_FLAGS &&& FLAG_ANSWERED ≠ 0 then
            (st.numansweredflag + 1) % 4294967296 else st.numansweredflag),
          numdeletedflag := (if old_field m k OFFSET_SYSTEM_FLAGS &&& FLAG_DELETED ≠ 0 then
            (st.numdeletedflag + 1) % 4294967296 else st.numdeletedflag),
          numflaggedflag := (if old_field m k OFFSET_SYSTEM_FLAGS &&& FLAG_FLAGGED ≠ 0 then
            (st.numflaggedflag + 1) % 4294967296 else st.numflaggedflag) }
      else
        { st with
          buf := compacted_record m k st.new_cache_total_size ++ expunge_buf_tail m,
          newindex := st.newindex ++ compacted_record m k st.new_cache_total_size,
          newcache := st.newcache ++ cache_blob next m k,
          new_cache_total_size :=
            (st.new_cache_total_size + cache_blob_size next m k) % 18446744073709551616 }) := by
  rw [INDEX_RECORD_SIZE_eq] at hrs
  have hlen := length_old_record m k hin
  have hbuf : memcpy st.buf (slice m.index_base (m.start_offset + (k + 1 - 1) * m.record_size)
      m.record_size) = old_record m k ++ expunge_buf_tail m := by
    rw [Nat.add_sub_cancel]
    show old_record m k ++ st.buf.drop (old_record m k).length = _
    rw [hlen, htail]
  have f0 : be32 (old_record m k ++ expunge_buf_tail m) OFFSET_UID = old_field m k OFFSET_UID :=
    be32_old_record m k _ _ hin (by rw [show OFFSET_UID = 0 from rfl]; omega)
  have f12 : be32 (old_record m k ++ expunge_buf_tail m) OFFSET_SIZE
      = old_field m k OFFSET_SIZE :=
    be32_old_record m k _ _ hin (by rw [show OFFSET_SIZE = 12 from rfl]; omega)
  have f24 : be32 (old_record m k ++ expunge_buf_tail m) OFFSET_CACHE_OFFSET
      = old_field m k OFFSET_CACHE_OFFSET :=
    be32_old_record m k _ _ hin (by rw [show OFFSET_CACHE_OFFSET = 24 from rfl]; omega)
  have f32 : be32 (old_record m k ++ expunge_buf_tail m) OFFSET_SYSTEM_FLAGS
      = old_field m k OFFSET_SYSTEM_FLAGS :=
    be32_old_record m k _ _ hin (by rw [show OFFSET_SYSTEM_FLAGS = 32 from rfl]; omega)
  have hnz : ¬ (load32 le (old_record m k ++ expunge_buf_tail m) OFFSET_UID = 0) := by
    rw [load32_eq_zero_iff, f0]; exact huid
  have hput : putBE32 (old_record m k ++ expunge_buf_tail m) OFFSET_CACHE_OFFSET
      (st.new_cache_total_size % 4294967296)
      = compacted_record m k st.new_cache_total_size ++ expunge_buf_tail m := by
    rw [putBE32_append_left _ _ _ _ (by rw [hlen, show OFFSET_CACHE_OFFSET = 24 from rfl]; omega)]
    rfl
  have hcl : (compacted_record m k st.new_cache_total_size).length = m.record_size := by
    unfold compacted_record; rw [length_putBE32, hlen]
  unfold expunge_record
  simp only [hbuf, if_neg hnz, ntohl_load32, store32_htonl, f0, f12, f24, hput]
  show (if expunge_selects dp m k = true then _ else _) = _
  cases hs : expunge_selects dp m k
  · simp only [Bool.false_eq_true, if_false]
    rw [List.take_left' hcl]
    rfl
  · simp only [if_true, f32]


theorem expunge_loop_eq (le : Bool) (next : List Byte → Nat → Nat)
    (dp : Option (List Byte → Bool)) (m : mailbox) (hrs : INDEX_RECORD_SIZE ≤ m.record_size) :
    ∀ (n j0 : Nat) (st : expunge_state),
      m.start_offset + (j0 + n) * m.record_size ≤ m.index_len →
      (∀ k, j0 ≤ k → k < j0 + n → old_field m k OFFSET_UID ≠ 0) →
      st.buf.drop m.record_size = expunge_buf_tail m →
      st.numdeleted < 4294967296 → st.quotadeleted < 4294967296 →
      st.numansweredflag < 4294967296 → st.numdeletedflag < 4294967296 →
      st.numflaggedflag < 4294967296 →
      ∃ st', expunge_loop le next dp m n (j0 + 1) st = .ok st' ∧
        st'.newindex = st.newindex ++ (List.zipWith (compacted_record m)
          ((List.range' j0 n).filter (fun k => !expunge_selects dp m k))
          (new_cache_offsets next m st.new_cache_total_size
            ((List.range' j0 n).filter (fun k => !expunge_selects dp m k)))).flatten ∧
        st'.newcache = st.newcache ++ (((List.range' j0 n).filter
          (fun k => !expunge_selects dp m k)).map (cache_blob next m)).flatten ∧
        st'.new_cache_total_size = new_cache_end next m st.new_cache_total_size
          ((List.range' j0 n).filter (fun k => !expunge_selects dp m k)) ∧
        st'.deleted = st.deleted ++ ((List.range' j0 n).filter
          (fun k => expunge_selects dp m k)).map (fun k => old_field m k OFFSET_UID) ∧
        st'.numdeleted = (st.numdeleted + ((List.range' j0 n).filter
          (fun k => expunge_selects dp m k)).length) % 4294967296 ∧
        st'.quotadeleted = (st.quotadeleted + (((List.range' j0 n).filter
          (fun k => expunge_selects dp m k)).map (fun k => old_field m k OFFSET_SIZE)).sum)
            % 4294967296 ∧
        st'.numansweredflag = (st.numansweredflag + (((List.range' j0 n).filter
          (fun k => expunge_selects dp m k)).filter
            (fun k => decide (old_field m k OFFSET_SYSTEM_FLAGS &&& FLAG_ANSWERED ≠ 0))).length)
            % 4294967296 ∧
        st'.numdeletedflag = (st.numdeletedflag + (((List.range' j0 n).filter
          (fun k => expunge_selects dp m k)).filter
            (fun k => decide (old_field m k OFFSET_SYSTEM_FLAGS &&& FLAG_DELETED ≠ 0))).length)
            % 4294967296 ∧
        st'.numflaggedflag = (st.numflaggedflag + (((List.range' j0 n).filter
          (fun k => expunge_selects dp m k)).filter
            (fun k => decide (old_field m k OFFSET_SYSTEM_FLAGS &&& FLAG_FLAGGED ≠ 0))).length)
            % 4294967296 := by
  intro n
  induction n with
  | zero =>
    intro j0 st _ _ _ h1 h2 h3 h4 h5
    refine ⟨st, rfl, ?_⟩
    simp [new_cache_offsets, new_cache_end, Nat.mod_eq_of_lt, h1, h2, h3, h4, h5]
  | succ n ih =>
    intro j0 st hin huid htail h1 h2 h3 h4 h5
    have hin0 : m.start_offset + (j0 + 1) * m.record_size ≤ m.index_len := by
      have : (j0 + 1) * m.record_size ≤ (j0 + (n + 1)) * m.record_size :=
        Nat.mul_le_mul_right _ (by omega)
      omega
    have hstep := expunge_record_eq le next dp m st j0 hrs hin0
      (huid j0 (le_refl _) (by omega)) htail
    have hin' : m.start_offset + (j0 + 1 + n) * m.record_size ≤ m.index_len := by
      rw [show j0 + 1 + n = j0 + (n + 1) from by omega]; exact hin
    have huid' : ∀ k, j0 + 1 ≤ k → k < j0 + 1 + n → old_field m k OFFSET_UID ≠ 0 :=
      fun k hk1 hk2 => huid k (by omega) (by omega)
    unfold expunge_loop
    rw [hstep]
    simp only [List.range'_succ]
    cases hs : expunge_selects dp m j0
    · -- the record is kept
      simp only [Bool.false_eq_true, if_false]
      have hd : (compacted_record m j0 st.new_cache_total_size ++ expunge_buf_tail m).drop
          m.record_size = expunge_buf_tail m := by
        apply List.drop_left'
        unfold compacted_record
        rw [length_putBE32]
        exact length_old_record m j0 hin0
      obtain ⟨st', e, c1, c2, c3, c4, c5, c6, c7, c8, c9⟩ := ih (j0 + 1)
        ({ st with
          buf := compacted_record m j0 st.new_cache_total_size ++ expunge_buf_tail m,
          newindex := st.newindex ++ compacted_record m j0 st.new_cache_total_size,
          newcache := st.newcache ++ cache_blob next m j0,
          new_cache_total_size :=
            (st.new_cache_total_size + cache_blob_size next m j0) % 18446744073709551616 })
        hin' huid' hd h1 h2 h3 h4 h5
      refine ⟨st', e, ?_, ?_, ?_, ?_, ?_, ?_, ?_, ?_, ?_⟩
      · rw [c1]; simp [List.filter_cons, hs, new_cache_offsets, cache_blob_size, List.append_assoc]
      · rw [c2]; simp [List.filter_cons, hs, List.append_assoc]
      · rw [c3]; simp [List.filter_cons, hs, new_cache_end, cache_blob_size]
      · rw [c4]; simp [List.filter_cons, hs]
      · rw [c5]; simp [List.filter_cons, hs]
      · rw [c6]; simp [List.filter_cons, hs]
      · rw [c7]; simp [List.filter_cons, hs]
      · rw [c8]; simp [List.filter_cons, hs]
      · rw [c9]; simp [List.filter_cons, hs]
    · -- the record is expunged
      simp only [if_true]
      have hd : (old_record m j0 ++ expunge_buf_tail m).drop m.record_size
          = expunge_buf_tail m :=
        List.drop_left' (length_old_record m j0 hin0)
      obtain ⟨st', e, c1, c2, c3, c4, c5, c6, c7, c8, c9⟩ := ih (j0 + 1)
        ({ st with
          buf := old_record m j0 ++ expunge_buf_tail m,
          deleted := st.deleted ++ [old_field m j0 OFFSET_UID],
          numdeleted := (st.numdeleted + 1) % 4294967296,
          quotadeleted := (st.quotadeleted + old_field m j0 OFFSET_SIZE) % 4294967296,
          numansweredflag := (if old_field m j0 OFFSET_SYSTEM_FLAGS &&& FLAG_ANSWERED ≠ 0 then
            (st.numansweredflag + 1) % 4294967296 else st.numansweredflag),
          numdeletedflag := (if old_field m j0 OFFSET_SYSTEM_FLAGS &&& FLAG_DELETED ≠ 0 then
            (st.numdeletedflag + 1) % 4294967296 else st.numdeletedflag),
          numflaggedflag := (if old_field m j0 OFFSET_SYSTEM_FLAGS &&& FLAG_FLAGGED ≠ 0 then
            (st.numflaggedflag + 1) % 4294967296 else st.numflaggedflag) })
        hin' huid' hd (Nat.mod_lt _ (by decide)) (Nat.mod_lt _ (by decide))
        (by show (if _ then _ else _) < _; split_ifs
            · exact Nat.mod_lt _ (by decide)
            · exact h3)
        (by show (if _ then _ else _) < _; split_ifs
            · exact Nat.mod_lt _ (by decide)
            · exact h4)
        (by show (if _ then _ else _) < _; split_ifs
            · exact Nat.mod_lt _ (by decide)
            · exact h5)
      refine ⟨st', e, ?_, ?_, ?_, ?_, ?_, ?_, ?_, ?_, ?_⟩
      · rw [c1]; simp [List.filter_cons, hs]
      · rw [c2]; simp [List.filter_cons, hs]
      · rw [c3]; simp [List.filter_cons, hs]
      · rw [c4]; simp [List.filter_cons, hs]
      · rw [c5]; simp [List.filter_cons, hs]; omega
      · rw [c6]; simp [List.filter_cons, hs]; omega
      · rw [c7]; simp only [List.filter_cons, hs, if_true]
        by_cases hf : old_field m j0 OFFSET_SYSTEM_FLAGS &&& FLAG_ANSWERED ≠ 0
        · simp [hf]; omega
        · simp [hf]
      · rw [c8]; simp only [List.filter_cons, hs, if_true]
        by_cases hf : old_field m j0 OFFSET_SYSTEM_FLAGS &&& FLAG_DELETED ≠ 0
        · simp [hf]; omega
        · simp [hf]
      · rw [c9]; simp only [List.filter_cons, hs, if_true]
        by_cases hf : old_field m j0 OFFSET_SYSTEM_FLAGS &&& FLAG_FLAGGED ≠ 0
        · simp [hf]; omega
        · simp [hf]


theorem expunge_fix_header_eq (le : Bool) (m : mailbox) (st : expunge_state) (buf : List Byte) :
    expunge_fix_header le m st buf =
      (let b1 := putBE32 buf 20 ((be32 buf 20 + 4294967296 - st.numdeleted) % 4294967296)
       let b2 := putBE32 b1 64 0
       let b3 := putBE32 b2 52 ((be32 b2 52 + 4294967296 - st.numansweredflag) % 4294967296)
       let b4 := putBE32 b3 48 ((be32 b3 48 + 4294967296 - st.numdeletedflag) % 4294967296)
       let b5 := putBE32 b4 56 ((be32 b4 56 + 4294967296 - st.numflaggedflag) % 4294967296)
       let b6 := putBE32 b5 36 ((be32 b5 36 + 4294967296 - st.quotadeleted) % 4294967296)
       if m.start_offset < 76 then putBE32 b6 12 76 else b6) := by
  simp only [expunge_fix_header, ntohl_load32, store32_htonl, Nat.mod_mod, Nat.zero_mod]
  rfl

theorem length_expunge_fix_header (le : Bool) (m : mailbox) (st : expunge_state)
    (buf : List Byte) : (expunge_fix_header le m st buf).length = buf.length := by
  rw [expunge_fix_header_eq]
  simp only
  split_ifs <;> simp [length_putBE32]

theorem expunge_fix_header_append (le : Bool) (m : mailbox) (st : expunge_state)
    (hd rest : List Byte) (h : 68 ≤ hd.length) :
    expunge_fix_header le m st (hd ++ rest) = expunge_fix_header le m st hd ++ rest := by
  simp only [expunge_fix_header_eq]
  have a1 := putBE32_append_left hd rest 20
    ((be32 hd 20 + 4294967296 - st.numdeleted) % 4294967296) (by omega)
  rw [be32_append_left hd rest 20 (by omega), a1]
  generalize hb1 : putBE32 hd 20 _ = b1
  have l1 : 68 ≤ b1.length := by rw [← hb1, length_putBE32]; exact h
  rw [putBE32_append_left b1 rest 64 0 (by omega)]
  generalize hb2 : putBE32 b1 64 0 = b2
  have l2 : 68 ≤ b2.length := by rw [← hb2, length_putBE32]; exact l1
  rw [be32_append_left b2 rest 52 (by omega), putBE32_append_left b2 rest 52 _ (by omega)]
  generalize hb3 : putBE32 b2 52 _ = b3
  have l3 : 68 ≤ b3.length := by rw [← hb3, length_putBE32]; exact l2
  rw [be32_append_left b3 rest 48 (by omega), putBE32_append_left b3 rest 48 _ (by omega)]
  generalize hb4 : putBE32 b3 48 _ = b4
  have l4 : 68 ≤ b4.length := by rw [← hb4, length_putBE32]; exact l3
  rw [be32_append_left b4 rest 56 (by omega), putBE32_append_left b4 rest 56 _ (by omega)]
  generalize hb5 : putBE32 b4 56 _ = b5
  have l5 : 68 ≤ b5.length := by rw [← hb5, length_putBE32]; exact l4
  rw [be32_append_left b5 rest 36 (by omega), putBE32_append_left b5 rest 36 _ (by omega)]
  generalize hb6 : putBE32 b5 36 _ = b6
  have l6 : 68 ≤ b6.length := by rw [← hb6, length_putBE32]; exact l5
  split_ifs
  · rw [putBE32_append_left b6 rest 12 _ (by omega)]
  · rfl

theorem expunge_fix_header_fields (le : Bool) (m : mailbox) (st : expunge_state)
    (buf : List Byte) (h : 68 ≤ buf.length) :
    be32 (expunge_fix_header le m st buf) OFFSET_GENERATION_NO = be32 buf OFFSET_GENERATION_NO ∧
    be32 (expunge_fix_header le m st buf) OFFSET_EXISTS
      = (be32 buf OFFSET_EXISTS + 4294967296 - st.numdeleted) % 4294967296 ∧
    be32 (expunge_fix_header le m st buf) OFFSET_LEAKED_CACHE = 0 ∧
    be32 (expunge_fix_header le m st buf) OFFSET_ANSWERED
      = (be32 buf OFFSET_ANSWERED + 4294967296 - st.numansweredflag) % 4294967296 ∧
    be32 (expunge_fix_header le m st buf) OFFSET_DELETED
      = (be32 buf OFFSET_DELETED + 4294967296 - st.numdeletedflag) % 4294967296 ∧
    be32 (expunge_fix_header le m st buf) OFFSET_FLAGGED
      = (be32 buf OFFSET_FLAGGED + 4294967296 - st.numflaggedflag) % 4294967296 ∧
    be32 (expunge_fix_header le m st buf) OFFSET_QUOTA_MAILBOX_USED
      = (be32 buf OFFSET_QUOTA_MAILBOX_USED + 4294967296 - st.quotadeleted) % 4294967296 := by
  rw [expunge_fix_header_eq]
  simp only [OFFSET_GENERATION_NO, OFFSET_EXISTS, OFFSET_LEAKED_CACHE, OFFSET_ANSWERED,
    OFFSET_DELETED, OFFSET_FLAGGED, OFFSET_QUOTA_MAILBOX_USED]
  refine ⟨?_, ?_, ?_, ?_, ?_, ?_, ?_⟩ <;> split_ifs <;>
    simp [be32_putBE32_same, be32_putBE32_disj, length_putBE32, h, Nat.mod_mod,
      show 24 ≤ buf.length from by omega, show 56 ≤ buf.length from by omega,
      show 52 ≤ buf.length from by omega, show 60 ≤ buf.length from by omega,
      show 40 ≤ buf.length from by omega]


theorem drop_putBE32 (b : List Byte) (p v n : Nat) (h : p + 4 ≤ n) :
    (putBE32 b p v).drop n = b.drop n := by
  unfold putBE32
  rw [List.drop_set_of_lt _ _ (by omega), List.drop_set_of_lt _ _ (by omega),
    List.drop_set_of_lt _ _ (by omega), List.drop_set_of_lt _ _ (by omega)]

theorem expunge_loop_start (le : Bool) (env : os_env) (next : List Byte → Nat → Nat)
    (dp : Option (List Byte → Bool)) (m : mailbox)
    (henv : expunge_env_ok env) (hc : index_readable m) :
    ∃ hd1 : List Byte, hd1.length = m.start_offset ∧
      be32 hd1 OFFSET_GENERATION_NO = (m.generation_no + 1) % 4294967296 ∧
      (∀ o, 4 ≤ o → o + 4 ≤ m.start_offset → be32 hd1 o = be32 m.index_base o) ∧
      ∃ st : expunge_state,
      mailbox_expunge le env next dp m =
        (.ok {
          index := expunge_fix_header le m st hd1
            ++ (List.range' m.start_offset (INDEX_HEADER_SIZE - m.start_offset)).map
              (fun n => if n = OFFSET_UIDVALIDITY + 3 then (1 : Byte) else 0)
            ++ (List.zipWith (compacted_record m) (kept dp m)
                (new_cache_offsets next m 4 (kept dp m))).flatten,
          cache := hd1.take 4 ++ ((kept dp m).map (cache_blob next m)).flatten,
          cache_renamed := env.rename_cache_ok,
          quota_used := (if env.quota_write_ok then
            (match env.quota_read with
              | none => (if m.quota_used ≥ st.quotadeleted then m.quota_used - st.quotadeleted
                  else 0)
              | some _ => m.quota_used)
            else m.quota_used),
          unlinked := st.deleted.take st.numdeleted }) ∧
      st.deleted = (expunged dp m).map (fun k => old_field m k OFFSET_UID) ∧
      st.numdeleted = (expunged dp m).length % 4294967296 ∧
      st.quotadeleted = ((expunged dp m).map (fun k => old_field m k OFFSET_SIZE)).sum
        % 4294967296 ∧
      st.numansweredflag = ((expunged dp m).filter
        (fun k => decide (old_field m k OFFSET_SYSTEM_FLAGS &&& FLAG_ANSWERED ≠ 0))).length
          % 4294967296 ∧
      st.numdeletedflag = ((expunged dp m).filter
        (fun k => decide (old_field m k OFFSET_SYSTEM_FLAGS &&& FLAG_DELETED ≠ 0))).length
          % 4294967296 ∧
      st.numflaggedflag = ((expunged dp m).filter
        (fun k => decide (old_field m k OFFSET_SYSTEM_FLAGS &&& FLAG_FLAGGED ≠ 0))).length
          % 4294967296 := by
  obtain ⟨hlock, hfi, hfc, hw, hq, hri⟩ := henv
  obtain ⟨hrs, hso, hin, huid⟩ := hc
  have hOL : OFFSET_LEAKED_CACHE = 64 := rfl
  rw [hOL] at hso
  have hrs60 : 60 ≤ m.record_size := hrs
  have hil : m.start_offset ≤ m.index_base.length := by
    unfold mailbox.index_len at hin; omega
  obtain ⟨hd, hhd⟩ : ∃ hd, hd = m.index_base.take m.start_offset := ⟨_, rfl⟩
  have lhd : hd.length = m.start_offset := by rw [hhd, List.length_take]; omega
  obtain ⟨zs, hzs⟩ : ∃ zs, zs = (List.replicate
      (if m.start_offset > m.record_size then m.start_offset else m.record_size) (0 : Byte)).drop
      m.start_offset := ⟨_, rfl⟩
  have hbuf1 : memcpy (List.replicate
      (if m.start_offset > m.record_size then m.start_offset else m.record_size) (0 : Byte))
      (m.index_base.take m.start_offset) = hd ++ zs := by
    unfold memcpy; rw [← hhd, lhd, hzs]
  obtain ⟨hd1, hhd1⟩ : ∃ hd1, hd1 = putBE32 hd 0 ((m.generation_no + 1) % 4294967296) :=
    ⟨_, rfl⟩
  have lhd1 : hd1.length = m.start_offset := by rw [hhd1, length_putBE32, lhd]
  have hbuf2 : putBE32 (hd ++ zs) 0 ((m.generation_no + 1) % 4294967296) = hd1 ++ zs := by
    rw [putBE32_append_left _ _ _ _ (by omega), hhd1]
  have htail : (hd1 ++ zs).drop m.record_size = expunge_buf_tail m := by
    unfold expunge_buf_tail
    rw [hbuf1, ← hbuf2, drop_putBE32 _ _ _ _ (by omega)]
  refine ⟨hd1, lhd1, ?_, ?_, ?_⟩
  · rw [hhd1]; exact be32_putBE32_same _ _ _ (by omega) |>.trans (Nat.mod_mod _ _)
  · intro o h4 ho
    rw [hhd1, be32_putBE32_disj _ _ _ _ (by omega), hhd, be32_take _ _ _ ho]
  obtain ⟨st', hloop, c1, c2, _, c4, c5, c6, c7, c8, c9⟩ := expunge_loop_eq le next dp m hrs
    m.«exists» 0
    ({ buf := hd1 ++ zs,
       newindex := hd1 ++ (List.range' m.start_offset (INDEX_HEADER_SIZE - m.start_offset)).map
          (fun n => if n = OFFSET_UIDVALIDITY + 3 then (1 : Byte) else 0),
       newcache := hd1.take 4, deleted := [], numdeleted := 0, quotadeleted := 0,
       numansweredflag := 0, numdeletedflag := 0, numflaggedflag := 0,
       new_cache_total_size := 4 })
    (by simpa using hin) (fun k _ hk => huid k (by omega)) htail
    (by show (0 : Nat) < _; decide) (by show (0 : Nat) < _; decide)
    (by show (0 : Nat) < _; decide) (by show (0 : Nat) < _; decide)
    (by show (0 : Nat) < _; decide)
  simp only [← List.range_eq_range', Nat.zero_add] at c1 c2 c4 c5 c6 c7 c8 c9
  refine ⟨st', ?_, ?_, ?_, ?_, ?_, ?_, ?_⟩
  · unfold mailbox_expunge
    simp only [hlock, hfi, hfc, hri, hw, Bool.not_true, Bool.false_eq_true, if_false, hbuf1,
      store32_htonl, show OFFSET_GENERATION_NO = 0 from rfl, hbuf2]
    rw [List.take_left' lhd1, List.take_append_of_le_length (by omega : 4 ≤ hd1.length)]
    rw [show (0 : Nat) + 1 = 1 from rfl] at hloop
    rw [hloop]
    simp only
    have hkept : (List.range m.«exists»).filter (fun k => !expunge_selects dp m k)
        = kept dp m := rfl
    rw [hkept] at c1 c2
    have hni : st'.newindex.take m.start_offset = hd1 := by
      rw [c1, List.append_assoc]; exact List.take_left' lhd1
    have hnd : st'.newindex.drop m.start_offset
        = (List.range' m.start_offset (INDEX_HEADER_SIZE - m.start_offset)).map
            (fun n => if n = OFFSET_UIDVALIDITY + 3 then (1 : Byte) else 0)
          ++ (List.zipWith (compacted_record m) (kept dp m)
            (new_cache_offsets next m 4 (kept dp m))).flatten := by
      rw [c1, List.append_assoc]; exact List.drop_left' lhd1
    have hfix : (expunge_fix_header le m st' (memcpy st'.buf hd1)).take m.start_offset
        = expunge_fix_header le m st' hd1 := by
      unfold memcpy
      rw [expunge_fix_header_append _ _ _ _ _ (by omega)]
      exact List.take_left' (by rw [length_expunge_fix_header, lhd1])
    rw [hni, if_neg (by rw [lhd1]; exact fun h => h rfl), hfix]
    have hmc : memcpy st'.newindex (expunge_fix_header le m st' hd1)
        = expunge_fix_header le m st' hd1
          ++ (List.range' m.start_offset (INDEX_HEADER_SIZE - m.start_offset)).map
            (fun n => if n = OFFSET_UIDVALIDITY + 3 then (1 : Byte) else 0)
          ++ (List.zipWith (compacted_record m) (kept dp m)
            (new_cache_offsets next m 4 (kept dp m))).flatten := by
      unfold memcpy
      rw [length_expunge_fix_header, lhd1, hnd, List.append_assoc]
    rw [hmc, c2]
    rcases hq with hq | hq
    · rw [hq]
    · rw [hq]; simp
  · rw [c4]; rfl
  · rw [c5]; simp [expunged]
  · rw [c6]; simp [expunged]
  · rw [c7]; simp [expunged]
  · rw [c8]; simp [expunged]
  · rw [c9]; simp [expunged]


theorem sum_map_filter_le (l : List Nat) (p : Nat → Bool) (f : Nat → Nat) :
    ((l.filter p).map f).sum ≤ (l.map f).sum := by
  induction l with
  | nil => simp
  | cons a l ih =>
    by_cases h : p a
    · simp [List.filter_cons, h, ih]
    · simp [List.filter_cons, h]; omega

theorem length_filter_filter_le (l : List Nat) (p q : Nat → Bool) :
    ((l.filter p).filter q).length ≤ (l.filter q).length :=
  ((List.filter_sublist l).filter q).length_le

/-- C4: `mailbox_expunge` succeeds on a readable index with a readable cache
(the system calls succeeding), and the index header it writes has
`leaked_cache_records` = 0 and a `generation_no` that equals the first four
bytes of the new cache file and the previous `generation_no` plus 1 modulo
2^32.  The new cache file is the one written as `cyrus.cache.NEW`; it replaces
`cyrus.cache` when the final `rename` succeeds. -/
theorem expunge_generation (le : Bool) (env : os_env) (next : List Byte → Nat → Nat)
    (dp : Option (List Byte → Bool)) (m : mailbox)
    (henv : expunge_env_ok env) (hr : index_readable m) (_hcr : cache_readable next m) :
    ∃ res, mailbox_expunge le env next dp m = .ok res ∧
      res.cache_renamed = env.rename_cache_ok ∧
      be32 res.index OFFSET_LEAKED_CACHE = 0 ∧
      4 ≤ res.cache.length ∧
      be32 res.index OFFSET_GENERATION_NO = be32 res.cache 0 ∧
      be32 res.index OFFSET_GENERATION_NO = (m.generation_no + 1) % 4294967296 := by
  obtain ⟨hd1, lhd1, hgen, _, st, hres, _⟩ := expunge_loop_start le env next dp m henv hr
  have hso : 68 ≤ m.start_offset := hr.2.1
  have hfl := length_expunge_fix_header le m st hd1
  obtain ⟨g0, _, g64, _⟩ := expunge_fix_header_fields le m st hd1 (by omega)
  have h0 : OFFSET_GENERATION_NO = 0 := rfl
  refine ⟨_, hres, rfl, ?_, ?_, ?_, ?_⟩
  · dsimp only
    rw [List.append_assoc, be32_append_left _ _ _ (by rw [hfl, lhd1]; exact hso)]
    exact g64
  · dsimp only
    rw [List.length_append, List.length_take]; omega
  · dsimp only
    rw [List.append_assoc, be32_append_left _ _ _ (by rw [hfl, lhd1, h0]; omega), g0,
      be32_append_left _ _ _ (by rw [List.length_take]; omega), be32_take _ _ _ (by omega)]
    rfl
  · dsimp only
    rw [List.append_assoc, be32_append_left _ _ _ (by rw [hfl, lhd1, h0]; omega), g0]
    exact hgen

/-- C1: for every well-formed index (`index_consistent`: nonzero UIDs, header
counters agreeing with the records; the cache being readable) and every
decide-proc, `mailbox_expunge` succeeds and the header of the index it writes has `exists`,
`quota_mailbox_used` and the deleted, answered and flagged counters equal to the
old values minus, respectively, the number of expunged records, the sum of their
sizes, and the number of expunged records with that system flag (none of the
subtractions going below zero). -/
theorem expunge_header_counters (le : Bool) (env : os_env) (next : List Byte → Nat → Nat)
    (dp : Option (List Byte → Bool)) (m : mailbox)
    (henv : expunge_env_ok env) (hc : index_consistent m) (_hcr : cache_readable next m) :
    ∃ res, mailbox_expunge le env next dp m = .ok res ∧
      (expunged dp m).length ≤ be32 m.index_base OFFSET_EXISTS ∧
      be32 res.index OFFSET_EXISTS
        = be32 m.index_base OFFSET_EXISTS - (expunged dp m).length ∧
      ((expunged dp m).map (fun k => old_field m k OFFSET_SIZE)).sum
        ≤ be32 m.index_base OFFSET_QUOTA_MAILBOX_USED ∧
      be32 res.index OFFSET_QUOTA_MAILBOX_USED
        = be32 m.index_base OFFSET_QUOTA_MAILBOX_USED
          - ((expunged dp m).map (fun k => old_field m k OFFSET_SIZE)).sum ∧
      be32 res.index OFFSET_DELETED
        = be32 m.index_base OFFSET_DELETED - ((expunged dp m).filter
          (fun k => decide (old_field m k OFFSET_SYSTEM_FLAGS &&& FLAG_DELETED ≠ 0))).length ∧
      be32 res.index OFFSET_ANSWERED
        = be32 m.index_base OFFSET_ANSWERED - ((expunged dp m).filter
          (fun k => decide (old_field m k OFFSET_SYSTEM_FLAGS &&& FLAG_ANSWERED ≠ 0))).length ∧
      be32 res.index OFFSET_FLAGGED
        = be32 m.index_base OFFSET_FLAGGED - ((expunged dp m).filter
          (fun k => decide (old_field m k OFFSET_SYSTEM_FLAGS &&& FLAG_FLAGGED ≠ 0))).length ∧
      res.unlinked = (expunged dp m).map (fun k => old_field m k OFFSET_UID) := by
  obtain ⟨hr, hex, hquota, hdel, hans, hflg⟩ := hc
  obtain ⟨hd1, lhd1, _, hold, st, hres, d1, d2, d3, d4, d5, d6⟩ :=
    expunge_loop_start le env next dp m henv hr
  have hso : 68 ≤ m.start_offset := hr.2.1
  have hfl := length_expunge_fix_header le m st hd1
  obtain ⟨_, g20, _, g52, g48, g56, g36⟩ := expunge_fix_header_fields le m st hd1 (by omega)
  have hidx : ∀ o, o + 4 ≤ 68 → be32 (expunge_fix_header le m st hd1
      ++ (List.range' m.start_offset (INDEX_HEADER_SIZE - m.start_offset)).map
        (fun n => if n = OFFSET_UIDVALIDITY + 3 then (1 : Byte) else 0)
      ++ (List.zipWith (compacted_record m) (kept dp m)
        (new_cache_offsets next m 4 (kept dp m))).flatten) o
      = be32 (expunge_fix_header le m st hd1) o := by
    intro o ho
    rw [List.append_assoc, be32_append_left _ _ _ (by rw [hfl, lhd1]; omega)]
  have b20 := be32_lt m.index_base OFFSET_EXISTS
  have b36 := be32_lt m.index_base OFFSET_QUOTA_MAILBOX_USED
  have b48 := be32_lt m.index_base OFFSET_DELETED
  have b52 := be32_lt m.index_base OFFSET_ANSWERED
  have b56 := be32_lt m.index_base OFFSET_FLAGGED
  have hS : (expunged dp m).length ≤ be32 m.index_base OFFSET_EXISTS := by
    rw [hex]
    exact (List.length_filter_le _ _).trans (by rw [List.length_range])
  have hQ : ((expunged dp m).map (fun k => old_field m k OFFSET_SIZE)).sum
      ≤ be32 m.index_base OFFSET_QUOTA_MAILBOX_USED := by
    rw [hquota]; exact sum_map_filter_le _ _ _
  have hD := length_filter_filter_le (List.range m.«exists») (fun k => expunge_selects dp m k)
    (fun k => decide (old_field m k OFFSET_SYSTEM_FLAGS &&& FLAG_DELETED ≠ 0))
  have hA := length_filter_filter_le (List.range m.«exists») (fun k => expunge_selects dp m k)
    (fun k => decide (old_field m k OFFSET_SYSTEM_FLAGS &&& FLAG_ANSWERED ≠ 0))
  have hF := length_filter_filter_le (List.range m.«exists») (fun k => expunge_selects dp m k)
    (fun k => decide (old_field m k OFFSET_SYSTEM_FLAGS &&& FLAG_FLAGGED ≠ 0))
  rw [← hdel] at hD
  rw [← hans] at hA
  rw [← hflg] at hF
  refine ⟨_, hres, hS, ?_, hQ, ?_, ?_, ?_, ?_, ?_⟩
  · dsimp only
    rw [hidx _ (by decide), g20, hold _ (by decide) (by rw [show OFFSET_EXISTS = 20 from rfl]; omega),
      d2]
    omega
  · dsimp only
    rw [hidx _ (by decide), g36, hold _ (by decide)
      (by rw [show OFFSET_QUOTA_MAILBOX_USED = 36 from rfl]; omega), d3]
    omega
  · dsimp only
    rw [hidx _ (by decide), g48, hold _ (by decide)
      (by rw [show OFFSET_DELETED = 48 from rfl]; omega), d5]
    unfold expunged
    omega
  · dsimp only
    rw [hidx _ (by decide), g52, hold _ (by decide)
      (by rw [show OFFSET_ANSWERED = 52 from rfl]; omega), d4]
    unfold expunged
    omega
  · dsimp only
    rw [hidx _ (by decide), g56, hold _ (by decide)
      (by rw [show OFFSET_FLAGGED = 56 from rfl]; omega), d6]
    unfold expunged
    omega
  · dsimp only
    rw [d1, d2, Nat.mod_eq_of_lt (by omega)]
    exact List.take_of_length_le (by rw [List.length_map])


theorem length_new_cache_offsets (next : List Byte → Nat → Nat) (m : mailbox) :
    ∀ (ks : List Nat) (nc : Nat), (new_cache_offsets next m nc ks).length = ks.length := by
  intro ks
  induction ks with
  | nil => intro nc; rfl
  | cons k ks ih => intro nc; simp [new_cache_offsets, ih]

theorem mem_kept (dp : Option (List Byte → Bool)) (m : mailbox) (k : Nat) :
    k ∈ kept dp m ↔ k < m.«exists» ∧ expunge_selects dp m k = false := by
  simp [kept, List.mem_filter]

theorem kept_pairwise (dp : Option (List Byte → Bool)) (m : mailbox) :
    (kept dp m).Pairwise (· < ·) :=
  (List.pairwise_lt_range _).filter _

theorem record_in_bounds (m : mailbox) (k : Nat) (hk : k < m.«exists»)
    (hin : m.start_offset + m.«exists» * m.record_size ≤ m.index_len) :
    m.start_offset + (k + 1) * m.record_size ≤ m.index_len := by
  have : (k + 1) * m.record_size ≤ m.«exists» * m.record_size :=
    Nat.mul_le_mul_right _ (by omega)
  omega

/-- The shape of what a successful `mailbox_expunge` writes: a header of
`expunge_start_offset m` bytes followed by the compacted records, and a
four-byte generation number followed by the blobs of the kept records. -/
theorem expunge_result_shape (le : Bool) (env : os_env) (next : List Byte → Nat → Nat)
    (dp : Option (List Byte → Bool)) (m : mailbox)
    (henv : expunge_env_ok env) (hr : index_readable m) :
    ∃ (res : expunge_result) (H G : List Byte),
      mailbox_expunge le env next dp m = .ok res ∧
      H.length = expunge_start_offset m ∧
      res.index = H ++ (List.zipWith (compacted_record m) (kept dp m)
        (new_cache_offsets next m 4 (kept dp m))).flatten ∧
      G.length = 4 ∧ be32 G 0 = (m.generation_no + 1) % 4294967296 ∧
      res.cache = G ++ ((kept dp m).map (cache_blob next m)).flatten := by
  obtain ⟨hd1, lhd1, hgen, _, st, hres, _⟩ := expunge_loop_start le env next dp m henv hr
  have hso : 68 ≤ m.start_offset := hr.2.1
  refine ⟨_, _, hd1.take 4, hres, ?_, rfl, ?_, ?_, rfl⟩
  · rw [List.length_append, length_expunge_fix_header, lhd1, List.length_map, List.length_range']
    unfold expunge_start_offset
    split_ifs <;> omega
  · rw [List.length_take]; omega
  · rw [be32_take _ _ _ (by omega)]; exact hgen

theorem expunge_blocks (next : List Byte → Nat → Nat) (dp : Option (List Byte → Bool))
    (m : mailbox) (hr : index_readable m) :
    (∀ b ∈ List.zipWith (compacted_record m) (kept dp m)
        (new_cache_offsets next m 4 (kept dp m)), b.length = m.record_size) ∧
    (List.zipWith (compacted_record m) (kept dp m)
        (new_cache_offsets next m 4 (kept dp m))).length = (kept dp m).length := by
  constructor
  · intro b hb
    obtain ⟨i, hi, rfl⟩ := List.getElem_of_mem hb
    rw [List.getElem_zipWith]
    unfold compacted_record
    rw [length_putBE32]
    have hi' : i < (kept dp m).length := by
      simp [length_new_cache_offsets] at hi; exact hi
    have hk : (kept dp m)[i] ∈ kept dp m := List.getElem_mem _
    exact length_old_record m _ (record_in_bounds m _ ((mem_kept dp m _).1 hk).1 hr.2.2.1)
  · simp [length_new_cache_offsets]


theorem be32_congr (A B : List Byte) (a b : Nat)
    (h : ∀ t, t < 4 → byteAt A (a + t) = byteAt B (b + t)) : be32 A a = be32 B b := by
  unfold be32
  rw [← h 1 (by omega), ← h 2 (by omega), ← h 3 (by omega)]
  have := h 0 (by omega)
  rw [Nat.add_zero, Nat.add_zero] at this
  rw [this]

theorem expunge_record_at (le : Bool) (env : os_env) (next : List Byte → Nat → Nat)
    (dp : Option (List Byte → Bool)) (m : mailbox)
    (henv : expunge_env_ok env) (hr : index_readable m) :
    ∃ (res : expunge_result) (G : List Byte),
      mailbox_expunge le env next dp m = .ok res ∧
      res.index.length = expunge_start_offset m + (kept dp m).length * m.record_size ∧
      (∀ i (hi : i < (kept dp m).length),
        slice res.index (expunge_start_offset m + i * m.record_size) m.record_size
          = compacted_record m (kept dp m)[i]
              ((new_cache_offsets next m 4 (kept dp m)).getD i 0)) ∧
      G.length = 4 ∧ be32 G 0 = (m.generation_no + 1) % 4294967296 ∧
      res.cache = G ++ ((kept dp m).map (cache_blob next m)).flatten := by
  obtain ⟨res, H, G, hres, lH, hidx, lG, hG, hcache⟩ :=
    expunge_result_shape le env next dp m henv hr
  obtain ⟨hall, hlen⟩ := expunge_blocks next dp m hr
  refine ⟨res, G, hres, ?_, ?_, lG, hG, hcache⟩
  · rw [hidx, List.length_append, lH, length_flatten_blocks _ _ hall, hlen, Nat.mul_comm]
  · intro i hi
    have hi2 : i < (List.zipWith (compacted_record m) (kept dp m)
        (new_cache_offsets next m 4 (kept dp m))).length := by rw [hlen]; exact hi
    have hi3 : i < (new_cache_offsets next m 4 (kept dp m)).length := by
      rw [length_new_cache_offsets]; exact hi
    rw [hidx, ← lH, Nat.mul_comm i, slice_flatten_blocks H _ _ i hall hi2, List.getElem_zipWith,
      List.getD_eq_getElem _ _ hi3]

/-- C2: with a null decide-proc a successful `mailbox_expunge` keeps exactly the
records whose system flags lack `FLAG_DELETED`; the new index consists of its
header followed by the kept records in their original order, each equal to its
old record in every byte outside the `cache_offset` field, so the UIDs of the
new records are nonzero and are strictly increasing when the old ones were. -/
theorem expunge_default_records (le : Bool) (env : os_env) (next : List Byte → Nat → Nat)
    (m : mailbox) (henv : expunge_env_ok env) (hr : index_readable m)
    (_hcr : cache_readable next m) :
    ∃ res, mailbox_expunge le env next none m = .ok res ∧
      (∀ k, k ∈ kept none m ↔
        k < m.«exists» ∧ old_field m k OFFSET_SYSTEM_FLAGS &&& FLAG_DELETED = 0) ∧
      (kept none m).Pairwise (· < ·) ∧
      res.index.length = expunge_start_offset m + (kept none m).length * m.record_size ∧
      (∀ i (hi : i < (kept none m).length), ∀ j, j < m.record_size →
        (j < OFFSET_CACHE_OFFSET ∨ OFFSET_CACHE_OFFSET + 4 ≤ j) →
        byteAt res.index (expunge_start_offset m + i * m.record_size + j)
          = byteAt m.index_base (m.start_offset + (kept none m)[i] * m.record_size + j)) ∧
      (∀ i, i < (kept none m).length →
        be32 res.index (expunge_start_offset m + i * m.record_size + OFFSET_UID) ≠ 0) ∧
      ((∀ a b, a < b → b < m.«exists» → old_field m a OFFSET_UID < old_field m b OFFSET_UID) →
        ∀ i j, i < j → j < (kept none m).length →
          be32 res.index (expunge_start_offset m + i * m.record_size + OFFSET_UID)
            < be32 res.index (expunge_start_offset m + j * m.record_size + OFFSET_UID)) := by
  obtain ⟨res, G, hres, hlen, hrec, _, _, _⟩ := expunge_record_at le env next none m henv hr
  obtain ⟨hrs, hso, hin, huid⟩ := hr
  have hrs60 : 60 ≤ m.record_size := hrs
  have hbytes : ∀ i (hi : i < (kept none m).length), ∀ j, j < m.record_size →
      (j < OFFSET_CACHE_OFFSET ∨ OFFSET_CACHE_OFFSET + 4 ≤ j) →
      byteAt res.index (expunge_start_offset m + i * m.record_size + j)
        = byteAt m.index_base (m.start_offset + (kept none m)[i] * m.record_size + j) := by
    intro i hi j hj hout
    rw [← byteAt_slice res.index _ m.record_size j hj, hrec i hi]
    unfold compacted_record
    rw [byteAt_putBE32_ne _ _ _ _ hout]
    exact byteAt_slice _ _ _ _ hj
  have huidnew : ∀ i (hi : i < (kept none m).length),
      be32 res.index (expunge_start_offset m + i * m.record_size + OFFSET_UID)
        = old_field m (kept none m)[i] OFFSET_UID := by
    intro i hi
    have h0 : OFFSET_UID = 0 := rfl
    have h24 : OFFSET_CACHE_OFFSET = 24 := rfl
    unfold old_field
    apply be32_congr
    intro t ht
    rw [Nat.add_assoc _ OFFSET_UID t, Nat.add_assoc _ OFFSET_UID t]
    exact hbytes i hi _ (by omega) (by omega)
  refine ⟨res, hres, ?_, kept_pairwise none m, hlen, hbytes, ?_, ?_⟩
  · intro k
    rw [mem_kept]
    constructor
    · rintro ⟨hk, hsel⟩
      refine ⟨hk, ?_⟩
      have hb := be32_old_record m k OFFSET_SYSTEM_FLAGS (expunge_buf_tail m)
        (record_in_bounds m k hk hin) (by rw [show OFFSET_SYSTEM_FLAGS = 32 from rfl]; omega)
      simp only [expunge_selects, hb, decide_eq_false_iff_not, ne_eq, not_not] at hsel
      exact hsel
    · rintro ⟨hk, hfl⟩
      refine ⟨hk, ?_⟩
      have hb := be32_old_record m k OFFSET_SYSTEM_FLAGS (expunge_buf_tail m)
        (record_in_bounds m k hk hin) (by rw [show OFFSET_SYSTEM_FLAGS = 32 from rfl]; omega)
      simp only [expunge_selects, hb, decide_eq_false_iff_not, ne_eq, not_not]
      exact hfl
  · intro i hi
    rw [huidnew i hi]
    exact huid _ ((mem_kept none m _).1 (List.getElem_mem _)).1
  · intro hmono i j hij hj
    have hi : i < (kept none m).length := by omega
    rw [huidnew i hi, huidnew j hj]
    apply hmono
    · exact List.pairwise_iff_getElem.1 (kept_pairwise none m) i j hi hj hij
    · exact ((mem_kept none m _).1 (List.getElem_mem _)).1


theorem drop_flatten_take (bs : List (List Byte)) (i : Nat) :
    bs.flatten.drop (((bs.take i).map List.length).sum) = (bs.drop i).flatten := by
  induction bs generalizing i with
  | nil => simp
  | cons b bs ih =>
    cases i with
    | zero => simp
    | succ i =>
      rw [List.take_succ_cons, List.map_cons, List.sum_cons, List.flatten_cons, List.drop_append,
        List.drop_succ_cons, ih i]

theorem slice_flatten_var (pre : List Byte) (bs : List (List Byte)) (i : Nat)
    (hi : i < bs.length) :
    slice (pre ++ bs.flatten) (pre.length + ((bs.take i).map List.length).sum) bs[i].length
      = bs[i] := by
  unfold slice
  rw [List.drop_append, drop_flatten_take, List.drop_eq_getElem_cons hi, List.flatten_cons]
  exact List.take_left' rfl

theorem new_cache_offsets_getD (next : List Byte → Nat → Nat) (m : mailbox) :
    ∀ (ks : List Nat) (nc i : Nat), i < ks.length →
      nc + (ks.map (cache_blob_size next m)).sum < 18446744073709551616 →
      (new_cache_offsets next m nc ks).getD i 0
        = nc + ((ks.take i).map (cache_blob_size next m)).sum := by
  intro ks
  induction ks with
  | nil => intro nc i hi; simp at hi
  | cons k ks ih =>
    intro nc i hi hfit
    rw [List.map_cons, List.sum_cons] at hfit
    cases i with
    | zero => simp [new_cache_offsets]
    | succ i =>
      have hmod : (nc + cache_blob_size next m k) % 18446744073709551616
          = nc + cache_blob_size next m k := Nat.mod_eq_of_lt (by omega)
      simp only [new_cache_offsets, List.getD_cons_succ, hmod, List.take_succ_cons, List.map_cons,
        List.sum_cons]
      rw [ih _ i (by simpa using hi) (by omega)]
      omega

/-- The loop over `NUM_CACHE_FIELDS` items of `mailbox_expunge` ends where the
tenth cache item ends. -/
theorem cache_record_end_eq_ten_items (next : List Byte → Nat → Nat) (cache : List Byte)
    (off : Nat) : cache_record_end next cache off = ten_items_end next cache off := rfl

theorem length_cache_blob (next : List Byte → Nat → Nat) (m : mailbox) (k : Nat)
    (h1 : old_field m k OFFSET_CACHE_OFFSET
      ≤ cache_record_end next m.cache_base (old_field m k OFFSET_CACHE_OFFSET))
    (h2 : cache_record_end next m.cache_base (old_field m k OFFSET_CACHE_OFFSET) ≤ m.cache_len) :
    (cache_blob next m k).length = cache_blob_size next m k := by
  rw [cache_record_end_eq_ten_items] at h1 h2
  unfold cache_blob cache_blob_size
  apply length_slice
  unfold mailbox.cache_len at h2
  omega

/-- C3: in the index written by a successful `mailbox_expunge`, the
`cache_offset` of each kept record is 4 plus the total length of the cache blobs
of the kept records before it, and the new cache file is the four-byte
generation number followed by the blobs of the kept records in record order, so
that each new `cache_offset` points at a copy of the record's old blob.  The
blob of a record is `cache_blob`: the bytes from its old `cache_offset` to the
end of the tenth cache item counted from there.  (The cache is readable and the
new cache stays below 4 GiB.) -/
theorem expunge_cache_offsets (le : Bool) (env : os_env) (next : List Byte → Nat → Nat)
    (dp : Option (List Byte → Bool)) (m : mailbox)
    (henv : expunge_env_ok env) (hr : index_readable m) (hcr : cache_readable next m)
    (hfit : 4 + ((kept dp m).map (fun k => (cache_blob next m k).length)).sum < 4294967296) :
    ∃ res, mailbox_expunge le env next dp m = .ok res ∧
      (res.cache.take 4).length = 4 ∧
      be32 res.cache 0 = (m.generation_no + 1) % 4294967296 ∧
      res.cache.drop 4 = ((kept dp m).map (cache_blob next m)).flatten ∧
      ∀ i (hi : i < (kept dp m).length),
        be32 res.index (expunge_start_offset m + i * m.record_size + OFFSET_CACHE_OFFSET)
          = 4 + (((kept dp m).take i).map (fun k => (cache_blob next m k).length)).sum ∧
        slice res.cache
            (be32 res.index (expunge_start_offset m + i * m.record_size + OFFSET_CACHE_OFFSET))
            (cache_blob next m (kept dp m)[i]).length
          = cache_blob next m (kept dp m)[i] := by
  obtain ⟨res, G, hres, _, hrec, lG, hG, hcache⟩ := expunge_record_at le env next dp m henv hr
  obtain ⟨hrs, hso, hin, huid⟩ := hr
  have hrs60 : 60 ≤ m.record_size := hrs
  have hblob : ∀ k, k ∈ kept dp m →
      old_field m k OFFSET_CACHE_OFFSET
        ≤ cache_record_end next m.cache_base (old_field m k OFFSET_CACHE_OFFSET) ∧
      cache_record_end next m.cache_base (old_field m k OFFSET_CACHE_OFFSET) ≤ m.cache_len :=
    fun k hk => hcr k ((mem_kept dp m k).1 hk).1
  have hsz : ∀ ks : List Nat, (∀ k, k ∈ ks → k ∈ kept dp m) →
      ks.map (fun k => (cache_blob next m k).length) = ks.map (cache_blob_size next m) := by
    intro ks hks
    apply List.map_congr_left
    intro k hk
    exact length_cache_blob next m k (hblob k (hks k hk)).1 (hblob k (hks k hk)).2
  have hoff : ∀ i (hi : i < (kept dp m).length),
      be32 res.index (expunge_start_offset m + i * m.record_size + OFFSET_CACHE_OFFSET)
        = 4 + (((kept dp m).take i).map (fun k => (cache_blob next m k).length)).sum := by
    intro i hi
    have h24 : OFFSET_CACHE_OFFSET = 24 := rfl
    have hk : (kept dp m)[i] < m.«exists» := ((mem_kept dp m _).1 (List.getElem_mem _)).1
    have hol := length_old_record m _ (record_in_bounds m _ hk hin)
    rw [← be32_slice res.index _ m.record_size OFFSET_CACHE_OFFSET (by rw [h24]; omega),
      hrec i hi]
    unfold compacted_record
    rw [be32_putBE32_same _ _ _ (by rw [hol, h24]; omega), Nat.mod_mod,
      new_cache_offsets_getD next m _ 4 i hi (by rw [← hsz _ (fun k hk => hk)]; omega),
      hsz _ (fun k hk => List.mem_of_mem_take hk)]
    apply Nat.mod_eq_of_lt
    have hle : (((kept dp m).take i).map (cache_blob_size next m)).sum
        ≤ ((kept dp m).map (cache_blob_size next m)).sum := by
      conv_rhs => rw [← List.take_append_drop i (kept dp m)]
      rw [List.map_append, List.sum_append]
      omega
    rw [hsz _ (fun k hk => hk)] at hfit
    omega
  refine ⟨res, hres, ?_, ?_, ?_, ?_⟩
  · rw [hcache, List.take_left' lG]; exact lG
  · rw [hcache, be32_append_left _ _ _ (by omega)]; exact hG
  · rw [hcache]; exact List.drop_left' lG
  · intro i hi
    refine ⟨hoff i hi, ?_⟩
    rw [hoff i hi, hcache]
    have hi2 : i < ((kept dp m).map (cache_blob next m)).length := by
      rw [List.length_map]; exact hi
    have hb : ((kept dp m).map (cache_blob next m))[i] = cache_blob next m (kept dp m)[i] := by
      rw [List.getElem_map]
    have hs : (((kept dp m).take i).map (fun k => (cache_blob next m k).length)).sum
        = ((((kept dp m).map (cache_blob next m)).take i).map List.length).sum := by
      rw [← List.map_take, List.map_map]; rfl
    rw [hs, ← lG, ← hb]
    exact slice_flatten_var G _ i hi2


set_option maxRecDepth 8000 in
theorem sample_mailbox_consistent : index_consistent sample_mailbox := by decide

set_option maxRecDepth 8000 in
theorem sample_mailbox_cache_readable :
    cache_readable sample_cache_item_next sample_mailbox := by
  decide

set_option maxRecDepth 8000 in
theorem sample_mailbox_fit :
    4 + ((kept none sample_mailbox).map
      (fun k => (cache_blob sample_cache_item_next sample_mailbox k).length)).sum
      < 4294967296 := by
  decide

theorem expunge_header_counters_witness :
    ∃ res, mailbox_expunge true os_ok sample_cache_item_next none sample_mailbox = .ok res ∧
      be32 res.index OFFSET_EXISTS
        = be32 sample_mailbox.index_base OFFSET_EXISTS - (expunged none sample_mailbox).length ∧
      be32 res.index OFFSET_QUOTA_MAILBOX_USED
        = be32 sample_mailbox.index_base OFFSET_QUOTA_MAILBOX_USED
          - ((expunged none sample_mailbox).map
              (fun k => old_field sample_mailbox k OFFSET_SIZE)).sum := by
  obtain ⟨res, h, _, h1, _, h2, _⟩ := expunge_header_counters true os_ok sample_cache_item_next
    none sample_mailbox (by decide) sample_mailbox_consistent sample_mailbox_cache_readable
  exact ⟨res, h, h1, h2⟩

theorem expunge_default_records_witness :
    ∃ res, mailbox_expunge true os_ok sample_cache_item_next none sample_mailbox = .ok res ∧
      res.index.length = expunge_start_offset sample_mailbox
        + (kept none sample_mailbox).length * sample_mailbox.record_size := by
  obtain ⟨res, h, _, _, h1, _⟩ := expunge_default_records true os_ok sample_cache_item_next
    sample_mailbox (by decide) sample_mailbox_consistent.1 sample_mailbox_cache_readable
  exact ⟨res, h, h1⟩

set_option maxRecDepth 20000 in
/-- C3 (instance): `sample_mailbox` holds three records whose blobs of ten cache
items (one item of four bytes of data and nine empty ones, 44 bytes in all) lie
at the offsets 4, 48 and 92 of its cache, and the second record is deleted.
Expunging it keeps the records 0 and 2; the new cache is the generation number
6 followed by the 44 bytes of the first and the 44 bytes of the third blob, and
the new `cache_offset` fields are 4 and 48. -/
theorem expunge_cache_offsets_witness :
    kept none sample_mailbox = [0, 2] ∧
    cache_blob sample_cache_item_next sample_mailbox 0 = sample_blob 1 ∧
    cache_blob sample_cache_item_next sample_mailbox 2 = sample_blob 3 ∧
    (sample_blob 3).length = 44 ∧
    ∃ res, mailbox_expunge true os_ok sample_cache_item_next none sample_mailbox = .ok res ∧
      res.cache = [0, 0, 0, 6] ++ sample_blob 1 ++ sample_blob 3 ∧
      res.cache.drop 4 = ((kept none sample_mailbox).map
        (cache_blob sample_cache_item_next sample_mailbox)).flatten ∧
      be32 res.index (76 + 0 * 60 + 24) = 4 ∧
      be32 res.index (76 + 1 * 60 + 24) = 48 ∧
      slice res.cache 48 44 = sample_blob 3 := by
  obtain ⟨res, h, _, _, h2, _⟩ := expunge_cache_offsets true os_ok sample_cache_item_next none
    sample_mailbox (by decide) sample_mailbox_consistent.1 sample_mailbox_cache_readable
    sample_mailbox_fit
  have hv : (mailbox_expunge true os_ok sample_cache_item_next none sample_mailbox).toOption.map
      (fun res => (res.cache, be32 res.index (76 + 0 * 60 + 24),
        be32 res.index (76 + 1 * 60 + 24), slice res.cache 48 44))
      = some ([0, 0, 0, 6] ++ sample_blob 1 ++ sample_blob 3, 4, 48, sample_blob 3) := by
    decide
  rw [h] at hv
  simp only [Except.toOption, Option.map_some', Option.some.injEq, Prod.mk.injEq] at hv
  exact ⟨by decide, by decide, by decide, by decide, res, h, hv.1, h2, hv.2.1, hv.2.2.1,
    hv.2.2.2⟩

theorem expunge_generation_witness :
    ∃ res, mailbox_expunge false os_ok sample_cache_item_next none sample_mailbox = .ok res ∧
      be32 res.index OFFSET_LEAKED_CACHE = 0 ∧
      be32 res.index OFFSET_GENERATION_NO = be32 res.cache 0 ∧
      be32 res.index OFFSET_GENERATION_NO = (sample_mailbox.generation_no + 1) % 4294967296 := by
  obtain ⟨res, h, _, h1, _, h2, h3⟩ := expunge_generation false os_ok sample_cache_item_next none
    sample_mailbox (by decide) sample_mailbox_consistent.1 sample_mailbox_cache_readable
  exact ⟨res, h, h1, h2, h3⟩


theorem calculate_flagcounts_exists (le : Bool) (env : os_env) (m m1 : mailbox)
    (h : mailbox_calculate_flagcounts le env m = some (.ok m1)) : m1.«exists» = m.«exists» := by
  unfold mailbox_calculate_flagcounts at h
  cases hl : lock_all env with
  | some r => rw [hl] at h; simp at h
  | none =>
    rw [hl] at h
    simp only at h
    cases hc : calculate_flagcounts_loop le m MSGNO_TESTS 1 ⟨0, 0, 0⟩ with
    | none => rw [hc] at h; simp at h
    | some x =>
      cases x with
      | error r => rw [hc] at h; simp at h
      | ok c =>
        rw [hc] at h
        simp only [Option.some.injEq, Except.ok.injEq] at h
        rw [← h]

/-- With `exists` of 2^32 - 1 or more, records of size 0 and a first record
whose UID is not 0, the loop of `mailbox_calculate_flagcounts` is never left:
`msgno <= mailbox->exists` holds for every value of the `unsigned` `msgno`, and
every pass looks at the same record. -/
theorem calculate_flagcounts_loop_never_ends (le : Bool) (m : mailbox)
    (hex : 4294967295 ≤ m.«exists») (hrs : m.record_size = 0)
    (huid : load32 le (m.index_base.drop m.start_offset) OFFSET_UID ≠ 0) :
    ∀ (fuel msgno : Nat) (c : flagcounts), msgno < 4294967296 →
      calculate_flagcounts_loop le m fuel msgno c = none := by
  intro fuel
  induction fuel with
  | zero => intro msgno c _; rfl
  | succ f ih =>
    intro msgno c hm
    unfold calculate_flagcounts_loop
    rw [if_pos (by omega)]
    simp only [hrs, Nat.mul_zero, Nat.add_zero]
    rw [if_neg huid]
    exact ih _ _ (Nat.mod_lt _ (by decide))

/-- With its locks granted, `mailbox_calculate_flagcounts` does not return for
`exists` of 2^32 - 1 or more, records of size 0 and a first record whose UID is
not 0. -/
theorem calculate_flagcounts_never_ends (le : Bool) (env : os_env) (m : mailbox)
    (hlock : lock_all env = none)
    (hex : 4294967295 ≤ m.«exists») (hrs : m.record_size = 0)
    (huid : be32 (m.index_base.drop m.start_offset) OFFSET_UID ≠ 0) :
    mailbox_calculate_flagcounts le env m = none := by
  unfold mailbox_calculate_flagcounts
  rw [hlock]
  simp only
  rw [calculate_flagcounts_loop_never_ends le m hex hrs
    (fun h => huid ((load32_eq_zero_iff le _ _).1 h)) MSGNO_TESTS 1 _ (by decide)]

/-- An index that stores a `start_offset` below 60 (56 for minor version 5 and
earlier), record size 0 and `exists` 0xFFFFFFFF, and whose first record has a
UID other than 0: `mailbox_read_index_header` starts the flag recount, which
never ends. -/
theorem read_index_header_recount_never_ends (le reconstruct : Bool) (env : os_env)
    (m : mailbox) (hlock : lock_all env = none) (hfd : m.index_fd ≠ -1)
    (hlen : ¬ (m.index_len < OFFSET_POP3_LAST_LOGIN ∨
      m.index_len < be32 m.index_base OFFSET_START_OFFSET))
    (hso : be32 m.index_base OFFSET_START_OFFSET
      < OFFSET_FLAGGED - stored_quota_upgrade_offset m.index_base + 4)
    (hex : be32 m.index_base OFFSET_EXISTS = 4294967295)
    (hrs : be32 m.index_base OFFSET_RECORD_SIZE = 0)
    (huid : be32 (m.index_base.drop (be32 m.index_base OFFSET_START_OFFSET)) OFFSET_UID ≠ 0) :
    mailbox_read_index_header le reconstruct env m = .not_returned := by
  unfold mailbox_read_index_header
  simp only [ntohl_load32]
  have hq : (if toInt32 (be32 m.index_base OFFSET_MINOR_VERSION) ≤ (5 : Int) then (4 : Nat) else 0)
      = stored_quota_upgrade_offset m.index_base := rfl
  simp only [hq]
  rw [if_neg hfd, if_neg hlen]
  simp only [if_pos hso]
  rw [calculate_flagcounts_never_ends le env _ hlock]
  · exact le_of_eq hex.symm
  · exact hrs
  · exact huid

set_option maxRecDepth 20000 in
/-- An instance: on `endless_recount_index` (start offset 56, record size 0,
`exists` 0xFFFFFFFF, first UID 1) `mailbox_read_index_header` does not
return. -/
theorem read_index_header_recount_never_ends_witness :
    mailbox_read_index_header true false os_ok
      { zeromailbox with index_fd := 3, index_base := endless_recount_index } = .not_returned :=
  read_index_header_recount_never_ends true false os_ok
    { zeromailbox with index_fd := 3, index_base := endless_recount_index }
    rfl (by decide) (by decide) (by decide) (by decide) (by decide) (by decide)

/-- The snapshot that `mailbox_read_index_header` hands to
`mailbox_upgrade_index` has `pop3_new_uidl` 1 or 0, and 1 when `exists` is 0. -/
theorem read_index_header_upgrade_uidl (le reconstruct : Bool) (env : os_env) (m0 m : mailbox)
    (h : mailbox_read_index_header le reconstruct env m0 = .upgrade m) :
    m.pop3_new_uidl = 1 ∨ (m.pop3_new_uidl = 0 ∧ m.«exists» ≠ 0) := by
  unfold mailbox_read_index_header at h
  simp only [ntohl_load32] at h
  generalize (if toInt32 (be32 m0.index_base OFFSET_MINOR_VERSION) ≤ (5 : Int) then (4 : Nat) else 0)
    = q at h
  generalize be32 m0.index_base OFFSET_START_OFFSET = so at h
  generalize be32 m0.index_base OFFSET_RECORD_SIZE = rs at h
  generalize hex : be32 m0.index_base OFFSET_EXISTS = ex at h
  by_cases h1 : m0.index_fd = -1
  · simp [h1] at h
  by_cases h2 : m0.index_len < OFFSET_POP3_LAST_LOGIN ∨ m0.index_len < so
  · simp [h1, h2] at h
  simp only [h1, h2, if_false] at h
  by_cases hf : so < OFFSET_FLAGGED - q + 4
  · simp only [hf, if_true] at h
    generalize hmf : mailbox_calculate_flagcounts le env _ = cf at h
    rcases cf with _ | e | mf
    · cases h
    · cases h
    · have hexf := calculate_flagcounts_exists le env _ _ hmf
      simp only at hexf h
      split_ifs at h <;> injection h with h <;> subst h <;>
        simp only [hexf] <;> first | exact Or.inl trivial | exact Or.inr ⟨trivial, by tauto⟩
  · simp only [hf, if_false] at h
    split_ifs at h <;> injection h with h <;> subst h <;>
      simp only <;> first | exact Or.inl trivial | exact Or.inr ⟨trivial, by tauto⟩

theorem upgrade_header_buf_eq_index (le : Bool) (m : mailbox) :
    upgrade_header_buf le m = index_header_buf le m := by
  have h1 : (upgrade_header_buf le m).length = 4 * 19 := length_upgrade_header_buf le m
  have h2 : (index_header_buf le m).length = 4 * 19 := by
    simp [index_header_buf, store32_htonl, length_putBE32, INDEX_HEADER_SIZE_eq]
  apply ext_be32 _ _ 19 h1 h2
  intro k hk
  simp only [upgrade_header_buf, index_header_buf, store32_htonl, INDEX_HEADER_SIZE_eq,
    OFFSET_GENERATION_NO, OFFSET_FORMAT, OFFSET_MINOR_VERSION, OFFSET_START_OFFSET,
    OFFSET_RECORD_SIZE, OFFSET_EXISTS, OFFSET_LAST_APPENDDATE, OFFSET_LAST_UID,
    OFFSET_QUOTA_RESERVED_FIELD, OFFSET_QUOTA_MAILBOX_USED, OFFSET_POP3_LAST_LOGIN,
    OFFSET_UIDVALIDITY, OFFSET_DELETED, OFFSET_ANSWERED, OFFSET_FLAGGED, OFFSET_POP3_NEW_UIDL,
    OFFSET_LEAKED_CACHE, OFFSET_SPARE1, OFFSET_SPARE2]
  interval_cases k <;>
    simp [be32_putBE32_same, be32_putBE32_disj, length_putBE32, be32_replicate_zero, be32_mod] <;>
    rfl

theorem upgrade_header_buf_reserved (le : Bool) (m : mailbox) :
    be32 (upgrade_header_buf le m) OFFSET_QUOTA_RESERVED_FIELD = 0 ∧
    be32 (upgrade_header_buf le m) OFFSET_SPARE1 = 0 ∧
    be32 (upgrade_header_buf le m) OFFSET_SPARE2 = 0 ∧
    be32 (upgrade_header_buf le m) OFFSET_POP3_NEW_UIDL = toU32 m.pop3_new_uidl := by
  have ht : ∀ x : Int, toU32 x % 4294967296 = toU32 x := by
    intro x; unfold toU32; omega
  simp only [upgrade_header_buf, store32_htonl, OFFSET_GENERATION_NO, OFFSET_FORMAT,
    OFFSET_MINOR_VERSION, OFFSET_START_OFFSET,
    OFFSET_RECORD_SIZE, OFFSET_EXISTS, OFFSET_LAST_APPENDDATE, OFFSET_LAST_UID,
    OFFSET_QUOTA_MAILBOX_USED, OFFSET_POP3_LAST_LOGIN, OFFSET_QUOTA_RESERVED_FIELD,
    OFFSET_UIDVALIDITY, OFFSET_DELETED, OFFSET_ANSWERED, OFFSET_FLAGGED, OFFSET_POP3_NEW_UIDL,
    OFFSET_LEAKED_CACHE, OFFSET_SPARE1, OFFSET_SPARE2, INDEX_HEADER_SIZE_eq]
  refine ⟨?_, ?_, ?_, ?_⟩ <;>
    simp [be32_putBE32_same, be32_putBE32_disj, length_putBE32, ht, be32_replicate_zero] <;>
    rfl

theorem mailbox_upgrade_fields_eq (m : mailbox)
    (h1 : m.minor_version = (MAILBOX_MINOR_VERSION : Int))
    (h2 : m.start_offset = INDEX_HEADER_SIZE) (h3 : m.record_size = INDEX_RECORD_SIZE) :
    { m with minor_version := MAILBOX_MINOR_VERSION, start_offset := INDEX_HEADER_SIZE,
             record_size := INDEX_RECORD_SIZE } = m := by
  cases m
  simp only at h1 h2 h3
  subst h1 h2 h3
  rfl

/-- The index written by a successful `mailbox_upgrade_index`: the new header
followed, for every old record, by the old bytes and the tail of the record
buffer `ub`. -/
theorem upgrade_index_file (le : Bool) (env : os_env) (m : mailbox)
    (hlock : lock_all env = none) (hfo : env.fopen_index_ok = true)
    (hw : env.write_ok = true) (hrn : env.rename_index_ok = true)
    (h60 : m.record_size ≤ 60) (hex : m.«exists» < 4294967295)
    (hfit : m.start_offset + m.«exists» * m.record_size < 4294967296) :
    ∃ ub : List Byte, ub.length = 76 ∧
      mailbox_upgrade_index le env m = some (.ok
        ({ m with minor_version := MAILBOX_MINOR_VERSION, start_offset := INDEX_HEADER_SIZE,
                  record_size := INDEX_RECORD_SIZE },
         upgrade_header_buf le
            { m with minor_version := MAILBOX_MINOR_VERSION, start_offset := INDEX_HEADER_SIZE,
                     record_size := INDEX_RECORD_SIZE }
          ++ ((List.range' 1 m.«exists»).map
            (fun j => slice m.index_base (m.start_offset + (j - 1) * m.record_size) m.record_size
              ++ slice ub m.record_size (60 - m.record_size))).flatten)) := by
  have hs32 : m.start_offset % 4294967296 = m.start_offset := Nat.mod_eq_of_lt (by omega)
  have hr32 : m.record_size % 4294967296 = m.record_size := Nat.mod_eq_of_lt (by omega)
  obtain ⟨m1, hm1⟩ : ∃ m1 : mailbox, m1 = { m with
      minor_version := MAILBOX_MINOR_VERSION, start_offset := INDEX_HEADER_SIZE,
      record_size := INDEX_RECORD_SIZE } := ⟨_, rfl⟩
  obtain ⟨hdr, hhdr⟩ : ∃ hdr, hdr = upgrade_header_buf le m1 := ⟨_, rfl⟩
  obtain ⟨buf0, hbuf0⟩ : ∃ b, b = List.replicate INDEX_RECORD_SIZE (0 : Byte)
      ++ hdr.drop INDEX_RECORD_SIZE := ⟨_, rfl⟩
  obtain ⟨ub, hubd⟩ : ∃ b, b = upgrade_record_buf le m.record_size buf0 := ⟨_, rfl⟩
  have lhdr : hdr.length = 76 := by rw [hhdr]; exact length_upgrade_header_buf le m1
  have lbuf0 : buf0.length = 76 := by
    rw [hbuf0, List.length_append, List.length_replicate, List.length_drop, lhdr,
      INDEX_RECORD_SIZE_eq]
  have lub : ub.length = 76 := by rw [hubd, length_upgrade_record_buf]; exact lbuf0
  have hub : upgrade_record_buf le m.record_size ub = ub := by
    rw [hubd]; exact upgrade_record_buf_idem le _ _ lbuf0
  have htake : hdr.take INDEX_HEADER_SIZE = hdr :=
    List.take_of_length_le (by rw [lhdr, INDEX_HEADER_SIZE_eq])
  obtain ⟨b, hloop⟩ := upgrade_index_loop_eq le m.index_base m.«exists» m.start_offset
    m.record_size ub h60 hub hex
    m.«exists» MSGNO_TESTS 1 buf0 hdr (le_refl 1) (by omega) (by unfold MSGNO_TESTS; omega)
    (by simp only [Nat.sub_self, Nat.zero_add]; omega) hubd.symm
  refine ⟨ub, lub, ?_⟩
  unfold mailbox_upgrade_index
  simp only [hlock, hfo, hw, hrn, hs32, hr32, Bool.not_true, Bool.false_eq_true, if_false]
  rw [← hm1]
  simp only [← hhdr, ← hbuf0, htake]
  have e1 : m1.index_base = m.index_base := by rw [hm1]
  have e2 : m1.«exists» = m.«exists» := by rw [hm1]
  simp only [e1, e2, hloop]

theorem flatten_map_range_getElem (bs : List (List Byte)) (g : Nat → List Byte)
    (h : ∀ (k : Nat) (hk : k < bs.length), g (k + 1) = bs[k]) :
    ((List.range' 1 bs.length).map g) = bs := by
  apply List.ext_getElem
  · simp
  · intro i h1 h2
    simp only [List.getElem_map, List.getElem_range']
    rw [← h i h2]
    congr 1
    omega

/-- C11: when `mailbox_read_index_header` hands a snapshot `m` to
`mailbox_upgrade_index` and the upgrade succeeds (old records of at most 60
bytes lying inside the mapped index, old and new index below 4 GiB), the index
file `f` it writes is read back by `mailbox_read_index_header` with return
code 0, without another upgrade and without `IMAP_MAILBOX_BADFORMAT`, and
`mailbox_upgrade_index` applied to the snapshot read back writes `f` again,
byte for byte. -/
theorem upgrade_index_idempotent (le reconstruct : Bool) (env : os_env) (m0 m : mailbox)
    (hread : mailbox_read_index_header le reconstruct env m0 = .upgrade m)
    (hlock : lock_all env = none) (hfo : env.fopen_index_ok = true)
    (hw : env.write_ok = true) (hrn : env.rename_index_ok = true)
    (h60 : m.record_size ≤ INDEX_RECORD_SIZE)
    (hlen : m.start_offset + m.«exists» * m.record_size ≤ m.index_len)
    (hfit : m.start_offset + m.«exists» * m.record_size < 4294967296)
    (hfit' : INDEX_HEADER_SIZE + m.«exists» * INDEX_RECORD_SIZE < 4294967296) :
    ∃ m1 f, mailbox_upgrade_index le env m = some (.ok (m1, f)) ∧
      ∀ (reconstruct' : Bool) (m' : mailbox), m'.index_fd ≠ -1 → m'.index_base = f →
        (reconstruct' = false → m'.generation_no = be32 f OFFSET_GENERATION_NO) →
        ∃ m2, mailbox_read_index_header le reconstruct' env m' = .ok m2 ∧
          ∃ m3, mailbox_upgrade_index le env m2 = some (.ok (m3, f)) := by
  rw [INDEX_RECORD_SIZE_eq] at h60
  rw [INDEX_HEADER_SIZE_eq, INDEX_RECORD_SIZE_eq] at hfit'
  have hex32 : m.«exists» < 4294967296 := by omega
  have huidl := read_index_header_upgrade_uidl le reconstruct env m0 m hread
  obtain ⟨ub, lub, hup⟩ := upgrade_index_file le env m hlock hfo hw hrn h60 (by omega) hfit
  obtain ⟨m1, hm1⟩ : ∃ m1 : mailbox, m1 = { m with
      minor_version := MAILBOX_MINOR_VERSION, start_offset := INDEX_HEADER_SIZE,
      record_size := INDEX_RECORD_SIZE } := ⟨_, rfl⟩
  obtain ⟨hdr, hhdr⟩ : ∃ hdr, hdr = upgrade_header_buf le m1 := ⟨_, rfl⟩
  obtain ⟨bs, hbs⟩ : ∃ bs : List (List Byte), bs = (List.range' 1 m.«exists»).map
      (fun j => slice m.index_base (m.start_offset + (j - 1) * m.record_size) m.record_size
        ++ slice ub m.record_size (60 - m.record_size)) := ⟨_, rfl⟩
  rw [← hm1, ← hhdr, ← hbs] at hup
  have lhdr : hdr.length = 76 := by rw [hhdr]; exact length_upgrade_header_buf le m1
  have lbs : bs.length = m.«exists» := by rw [hbs]; simp
  have hall : ∀ b ∈ bs, b.length = 60 := by
    intro b hb
    rw [hbs] at hb
    obtain ⟨j, hj, rfl⟩ := List.mem_map.1 hb
    obtain ⟨hj1, hj2⟩ := List.mem_range'_1.1 hj
    have h1 : (slice m.index_base (m.start_offset + (j - 1) * m.record_size)
        m.record_size).length = m.record_size := by
      apply length_slice
      have : (j - 1 + 1) * m.record_size ≤ m.«exists» * m.record_size :=
        Nat.mul_le_mul_right _ (by omega)
      have e : (j - 1 + 1) * m.record_size = (j - 1) * m.record_size + m.record_size := by ring
      unfold mailbox.index_len at hlen
      omega
    have h2 : (slice ub m.record_size (60 - m.record_size)).length = 60 - m.record_size := by
      apply length_slice; omega
    rw [List.length_append, h1, h2]; omega
  obtain ⟨f0, f8, f12, f16, f20⟩ := upgrade_header_buf_fields le m1
  obtain ⟨f32, f68, f72, f60⟩ := upgrade_header_buf_reserved le m1
  rw [← hhdr] at f0 f8 f12 f16 f20 f32 f68 f72 f60
  have hm1e : m1.«exists» = m.«exists» := by rw [hm1]
  have hm1u : m1.pop3_new_uidl = m.pop3_new_uidl := by rw [hm1]
  rw [hm1e, Nat.mod_eq_of_lt hex32] at f20
  rw [hm1u] at f60
  refine ⟨m1, hdr ++ bs.flatten, hup, ?_⟩
  intro rc' m' hfd hib hgen
  have wl : ∀ o, o + 4 ≤ 76 → be32 m'.index_base o = be32 hdr o := by
    intro o ho
    rw [hib, be32_append_left _ _ _ (by rw [lhdr]; exact ho)]
  have w12 : be32 m'.index_base OFFSET_START_OFFSET = INDEX_HEADER_SIZE := by
    rw [wl _ (by decide), f12, hm1]; rfl
  have w16 : be32 m'.index_base OFFSET_RECORD_SIZE = INDEX_RECORD_SIZE := by
    rw [wl _ (by decide), f16, hm1]; rfl
  have w8 : be32 m'.index_base OFFSET_MINOR_VERSION = MAILBOX_MINOR_VERSION := by
    rw [wl _ (by decide), f8, hm1]; rfl
  have w20 : be32 m'.index_base OFFSET_EXISTS = m.«exists» := by
    rw [wl _ (by decide), f20]
  have w60 : be32 m'.index_base OFFSET_POP3_NEW_UIDL = toU32 m.pop3_new_uidl := by
    rw [wl _ (by decide), f60]
  have hl76 : INDEX_HEADER_SIZE ≤ m'.index_len := by
    unfold mailbox.index_len
    rw [hib, List.length_append, lhdr, INDEX_HEADER_SIZE_eq]; omega
  have hcur := read_index_header_current le rc' env m' hfd hl76 w12 w16 w8
    (fun h => by rw [hgen h, hib])
  refine ⟨snapshotBE m', hcur, ?_⟩
  have s1 : (snapshotBE m').start_offset = INDEX_HEADER_SIZE := w12
  have s2 : (snapshotBE m').record_size = INDEX_RECORD_SIZE := w16
  have s3 : (snapshotBE m').minor_version = (MAILBOX_MINOR_VERSION : Int) := by
    show toInt32 (be32 m'.index_base OFFSET_MINOR_VERSION) = _
    rw [w8]; rfl
  have s4 : (snapshotBE m').«exists» = m.«exists» := w20
  have s5 : (snapshotBE m').index_base = hdr ++ bs.flatten := hib
  obtain ⟨ub2, _, hup2⟩ := upgrade_index_file le env (snapshotBE m') hlock hfo hw hrn
    (by rw [s2, INDEX_RECORD_SIZE_eq]) (by rw [s4]; omega)
    (by rw [s1, s2, s4, INDEX_HEADER_SIZE_eq, INDEX_RECORD_SIZE_eq]; exact hfit')
  rw [mailbox_upgrade_fields_eq _ s3 s1 s2, upgrade_header_buf_eq_index, s1, s2, s4, s5] at hup2
  have hhd : index_header_buf le (snapshotBE m') = hdr := by
    rw [index_header_buf_snapshotBE le m' hl76 (by rw [wl _ (by decide), f32])
      (by rw [wl _ (by decide), f68]) (by rw [wl _ (by decide), f72])
      (by
        rw [w60, w20]
        rcases huidl with h | ⟨h, h'⟩
        · left; rw [h]; rfl
        · right; exact ⟨by rw [h]; rfl, h'⟩),
      hib]
    exact List.take_left' (by rw [lhdr, INDEX_HEADER_SIZE_eq])
  have hrec : (List.range' 1 m.«exists»).map
      (fun j => slice (hdr ++ bs.flatten) (INDEX_HEADER_SIZE + (j - 1) * INDEX_RECORD_SIZE)
          INDEX_RECORD_SIZE ++ slice ub2 INDEX_RECORD_SIZE (60 - INDEX_RECORD_SIZE)) = bs := by
    rw [← lbs]
    apply flatten_map_range_getElem
    intro k hk
    have e : INDEX_HEADER_SIZE + (k + 1 - 1) * INDEX_RECORD_SIZE = hdr.length + 60 * k := by
      rw [lhdr, INDEX_HEADER_SIZE_eq, INDEX_RECORD_SIZE_eq]; omega
    rw [e, INDEX_RECORD_SIZE_eq, slice_flatten_blocks hdr bs 60 k hall hk]
    simp [slice]
  rw [hhd, hrec] at hup2
  exact ⟨_, hup2⟩

set_option maxRecDepth 4000 in
theorem upgrade_index_idempotent_witness :
    mailbox_read_index_header true false os_ok
        { zeromailbox with index_fd := 3, cache_fd := 4, index_base := old_index,
                           generation_no := 3 } = .upgrade old_index_snapshot ∧
    ∃ m1 f, mailbox_upgrade_index true os_ok old_index_snapshot = some (.ok (m1, f)) ∧
      ∀ (reconstruct' : Bool) (m' : mailbox), m'.index_fd ≠ -1 → m'.index_base = f →
        (reconstruct' = false → m'.generation_no = be32 f OFFSET_GENERATION_NO) →
        ∃ m2, mailbox_read_index_header true reconstruct' os_ok m' = .ok m2 ∧
          ∃ m3, mailbox_upgrade_index true os_ok m2 = some (.ok (m3, f)) :=
  ⟨by decide,
   upgrade_index_idempotent true false os_ok
    { zeromailbox with index_fd := 3, cache_fd := 4, index_base := old_index, generation_no := 3 }
    old_index_snapshot (by decide) rfl rfl rfl rfl (by decide) (by decide) (by decide) (by decide)⟩

/-! ## The header file: `mailbox_write_header` and `mailbox_read_header` -/

theorem slice_append_mid (pre s rest : List Byte) :
    slice (pre ++ s ++ rest) pre.length s.length = s := by
  unfold slice
  rw [List.append_assoc, List.drop_left, List.take_left]

theorem slice_append_mid_take (pre s : List Byte) (n : Nat) :
    slice (pre ++ s) pre.length n = s.take n := by
  unfold slice
  rw [List.drop_left]

theorem memchr_found (mem pre s rest : List Byte) (c : Byte) (n : Nat)
    (hmem : mem = pre ++ s ++ c :: rest) (hs : c ∉ s) (hn : s.length < n) :
    memchr mem pre.length c n = some (pre.length + s.length) := by
  unfold memchr
  have hsl : slice mem pre.length n = (s ++ c :: rest).take n := by
    rw [hmem, List.append_assoc, slice_append_mid_take]
  have htk : (s ++ c :: rest).take n = s ++ (c :: rest).take (n - s.length) := by
    rw [List.take_append_eq_append_take, List.take_of_length_le (by omega)]
  obtain ⟨k, hk⟩ : ∃ k, n - s.length = k + 1 := ⟨n - s.length - 1, by omega⟩
  rw [hsl, htk, hk, List.take_succ_cons]
  rw [if_pos (by simp), List.indexOf_append_of_not_mem hs, List.indexOf_cons_self]
  rfl

theorem memchr_none (mem : List Byte) (p : Nat) (c : Byte) (n : Nat)
    (h : c ∉ slice mem p n) : memchr mem p c n = none := by
  unfold memchr
  rw [if_neg h]

theorem xstrndup_mid (mem pre s rest : List Byte) (hmem : mem = pre ++ s ++ rest)
    (hs : cstring s) : xstrndup mem pre.length s.length = s := by
  unfold xstrndup
  rw [hmem, slice_append_mid]
  apply List.takeWhile_eq_self_iff.2
  intro b hb
  have : b ≠ 0 := fun h => hs (h ▸ hb)
  simpa using this

theorem read_flagnames_past (mem : List Byte) (eol : Nat) (n name : Nat) (h : eol < name) :
    read_flagnames mem eol n name = List.replicate n none := by
  cases n with
  | zero => rfl
  | succ n =>
    unfold read_flagnames
    rw [if_neg (by omega)]

/-- Parsing the line of flag names: `names` written each with a space after it
and ended by a newline are read back in order into the first slots, and the
slots left are null. -/
theorem read_flagnames_names (names : List (List Byte)) :
    ∀ (mem pre rest : List Byte) (n : Nat),
      mem = pre ++ names.flatMap (fun s => s ++ [32]) ++ 10 :: rest →
      (∀ s ∈ names, s ≠ [] ∧ cstring s ∧ (32 : Byte) ∉ s) →
      names.length ≤ n →
      read_flagnames mem (pre.length + (names.flatMap (fun s => s ++ [32])).length) n pre.length
        = names.map some ++ List.replicate (n - names.length) none := by
  induction names with
  | nil =>
    intro mem pre rest n _ _ _
    cases n with
    | zero => rfl
    | succ n =>
      unfold read_flagnames
      simp only [List.flatMap_nil, List.length_nil, Nat.add_zero, le_refl, if_true,
        Nat.sub_self, List.map_nil, List.nil_append, Nat.sub_zero]
      rw [memchr_none _ _ _ _ (by simp [slice])]
      simp only [ne_eq, not_true_eq_false, if_false]
      rw [read_flagnames_past _ _ _ _ (by omega), List.replicate_succ]
  | cons s t ih =>
    intro mem pre rest n hmem hnames hn
    obtain ⟨hs0, hsc, hs32⟩ := hnames s (List.mem_cons_self _ _)
    cases n with
    | zero => simp at hn
    | succ n =>
      have hslen : 0 < s.length := List.length_pos.2 hs0
      have hmem1 : mem = pre ++ s ++ 32 :: (t.flatMap (fun s => s ++ [32]) ++ 10 :: rest) := by
        rw [hmem]; simp [List.flatMap_cons, List.append_assoc]
      have hmem2 : mem = pre ++ s ++ (32 :: (t.flatMap (fun s => s ++ [32]) ++ 10 :: rest)) :=
        hmem1
      have hmem3 : mem = (pre ++ s ++ [32]) ++ t.flatMap (fun s => s ++ [32]) ++ 10 :: rest := by
        rw [hmem]; simp [List.flatMap_cons, List.append_assoc]
      obtain ⟨L, hL⟩ : ∃ L, L = (t.flatMap (fun s => s ++ [32])).length := ⟨_, rfl⟩
      have hlen : (List.flatMap (s :: t) (fun s => s ++ [32])).length = s.length + 1 + L := by
        rw [List.flatMap_cons, List.length_append, List.length_append, hL]; rfl
      unfold read_flagnames
      rw [hlen, if_pos (show pre.length ≤ pre.length + (s.length + 1 + L) by omega),
        memchr_found mem pre s _ 32 _ hmem1 hs32 (by omega)]
      simp only
      rw [if_pos (show pre.length ≠ pre.length + s.length by omega)]
      have e1 : pre.length + s.length - pre.length = s.length := by omega
      rw [e1, xstrndup_mid mem pre s _ hmem2 hsc]
      have e2 : pre.length + s.length + 1 = (pre ++ s ++ [32]).length := by
        simp only [List.length_append, List.length_singleton]
      have e3 : pre.length + (s.length + 1 + L) = (pre ++ s ++ [32]).length + L := by
        simp only [List.length_append, List.length_singleton]; omega
      rw [e2, e3, hL, ih mem (pre ++ s ++ [32]) rest n hmem3
        (fun x hx => hnames x (List.mem_cons_of_mem _ hx)) (by simpa using hn)]
      simp

theorem flatMap_header_flag_text (l : List (Option (List Byte))) :
    l.flatMap header_flag_text = (l.filterMap id).flatMap (fun s => s ++ [32]) := by
  induction l with
  | nil => rfl
  | cons a l ih =>
    cases a with
    | none => simpa [header_flag_text, List.flatMap_cons] using ih
    | some s => simp [header_flag_text, List.flatMap_cons, ih]

theorem not_mem_flag_text (c : Byte) (hc : c ≠ 32) (names : List (List Byte))
    (h : ∀ s ∈ names, c ∉ s) : c ∉ names.flatMap (fun s => s ++ [32]) := by
  intro hmem
  obtain ⟨s, hs, hcs⟩ := List.mem_flatMap.1 hmem
  rcases List.mem_append.1 hcs with h1 | h1
  · exact h s hs h1
  · exact hc (by simpa using h1)

/-- What `mailbox_read_header` makes of a header written by
`mailbox_write_header`, the quota root being free of tab and newline, the
unique id nonempty and free of newline, and the flag names nonempty and free
of space and newline: the quota root (null when empty), the unique id, and the
non-null flag names in their order in the first slots. -/
theorem read_header_text (m : mailbox) (q u acl : List Byte)
    (table : List (Option (List Byte)))
    (hb : m.header_base = header_text q u table acl)
    (hq9 : (9 : Byte) ∉ q) (hq10 : (10 : Byte) ∉ q) (hqc : cstring q)
    (hu0 : u ≠ []) (hu10 : (10 : Byte) ∉ u) (huc : cstring u)
    (hnames : ∀ s, some s ∈ table.take MAX_USER_FLAGS →
      s ≠ [] ∧ cstring s ∧ (32 : Byte) ∉ s ∧ (10 : Byte) ∉ s) :
    mailbox_read_header m = .ok { m with
      quota_root := (if q = [] then none else some q),
      uniqueid := some u,
      flagname := ((table.take MAX_USER_FLAGS).filterMap id).map some ++
        List.replicate (MAX_USER_FLAGS - ((table.take MAX_USER_FLAGS).filterMap id).length)
          none } := by
  obtain ⟨M, hM⟩ : ∃ M, M = MAILBOX_HEADER_MAGIC := ⟨_, rfl⟩
  obtain ⟨names, hn⟩ : ∃ names, names = (table.take MAX_USER_FLAGS).filterMap id := ⟨_, rfl⟩
  obtain ⟨F, hF⟩ : ∃ F, F = names.flatMap (fun s => s ++ [32]) := ⟨_, rfl⟩
  have hnm : ∀ s ∈ names, s ≠ [] ∧ cstring s ∧ (32 : Byte) ∉ s ∧ (10 : Byte) ∉ s := by
    intro s hs
    rw [hn] at hs
    obtain ⟨a, ha, hsa⟩ := List.mem_filterMap.1 hs
    simp only [id] at hsa
    exact hnames s (hsa ▸ ha)
  have hnl : names.length ≤ MAX_USER_FLAGS := by
    rw [hn]
    exact le_trans (List.length_filterMap_le _ _) (by simp)
  have hbase : m.header_base = M ++ (q ++ [9] ++ u ++ [10]) ++ F ++ ([10] ++ acl ++ [10]) := by
    rw [hb, header_text, flatMap_header_flag_text, ← hn, ← hF, ← hM]
  have hlen : m.header_len = M.length + (q.length + 1 + u.length + 1) + F.length
      + (1 + acl.length + 1) := by
    unfold mailbox.header_len
    rw [hbase]
    simp only [List.length_append, List.length_singleton]
  have hF10 : (10 : Byte) ∉ F := by
    rw [hF]
    exact not_mem_flag_text 10 (by decide) names (fun s hs => (hnm s hs).2.2.2)
  have htab : memchr m.header_base M.length 9 (m.header_len - M.length)
      = some (M.length + q.length) :=
    memchr_found _ M q (u ++ [10] ++ F ++ ([10] ++ acl ++ [10])) 9 _
      (by rw [hbase]; simp [List.append_assoc]) hq9 (by rw [hlen]; omega)
  have heol : memchr m.header_base M.length 10 (m.header_len - M.length)
      = some (M.length + (q.length + 1 + u.length)) := by
    have h := memchr_found m.header_base M (q ++ [9] ++ u) (F ++ ([10] ++ acl ++ [10])) 10
      (m.header_len - M.length) (by rw [hbase]; simp [List.append_assoc])
      (by
        intro h
        rcases List.mem_append.1 h with h | h
        · rcases List.mem_append.1 h with h | h
          · exact hq10 h
          · simp at h
        · exact hu10 h)
      (by rw [hlen]; simp only [List.length_append, List.length_singleton]; omega)
    simpa only [List.length_append, List.length_singleton] using h
  have hquota : xstrndup m.header_base M.length q.length = q :=
    xstrndup_mid _ M q ([9] ++ u ++ [10] ++ F ++ ([10] ++ acl ++ [10]))
      (by rw [hbase]; simp [List.append_assoc]) hqc
  have huniq : xstrndup m.header_base (M.length + q.length + 1) u.length = u := by
    have h := xstrndup_mid m.header_base (M ++ q ++ [9]) u ([10] ++ F ++ ([10] ++ acl ++ [10]))
      (by rw [hbase]; simp [List.append_assoc]) huc
    simpa only [List.length_append, List.length_singleton] using h
  have heol2 : memchr m.header_base (M.length + (q.length + 1 + u.length) + 1) 10
      (m.header_len - (M.length + (q.length + 1 + u.length) + 1))
      = some (M.length + (q.length + 1 + u.length) + 1 + F.length) := by
    have h := memchr_found m.header_base (M ++ (q ++ [9] ++ u ++ [10])) F (acl ++ [10]) 10
      (m.header_len - (M.length + (q.length + 1 + u.length) + 1))
      (by rw [hbase]; simp [List.append_assoc]) hF10 (by rw [hlen]; omega)
    simpa only [List.length_append, List.length_singleton, Nat.add_assoc] using h
  have hflags : read_flagnames m.header_base
      (M.length + (q.length + 1 + u.length) + 1 + F.length) MAX_USER_FLAGS
      (M.length + (q.length + 1 + u.length) + 1)
      = names.map some ++ List.replicate (MAX_USER_FLAGS - names.length) none := by
    have h := read_flagnames_names names m.header_base (M ++ (q ++ [9] ++ u ++ [10]))
      (acl ++ [10]) MAX_USER_FLAGS (by rw [hbase, hF]; simp [List.append_assoc])
      (fun s hs => ⟨(hnm s hs).1, (hnm s hs).2.1, (hnm s hs).2.2.1⟩) hnl
    rw [← hF] at h
    simpa only [List.length_append, List.length_singleton, Nat.add_assoc] using h
  have hulen : 0 < u.length := List.length_pos.2 hu0
  unfold mailbox_read_header
  rw [← hM, if_neg (by
    intro h
    rcases h with h | h
    · rw [hlen] at h; omega
    · apply h
      rw [hbase, List.append_assoc, List.append_assoc]
      exact List.take_left' rfl)]
  have e2 : ¬ (M.length + q.length > M.length + (q.length + 1 + u.length)) := by omega
  have e1 : decide (M.length + q.length > M.length + (q.length + 1 + u.length)) = false :=
    decide_eq_false e2
  have e5 : ¬ (M.length + q.length + 1 = M.length + (q.length + 1 + u.length)) := by omega
  simp only [htab, heol, e1, e2, e5, if_false, and_false, Bool.false_eq_true, true_and,
    heol2, hflags]
  have e3 : M.length + q.length - M.length = q.length := by omega
  have e4 : M.length + (q.length + 1 + u.length) - (M.length + q.length + 1) = u.length := by
    omega
  rw [e3, e4, hquota, huniq]
  have e6 : (if M.length < M.length + q.length then some q else none)
      = (if q = [] then none else some q) := by
    by_cases hq0 : q = []
    · subst hq0; simp
    · rw [if_neg hq0, if_pos (by have := List.length_pos.2 hq0; omega)]
  rw [e6, hn, if_neg (by simp), if_neg (by simp)]

/-- What `mailbox_read_header_acl` makes of a header written by
`mailbox_write_header`, the first two lines being free of stray newlines and the
ACL free of newline: the ACL. -/
theorem read_header_acl_text (m : mailbox) (q u acl : List Byte)
    (table : List (Option (List Byte)))
    (hb : m.header_base = header_text q u table acl)
    (hq10 : (10 : Byte) ∉ q) (hu10 : (10 : Byte) ∉ u)
    (hnames : ∀ s, some s ∈ table.take MAX_USER_FLAGS → (10 : Byte) ∉ s)
    (ha10 : (10 : Byte) ∉ acl) (hac : cstring acl) :
    mailbox_read_header_acl m = .ok { m with acl := some acl } := by
  obtain ⟨M, hM⟩ : ∃ M, M = MAILBOX_HEADER_MAGIC := ⟨_, rfl⟩
  obtain ⟨names, hn⟩ : ∃ names, names = (table.take MAX_USER_FLAGS).filterMap id := ⟨_, rfl⟩
  obtain ⟨F, hF⟩ : ∃ F, F = names.flatMap (fun s => s ++ [32]) := ⟨_, rfl⟩
  have hnm : ∀ s ∈ names, (10 : Byte) ∉ s := by
    intro s hs
    rw [hn] at hs
    obtain ⟨a, ha, hsa⟩ := List.mem_filterMap.1 hs
    simp only [id] at hsa
    exact hnames s (hsa ▸ ha)
  have hbase : m.header_base = M ++ (q ++ [9] ++ u ++ [10]) ++ F ++ ([10] ++ acl ++ [10]) := by
    rw [hb, header_text, flatMap_header_flag_text, ← hn, ← hF, ← hM]
  have hlen : m.header_len = M.length + (q.length + 1 + u.length + 1) + F.length
      + (1 + acl.length + 1) := by
    unfold mailbox.header_len
    rw [hbase]
    simp only [List.length_append, List.length_singleton]
  have hF10 : (10 : Byte) ∉ F := by
    rw [hF]
    exact not_mem_flag_text 10 (by decide) names hnm
  have heol : memchr m.header_base M.length 10 (m.header_len - M.length)
      = some (M.length + (q.length + 1 + u.length)) := by
    have h := memchr_found m.header_base M (q ++ [9] ++ u) (F ++ ([10] ++ acl ++ [10])) 10
      (m.header_len - M.length) (by rw [hbase]; simp [List.append_assoc])
      (by
        intro h
        rcases List.mem_append.1 h with h | h
        · rcases List.mem_append.1 h with h | h
          · exact hq10 h
          · simp at h
        · exact hu10 h)
      (by rw [hlen]; simp only [List.length_append, List.length_singleton]; omega)
    simpa only [List.length_append, List.length_singleton] using h
  have heol2 : memchr m.header_base (M.length + (q.length + 1 + u.length) + 1) 10
      (m.header_len - (M.length + (q.length + 1 + u.length) + 1))
      = some (M.length + (q.length + 1 + u.length) + 1 + F.length) := by
    have h := memchr_found m.header_base (M ++ (q ++ [9] ++ u ++ [10])) F (acl ++ [10]) 10
      (m.header_len - (M.length + (q.length + 1 + u.length) + 1))
      (by rw [hbase]; simp [List.append_assoc]) hF10 (by rw [hlen]; omega)
    simpa only [List.length_append, List.length_singleton, Nat.add_assoc] using h
  have heol3 : memchr m.header_base (M.length + (q.length + 1 + u.length) + 1 + F.length + 1) 10
      (m.header_len - (M.length + (q.length + 1 + u.length) + 1 + F.length + 1))
      = some (M.length + (q.length + 1 + u.length) + 1 + F.length + 1 + acl.length) := by
    have h := memchr_found m.header_base (M ++ (q ++ [9] ++ u ++ [10]) ++ F ++ [10]) acl [] 10
      (m.header_len - (M.length + (q.length + 1 + u.length) + 1 + F.length + 1))
      (by rw [hbase]; simp [List.append_assoc]) ha10 (by rw [hlen]; omega)
    simpa only [List.length_append, List.length_singleton, Nat.add_assoc] using h
  have hacl : xstrndup m.header_base (M.length + (q.length + 1 + u.length) + 1 + F.length + 1)
      acl.length = acl := by
    have h := xstrndup_mid m.header_base (M ++ (q ++ [9] ++ u ++ [10]) ++ F ++ [10]) acl [10]
      (by rw [hbase]; simp [List.append_assoc]) hac
    simpa only [List.length_append, List.length_singleton, Nat.add_assoc] using h
  unfold mailbox_read_header_acl
  rw [← hM, if_neg (by
    intro h
    rcases h with h | h
    · rw [hlen] at h; omega
    · apply h
      rw [hbase, List.append_assoc, List.append_assoc]
      exact List.take_left' rfl)]
  simp only [heol, heol2, heol3]
  have e : M.length + (q.length + 1 + u.length) + 1 + F.length + 1 + acl.length
      - (M.length + (q.length + 1 + u.length) + 1 + F.length + 1) = acl.length := by omega
  rw [e, hacl]

theorem write_header_ok (env : os_env) (m : mailbox) (u acl : List Byte)
    (hlock : m.header_lock_count ≠ 0) (hfd : env.newheader_fd ≠ -1)
    (hw : env.write_ok = true) (hrn : env.rename_header_ok = true)
    (hu : m.uniqueid = some u) (ha : m.acl = some acl) :
    mailbox_write_header env m = some (.ok { m with
      header_fd := env.newheader_fd,
      header_base := header_text (m.quota_root.getD []) u m.flagname acl }) := by
  unfold mailbox_write_header
  rw [if_neg hlock, if_neg hfd, hw, hrn, hu, ha]
  rfl

theorem filterMap_id_map_some_append (names : List (List Byte)) (k : Nat) :
    (names.map some ++ List.replicate k (none : Option (List Byte))).filterMap id = names := by
  rw [List.filterMap_append]
  have h1 : (names.map some).filterMap id = names := by
    induction names with
    | nil => rfl
    | cons a l ih => simp [ih]
  have h2 : (List.replicate k (none : Option (List Byte))).filterMap id = [] := by
    induction k with
    | zero => rfl
    | succ k ih => simp [List.replicate_succ, ih]
  rw [h1, h2, List.append_nil]

/-- C13: a mailbox holding its header lock, whose quota root has no tab or
newline, whose unique id is nonempty without tab or newline, whose ACL has no
newline, and whose flag names are nonempty, free of space and newline and fill
a contiguous prefix of the 128 slots: `mailbox_write_header` (its system calls
succeeding) writes bytes that start with the magic banner.  On every handle `r`
that has these bytes mapped as its header, whatever its other fields hold,
`mailbox_read_header` returns 0, in the current format, having parsed the same
quota root (null when empty), unique id and flag names, and
`mailbox_read_header_acl` returns 0 having parsed the same ACL. -/
theorem header_text_roundtrip (env : os_env) (m : mailbox) (u acl : List Byte)
    (names : List (List Byte))
    (hlock : m.header_lock_count ≠ 0) (hfd : env.newheader_fd ≠ -1)
    (hw : env.write_ok = true) (hrn : env.rename_header_ok = true)
    (hq9 : (9 : Byte) ∉ m.quota_root.getD []) (hq10 : (10 : Byte) ∉ m.quota_root.getD [])
    (hqc : cstring (m.quota_root.getD []))
    (hu : m.uniqueid = some u) (hu0 : u ≠ []) (_hu9 : (9 : Byte) ∉ u) (hu10 : (10 : Byte) ∉ u)
    (huc : cstring u)
    (ha : m.acl = some acl) (ha10 : (10 : Byte) ∉ acl) (hac : cstring acl)
    (hflags : m.flagname = names.map some ++ List.replicate (MAX_USER_FLAGS - names.length) none)
    (hnl : names.length ≤ MAX_USER_FLAGS)
    (hnames : ∀ s ∈ names, s ≠ [] ∧ cstring s ∧ (32 : Byte) ∉ s ∧ (10 : Byte) ∉ s) :
    ∃ m', mailbox_write_header env m = some (.ok m') ∧
      MAILBOX_HEADER_MAGIC <+: m'.header_base ∧
      ∀ r : mailbox, r.header_base = m'.header_base →
        (∃ m1, mailbox_read_header r = .ok m1 ∧
          m1.quota_root = (if m.quota_root = some [] then none else m.quota_root) ∧
          m1.uniqueid = m.uniqueid ∧ m1.flagname = m.flagname) ∧
        ∃ m2, mailbox_read_header_acl r = .ok m2 ∧ m2.acl = m.acl := by
  have hlen : m.flagname.length = MAX_USER_FLAGS := by
    rw [hflags, List.length_append, List.length_map, List.length_replicate]; omega
  have htake : m.flagname.take MAX_USER_FLAGS = m.flagname :=
    List.take_of_length_le (by omega)
  have hfm : (m.flagname.take MAX_USER_FLAGS).filterMap id = names := by
    rw [htake, hflags, filterMap_id_map_some_append]
  have hmem : ∀ s, some s ∈ m.flagname.take MAX_USER_FLAGS →
      s ≠ [] ∧ cstring s ∧ (32 : Byte) ∉ s ∧ (10 : Byte) ∉ s := by
    intro s hs
    apply hnames
    rw [← hfm]
    exact List.mem_filterMap.2 ⟨some s, hs, rfl⟩
  refine ⟨_, write_header_ok env m u acl hlock hfd hw hrn hu ha, ?_, ?_⟩
  · exact ⟨_, by simp only [header_text, List.append_assoc]; rfl⟩
  · intro r hr
    refine ⟨⟨_, read_header_text r (m.quota_root.getD []) u acl m.flagname hr hq9 hq10 hqc hu0
      hu10 huc hmem, ?_, hu.symm, ?_⟩, ?_⟩
    · show (if m.quota_root.getD [] = [] then none else some (m.quota_root.getD []))
        = (if m.quota_root = some [] then none else m.quota_root)
      cases hqr : m.quota_root with
      | none => simp
      | some q =>
        by_cases hq0 : q = []
        · simp [hq0]
        · simp [hq0]
    · show ((m.flagname.take MAX_USER_FLAGS).filterMap id).map some ++
        List.replicate (MAX_USER_FLAGS - ((m.flagname.take MAX_USER_FLAGS).filterMap id).length)
          none = m.flagname
      rw [hfm, ← hflags]
    · exact ⟨_, read_header_acl_text r (m.quota_root.getD []) u acl m.flagname hr hq10 hu10
        (fun s hs => (hmem s hs).2.2.2) ha10 hac, ha.symm⟩

/-- C13 (instance): the header written for a mailbox with the quota root
`user.jane`, a unique id, the flag names `work` and `urgent` and an ACL is read
back with these values on every handle that maps it, a handle that holds
nothing else among them. -/
theorem header_text_roundtrip_witness :
    ∃ m', mailbox_write_header os_ok
        { sample_header_mailbox with
          flagname := [some (ascii "work"), some (ascii "urgent")] ++ List.replicate 126 none }
        = some (.ok m') ∧
      MAILBOX_HEADER_MAGIC <+: m'.header_base ∧
      ∀ r : mailbox, r.header_base = m'.header_base →
        (∃ m1, mailbox_read_header r = .ok m1 ∧
          m1.quota_root = some (ascii "user.jane") ∧
          m1.uniqueid = some (ascii "1a2b3c4d5e6f7a8b") ∧
          m1.flagname = [some (ascii "work"), some (ascii "urgent")] ++ List.replicate 126 none) ∧
        ∃ m2, mailbox_read_header_acl r = .ok m2 ∧
          m2.acl = some (ascii "anyone" ++ [9] ++ ascii "lrs" ++ [9]) :=
  header_text_roundtrip os_ok
    { sample_header_mailbox with
      flagname := [some (ascii "work"), some (ascii "urgent")] ++ List.replicate 126 none }
    (ascii "1a2b3c4d5e6f7a8b") (ascii "anyone" ++ [9] ++ ascii "lrs" ++ [9])
    [ascii "work", ascii "urgent"]
    (by decide) (by decide) rfl rfl (by decide) (by decide) (by decide) rfl (by decide)
    (by decide) (by decide) (by decide) rfl (by decide) (by decide) rfl (by decide) (by decide)

/-- C12 (amended): for a table of 128 slots, each null or holding a nonempty
name without space or newline (the quota root and the unique id being as the
first header line needs them), `mailbox_read_header` applied to the bytes
written by `mailbox_write_header` returns the non-null names, in their order
in the table, in the leading slots and null in all the others; every name is
back at its own slot index when the names fill a contiguous prefix of the
table. -/
theorem header_flagnames_compacted (env : os_env) (m : mailbox) (u acl : List Byte)
    (hlock : m.header_lock_count ≠ 0) (hfd : env.newheader_fd ≠ -1)
    (hw : env.write_ok = true) (hrn : env.rename_header_ok = true)
    (hq9 : (9 : Byte) ∉ m.quota_root.getD []) (hq10 : (10 : Byte) ∉ m.quota_root.getD [])
    (hqc : cstring (m.quota_root.getD []))
    (hu : m.uniqueid = some u) (hu0 : u ≠ []) (hu10 : (10 : Byte) ∉ u) (huc : cstring u)
    (ha : m.acl = some acl)
    (hlen : m.flagname.length = MAX_USER_FLAGS)
    (hnames : ∀ x ∈ m.flagname, flagname_ok x) :
    ∃ m', mailbox_write_header env m = some (.ok m') ∧
      ∃ m1, mailbox_read_header m' = .ok m1 ∧
        m1.flagname = (m.flagname.filterMap id).map some ++
          List.replicate (MAX_USER_FLAGS - (m.flagname.filterMap id).length) none ∧
        ∀ names : List (List Byte),
          m.flagname = names.map some ++ List.replicate (MAX_USER_FLAGS - names.length) none →
          m1.flagname = m.flagname := by
  have htake : m.flagname.take MAX_USER_FLAGS = m.flagname :=
    List.take_of_length_le (by omega)
  have hmem : ∀ s, some s ∈ m.flagname.take MAX_USER_FLAGS →
      s ≠ [] ∧ cstring s ∧ (32 : Byte) ∉ s ∧ (10 : Byte) ∉ s := by
    intro s hs
    rw [htake] at hs
    exact hnames _ hs
  have hfl : ((m.flagname.take MAX_USER_FLAGS).filterMap id).map some ++
      List.replicate (MAX_USER_FLAGS - ((m.flagname.take MAX_USER_FLAGS).filterMap id).length)
        none = (m.flagname.filterMap id).map some ++
          List.replicate (MAX_USER_FLAGS - (m.flagname.filterMap id).length) none := by
    rw [htake]
  refine ⟨_, write_header_ok env m u acl hlock hfd hw hrn hu ha,
    _, read_header_text _ (m.quota_root.getD []) u acl m.flagname rfl hq9 hq10 hqc hu0
      hu10 huc hmem, hfl, ?_⟩
  intro names hn
  show ((m.flagname.take MAX_USER_FLAGS).filterMap id).map some ++
      List.replicate (MAX_USER_FLAGS - ((m.flagname.take MAX_USER_FLAGS).filterMap id).length)
        none = m.flagname
  rw [hfl]
  have hfm : m.flagname.filterMap id = names := by
    rw [hn, filterMap_id_map_some_append]
  rw [hfm, ← hn]

set_option maxRecDepth 8000 in
/-- C12 (counterexample): the table of `sample_header_mailbox` has 128 slots,
slot 0 null and slot 1 holding the name `work`; after `mailbox_write_header`
and `mailbox_read_header` the name `work` is in slot 0 and slot 1 is null. -/
theorem header_flagname_moves :
    sample_header_mailbox.flagname.length = MAX_USER_FLAGS ∧
    (∀ x ∈ sample_header_mailbox.flagname, flagname_ok x) ∧
    sample_header_mailbox.flagname.getD 0 none = none ∧
    sample_header_mailbox.flagname.getD 1 none = some (ascii "work") ∧
    ∃ m' m1, mailbox_write_header os_ok sample_header_mailbox = some (.ok m') ∧
      mailbox_read_header m' = .ok m1 ∧
      m1.flagname.getD 0 none = some (ascii "work") ∧ m1.flagname.getD 1 none = none := by
  refine ⟨by decide, by decide, by decide, by decide, _, _,
    write_header_ok os_ok sample_header_mailbox (ascii "1a2b3c4d5e6f7a8b")
      (ascii "anyone" ++ [9] ++ ascii "lrs" ++ [9]) (by decide) (by decide) rfl rfl rfl rfl,
    read_header_text _ (ascii "user.jane") (ascii "1a2b3c4d5e6f7a8b")
      (ascii "anyone" ++ [9] ++ ascii "lrs" ++ [9]) sample_header_mailbox.flagname rfl
      (by decide) (by decide) (by decide) (by decide) (by decide) (by decide)
      (fun s hs => by
        have h : ∀ x ∈ sample_header_mailbox.flagname.take MAX_USER_FLAGS, flagname_ok x := by
          decide
        exact h _ hs),
    by decide, by decide⟩

set_option maxRecDepth 8000 in
theorem header_flagnames_compacted_witness :
    ∃ m', mailbox_write_header os_ok sample_header_mailbox = some (.ok m') ∧
      ∃ m1, mailbox_read_header m' = .ok m1 ∧
        m1.flagname = (sample_header_mailbox.flagname.filterMap id).map some ++
          List.replicate (MAX_USER_FLAGS - (sample_header_mailbox.flagname.filterMap id).length)
            none ∧
        ∀ names : List (List Byte),
          sample_header_mailbox.flagname
            = names.map some ++ List.replicate (MAX_USER_FLAGS - names.length) none →
          m1.flagname = sample_header_mailbox.flagname :=
  header_flagnames_compacted os_ok sample_header_mailbox (ascii "1a2b3c4d5e6f7a8b")
    (ascii "anyone" ++ [9] ++ ascii "lrs" ++ [9])
    (by decide) (by decide) rfl rfl (by decide) (by decide) (by decide) rfl (by decide)
    (by decide) (by decide) rfl (by decide) (by decide)


/-- Reading a header of the current layout: the decoded snapshot, with the
generation number of the mailbox kept unless `mailbox_doing_reconstruct`. -/
theorem read_index_header_current_gen (le reconstruct : Bool) (env : os_env) (m : mailbox)
    (hfd : m.index_fd ≠ -1) (hlen : INDEX_HEADER_SIZE ≤ m.index_len)
    (hso : be32 m.index_base OFFSET_START_OFFSET = INDEX_HEADER_SIZE)
    (hrs : be32 m.index_base OFFSET_RECORD_SIZE = INDEX_RECORD_SIZE)
    (hmv : be32 m.index_base OFFSET_MINOR_VERSION = MAILBOX_MINOR_VERSION) :
    mailbox_read_index_header le reconstruct env m = .ok { snapshotBE m with
      generation_no := (if reconstruct = true then be32 m.index_base OFFSET_GENERATION_NO
        else m.generation_no) } := by
  unfold mailbox_read_index_header
  simp only [ntohl_load32, hso, hrs, hmv]
  have hlen' : ¬ (m.index_len < OFFSET_POP3_LAST_LOGIN ∨ m.index_len < INDEX_HEADER_SIZE) := by
    have : INDEX_HEADER_SIZE = 76 := rfl
    have : OFFSET_POP3_LAST_LOGIN = 40 := rfl
    omega
  have hq : (if toInt32 MAILBOX_MINOR_VERSION ≤ (5 : Int) then (4 : Nat) else 0) = 0 := by decide
  have c1 : ¬ (INDEX_HEADER_SIZE < OFFSET_POP3_LAST_LOGIN + 4) := by decide
  have c2 : ¬ (INDEX_HEADER_SIZE < OFFSET_UIDVALIDITY + 4) := by decide
  have c3 : ¬ (INDEX_HEADER_SIZE < OFFSET_FLAGGED + 4) := by decide
  have c4 : ¬ (INDEX_HEADER_SIZE < OFFSET_POP3_NEW_UIDL + 4) := by decide
  have c5 : ¬ (INDEX_HEADER_SIZE < OFFSET_LEAKED_CACHE + 4) := by decide
  have c6 : ¬ (INDEX_RECORD_SIZE < INDEX_RECORD_SIZE) := by decide
  have c7 : ¬ ((!reconstruct) = true ∧ toInt32 MAILBOX_MINOR_VERSION < (MAILBOX_MINOR_VERSION : Int)) := by
    intro h; exact absurd h.2 (by decide)
  simp only [hfd, hlen', hq, c1, c2, c3, c4, c5, c6, c7, if_false, Nat.sub_zero, Bool.false_eq_true]
  unfold snapshotBE
  simp only [hso, hrs, hmv]

theorem index_header_buf_uidvalidity (le : Bool) (m : mailbox) :
    (index_header_buf le m).length = 76 ∧
    be32 (index_header_buf le m) OFFSET_UIDVALIDITY = m.uidvalidity % 4294967296 := by
  refine ⟨by simp [index_header_buf, store32_htonl, length_putBE32, INDEX_HEADER_SIZE_eq], ?_⟩
  simp only [index_header_buf, store32_htonl, INDEX_HEADER_SIZE_eq,
    OFFSET_GENERATION_NO, OFFSET_FORMAT, OFFSET_MINOR_VERSION, OFFSET_START_OFFSET,
    OFFSET_RECORD_SIZE, OFFSET_EXISTS, OFFSET_LAST_APPENDDATE, OFFSET_LAST_UID,
    OFFSET_QUOTA_RESERVED_FIELD, OFFSET_QUOTA_MAILBOX_USED, OFFSET_POP3_LAST_LOGIN,
    OFFSET_UIDVALIDITY, OFFSET_DELETED, OFFSET_ANSWERED, OFFSET_FLAGGED, OFFSET_POP3_NEW_UIDL,
    OFFSET_LEAKED_CACHE, OFFSET_SPARE1, OFFSET_SPARE2]
  simp [be32_putBE32_same, be32_putBE32_disj, length_putBE32]


theorem write_index_header_ok (le : Bool) (env : os_env) (m : mailbox) (hdr : List Byte)
    (h : mailbox_write_index_header le env m = some (.ok hdr)) :
    hdr = (index_header_buf le m).take
      (if m.start_offset < INDEX_HEADER_SIZE then m.start_offset else INDEX_HEADER_SIZE) := by
  unfold mailbox_write_index_header at h
  by_cases h0 : m.index_lock_count = 0
  · rw [if_pos h0] at h; cases h
  · rw [if_neg h0] at h
    simp only at h
    by_cases hw : env.write_ok = true
    · rw [if_pos hw] at h
      injection h with h; injection h with h
      exact h.symm
    · rw [if_neg hw] at h
      injection h with h; cases h

theorem write_index_header_uidvalidity (le : Bool) (env : os_env) (m : mailbox)
    (hdr : List Byte) (h : mailbox_write_index_header le env m = some (.ok hdr))
    (hso : m.start_offset = INDEX_HEADER_SIZE) :
    hdr.length = 76 ∧ be32 hdr OFFSET_UIDVALIDITY = m.uidvalidity % 4294967296 := by
  have hw := write_index_header_ok le env m hdr h
  obtain ⟨hl, hv⟩ := index_header_buf_uidvalidity le m
  rw [hso, if_neg (lt_irrefl _), List.take_of_length_le (by rw [hl, INDEX_HEADER_SIZE_eq])] at hw
  rw [hw]
  exact ⟨hl, hv⟩

theorem rename_store_header_uidvalidity (le : Bool) (env : os_env)
    (oldmailbox newmailbox m : mailbox) (f : List Byte)
    (h : rename_store_header le env oldmailbox newmailbox = some (m, f))
    (hso : newmailbox.index_fd ≠ -1 → newmailbox.start_offset = INDEX_HEADER_SIZE)
    (hu : newmailbox.index_fd ≠ -1 →
      newmailbox.uidvalidity = be32 oldmailbox.index_base OFFSET_UIDVALIDITY) :
    be32 f OFFSET_UIDVALIDITY = be32 oldmailbox.index_base OFFSET_UIDVALIDITY ∧
    m.uidvalidity = newmailbox.uidvalidity ∧ m.quota_root = newmailbox.quota_root ∧
    m.quota_used = newmailbox.quota_used := by
  unfold rename_store_header at h
  simp only at h
  split at h
  · cases h
  · injection h with h; injection h with h1 h2
    exact ⟨by rw [← h2], by rw [← h1], by rw [← h1], by rw [← h1]⟩
  · rename_i hdr hw
    split at h
    · injection h with h; injection h with h1 h2
      exact ⟨by rw [← h2], by rw [← h1], by rw [← h1], by rw [← h1]⟩
    · rename_i hfd
      injection h with h; injection h with h1 h2
      refine ⟨?_, by rw [← h1], by rw [← h1], by rw [← h1]⟩
      have hfd' : newmailbox.index_fd ≠ -1 := hfd
      obtain ⟨hl, hv⟩ := write_index_header_uidvalidity le env _ hdr hw (hso hfd')
      have h48 : OFFSET_UIDVALIDITY + 4 ≤ 76 := by decide
      rw [← h2]
      unfold memcpy
      rw [be32_append_left _ _ _ (le_of_le_of_eq h48 hl.symm), hv]
      show newmailbox.uidvalidity % 4294967296 = _
      rw [hu hfd']
      exact Nat.mod_eq_of_lt (be32_lt _ _)

/-- The index file of the old mailbox after `rename_reopen_index`, and the
snapshot of the new one: for an old index of the current layout both hold the
`uidvalidity` stored in the old index. -/
theorem rename_reopen_index_uidvalidity (le reconstruct : Bool) (env : os_env)
    (renv : rename_env) (oldmailbox newmailbox m : mailbox) (f : List Byte)
    (h : rename_reopen_index le reconstruct env renv oldmailbox newmailbox = some (m, f))
    (hlen : INDEX_HEADER_SIZE ≤ oldmailbox.index_len)
    (hso : be32 oldmailbox.index_base OFFSET_START_OFFSET = INDEX_HEADER_SIZE)
    (hrs : be32 oldmailbox.index_base OFFSET_RECORD_SIZE = INDEX_RECORD_SIZE)
    (hmv : be32 oldmailbox.index_base OFFSET_MINOR_VERSION = MAILBOX_MINOR_VERSION) :
    be32 f OFFSET_UIDVALIDITY = be32 oldmailbox.index_base OFFSET_UIDVALIDITY ∧
    (renv.dup_index_fd ≠ -1 →
      m.uidvalidity = be32 oldmailbox.index_base OFFSET_UIDVALIDITY) ∧
    m.quota_root = newmailbox.quota_root ∧ m.quota_used = newmailbox.quota_used := by
  unfold rename_reopen_index at h
  simp only at h
  by_cases hd : renv.dup_index_fd = -1
  · rw [if_pos hd] at h
    obtain ⟨h1, _, h3, h4⟩ := rename_store_header_uidvalidity le env oldmailbox _ m f h
      (fun hh => absurd hd hh) (fun hh => absurd hd hh)
    exact ⟨h1, fun hh => absurd hd hh, h3, h4⟩
  · rw [if_neg hd, read_index_header_current_gen le reconstruct env
      { ({ newmailbox with index_fd := renv.dup_index_fd } : mailbox) with
        index_base := oldmailbox.index_base } hd hlen hso hrs hmv] at h
    simp only at h
    obtain ⟨h1, h2, h3, h4⟩ := rename_store_header_uidvalidity le env oldmailbox _ m f h
      (fun _ => hso) (fun _ => rfl)
    exact ⟨h1, fun _ => h2, h3, h4⟩

/-- C14: when `mailbox_rename_copy` is called with `newname` equal to the name
of the old mailbox and returns 0, the old index being of the current layout
and holding the `uidvalidity` of the old mailbox, the value stored through
`newuidvalidityp` and the `uidvalidity` in the header of the index file of the
new mailbox both equal the `uidvalidity` of the old mailbox. -/
theorem rename_copy_same_name_uidvalidity (le reconstruct : Bool) (env : os_env)
    (cenv : create_env) (renv : rename_env) (oldmailbox : mailbox) (newname : List Byte)
    (res : rename_result)
    (hname : oldmailbox.name = some newname)
    (hres : mailbox_rename_copy le reconstruct env cenv renv oldmailbox newname = some (.ok res))
    (hr : res.r = none)
    (hlen : INDEX_HEADER_SIZE ≤ oldmailbox.index_len)
    (hso : be32 oldmailbox.index_base OFFSET_START_OFFSET = INDEX_HEADER_SIZE)
    (hrs : be32 oldmailbox.index_base OFFSET_RECORD_SIZE = INDEX_RECORD_SIZE)
    (hmv : be32 oldmailbox.index_base OFFSET_MINOR_VERSION = MAILBOX_MINOR_VERSION)
    (huv : oldmailbox.uidvalidity = be32 oldmailbox.index_base OFFSET_UIDVALIDITY) :
    res.newuidvalidity = oldmailbox.uidvalidity ∧
    be32 res.new_index OFFSET_UIDVALIDITY = oldmailbox.uidvalidity := by
  have hu32 : oldmailbox.uidvalidity % 4294967296 = oldmailbox.uidvalidity := by
    rw [huv]; exact Nat.mod_eq_of_lt (be32_lt _ _)
  unfold mailbox_rename_copy at hres
  split at hres
  · cases hres
  split at hres
  · cases hres
  · cases hres
  rename_i created hcreate
  rw [hname] at hres
  split at hres
  · cases hres
  · rename_i hh; cases hh
  rename_i name' hcr hnm
  injection hnm with hnm
  subst hnm
  simp only [if_true] at hres
  split at hres
  · cases hres
  · injection hres with hres; injection hres with hres
    rw [← hres] at hr; cases hr
  rename_i nm1 hwh
  split at hres
  · rename_i hbad
    injection hres with hres; injection hres with hres
    rw [← hres] at hr
    exact absurd hr hbad.1
  by_cases hci : renv.copy_index.code = none
  swap
  · simp only [hci, if_false, ne_eq, not_false_eq_true, if_true] at hres
    injection hres with hres; injection hres with hres
    rw [← hres] at hr
    exact absurd hr hci
  by_cases hcc : renv.copy_cache.code = none
  swap
  · simp only [hci, hcc, if_true, ne_eq, not_false_eq_true] at hres
    injection hres with hres; injection hres with hres
    rw [← hres] at hr
    exact absurd hr hcc
  simp only [hci, hcc, if_true, ne_eq, not_true_eq_false, if_false] at hres
  split at hres
  · cases hres
  rename_i nm3 old_index hre
  split at hres
  · cases hres
  rename_i r4 copied hmsg
  injection hres with hres; injection hres with hres
  obtain ⟨hf, _⟩ := rename_reopen_index_uidvalidity le reconstruct env renv oldmailbox _ nm3
    old_index hre hlen hso hrs hmv
  rw [← hres]
  refine ⟨hu32, ?_⟩
  show be32 (match renv.copy_index with
    | .linked => old_index
    | _ => oldmailbox.index_base) OFFSET_UIDVALIDITY = _
  cases hco : renv.copy_index with
  | linked => rw [hf, huv]
  | copied => rw [huv]
  | failed r => rw [huv]

set_option maxRecDepth 8000 in
theorem rename_copy_same_name_uidvalidity_witness :
    ∃ res, mailbox_rename_copy true false os_ok create_ok rename_ok sample_named_mailbox
        (ascii "user.jane") = some (.ok res) ∧
      res.r = none ∧ sample_named_mailbox.uidvalidity = 9 ∧
      res.newuidvalidity = sample_named_mailbox.uidvalidity ∧
      be32 res.new_index OFFSET_UIDVALIDITY = sample_named_mailbox.uidvalidity :=
  ⟨_, rfl, rfl, rfl,
    rename_copy_same_name_uidvalidity true false os_ok create_ok rename_ok sample_named_mailbox
      (ascii "user.jane") _ rfl rfl rfl (by decide) (by decide) (by decide) (by decide)
      (by decide)⟩

set_option maxRecDepth 8000 in
/-- C15 (the code at the failing input): `mailbox_rename_copy` of the mailbox
`user.jane`, whose `uidvalidity` is 9, to the new name `user.joe` at time 2000
returns 0 and reports the new `uidvalidity` 2000 through `newuidvalidityp`, but
the header of the index file of the new mailbox holds the `uidvalidity` 9 of
the old one, whether the index file was copied or linked; so does the new
mailbox itself. -/
theorem rename_copy_new_name_keeps_uidvalidity :
    sample_named_mailbox.name = some (ascii "user.jane") ∧
    ascii "user.joe" ≠ ascii "user.jane" ∧
    sample_named_mailbox.uidvalidity = 9 ∧
    (∃ res, mailbox_rename_copy true false os_ok create_ok rename_ok sample_named_mailbox
        (ascii "user.joe") = some (.ok res) ∧
      res.r = none ∧ res.newuidvalidity = 2000 ∧
      be32 res.new_index OFFSET_UIDVALIDITY = 9 ∧ res.newmailbox.uidvalidity = 9) ∧
    (∃ res, mailbox_rename_copy true false os_ok create_ok
        { rename_ok with copy_index := .linked, copy_cache := .linked } sample_named_mailbox
        (ascii "user.joe") = some (.ok res) ∧
      res.r = none ∧ res.newuidvalidity = 2000 ∧
      be32 res.new_index OFFSET_UIDVALIDITY = 9 ∧ res.newmailbox.uidvalidity = 9) :=
  ⟨rfl, by decide, rfl, ⟨_, rfl, rfl, rfl, by decide, rfl⟩, ⟨_, rfl, rfl, rfl, by decide, rfl⟩⟩

/-! ## `mailbox_sync` -/

set_option maxRecDepth 8000 in
/-- C16 (the code at the failing input): the old index holds UID 1 and the new
index UIDs 1 and 2, both strictly increasing; the settling loop of
`mailbox_sync` ends with `r` = 0 and has unlinked no message file, although
UID 2 is in the new index and not in the old one. -/
theorem sync_settle_leaves_trailing_uid :
    (mailbox_of_uids [1] 100).«exists» = 1 ∧
    (mailbox_read_index_record true (mailbox_of_uids [1] 100) 1).map (fun r => r.uid) = .ok 1 ∧
    (mailbox_of_uids [1, 2] 200).«exists» = 2 ∧
    (mailbox_read_index_record true (mailbox_of_uids [1, 2] 200) 1).map (fun r => r.uid)
      = .ok 1 ∧
    (mailbox_read_index_record true (mailbox_of_uids [1, 2] 200) 2).map (fun r => r.uid)
      = .ok 2 ∧
    sync_settle true rename_ok (mailbox_of_uids [1] 100) (mailbox_of_uids [1, 2] 200)
        (mailbox_of_uids [1] 100).«exists» 1 none { newmsgno := 1, unlinked := [], copied := [] }
      = some (none, { newmsgno := 2, unlinked := [], copied := [] }) :=
  ⟨rfl, rfl, rfl, rfl, rfl, by decide⟩

theorem write_header_quota (env : os_env) (m m' : mailbox)
    (h : mailbox_write_header env m = some (.ok m')) :
    m'.quota_root = m.quota_root ∧ m'.quota_used = m.quota_used ∧
    m'.quota_limit = m.quota_limit := by
  unfold mailbox_write_header at h
  by_cases h0 : m.header_lock_count = 0
  · rw [if_pos h0] at h; cases h
  rw [if_neg h0] at h
  by_cases h1 : env.newheader_fd = -1
  · rw [if_pos h1] at h; injection h with h; cases h
  rw [if_neg h1] at h
  by_cases h2 : (!env.write_ok) = true
  · rw [if_pos h2] at h; injection h with h; cases h
  rw [if_neg h2] at h
  split at h
  · by_cases h3 : (!env.rename_header_ok) = true
    · simp only [h3, if_true] at h
      injection h with h; cases h
    · simp only [h3, if_false] at h
      injection h with h; injection h with h
      rw [← h]
      exact ⟨rfl, rfl, rfl⟩
  · cases h

theorem rename_check_quota_used (renv : rename_env) (oldmailbox newmailbox : mailbox)
    (hq : renv.quota_read = none) :
    (rename_check_quota renv oldmailbox newmailbox).1.quota_root = newmailbox.quota_root ∧
    (newmailbox.quota_root ≠ none →
      (rename_check_quota renv oldmailbox newmailbox).1.quota_used = renv.quota_used) := by
  unfold rename_check_quota
  split
  · rename_i hroot
    exact ⟨rfl, fun h => absurd hroot h⟩
  · rename_i root hroot
    simp only [hq]
    exact ⟨trivial, fun _ => trivial⟩

/-- The step `Record new quota usage` of `mailbox_sync`: when the function
returns 0, `quota_read` having succeeded, then for a new mailbox with a quota
root the `used` value committed by `quota_write` is the value read plus the
whole `quota_mailbox_used` of the old mailbox (in `unsigned long`), whatever the
`quota_mailbox_used` of the new mailbox was; for a new mailbox without quota
root nothing is committed. -/
theorem sync_quota_adds_source_usage (le reconstruct : Bool) (env : os_env)
    (cenv : create_env) (renv : rename_env) (oldheader oldmailbox : mailbox)
    (newname : List Byte) (docreate : Bool) (open_new : Except imap_err mailbox)
    (res : sync_result)
    (hres : mailbox_sync le reconstruct env cenv renv oldheader (.ok oldmailbox) newname
      docreate open_new = some (.ok res))
    (hr : res.r = none) (hq : renv.quota_read = none)
    (hlen : INDEX_HEADER_SIZE ≤ oldmailbox.index_len)
    (hso : be32 oldmailbox.index_base OFFSET_START_OFFSET = INDEX_HEADER_SIZE)
    (hrs : be32 oldmailbox.index_base OFFSET_RECORD_SIZE = INDEX_RECORD_SIZE)
    (hmv : be32 oldmailbox.index_base OFFSET_MINOR_VERSION = MAILBOX_MINOR_VERSION) :
    (res.newmailbox.quota_root ≠ none →
      res.quota_used = some ((renv.quota_used + oldmailbox.quota_mailbox_used)
        % 18446744073709551616)) ∧
    (res.newmailbox.quota_root = none → res.quota_used = none) := by
  unfold mailbox_sync at hres
  split at hres
  · cases hres
  simp only at hres
  generalize sync_open_new le env cenv oldmailbox newname docreate open_new = opened at hres
  rcases opened with _ | ⟨r | ⟨nm0, new_index⟩⟩
  · cases hres
  · cases hres
  simp only at hres
  split at hres
  · cases hres
  · injection hres with hres; injection hres with hres
    rw [← hres] at hr; cases hr
  rename_i nm1 hwh
  split at hres
  · rename_i hbad
    injection hres with hres; injection hres with hres
    rw [← hres] at hr
    exact absurd hr hbad.1
  split at hres
  · cases hres
  rename_i r3 st hsettle
  by_cases h3 : r3 = none
  swap
  · simp only [h3, if_false, ne_eq, not_false_eq_true, if_true] at hres
    injection hres with hres; injection hres with hres
    rw [← hres] at hr
    exact absurd hr h3
  by_cases hsc : renv.seen_copy = none
  swap
  · simp only [h3, hsc, if_true, ne_eq, not_false_eq_true] at hres
    injection hres with hres; injection hres with hres
    rw [← hres] at hr
    exact absurd hr hsc
  by_cases hci : renv.copy_index.code = none
  swap
  · simp only [h3, hsc, hci, if_true, if_false, ne_eq, not_true_eq_false,
      not_false_eq_true] at hres
    injection hres with hres; injection hres with hres
    rw [← hres] at hr
    exact absurd hr hci
  by_cases hcc : renv.copy_cache.code = none
  swap
  · simp only [h3, hsc, hci, hcc, if_true, if_false, ne_eq, not_true_eq_false,
      not_false_eq_true] at hres
    injection hres with hres; injection hres with hres
    rw [← hres] at hr
    exact absurd hr hcc
  simp only [h3, hsc, hci, hcc, if_true, ne_eq, not_true_eq_false, if_false] at hres
  split at hres
  · cases hres
  rename_i nm3 old_index hre
  obtain ⟨_, _, hroot3, hused3⟩ := rename_reopen_index_uidvalidity le reconstruct env renv
    oldmailbox _ nm3 old_index hre hlen hso hrs hmv
  obtain ⟨hrootq, husedq⟩ := rename_check_quota_used renv oldmailbox nm1 hq
  split at hres
  · rename_i hroot
    split at hres
    · injection hres with hres; injection hres with hres
      rw [← hres] at hr; cases hr
    · injection hres with hres; injection hres with hres
      rw [← hres]
      refine ⟨fun _ => ?_, fun h => absurd h hroot⟩
      show some ((nm3.quota_used + oldmailbox.quota_mailbox_used) % 18446744073709551616) = _
      rw [hused3, husedq (by rw [← hrootq, ← hroot3]; exact hroot)]
  · rename_i hroot
    injection hres with hres; injection hres with hres
    rw [← hres]
    exact ⟨fun h => absurd h hroot, fun _ => rfl⟩

set_option maxRecDepth 8000 in
/-- C17 (the code at the failing input): the new mailbox exists already, with
the message of UID 1 and 100 bytes of its own in use, which the 1000 bytes that
`quota_read` loads for its quota root include; the old mailbox holds the UIDs 1
and 2 and has 350 bytes in use.  A successful `mailbox_sync` commits `used` =
1350: it adds the whole usage of the old mailbox, and not the 250 bytes by
which the usage of the new mailbox grows. -/
theorem sync_quota_not_delta :
    (mailbox_of_uids [1, 2] 350).quota_mailbox_used = 350 ∧
    (mailbox_of_uids [1] 100).quota_mailbox_used = 100 ∧
    (rename_onto [1]).quota_read = none ∧ (rename_onto [1]).quota_used = 1000 ∧
    ∃ res, mailbox_sync true false os_ok create_ok (rename_onto [1])
        (mailbox_of_uids [1, 2] 350)
        (.ok (mailbox_of_uids [1, 2] 350)) (ascii "user.jane") false
        (.ok (mailbox_of_uids [1] 100)) = some (.ok res) ∧
      res.r = none ∧ res.copied = [1, 2] ∧ res.quota_used = some 1350 ∧
      res.quota_used ≠ some (1000 + (350 - 100)) :=
  ⟨rfl, rfl, rfl, rfl, _, rfl, rfl, rfl, rfl, by decide⟩

set_option maxRecDepth 8000 in
/-- An instance of `sync_quota_adds_source_usage`: a new mailbox that exists
already with 100 bytes of its own. -/
theorem sync_quota_adds_source_usage_witness :
    ∃ res, mailbox_sync true false os_ok create_ok rename_ok (mailbox_of_uids [1, 2] 350)
        (.ok (mailbox_of_uids [1, 2] 350)) (ascii "user.jane") false
        (.ok (mailbox_of_uids [1] 100)) = some (.ok res) ∧
      res.r = none ∧
      (res.newmailbox.quota_root ≠ none →
        res.quota_used = some ((rename_ok.quota_used
          + (mailbox_of_uids [1, 2] 350).quota_mailbox_used) % 18446744073709551616)) ∧
      (res.newmailbox.quota_root = none → res.quota_used = none) :=
  ⟨_, rfl, rfl,
    sync_quota_adds_source_usage true false os_ok create_ok rename_ok (mailbox_of_uids [1, 2] 350)
      (mailbox_of_uids [1, 2] 350) (ascii "user.jane") false (.ok (mailbox_of_uids [1] 100)) _
      rfl rfl rfl (by decide) (by decide) (by decide) (by decide)⟩

/-! ## `reconstruct` -/

theorem getD_last_eq_foldr_max (uid : List Nat) (h : uid.Sorted (· ≤ ·)) :
    uid.getD (uid.length - 1) 0 = uid.foldr max 0 := by
  induction uid with
  | nil => rfl
  | cons a l ih =>
    have hl := List.Sorted.of_cons h
    have ha : ∀ b ∈ l, a ≤ b := List.rel_of_sorted_cons h
    cases l with
    | nil => simp
    | cons b t =>
      have ih' := ih hl
      simp only [List.length_cons, Nat.add_sub_cancel, List.foldr_cons] at ih' ⊢
      rw [List.getD_cons_succ, ih']
      have hb : a ≤ b := ha b (List.mem_cons_self _ _)
      have : b ≤ max b (List.foldr max 0 t) := le_max_left _ _
      omega

theorem reconstruct_index_header_last_uid (le : Bool) (now : Nat) (uid : List Nat)
    (new_exists new_quota new_deleted new_answered new_flagged : Nat) (buf : List Byte)
    (m : mailbox) (hbuf : INDEX_HEADER_SIZE ≤ buf.length) :
    be32 (reconstruct_index_header le now uid new_exists new_quota new_deleted new_answered
        new_flagged buf m).2 OFFSET_LAST_UID
      = (if uid.length ≠ 0 ∧ m.last_uid < uid.getD (uid.length - 1) 0 then
          (uid.getD (uid.length - 1) 0 + 100) % 18446744073709551616
        else m.last_uid) % 4294967296 := by
  rw [INDEX_HEADER_SIZE_eq] at hbuf
  have hlu : ∀ m' : mailbox,
      (if m'.uidvalidity = 0 ∨ m'.uidvalidity > now then { m' with uidvalidity := now }
        else m').last_uid = m'.last_uid := by
    intro m'; split_ifs <;> rfl
  have hla : ∀ m' : mailbox,
      (if m'.last_appenddate = 0 ∨ m'.last_appenddate > (now : Int)
        then { m' with last_appenddate := now } else m').last_uid = m'.last_uid := by
    intro m'; split_ifs <;> rfl
  have hl0 : (if uid.length ≠ 0 ∧ m.last_uid < uid.getD (uid.length - 1) 0 then
        ({ m with last_uid := (uid.getD (uid.length - 1) 0 + 100) % 18446744073709551616 }
          : mailbox)
      else m).last_uid
      = (if uid.length ≠ 0 ∧ m.last_uid < uid.getD (uid.length - 1) 0 then
          (uid.getD (uid.length - 1) 0 + 100) % 18446744073709551616
        else m.last_uid) := by
    split_ifs <;> rfl
  unfold reconstruct_index_header
  simp only [store32_htonl]
  rw [be32_take _ _ _ (by decide), hlu, hla, hl0]
  simp only [OFFSET_GENERATION_NO, OFFSET_FORMAT, OFFSET_MINOR_VERSION, OFFSET_START_OFFSET,
    OFFSET_RECORD_SIZE, OFFSET_EXISTS, OFFSET_LAST_APPENDDATE, OFFSET_LAST_UID,
    OFFSET_QUOTA_MAILBOX_USED, OFFSET_POP3_LAST_LOGIN,
    OFFSET_UIDVALIDITY, OFFSET_DELETED, OFFSET_ANSWERED, OFFSET_FLAGGED, OFFSET_POP3_NEW_UIDL,
    OFFSET_LEAKED_CACHE]
  rw [be32_putBE32_disj _ _ _ _ (by omega), be32_putBE32_disj _ _ _ _ (by omega),
    be32_putBE32_disj _ _ _ _ (by omega), be32_putBE32_disj _ _ _ _ (by omega),
    be32_putBE32_disj _ _ _ _ (by omega), be32_putBE32_disj _ _ _ _ (by omega),
    be32_putBE32_disj _ _ _ _ (by omega), be32_putBE32_disj _ _ _ _ (by omega),
    be32_putBE32_same _ _ _ (by simp only [length_putBE32]; omega)]
  exact Nat.mod_mod _ _

set_option maxRecDepth 20000 in
/-- C19 (the code at the failing input): the name in slot 0 is not an atom and
the name in slot 1 is; the loop `Validate user flags` of `reconstruct` clears
both names (the second because the slot before it has become null) and yet
sets bits 0 and 1 of `valid_user_flags`, so that a record inherited from the
old index keeps its user flags 0 and 1. -/
theorem reconstruct_keeps_invalid_user_flags :
    sample_isatom (ascii "a(b") = false ∧ sample_isatom (ascii "work") = true ∧
    (reconstruct_validate_flags sample_isatom
      ([some (ascii "a(b"), some (ascii "work")] ++ List.replicate 126 none)).flagname
      = List.replicate 128 none ∧
    (reconstruct_validate_flags sample_isatom
      ([some (ascii "a(b"), some (ascii "work")] ++ List.replicate 126 none)).valid_user_flags
      = [3, 0, 0, 0] ∧
    flagged_record.user_flags = [3, 0, 0, 0] ∧
    (reconstruct_inherit (reconstruct_validate_flags sample_isatom
        ([some (ascii "a(b"), some (ascii "work")] ++ List.replicate 126 none)).valid_user_flags
      flagged_record (zero_index 7)).user_flags = [3, 0, 0, 0] := by
  refine ⟨by decide, by decide, by decide, by decide, rfl, by decide⟩

/-- C20 (the code at the failing input): for the 32-bit UIDs 2147483649 and 1,
`compare_uid` is negative in both orders, although the first is the larger. -/
theorem compare_uid_wraps :
    (1 : Nat) < 2147483649 ∧ (2147483649 : Nat) < 4294967296 ∧
    compare_uid 2147483649 1 = -2147483648 ∧ compare_uid 1 2147483649 = -2147483648 := by
  refine ⟨by decide, by decide, by decide, by decide⟩

/-- For UIDs less than 2^31 apart `compare_uid` has the sign of the numeric
comparison. -/
theorem compare_uid_near (a b : Nat) (hb : b < 4294967296)
    (hab : a < b + 2147483648) (hba : b < a + 2147483648) :
    (compare_uid a b < 0 ↔ a < b) ∧ (compare_uid a b = 0 ↔ a = b) ∧
    (0 < compare_uid a b ↔ b < a) := by
  unfold compare_uid toInt32
  rcases Nat.lt_trichotomy a b with h | h | h
  · have e : (a + 18446744073709551616 - b) % 18446744073709551616 % 4294967296
        = 4294967296 - (b - a) := by omega
    rw [e]
    split_ifs <;> omega
  · subst h
    have e : (a + 18446744073709551616 - a) % 18446744073709551616 % 4294967296 = 0 := by
      omega
    rw [e]
    simp
  · have e : (a + 18446744073709551616 - b) % 18446744073709551616 % 4294967296 = a - b := by
      omega
    rw [e]
    split_ifs <;> omega

/-- An array that is in the order of `compare_uid` and holds UIDs below 2^31
only is in ascending order, so that its last element is the largest. -/
theorem compare_uid_ordered_last (uid : List Nat)
    (hord : uid.Pairwise (fun a b => compare_uid a b ≤ 0))
    (hsmall : ∀ a ∈ uid, a < 2147483648) :
    uid.getD (uid.length - 1) 0 = uid.foldr max 0 := by
  apply getD_last_eq_foldr_max
  refine List.Pairwise.imp_of_mem ?_ hord
  intro a b ha hb hab
  have ha' := hsmall a ha
  have hb' := hsmall b hb
  obtain ⟨_, _, h3⟩ := compare_uid_near a b (by omega) (by omega) (by omega)
  by_contra hcon
  have : 0 < compare_uid a b := h3.2 (by omega)
  omega

/-- C18 (amended): the header that `reconstruct` writes to the new index stores,
as `last_uid`, the last element of the array of the UIDs found, as `qsort` with
`compare_uid` leaves it, plus 100 when there is a message file and that element
is larger than the old `last_uid`, and the old `last_uid` unchanged otherwise;
the old `last_uid` is the one of the index that `mailbox_open_index` read, and 0
when it returned an error.  The last element is the largest UID found when the
array is in the order of `compare_uid` and all UIDs are below 2^31; for larger
UIDs `compare_uid` does not order by size.  (The sum is taken in `unsigned long`
and the stored word keeps 32 bits.) -/
theorem reconstruct_last_uid (le : Bool) (now : Nat) (uid : List Nat)
    (new_exists new_quota new_deleted new_answered new_flagged : Nat) (buf : List Byte)
    (m : mailbox) (opened : Except imap_err mailbox)
    (hbuf : INDEX_HEADER_SIZE ≤ buf.length) :
    be32 (reconstruct_index_header le now uid new_exists new_quota new_deleted new_answered
        new_flagged buf (reconstruct_open_index now m opened)).2 OFFSET_LAST_UID
      = (if uid ≠ [] ∧
            (reconstruct_open_index now m opened).last_uid < uid.getD (uid.length - 1) 0 then
          (uid.getD (uid.length - 1) 0 + 100) % 18446744073709551616
        else (reconstruct_open_index now m opened).last_uid) % 4294967296 ∧
    (reconstruct_open_index now m opened).last_uid
      = (match opened with
        | .error _ => 0
        | .ok old => old.last_uid) ∧
    (uid.Pairwise (fun a b => compare_uid a b ≤ 0) → (∀ a ∈ uid, a < 2147483648) →
      uid.getD (uid.length - 1) 0 = uid.foldr max 0) := by
  refine ⟨?_, ?_, compare_uid_ordered_last uid⟩
  · rw [reconstruct_index_header_last_uid le now uid new_exists new_quota new_deleted
      new_answered new_flagged buf _ hbuf]
    simp only [ne_eq, List.length_eq_zero]
  · cases opened <;> rfl

/-- C18 (counterexample): the old index gives `last_uid` = 5 and the only message
file has UID 10; the header that `reconstruct` writes stores `last_uid` = 110,
which is not the larger of 10 and 5 + 100. -/
theorem reconstruct_last_uid_margin_over_found :
    (reconstruct_open_index 2000 zeromailbox (.ok { sample_mailbox with last_uid := 5 })).last_uid
      = 5 ∧
    be32 (reconstruct_index_header true 2000 [10] 1 100 0 0 0 (List.replicate 76 0)
      (reconstruct_open_index 2000 zeromailbox
        (.ok { sample_mailbox with last_uid := 5 }))).2 OFFSET_LAST_UID = 110 ∧
    (110 : Nat) ≠ max 10 (5 + 100) := by
  refine ⟨rfl, by decide, by decide⟩

/-- C18 (instance of the amended statement): with the message files 3 and 10,
in this order after `qsort`, and the old `last_uid` 5, the last element 10 is
the largest UID found and the header stores 110. -/
theorem reconstruct_last_uid_witness :
    be32 (reconstruct_index_header true 2000 [3, 10] 2 200 0 0 0 (List.replicate 76 0)
        (reconstruct_open_index 2000 zeromailbox
          (.ok { sample_mailbox with last_uid := 5 }))).2 OFFSET_LAST_UID = 110 ∧
    (reconstruct_open_index 2000 zeromailbox (.ok { sample_mailbox with last_uid := 5 })).last_uid
      = 5 ∧
    [3, 10].getD ([3, 10].length - 1) 0 = [3, 10].foldr max 0 := by
  obtain ⟨h1, h2, h3⟩ := reconstruct_last_uid true 2000 [3, 10] 2 200 0 0 0
    (List.replicate 76 0) zeromailbox (.ok { sample_mailbox with last_uid := 5 }) (by decide)
  refine ⟨?_, ?_, h3 (by decide) (by decide)⟩
  · rw [h1]; decide
  · rw [h2]

/-- The message files 1 and 2147483650: `compare_uid` puts the larger UID
first, so that an array in its order ends with 1, which is not the largest UID
found; with the old `last_uid` 5 the header keeps `last_uid` = 5, below the UID
of a message file. -/
theorem reconstruct_last_uid_not_largest :
    [2147483650, 1].Pairwise (fun a b => compare_uid a b ≤ 0) ∧
    ¬ [1, 2147483650].Pairwise (fun a b => compare_uid a b ≤ 0) ∧
    [2147483650, 1].getD ([2147483650, 1].length - 1) 0 ≠ [2147483650, 1].foldr max 0 ∧
    be32 (reconstruct_index_header true 2000 [2147483650, 1] 2 200 0 0 0 (List.replicate 76 0)
        (reconstruct_open_index 2000 zeromailbox
          (.ok { sample_mailbox with last_uid := 5 }))).2 OFFSET_LAST_UID = 5 := by
  refine ⟨by decide, by decide, by decide, by decide⟩

/-! ## `mailbox_stat` -/

/-- C28 (counterexample): with header, index and cache all requested and `stat`
failing for `cyrus.header` and for `cyrus.index`, `mailbox_stat` returns 1: bit
0x2 is not set although the `stat` of `cyrus.index` fails, for that `stat` is
never made. -/
theorem stat_stops_at_first_failure :
    mailbox_stat (-1) (-1) 0 true true true true = some 1 ∧
    mailbox_stat (-1) (-1) (-1) true true true true = some 1 ∧
    mailbox_stat 0 (-1) (-1) true true true true = some 2 := by
  refine ⟨?_, ?_, ?_⟩ <;> rfl

/-- C28 (amended): with header, index and cache all requested, `mailbox_stat`
returns the bit of the first file, in the order header, index, cache, whose
`stat` fails, and 0 when none fails; the files after the first failure are not
examined, so that at most one bit is set. -/
theorem stat_reports_first_failure (stat_header stat_index stat_cache : Int) :
    mailbox_stat stat_header stat_index stat_cache true true true true
      = some (if stat_header ≠ 0 then 1
              else if stat_index ≠ 0 then 2
              else if stat_cache ≠ 0 then 4
              else 0) := by
  unfold mailbox_stat
  by_cases h1 : stat_header = 0 <;> by_cases h2 : stat_index = 0 <;>
    by_cases h3 : stat_cache = 0 <;> simp [h1, h2, h3]

/-- C28 (instance of the amended statement): `stat` failing for the cache only
gives 4. -/
theorem stat_reports_first_failure_witness :
    mailbox_stat 0 0 (-1) true true true true = some 4 :=
  stat_reports_first_failure 0 0 (-1)

/-! ## Locks -/

/-- C30 (the code at the failing input): no lock is held on the handle, the
index lock is granted, the index file has been replaced and
`mailbox_open_index` returns `IMAP_IOERROR` (as it does when `cyrus.cache`
cannot be opened).  `mailbox_lock_index` and `mailbox_lock_index_for_upgrade`
return that error and leave `index_lock_count` at 1, not at the 0 it had
before the call. -/
theorem lock_index_failure_keeps_count :
    mailbox_open_index true false os_ok (fun _ => { index := some sample_index, cache := none })
      sample_mailbox = .error IMAP_IOERROR ∧
    mailbox_lock_index false [pass_reopen_fails] (.returns none) no_locks
      = .returned (some IMAP_IOERROR) { no_locks with index_lock_count := 1 }
          [.lock_blocking_index] ∧
    mailbox_lock_index_for_upgrade false [pass_reopen_fails] no_locks
      = .returned (some IMAP_IOERROR) { no_locks with index_lock_count := 1 }
          [.lock_blocking_index] := by
  refine ⟨?_, ?_, ?_⟩ <;> rfl

/-- With the index lock counted, `mailbox_lock_header` either finds the header
lock held and returns at once, or fails its assertion on `index_lock_count`. -/
theorem lock_header_index_held (reconstruct : Bool) (ho : header_lock_obs) (c : lock_counts)
    (hi : c.index_lock_count ≠ 0) :
    mailbox_lock_header reconstruct ho c =
      if c.header_lock_count = INT_MAX then .undefined
      else if c.header_lock_count ≠ 0 then
        .returned none { c with header_lock_count := c.header_lock_count + 1 } []
      else .assertion_failed := by
  unfold mailbox_lock_header
  by_cases h0 : c.header_lock_count = INT_MAX
  · simp [h0]
  · by_cases h1 : c.header_lock_count = 0
    · simp [h0, h1, hi, INT_MAX]
    · simp [h0, h1]

/-- A call of `mailbox_open_index` or `mailbox_read_index_header` under a
counted index lock that returns: the counters are as before, the lock library
has not been called, and the code returned is the one observed. -/
theorem index_reread_returned (reconstruct : Bool) (o : reread_obs) (c c1 : lock_counts)
    (r : Option imap_err) (os : List os_call) (hi : c.index_lock_count ≠ 0)
    (h : index_reread reconstruct o c = .returned r c1 os) :
    c1 = c ∧ os = [] ∧ (o = .returns r ∨ ∃ ho, o = .relocks ho (some r)) := by
  cases o with
  | returns r0 =>
    simp only [index_reread, lock_result.returned.injEq] at h
    obtain ⟨h1, h2, h3⟩ := h
    exact ⟨h2.symm, h3.symm, Or.inl (by rw [h1])⟩
  | not_returned => simp [index_reread] at h
  | relocks ho rest =>
    simp only [index_reread] at h
    rw [lock_header_index_held reconstruct ho c hi] at h
    by_cases h0 : c.header_lock_count = INT_MAX
    · simp [h0] at h
    · by_cases h1 : c.header_lock_count = 0
      · simp [h0, h1, INT_MAX] at h
      · simp only [h0, h1, if_false, ne_eq, not_false_eq_true, if_true] at h
        cases rest with
        | none => simp at h
        | some r0 =>
          simp only [mailbox_unlock_header] at h
          by_cases h2 : c.header_lock_count + 1 = 0
          · simp [h2] at h
          · by_cases h3 : c.header_lock_count + 1 = INT_MIN
            · simp [h2, h3, INT_MIN] at h
            · simp only [h2, h3, if_false, Int.add_sub_cancel, h1, List.nil_append,
                lock_result.returned.injEq] at h
              obtain ⟨h4, h5, h6⟩ := h
              exact ⟨h5.symm, h6.symm, Or.inr ⟨ho, by rw [h4]⟩⟩

/-- A call of `mailbox_open_index` or `mailbox_read_index_header` under a
counted index lock ends in a failed assertion exactly when the header lock is
not held and the callee goes on to `mailbox_calculate_flagcounts` or
`mailbox_upgrade_index`. -/
theorem index_reread_assertion (reconstruct : Bool) (o : reread_obs) (c : lock_counts)
    (hi : c.index_lock_count ≠ 0) (hh : 0 ≤ c.header_lock_count) :
    index_reread reconstruct o c = .assertion_failed ↔
      c.header_lock_count = 0 ∧ ∃ ho rest, o = .relocks ho rest := by
  cases o with
  | returns r0 => simp [index_reread]
  | not_returned => simp [index_reread]
  | relocks ho rest =>
    simp only [index_reread]
    rw [lock_header_index_held reconstruct ho c hi]
    by_cases h0 : c.header_lock_count = INT_MAX
    · simp [h0, INT_MAX]
    · by_cases h1 : c.header_lock_count = 0
      · simp [h1, INT_MAX]
      · simp only [h0, h1, if_false, ne_eq, not_false_eq_true, if_true, false_and, iff_false]
        cases rest with
        | none => simp
        | some r0 =>
          simp only [mailbox_unlock_header]
          have h2 : ¬ (c.header_lock_count + 1 = 0) := by omega
          by_cases h3 : c.header_lock_count + 1 = INT_MIN
          · exfalso; simp only [INT_MIN] at h3; omega
          · simp only [h2, h3, if_false]
            split_ifs <;> simp
/-- On every path but the one through a failing `mailbox_open_index`, a failed
`mailbox_lock_index` leaves `index_lock_count` as it was. -/
theorem lock_index_loop_restores (reconstruct : Bool) (c : lock_counts)
    (hc : c.index_lock_count = 1) :
    ∀ (passes : List index_lock_obs) (os : List os_call) (r : imap_err) (c1 : lock_counts)
      (os1 : List os_call),
      (∀ o ∈ passes, ∀ e, o.open_index ≠ .returns (some e) ∧
        ∀ ho, o.open_index ≠ .relocks ho (some (some e))) →
      lock_index_loop reconstruct c passes os = .ended (.returned (some r) c1 os1) →
      c1.index_lock_count = 0 := by
  intro passes
  induction passes with
  | nil => intro os r c1 os1 _ h; simp [lock_index_loop] at h
  | cons o rest ih =>
    intro os r c1 os1 hop h
    rw [lock_index_loop] at h
    by_cases h1 : o.lock_blocking = -1
    · simp only [h1, if_true] at h
      injection h with h; injection h with _ h2 _
      rw [← h2]; simp [hc]
    · simp only [h1, if_false] at h
      by_cases h2 : o.stat = -1
      · simp only [h2, if_true, mailbox_unlock_index, hc] at h
        simp [INT_MIN] at h
        rw [← h.2.1]
      · simp only [h2, if_false] at h
        by_cases h3 : o.same_ino = true
        · simp [h3] at h
        · simp only [h3] at h
          have hop1 := hop o (List.mem_cons_self _ _)
          cases hr : index_reread reconstruct o.open_index c with
          | assertion_failed => simp [hr] at h
          | undefined => simp [hr] at h
          | not_returned => simp [hr] at h
          | returned r2 c2 os2 =>
            obtain ⟨e1, e2, e3⟩ := index_reread_returned reconstruct _ c c2 r2 os2
              (by rw [hc]; decide) hr
            subst e1 e2
            cases r2 with
            | none =>
              simp only [hr] at h
              exact ih _ r c1 os1 (fun o1 ho1 => hop o1 (List.mem_cons_of_mem _ ho1)) h
            | some e =>
              rcases e3 with e3 | ⟨ho, e3⟩
              · exact absurd e3 (hop1 e).1
              · exact absurd e3 ((hop1 e).2 ho)

/-- When the loop of `mailbox_lock_index` ends the function with a return, the
code returned is not 0. -/
theorem lock_index_loop_returns_error (reconstruct : Bool) :
    ∀ (passes : List index_lock_obs) (c : lock_counts) (os : List os_call)
      (r : Option imap_err) (c1 : lock_counts) (os1 : List os_call),
      lock_index_loop reconstruct c passes os = .ended (.returned r c1 os1) → r ≠ none := by
  intro passes
  induction passes with
  | nil => intro c os r c1 os1 h; simp [lock_index_loop] at h
  | cons o rest ih =>
    intro c os r c1 os1 h
    rw [lock_index_loop] at h
    by_cases h1 : o.lock_blocking = -1
    · simp only [h1, if_true] at h
      injection h with h; injection h with h _ _
      rw [← h]; simp
    · simp only [h1, if_false] at h
      by_cases h2 : o.stat = -1
      · simp only [h2, if_true] at h
        cases hu : mailbox_unlock_index c with
        | assertion_failed => simp [hu] at h
        | undefined => simp [hu] at h
        | not_returned => simp [hu] at h
        | returned r2 c2 os2 =>
          simp only [hu] at h
          injection h with h; injection h with h _ _
          rw [← h]; simp
      · simp only [h2, if_false] at h
        by_cases h3 : o.same_ino = true
        · simp [h3] at h
        · simp only [h3] at h
          cases hr : index_reread reconstruct o.open_index c with
          | assertion_failed => simp [hr] at h
          | undefined => simp [hr] at h
          | not_returned => simp [hr] at h
          | returned r2 c2 os2 =>
            cases r2 with
            | none =>
              simp only [hr] at h
              exact ih _ _ r c1 os1 h
            | some e =>
              simp only [hr] at h
              injection h with h; injection h with h _ _
              rw [← h]; simp

/-- When the loop of `mailbox_lock_index` is left by `break`, the counters are
as on entry, and it has called `lock_blocking` once per pass and nothing
else. -/
theorem lock_index_loop_broke (reconstruct : Bool) (c : lock_counts)
    (hc : c.index_lock_count ≠ 0) :
    ∀ (passes : List index_lock_obs) (os : List os_call) (c1 : lock_counts)
      (os1 : List os_call),
      lock_index_loop reconstruct c passes os = .broke c1 os1 →
      c1 = c ∧ ∃ k, os1 = os ++ List.replicate (k + 1) os_call.lock_blocking_index := by
  intro passes
  induction passes with
  | nil => intro os c1 os1 h; simp [lock_index_loop] at h
  | cons o rest ih =>
    intro os c1 os1 h
    rw [lock_index_loop] at h
    by_cases h1 : o.lock_blocking = -1
    · simp [h1] at h
    · simp only [h1, if_false] at h
      by_cases h2 : o.stat = -1
      · simp only [h2, if_true] at h
        cases hu : mailbox_unlock_index c <;> simp [hu] at h
      · simp only [h2, if_false] at h
        by_cases h3 : o.same_ino = true
        · simp only [h3, if_true] at h
          injection h with h h'
          exact ⟨h.symm, 0, by rw [← h']; rfl⟩
        · simp only [h3] at h
          cases hr : index_reread reconstruct o.open_index c with
          | assertion_failed => simp [hr] at h
          | undefined => simp [hr] at h
          | not_returned => simp [hr] at h
          | returned r2 c2 os2 =>
            obtain ⟨e1, e2, _⟩ := index_reread_returned reconstruct _ c c2 r2 os2 hc hr
            subst e1 e2
            cases r2 with
            | none =>
              simp only [hr] at h
              obtain ⟨hc1, k, hk⟩ := ih _ c1 os1 h
              refine ⟨hc1, k + 1, ?_⟩
              rw [hk, List.append_nil, List.append_assoc]
              rfl
            | some e => simp [hr] at h

/-- With `index_lock_count` = 1, as a first acquisition sets it, the loop of
`mailbox_lock_index` trips no assertion when the header lock is held, and none
when no `mailbox_open_index` goes on to `mailbox_calculate_flagcounts` or
`mailbox_upgrade_index`. -/
theorem lock_index_loop_no_assert (reconstruct : Bool) (c : lock_counts)
    (hc : c.index_lock_count = 1) (hh : 0 ≤ c.header_lock_count) :
    ∀ (passes : List index_lock_obs) (os : List os_call),
      (0 < c.header_lock_count ∨
        ∀ o ∈ passes, ∀ ho rest, o.open_index ≠ .relocks ho rest) →
      lock_index_loop reconstruct c passes os ≠ .ended .assertion_failed := by
  intro passes
  induction passes with
  | nil => intro os _; simp [lock_index_loop]
  | cons o rest ih =>
    intro os hor
    rw [lock_index_loop]
    by_cases h1 : o.lock_blocking = -1
    · simp [h1]
    · simp only [h1, if_false]
      by_cases h2 : o.stat = -1
      · simp [h2, mailbox_unlock_index, hc, INT_MIN]
      · simp only [h2, if_false]
        by_cases h3 : o.same_ino = true
        · simp [h3]
        · simp only [h3]
          have hna : index_reread reconstruct o.open_index c ≠ .assertion_failed := by
            intro ha
            obtain ⟨ha1, ho, rs, ha2⟩ := (index_reread_assertion reconstruct _ c
              (by rw [hc]; decide) hh).1 ha
            rcases hor with hor | hor
            · omega
            · exact hor o (List.mem_cons_self _ _) ho rs ha2
          cases hr : index_reread reconstruct o.open_index c with
          | assertion_failed => exact absurd hr hna
          | undefined => simp
          | not_returned => simp
          | returned r2 c2 os2 =>
            obtain ⟨e1, e2, _⟩ := index_reread_returned reconstruct _ c c2 r2 os2
              (by rw [hc]; decide) hr
            subst e1 e2
            cases r2 with
            | none =>
              simp only
              exact ih _ (hor.imp id (fun h o1 ho1 => h o1 (List.mem_cons_of_mem _ ho1)))
            | some e => simp

/-- Passes through the loop of `mailbox_lock_index` in each of which the lock
is granted, the index file has been replaced and `mailbox_open_index` returns 0
without a call of a lock function: the loop goes on with the passes after
them. -/
theorem lock_index_loop_reopened (reconstruct : Bool) (c : lock_counts) :
    ∀ (pre rest : List index_lock_obs) (os : List os_call),
      (∀ o ∈ pre, o.lock_blocking ≠ -1 ∧ o.stat ≠ -1 ∧ o.same_ino = false ∧
        o.open_index = .returns none) →
      lock_index_loop reconstruct c (pre ++ rest) os
        = lock_index_loop reconstruct c rest
            (os ++ List.replicate pre.length os_call.lock_blocking_index) := by
  intro pre
  induction pre with
  | nil => intro rest os _; simp
  | cons o pre ih =>
    intro rest os h
    obtain ⟨h1, h2, h3, h4⟩ := h o (List.mem_cons_self _ _)
    rw [List.cons_append, lock_index_loop]
    simp only [h1, h2, h3, h4, if_false, Bool.false_eq_true, index_reread]
    rw [ih rest _ (fun o1 ho1 => h o1 (List.mem_cons_of_mem _ ho1))]
    congr 1
    simp [List.replicate_succ]

/-- A pass through the loop of `mailbox_lock_index` in which the lock is
granted and the index file has been replaced, on a handle whose header lock is
not held: when `mailbox_open_index` finds an index to recount or to upgrade,
the `mailbox_lock_header` it comes to fails its assertion. -/
theorem lock_index_loop_relock (reconstruct : Bool) (c : lock_counts)
    (hi : c.index_lock_count ≠ 0) (hh : c.header_lock_count = 0)
    (o : index_lock_obs) (rest : List index_lock_obs) (os : List os_call)
    (h1 : o.lock_blocking ≠ -1) (h2 : o.stat ≠ -1) (h3 : o.same_ino = false)
    (ho : header_lock_obs) (rs : Option (Option imap_err))
    (h4 : o.open_index = .relocks ho rs) :
    lock_index_loop reconstruct c (o :: rest) os = .ended .assertion_failed := by
  rw [lock_index_loop]
  simp only [h1, h2, h3, if_false, Bool.false_eq_true]
  rw [(index_reread_assertion reconstruct o.open_index c hi (by omega)).2 ⟨hh, ho, rs, h4⟩]
/-- A first acquisition by `mailbox_lock_index` with no seen lock held goes
through the loop. -/
theorem lock_index_first (reconstruct : Bool) (passes : List index_lock_obs)
    (rd : reread_obs) (c : lock_counts)
    (h0 : c.index_lock_count = 0) (h2 : c.seen_lock_count = 0) :
    mailbox_lock_index reconstruct passes rd c =
      lock_index_read_header reconstruct rd
        (lock_index_loop reconstruct { c with index_lock_count := c.index_lock_count + 1 }
          passes []) := by
  unfold mailbox_lock_index
  rw [if_neg (by rw [h0]; decide)]
  simp only []
  rw [if_neg (by simp [h0]), if_neg (by simp [h2])]

/-- A first acquisition by `mailbox_lock_index_for_upgrade` with no seen lock
held goes through the loop. -/
theorem lock_index_for_upgrade_first (reconstruct : Bool) (passes : List index_lock_obs)
    (c : lock_counts) (h0 : c.index_lock_count = 0) (h2 : c.seen_lock_count = 0) :
    mailbox_lock_index_for_upgrade reconstruct passes c =
      lock_index_return
        (lock_index_loop reconstruct { c with index_lock_count := c.index_lock_count + 1 }
          passes []) := by
  unfold mailbox_lock_index_for_upgrade
  rw [if_neg (by rw [h0]; decide)]
  simp only []
  rw [if_neg (by simp [h0]), if_neg (by simp [h2])]

/-- A failed `mailbox_lock_index` in which no `mailbox_open_index` fails leaves
`index_lock_count` as it was. -/
theorem lock_index_failure_restores (reconstruct : Bool) (passes : List index_lock_obs)
    (rd : reread_obs) (c c1 : lock_counts) (r : imap_err) (os : List os_call)
    (hno : ∀ o ∈ passes, ∀ e, o.open_index ≠ .returns (some e) ∧
      ∀ ho, o.open_index ≠ .relocks ho (some (some e)))
    (h : mailbox_lock_index reconstruct passes rd c = .returned (some r) c1 os) :
    c1.index_lock_count = c.index_lock_count := by
  by_cases h1 : c.index_lock_count = 0
  · by_cases h2 : c.seen_lock_count = 0
    · rw [lock_index_first reconstruct passes rd c h1 h2] at h
      have hi : (lock_counts.index_lock_count
          { c with index_lock_count := c.index_lock_count + 1 }) = 1 := by simp [h1]
      have ha := lock_index_loop_restores reconstruct _ hi passes []
      have hb := lock_index_loop_broke reconstruct
        { c with index_lock_count := c.index_lock_count + 1 } (by rw [hi]; decide) passes []
      generalize lock_index_loop reconstruct _ passes [] = L at h ha hb
      cases L with
      | ended res =>
        simp only [lock_index_read_header] at h
        subst h
        rw [h1]
        exact ha r c1 os hno rfl
      | broke c2 os0 =>
        obtain ⟨hc2, _⟩ := hb c2 os0 rfl
        subst hc2
        simp only [lock_index_read_header] at h
        cases hr : index_reread reconstruct rd
            { c with index_lock_count := c.index_lock_count + 1 } with
        | assertion_failed => simp [hr] at h
        | undefined => simp [hr] at h
        | not_returned => simp [hr] at h
        | returned r2 c3 os3 =>
          obtain ⟨e1, e2, _⟩ := index_reread_returned reconstruct rd _ c3 r2 os3
            (by rw [hi]; decide) hr
          subst e1 e2
          cases r2 with
          | none => simp [hr] at h
          | some e =>
            simp only [hr] at h
            cases reconstruct
            · simp [mailbox_unlock_index, INT_MIN, h1] at h
              rw [← h.2.1, h1]
            · simp at h
    · unfold mailbox_lock_index at h
      simp [h1, h2, INT_MAX] at h
  · unfold mailbox_lock_index at h
    by_cases h0 : c.index_lock_count = INT_MAX
    · simp [h0] at h
    · simp [h0, h1] at h

/-- Every step of a sequence of successful calls is a call that returns 0, and
a property of the counters that successful calls preserve holds before and after
every step. -/
theorem lock_run_steps (reconstruct : Bool) (P : lock_counts → Prop)
    (hP : ∀ (c : lock_counts) (call : lock_call) (c1 : lock_counts) (os : List os_call),
      P c → call.run reconstruct c = .returned none c1 os → P c1) :
    ∀ (calls : List lock_call) (c : lock_counts) (steps : List lock_step),
      P c → lock_run reconstruct c calls = some steps →
      ∀ s ∈ steps, P s.before ∧ P s.after ∧
        s.call.run reconstruct s.before = .returned none s.after s.os := by
  intro calls
  induction calls with
  | nil =>
    intro c steps _ h s hs
    simp [lock_run] at h
    subst h
    simp at hs
  | cons call rest ih =>
    intro c steps hc h s hs
    rw [lock_run] at h
    cases hr : call.run reconstruct c with
    | assertion_failed => simp [hr] at h
    | undefined => simp [hr] at h
    | not_returned => simp [hr] at h
    | returned r c1 os =>
      cases r with
      | some e => simp [hr] at h
      | none =>
        simp only [hr] at h
        cases h1 : lock_run reconstruct c1 rest with
        | none => simp [h1] at h
        | some steps1 =>
        rw [h1] at h
        injection h with h
        subst h
        have hc1 : P c1 := hP c call c1 os hc hr
        rcases List.mem_cons.1 hs with hs | hs
        · subst hs
          exact ⟨hc, hc1, hr⟩
        · exact ih c1 steps1 hc1 h1 s hs

/-- With the header lock not held, the loop of `mailbox_lock_index` ends in a
failed assertion exactly when, after passes that re-open the index without a
call of a lock function, it comes to a pass in which the lock is granted, the
index file has been replaced and `mailbox_open_index` finds an index to recount
or to upgrade. -/
theorem lock_index_loop_assertion (reconstruct : Bool) (c : lock_counts)
    (hi : c.index_lock_count ≠ 0) (hh : c.header_lock_count = 0) :
    ∀ (passes : List index_lock_obs) (os : List os_call),
      lock_index_loop reconstruct c passes os = .ended .assertion_failed ↔
        ∃ pre o rest ho rs, passes = pre ++ o :: rest ∧
          (∀ p ∈ pre, p.lock_blocking ≠ -1 ∧ p.stat ≠ -1 ∧ p.same_ino = false ∧
            p.open_index = .returns none) ∧
          o.lock_blocking ≠ -1 ∧ o.stat ≠ -1 ∧ o.same_ino = false ∧
          o.open_index = .relocks ho rs := by
  intro passes os
  constructor
  · induction passes generalizing os with
    | nil => intro h; simp [lock_index_loop] at h
    | cons o rest ih =>
      intro h
      rw [lock_index_loop] at h
      by_cases h1 : o.lock_blocking = -1
      · simp [h1] at h
      · simp only [h1, if_false] at h
        by_cases h2 : o.stat = -1
        · simp only [h2, if_true, mailbox_unlock_index, hi, if_false] at h
          split_ifs at h <;> simp at h
        · simp only [h2, if_false] at h
          by_cases h3 : o.same_ino = true
          · simp [h3] at h
          · simp only [h3] at h
            cases hr : index_reread reconstruct o.open_index c with
            | assertion_failed =>
              obtain ⟨_, ho, rs, ha⟩ := (index_reread_assertion reconstruct _ c hi
                (by omega)).1 hr
              exact ⟨[], o, rest, ho, rs, rfl, by simp, h1, h2, by simpa using h3, ha⟩
            | undefined => simp [hr] at h
            | not_returned => simp [hr] at h
            | returned r2 c2 os2 =>
              obtain ⟨e1, e2, e3⟩ := index_reread_returned reconstruct _ c c2 r2 os2 hi hr
              rw [e1, e2] at hr
              cases r2 with
              | some e => simp [hr] at h
              | none =>
                simp only [hr] at h
                obtain ⟨pre, o1, rest1, ho, rs, hp, hpre, ho1⟩ := ih _ h
                have hret : o.open_index = .returns none := by
                  rcases e3 with e3 | ⟨ho2, e3⟩
                  · exact e3
                  · have := (index_reread_assertion reconstruct o.open_index c hi
                      (by omega)).2 ⟨hh, ho2, _, e3⟩
                    rw [this] at hr
                    cases hr
                refine ⟨o :: pre, o1, rest1, ho, rs, by rw [hp]; rfl, ?_, ho1⟩
                intro p hp1
                rcases List.mem_cons.1 hp1 with hp1 | hp1
                · subst hp1
                  exact ⟨h1, h2, by simpa using h3, hret⟩
                · exact hpre p hp1
  · rintro ⟨pre, o, rest, ho, rs, hp, hpre, h1, h2, h3, h4⟩
    rw [hp, lock_index_loop_reopened reconstruct c pre (o :: rest) os hpre]
    exact lock_index_loop_relock reconstruct c hi hh o rest _ h1 h2 h3 ho rs h4

/-- With the header lock not held, the loop of `mailbox_lock_index` is left by
`break` exactly when, after passes that re-open the index without a call of a
lock function, it comes to a pass in which the lock is granted and the index
file is the one that is open. -/
theorem lock_index_loop_breaks (reconstruct : Bool) (c : lock_counts)
    (hi : c.index_lock_count ≠ 0) (hh : c.header_lock_count = 0) :
    ∀ (passes : List index_lock_obs) (os : List os_call),
      (∃ c1 os1, lock_index_loop reconstruct c passes os = .broke c1 os1) ↔
        ∃ pre o rest, passes = pre ++ o :: rest ∧
          (∀ p ∈ pre, p.lock_blocking ≠ -1 ∧ p.stat ≠ -1 ∧ p.same_ino = false ∧
            p.open_index = .returns none) ∧
          o.lock_blocking ≠ -1 ∧ o.stat ≠ -1 ∧ o.same_ino = true := by
  intro passes os
  constructor
  · induction passes generalizing os with
    | nil => rintro ⟨c1, os1, h⟩; simp [lock_index_loop] at h
    | cons o rest ih =>
      rintro ⟨c1, os1, h⟩
      rw [lock_index_loop] at h
      by_cases h1 : o.lock_blocking = -1
      · simp [h1] at h
      · simp only [h1, if_false] at h
        by_cases h2 : o.stat = -1
        · simp only [h2, if_true] at h
          cases hu : mailbox_unlock_index c <;> simp [hu] at h
        · simp only [h2, if_false] at h
          by_cases h3 : o.same_ino = true
          · exact ⟨[], o, rest, rfl, by simp, h1, h2, h3⟩
          · simp only [h3] at h
            cases hr : index_reread reconstruct o.open_index c with
            | assertion_failed => simp [hr] at h
            | undefined => simp [hr] at h
            | not_returned => simp [hr] at h
            | returned r2 c2 os2 =>
              obtain ⟨e1, e2, e3⟩ := index_reread_returned reconstruct _ c c2 r2 os2 hi hr
              rw [e1, e2] at hr
              cases r2 with
              | some e => simp [hr] at h
              | none =>
                simp only [hr] at h
                obtain ⟨pre, o1, rest1, hp, hpre, ho1⟩ := ih _ ⟨c1, os1, h⟩
                have hret : o.open_index = .returns none := by
                  rcases e3 with e3 | ⟨ho2, e3⟩
                  · exact e3
                  · have := (index_reread_assertion reconstruct o.open_index c hi
                      (by omega)).2 ⟨hh, ho2, _, e3⟩
                    rw [this] at hr
                    cases hr
                refine ⟨o :: pre, o1, rest1, by rw [hp]; rfl, ?_, ho1⟩
                intro p hp1
                rcases List.mem_cons.1 hp1 with hp1 | hp1
                · subst hp1
                  exact ⟨h1, h2, by simpa using h3, hret⟩
                · exact hpre p hp1
  · rintro ⟨pre, o, rest, hp, hpre, h1, h2, h3⟩
    rw [hp, lock_index_loop_reopened reconstruct c pre (o :: rest) os hpre, lock_index_loop]
    simp only [h1, h2, h3, if_false, if_true]
    exact ⟨_, _, rfl⟩
/-- After a loop left by `break`, `mailbox_lock_index` trips no assertion of
its own: it ends in a failed assertion exactly when the call of
`mailbox_read_index_header` does. -/
theorem lock_index_read_header_assertion (reconstruct : Bool) (rd : reread_obs)
    (c : lock_counts) (os : List os_call) (hi : c.index_lock_count = 1) :
    lock_index_read_header reconstruct rd (.broke c os) = .assertion_failed ↔
      index_reread reconstruct rd c = .assertion_failed := by
  simp only [lock_index_read_header]
  cases hr : index_reread reconstruct rd c with
  | assertion_failed => simp
  | undefined => simp
  | not_returned => simp
  | returned r2 c2 os2 =>
    obtain ⟨e1, _, _⟩ := index_reread_returned reconstruct rd c c2 r2 os2
      (by rw [hi]; decide) hr
    rw [e1]
    cases r2 with
    | none => simp
    | some e =>
      cases reconstruct
      · simp [mailbox_unlock_index, hi, INT_MIN]
      · simp

/-- A first acquisition of the index lock by `mailbox_lock_index`, on a handle
whose header lock count is not negative, ends in a failed assertion exactly
when `seen_lock_count` is not 0, or the header lock is not held and the call
comes, after passes that re-open the index without a call of a lock function,
to a `mailbox_open_index` or to the final `mailbox_read_index_header` that finds
an index to recount or to upgrade. -/
theorem lock_index_assertion (reconstruct : Bool) (passes : List index_lock_obs)
    (rd : reread_obs) (c : lock_counts)
    (h0 : c.index_lock_count = 0) (hh : 0 ≤ c.header_lock_count) :
    mailbox_lock_index reconstruct passes rd c = .assertion_failed ↔
      c.seen_lock_count ≠ 0 ∨
        (c.header_lock_count = 0 ∧
          ∃ pre o rest ho rs, passes = pre ++ o :: rest ∧
            (∀ p ∈ pre, p.lock_blocking ≠ -1 ∧ p.stat ≠ -1 ∧ p.same_ino = false ∧
              p.open_index = .returns none) ∧
            o.lock_blocking ≠ -1 ∧ o.stat ≠ -1 ∧
            ((o.same_ino = false ∧ o.open_index = .relocks ho rs) ∨
              (o.same_ino = true ∧ rd = .relocks ho rs))) := by
  by_cases h2 : c.seen_lock_count = 0
  swap
  · unfold mailbox_lock_index
    simp [h0, h2, INT_MAX]
  rw [lock_index_first reconstruct passes rd c h0 h2]
  obtain ⟨c1, hc1⟩ : ∃ c1 : lock_counts,
    c1 = { c with index_lock_count := c.index_lock_count + 1 } := ⟨_, rfl⟩
  rw [← hc1]
  have hi : c1.index_lock_count = 1 := by rw [hc1]; simp [h0]
  have hi0 : c1.index_lock_count ≠ 0 := by rw [hi]; decide
  have hh1 : c1.header_lock_count = c.header_lock_count := by rw [hc1]
  have hbr := lock_index_loop_broke reconstruct c1 hi0 passes []
  simp only [h2, ne_eq, not_true_eq_false, false_or]
  by_cases hh0 : c.header_lock_count = 0
  · have hla := lock_index_loop_assertion reconstruct c1 hi0 (by rw [hh1, hh0]) passes []
    have hlb := lock_index_loop_breaks reconstruct c1 hi0 (by rw [hh1, hh0]) passes []
    have hra := index_reread_assertion reconstruct rd c1 hi0 (by rw [hh1]; exact hh)
    constructor
    · intro h
      refine ⟨hh0, ?_⟩
      cases hL : lock_index_loop reconstruct c1 passes [] with
      | ended res =>
        rw [hL] at h
        simp only [lock_index_read_header] at h
        rw [h] at hL
        obtain ⟨pre, o, rest, ho, rs, hp, hpre, h1, h3, h4, h5⟩ := hla.1 hL
        exact ⟨pre, o, rest, ho, rs, hp, hpre, h1, h3, Or.inl ⟨h4, h5⟩⟩
      | broke c2 os2 =>
        obtain ⟨e1, _⟩ := hbr c2 os2 hL
        rw [hL, e1, lock_index_read_header_assertion reconstruct rd c1 os2 hi] at h
        obtain ⟨_, ho, rs, hrd⟩ := hra.1 h
        obtain ⟨pre, o, rest, hp, hpre, h1, h3, h4⟩ := hlb.1 ⟨c2, os2, hL⟩
        exact ⟨pre, o, rest, ho, rs, hp, hpre, h1, h3, Or.inr ⟨h4, hrd⟩⟩
    · rintro ⟨_, pre, o, rest, ho, rs, hp, hpre, h1, h3, h4 | h4⟩
      · rw [hla.2 ⟨pre, o, rest, ho, rs, hp, hpre, h1, h3, h4.1, h4.2⟩]
        rfl
      · obtain ⟨c2, os2, hL⟩ := hlb.2 ⟨pre, o, rest, hp, hpre, h1, h3, h4.1⟩
        obtain ⟨e1, _⟩ := hbr c2 os2 hL
        rw [hL, e1, lock_index_read_header_assertion reconstruct rd c1 os2 hi]
        exact hra.2 ⟨by rw [hh1, hh0], ho, rs, h4.2⟩
  · simp only [hh0, false_and, iff_false]
    have hna := lock_index_loop_no_assert reconstruct c1 hi (by rw [hh1]; exact hh) passes []
      (Or.inl (by rw [hh1]; omega))
    intro h
    cases hL : lock_index_loop reconstruct c1 passes [] with
    | ended res =>
      rw [hL] at h
      simp only [lock_index_read_header] at h
      rw [h] at hL
      exact hna hL
    | broke c2 os2 =>
      obtain ⟨e1, _⟩ := hbr c2 os2 hL
      rw [hL, e1, lock_index_read_header_assertion reconstruct rd c1 os2 hi] at h
      have := (index_reread_assertion reconstruct rd c1 hi0 (by rw [hh1]; exact hh)).1 h
      rw [hh1] at this
      exact hh0 this.1

/-- A first acquisition of the index lock by `mailbox_lock_index_for_upgrade`,
on a handle whose header lock count is not negative, ends in a failed assertion
exactly when `seen_lock_count` is not 0, or the header lock is not held and the
call comes, after passes that re-open the index without a call of a lock
function, to a `mailbox_open_index` that finds an index to recount or to
upgrade. -/
theorem lock_index_for_upgrade_assertion (reconstruct : Bool) (passes : List index_lock_obs)
    (c : lock_counts) (h0 : c.index_lock_count = 0) (hh : 0 ≤ c.header_lock_count) :
    mailbox_lock_index_for_upgrade reconstruct passes c = .assertion_failed ↔
      c.seen_lock_count ≠ 0 ∨
        (c.header_lock_count = 0 ∧
          ∃ pre o rest ho rs, passes = pre ++ o :: rest ∧
            (∀ p ∈ pre, p.lock_blocking ≠ -1 ∧ p.stat ≠ -1 ∧ p.same_ino = false ∧
              p.open_index = .returns none) ∧
            o.lock_blocking ≠ -1 ∧ o.stat ≠ -1 ∧ o.same_ino = false ∧
            o.open_index = .relocks ho rs) := by
  by_cases h2 : c.seen_lock_count = 0
  swap
  · unfold mailbox_lock_index_for_upgrade
    simp [h0, h2, INT_MAX]
  rw [lock_index_for_upgrade_first reconstruct passes c h0 h2]
  obtain ⟨c1, hc1⟩ : ∃ c1 : lock_counts,
    c1 = { c with index_lock_count := c.index_lock_count + 1 } := ⟨_, rfl⟩
  rw [← hc1]
  have hi : c1.index_lock_count = 1 := by rw [hc1]; simp [h0]
  have hi0 : c1.index_lock_count ≠ 0 := by rw [hi]; decide
  have hh1 : c1.header_lock_count = c.header_lock_count := by rw [hc1]
  simp only [h2, ne_eq, not_true_eq_false, false_or]
  have hret : lock_index_return (lock_index_loop reconstruct c1 passes []) = .assertion_failed ↔
      lock_index_loop reconstruct c1 passes [] = .ended .assertion_failed := by
    cases lock_index_loop reconstruct c1 passes [] <;> simp [lock_index_return]
  rw [hret]
  by_cases hh0 : c.header_lock_count = 0
  · rw [lock_index_loop_assertion reconstruct c1 hi0 (by rw [hh1, hh0]) passes []]
    simp only [hh0, true_and]
  · simp only [hh0, false_and, iff_false]
    exact lock_index_loop_no_assert reconstruct c1 hi (by rw [hh1]; exact hh) passes []
      (Or.inl (by rw [hh1]; omega))
/-- C22 (counterexample): on a handle on which no lock is held, a first
acquisition of the index lock, on an index that is current, takes the lock and
returns 0, which leaves `index_lock_count` = 1 with `header_lock_count` = 0;
and so does a first acquisition of the POP lock with `index_lock_count` = 0. -/
theorem index_lock_taken_without_header_lock :
    mailbox_lock_index false [pass_ok] (.returns none) no_locks
      = .returned none { no_locks with index_lock_count := 1 } [.lock_blocking_index] ∧
    mailbox_lock_pop { lock_nonblocking := 0, errno_busy := false } no_locks
      = .returned none { no_locks with pop_lock_count := 1 } [.lock_nonblocking_cache] := by
  refine ⟨?_, ?_⟩ <;> rfl

/-- C22 (amended): the assertions on the counters check that no higher lock is
held when a lower one is first taken.  A first acquisition of the header lock
trips an assertion iff `index_lock_count` or `seen_lock_count` is not 0.  A
first acquisition of the index lock, by `mailbox_lock_index` or by
`mailbox_lock_index_for_upgrade`, has no assertion on `header_lock_count`: it
ends in a failed assertion iff `seen_lock_count` is not 0, or the header lock
is not held and the call comes (after passes through its loop that re-open the
index without a call of a lock function) to a `mailbox_open_index` or to the
final `mailbox_read_index_header` that finds an index to recount or to upgrade,
for then the `mailbox_lock_header` of `mailbox_calculate_flagcounts` or
`mailbox_upgrade_index` finds `index_lock_count` = 1.  `mailbox_lock_pop` trips
no assertion.  So in every sequence of successful calls the header lock is
first taken only with `index_lock_count` = 0.  (The header lock count is not
negative.) -/
theorem lock_order_assertions :
    (∀ (reconstruct : Bool) (o : header_lock_obs) (c : lock_counts),
      c.header_lock_count = 0 →
      (mailbox_lock_header reconstruct o c = .assertion_failed ↔
        c.index_lock_count ≠ 0 ∨ c.seen_lock_count ≠ 0)) ∧
    (∀ (reconstruct : Bool) (passes : List index_lock_obs) (rd : reread_obs)
      (c : lock_counts), c.index_lock_count = 0 → 0 ≤ c.header_lock_count →
      (mailbox_lock_index reconstruct passes rd c = .assertion_failed ↔
        c.seen_lock_count ≠ 0 ∨
          (c.header_lock_count = 0 ∧
            ∃ pre o rest ho rs, passes = pre ++ o :: rest ∧
              (∀ p ∈ pre, p.lock_blocking ≠ -1 ∧ p.stat ≠ -1 ∧ p.same_ino = false ∧
                p.open_index = .returns none) ∧
              o.lock_blocking ≠ -1 ∧ o.stat ≠ -1 ∧
              ((o.same_ino = false ∧ o.open_index = .relocks ho rs) ∨
                (o.same_ino = true ∧ rd = .relocks ho rs))))) ∧
    (∀ (reconstruct : Bool) (passes : List index_lock_obs) (c : lock_counts),
      c.index_lock_count = 0 → 0 ≤ c.header_lock_count →
      (mailbox_lock_index_for_upgrade reconstruct passes c = .assertion_failed ↔
        c.seen_lock_count ≠ 0 ∨
          (c.header_lock_count = 0 ∧
            ∃ pre o rest ho rs, passes = pre ++ o :: rest ∧
              (∀ p ∈ pre, p.lock_blocking ≠ -1 ∧ p.stat ≠ -1 ∧ p.same_ino = false ∧
                p.open_index = .returns none) ∧
              o.lock_blocking ≠ -1 ∧ o.stat ≠ -1 ∧ o.same_ino = false ∧
              o.open_index = .relocks ho rs))) ∧
    (∀ (o : pop_lock_obs) (c : lock_counts), mailbox_lock_pop o c ≠ .assertion_failed) ∧
    (∀ (reconstruct : Bool) (c : lock_counts) (calls : List lock_call) (steps : List lock_step),
      lock_run reconstruct c calls = some steps →
      ∀ s ∈ steps, s.call.locks = some .header → s.before.header_lock_count = 0 →
        s.before.index_lock_count = 0 ∧ s.before.seen_lock_count = 0) := by
  refine ⟨?_, lock_index_assertion, lock_index_for_upgrade_assertion, ?_, ?_⟩
  · intro reconstruct o c h0
    unfold mailbox_lock_header
    by_cases h1 : c.index_lock_count = 0 <;> by_cases h2 : c.seen_lock_count = 0 <;>
      simp [h0, h1, h2, INT_MAX]
    by_cases h3 : o.lock_reopen = 0 <;> simp [h3]
    by_cases h4 : o.ino_changed = true <;> simp [h4]
    cases o.read_header with
    | none => simp
    | some x =>
      cases x with
      | none => simp
      | some e => cases reconstruct <;> simp [mailbox_unlock_header, INT_MIN]
  · intro o c
    unfold mailbox_lock_pop
    by_cases h0 : c.pop_lock_count = INT_MAX
    · simp [h0]
    · simp only [INT_MAX] at h0
      by_cases h1 : c.pop_lock_count = 0 <;> by_cases h2 : o.lock_nonblocking = -1 <;>
        cases o.errno_busy <;> simp [h0, h1, h2, INT_MAX]
  · intro reconstruct c calls steps hrun s hs hk h0
    have h := (lock_run_steps reconstruct (fun _ => True) (fun _ _ _ _ _ _ => trivial)
      calls c steps trivial hrun s hs).2.2
    cases hcall : s.call with
    | lock_header o =>
      rw [hcall] at h
      simp only [lock_call.run, mailbox_lock_header, h0, INT_MAX] at h
      by_cases h1 : s.before.index_lock_count = 0
      · by_cases h2 : s.before.seen_lock_count = 0
        · exact ⟨h1, h2⟩
        · simp [h1, h2] at h
      · simp [h1] at h
    | lock_index passes rd => rw [hcall] at hk; simp [lock_call.locks] at hk
    | lock_index_for_upgrade passes => rw [hcall] at hk; simp [lock_call.locks] at hk
    | lock_pop o => rw [hcall] at hk; simp [lock_call.locks] at hk
    | unlock_header => rw [hcall] at hk; simp [lock_call.locks] at hk
    | unlock_index => rw [hcall] at hk; simp [lock_call.locks] at hk
    | unlock_pop => rw [hcall] at hk; simp [lock_call.locks] at hk

set_option maxRecDepth 8000 in
/-- C22 (instances of the amended statement): the header lock is refused by an
assertion on a handle whose index lock is held.  The index `old_header_index`
is one that `mailbox_read_index_header` hands to `mailbox_upgrade_index`; a
first acquisition of the index lock that re-reads such an index ends in a
failed assertion on a handle on which no lock is held, in the final
`mailbox_read_index_header` as well as in a `mailbox_open_index` of the loop,
and in none on a handle whose header lock is held. -/
theorem lock_order_assertions_witness :
    mailbox_lock_header false { lock_reopen := 0, ino_changed := false, read_header := some none }
      { no_locks with index_lock_count := 1 } = .assertion_failed ∧
    (mailbox_read_index_header true false os_ok
      { zeromailbox with index_fd := 3, index_base := old_header_index }).upgraded = true ∧
    mailbox_lock_index false [pass_ok] pass_reopen_upgrades.open_index no_locks
      = .assertion_failed ∧
    mailbox_lock_index false [pass_reopen_upgrades, pass_ok] (.returns none) no_locks
      = .assertion_failed ∧
    mailbox_lock_index_for_upgrade false [pass_reopen_upgrades, pass_ok] no_locks
      = .assertion_failed ∧
    mailbox_lock_index false [pass_reopen_upgrades, pass_ok] pass_reopen_upgrades.open_index
      { no_locks with header_lock_count := 1 } ≠ .assertion_failed :=
  ⟨(lock_order_assertions.1 false _ _ rfl).2 (Or.inl (by decide)),
   by decide,
   (lock_order_assertions.2.1 false _ _ _ rfl (by decide)).2
     (Or.inr ⟨rfl, [], pass_ok, [], _, _, rfl, by simp, by decide, by decide,
       Or.inr ⟨rfl, rfl⟩⟩),
   (lock_order_assertions.2.1 false _ _ _ rfl (by decide)).2
     (Or.inr ⟨rfl, [], pass_reopen_upgrades, [pass_ok], _, _, rfl, by simp, by decide,
       by decide, Or.inl ⟨rfl, rfl⟩⟩),
   (lock_order_assertions.2.2.1 false _ _ rfl (by decide)).2
     (Or.inr ⟨rfl, [], pass_reopen_upgrades, [pass_ok], _, _, rfl, by simp, by decide,
       by decide, rfl, rfl⟩),
   fun h => ((lock_order_assertions.2.1 false _ _ _ rfl (by decide)).1 h).elim
     (fun h1 => absurd rfl h1) (fun h1 => absurd h1.1 (by decide))⟩

/-- A successful `mailbox_lock_header`: the counter goes up by one, and
`lock_reopen` is called, once, exactly when the counter was 0. -/
theorem lock_header_success (reconstruct : Bool) (o : header_lock_obs) (c c1 : lock_counts)
    (os : List os_call) (h : mailbox_lock_header reconstruct o c = .returned none c1 os) :
    c1 = c.setCount .header (c.header_lock_count + 1) ∧
    ((c.header_lock_count ≠ 0 ∧ os = []) ∨
      (c.header_lock_count = 0 ∧ os = [.lock_reopen_header])) := by
  unfold mailbox_lock_header at h
  by_cases h0 : c.header_lock_count = INT_MAX
  · simp [h0] at h
  · simp only [h0, if_false] at h
    by_cases h1 : c.header_lock_count = 0
    · simp only [h1, ne_eq, not_true_eq_false, if_false] at h
      by_cases h2 : c.index_lock_count = 0
      · by_cases h3 : c.seen_lock_count = 0
        · simp only [h2, h3, ne_eq, not_true_eq_false, if_false] at h
          by_cases h4 : o.lock_reopen = 0
          · simp only [h4, ne_eq, not_true_eq_false, if_false] at h
            by_cases h5 : o.ino_changed = true
            · simp only [h5, if_true] at h
              cases hr : o.read_header with
              | none => simp [hr] at h
              | some x =>
                cases x with
                | none =>
                  simp only [hr] at h
                  injection h with _ hc hos
                  exact ⟨by rw [← hc]; simp [lock_counts.setCount, h1, h2, h3], Or.inr ⟨h1, hos.symm⟩⟩
                | some e =>
                  simp only [hr] at h
                  cases reconstruct
                  · simp [mailbox_unlock_header, INT_MIN] at h
                  · simp only [if_true] at h
                    injection h with _ hc hos
                    exact ⟨by rw [← hc]; simp [lock_counts.setCount, h1, h2, h3], Or.inr ⟨h1, hos.symm⟩⟩
            · simp only [h5] at h
              injection h with _ hc hos
              exact ⟨by rw [← hc]; simp [lock_counts.setCount, h1, h2, h3], Or.inr ⟨h1, hos.symm⟩⟩
          · simp [h4] at h
        · simp [h2, h3] at h
      · simp [h2] at h
    · simp only [h1, ne_eq, not_false_eq_true, if_true] at h
      injection h with _ hc hos
      exact ⟨by rw [← hc]; rfl, Or.inl ⟨h1, hos.symm⟩⟩


/-- A successful `mailbox_lock_index`: the counter goes up by one, and
`lock_blocking` is called, and nothing else, exactly when the counter was 0. -/
theorem lock_index_success (reconstruct : Bool) (passes : List index_lock_obs)
    (rd : reread_obs) (c c1 : lock_counts)
    (os : List os_call) (h : mailbox_lock_index reconstruct passes rd c = .returned none c1 os) :
    c1 = c.setCount .index (c.index_lock_count + 1) ∧
    ((c.index_lock_count ≠ 0 ∧ os = []) ∨
      (c.index_lock_count = 0 ∧
        ∃ k, os = List.replicate (k + 1) os_call.lock_blocking_index)) := by
  by_cases h1 : c.index_lock_count = 0
  · by_cases h2 : c.seen_lock_count = 0
    · rw [lock_index_first reconstruct passes rd c h1 h2] at h
      have hi : (lock_counts.index_lock_count
          { c with index_lock_count := c.index_lock_count + 1 }) = 1 := by simp [h1]
      have ha := lock_index_loop_returns_error reconstruct passes
        { c with index_lock_count := c.index_lock_count + 1 } []
      have hb := lock_index_loop_broke reconstruct
        { c with index_lock_count := c.index_lock_count + 1 } (by rw [hi]; decide) passes []
      generalize lock_index_loop reconstruct _ passes [] = L at h ha hb
      cases L with
      | ended res =>
        simp only [lock_index_read_header] at h
        subst h
        exact absurd rfl (ha none c1 os rfl)
      | broke c2 os0 =>
        obtain ⟨hc2, k, hk⟩ := hb c2 os0 rfl
        subst hc2
        simp only [List.nil_append] at hk
        simp only [lock_index_read_header] at h
        cases hr : index_reread reconstruct rd
            { c with index_lock_count := c.index_lock_count + 1 } with
        | assertion_failed => simp [hr] at h
        | undefined => simp [hr] at h
        | not_returned => simp [hr] at h
        | returned r2 c3 os3 =>
          obtain ⟨e1, e2, _⟩ := index_reread_returned reconstruct rd _ c3 r2 os3
            (by rw [hi]; decide) hr
          subst e1 e2
          cases r2 with
          | none =>
            simp only [hr, List.append_nil] at h
            injection h with _ hc hos
            exact ⟨by rw [← hc]; rfl, Or.inr ⟨h1, k, by rw [← hos, hk]⟩⟩
          | some e =>
            simp only [hr, List.append_nil] at h
            cases reconstruct
            · simp [mailbox_unlock_index, INT_MIN, h1] at h
            · simp only [if_true] at h
              injection h with _ hc hos
              exact ⟨by rw [← hc]; rfl, Or.inr ⟨h1, k, by rw [← hos, hk]⟩⟩
    · unfold mailbox_lock_index at h
      simp [h1, h2, INT_MAX] at h
  · unfold mailbox_lock_index at h
    by_cases h0 : c.index_lock_count = INT_MAX
    · simp [h0] at h
    · simp only [h0, h1, if_false, ne_eq, not_false_eq_true, if_true] at h
      injection h with _ hc hos
      exact ⟨by rw [← hc]; rfl, Or.inl ⟨h1, hos.symm⟩⟩

/-- A successful `mailbox_lock_index_for_upgrade`: the counter goes up by one,
and `lock_blocking` is called, and nothing else, exactly when the counter was
0. -/
theorem lock_index_for_upgrade_success (reconstruct : Bool) (passes : List index_lock_obs)
    (c c1 : lock_counts) (os : List os_call)
    (h : mailbox_lock_index_for_upgrade reconstruct passes c = .returned none c1 os) :
    c1 = c.setCount .index (c.index_lock_count + 1) ∧
    ((c.index_lock_count ≠ 0 ∧ os = []) ∨
      (c.index_lock_count = 0 ∧
        ∃ k, os = List.replicate (k + 1) os_call.lock_blocking_index)) := by
  by_cases h1 : c.index_lock_count = 0
  · by_cases h2 : c.seen_lock_count = 0
    · rw [lock_index_for_upgrade_first reconstruct passes c h1 h2] at h
      have hi : (lock_counts.index_lock_count
          { c with index_lock_count := c.index_lock_count + 1 }) = 1 := by simp [h1]
      have ha := lock_index_loop_returns_error reconstruct passes
        { c with index_lock_count := c.index_lock_count + 1 } []
      have hb := lock_index_loop_broke reconstruct
        { c with index_lock_count := c.index_lock_count + 1 } (by rw [hi]; decide) passes []
      generalize lock_index_loop reconstruct _ passes [] = L at h ha hb
      cases L with
      | ended res =>
        simp only [lock_index_return] at h
        subst h
        exact absurd rfl (ha none c1 os rfl)
      | broke c2 os0 =>
        obtain ⟨hc2, k, hk⟩ := hb c2 os0 rfl
        subst hc2
        simp only [List.nil_append] at hk
        simp only [lock_index_return] at h
        injection h with _ hc hos
        exact ⟨by rw [← hc]; rfl, Or.inr ⟨h1, k, by rw [← hos, hk]⟩⟩
    · unfold mailbox_lock_index_for_upgrade at h
      simp [h1, h2, INT_MAX] at h
  · unfold mailbox_lock_index_for_upgrade at h
    by_cases h0 : c.index_lock_count = INT_MAX
    · simp [h0] at h
    · simp only [h0, h1, if_false, ne_eq, not_false_eq_true, if_true] at h
      injection h with _ hc hos
      exact ⟨by rw [← hc]; rfl, Or.inl ⟨h1, hos.symm⟩⟩

/-- A successful `mailbox_lock_pop`: the counter goes up by one, and
`lock_nonblocking` is called, once, exactly when the counter was 0. -/
theorem lock_pop_success (o : pop_lock_obs) (c c1 : lock_counts)
    (os : List os_call) (h : mailbox_lock_pop o c = .returned none c1 os) :
    c1 = c.setCount .pop (c.pop_lock_count + 1) ∧
    ((c.pop_lock_count ≠ 0 ∧ os = []) ∨
      (c.pop_lock_count = 0 ∧ os = [.lock_nonblocking_cache])) := by
  unfold mailbox_lock_pop at h
  by_cases h0 : c.pop_lock_count = INT_MAX
  · simp [h0] at h
  · simp only [h0, if_false] at h
    by_cases h1 : c.pop_lock_count = 0
    · by_cases h2 : o.lock_nonblocking = -1
      · cases hb : o.errno_busy <;> simp [h1, h2, hb] at h
      · simp only [h1, h2, ne_eq, not_true_eq_false, if_false] at h
        injection h with _ hc hos
        exact ⟨by rw [← hc, h1]; rfl, Or.inr ⟨h1, hos.symm⟩⟩
    · simp only [h1, ne_eq, not_false_eq_true, if_true] at h
      injection h with _ hc hos
      exact ⟨by rw [← hc]; rfl, Or.inl ⟨h1, hos.symm⟩⟩

/-- A call of `mailbox_unlock_header` that returns: the counter was not 0 and
goes down by one, and `lock_unlock` is called, once, exactly when the counter
reaches 0. -/
theorem unlock_header_success (r : Option imap_err) (c c1 : lock_counts) (os : List os_call)
    (h : mailbox_unlock_header c = .returned r c1 os) :
    c.header_lock_count ≠ 0 ∧ c1 = c.setCount .header (c.header_lock_count - 1) ∧
    ((c.header_lock_count = 1 ∧ os = [.lock_unlock_header]) ∨
      (c.header_lock_count ≠ 1 ∧ os = [])) := by
  unfold mailbox_unlock_header at h
  by_cases h0 : c.header_lock_count = 0
  · simp [h0] at h
  · by_cases h1 : c.header_lock_count = INT_MIN
    · simp [h1, INT_MIN] at h
    · simp only [h0, h1, if_false] at h
      by_cases h2 : c.header_lock_count = 1
      · rw [if_pos (by simp [h2])] at h
        injection h with _ hc hos
        exact ⟨h0, by rw [← hc]; rfl, Or.inl ⟨h2, hos.symm⟩⟩
      · rw [if_neg (by show ¬ (_ - 1 = (0:Int)); omega)] at h
        injection h with _ hc hos
        exact ⟨h0, by rw [← hc]; rfl, Or.inr ⟨h2, hos.symm⟩⟩

/-- A call of `mailbox_unlock_index` that returns: the counter was not 0 and
goes down by one, and `lock_unlock` is called, once, exactly when the counter
reaches 0. -/
theorem unlock_index_success (r : Option imap_err) (c c1 : lock_counts) (os : List os_call)
    (h : mailbox_unlock_index c = .returned r c1 os) :
    c.index_lock_count ≠ 0 ∧ c1 = c.setCount .index (c.index_lock_count - 1) ∧
    ((c.index_lock_count = 1 ∧ os = [.lock_unlock_index]) ∨
      (c.index_lock_count ≠ 1 ∧ os = [])) := by
  unfold mailbox_unlock_index at h
  by_cases h0 : c.index_lock_count = 0
  · simp [h0] at h
  · by_cases h1 : c.index_lock_count = INT_MIN
    · simp [h1, INT_MIN] at h
    · simp only [h0, h1, if_false] at h
      by_cases h2 : c.index_lock_count = 1
      · rw [if_pos (by simp [h2])] at h
        injection h with _ hc hos
        exact ⟨h0, by rw [← hc]; rfl, Or.inl ⟨h2, hos.symm⟩⟩
      · rw [if_neg (by show ¬ (_ - 1 = (0:Int)); omega)] at h
        injection h with _ hc hos
        exact ⟨h0, by rw [← hc]; rfl, Or.inr ⟨h2, hos.symm⟩⟩

/-- A call of `mailbox_unlock_pop` that returns: the counter was not 0 and
goes down by one, and `lock_unlock` is called, once, exactly when the counter
reaches 0. -/
theorem unlock_pop_success (r : Option imap_err) (c c1 : lock_counts) (os : List os_call)
    (h : mailbox_unlock_pop c = .returned r c1 os) :
    c.pop_lock_count ≠ 0 ∧ c1 = c.setCount .pop (c.pop_lock_count - 1) ∧
    ((c.pop_lock_count = 1 ∧ os = [.lock_unlock_cache]) ∨
      (c.pop_lock_count ≠ 1 ∧ os = [])) := by
  unfold mailbox_unlock_pop at h
  by_cases h0 : c.pop_lock_count = 0
  · simp [h0] at h
  · by_cases h1 : c.pop_lock_count = INT_MIN
    · simp [h1, INT_MIN] at h
    · simp only [h0, h1, if_false] at h
      by_cases h2 : c.pop_lock_count = 1
      · rw [if_pos (by simp [h2])] at h
        injection h with _ hc hos
        exact ⟨h0, by rw [← hc]; rfl, Or.inl ⟨h2, hos.symm⟩⟩
      · rw [if_neg (by show ¬ (_ - 1 = (0:Int)); omega)] at h
        injection h with _ hc hos
        exact ⟨h0, by rw [← hc]; rfl, Or.inr ⟨h2, hos.symm⟩⟩

/-- What a successful call does to the counters and which calls it makes to the
lock library, on a handle whose counters are not negative. -/
theorem lock_call_success (reconstruct : Bool) (call : lock_call) (c c1 : lock_counts)
    (os : List os_call) (hc : ∀ k, 0 ≤ c.count k)
    (h : call.run reconstruct c = .returned none c1 os) :
    (∀ k, 0 ≤ c1.count k) ∧
    (∀ e ∈ os, ∀ k, e.requests = some k → call.locks = some k ∧ c.count k = 0) ∧
    (∀ e ∈ os, ∀ k, e.releases = some k → call.unlocks = some k ∧ c1.count k = 0) ∧
    (∀ k, call.locks = some k → 0 < c.count k →
      os = [] ∧ c1 = c.setCount k (c.count k + 1)) ∧
    (∀ k, call.unlocks = some k → 1 < c.count k →
      os = [] ∧ c1 = c.setCount k (c.count k - 1)) ∧
    (∀ k, call.locks = some k → c.count k = 0 →
      (∃ e ∈ os, e.requests = some k) ∧ c1 = c.setCount k 1) ∧
    (∀ k, call.unlocks = some k → c.count k = 1 →
      (∃ e ∈ os, e.releases = some k) ∧ c1 = c.setCount k 0) := by
  have hh := hc .header
  have hi := hc .index
  have hp := hc .pop
  simp only [lock_counts.count] at hh hi hp
  cases call with
  | lock_header o =>
    obtain ⟨h1, h2⟩ := lock_header_success reconstruct o c c1 os h
    subst h1
    rcases h2 with ⟨h2, h3⟩ | ⟨h2, h3⟩ <;> subst h3 <;>
      refine ⟨?_, ?_, ?_, ?_, ?_, ?_, ?_⟩ <;>
      (intro k; cases k <;> simp [lock_counts.count, lock_counts.setCount, lock_call.locks,
        lock_call.unlocks, os_call.requests, os_call.releases, h2] <;> omega)
  | lock_index passes rd =>
    obtain ⟨h1, h2⟩ := lock_index_success reconstruct passes rd c c1 os h
    subst h1
    rcases h2 with ⟨h2, h3⟩ | ⟨h2, n, h3⟩ <;> subst h3 <;>
      refine ⟨?_, ?_, ?_, ?_, ?_, ?_, ?_⟩ <;>
      (intro k; cases k <;> simp [lock_counts.count, lock_counts.setCount, lock_call.locks,
        lock_call.unlocks, os_call.requests, os_call.releases, h2] <;> omega)
  | lock_index_for_upgrade passes =>
    obtain ⟨h1, h2⟩ := lock_index_for_upgrade_success reconstruct passes c c1 os h
    subst h1
    rcases h2 with ⟨h2, h3⟩ | ⟨h2, n, h3⟩ <;> subst h3 <;>
      refine ⟨?_, ?_, ?_, ?_, ?_, ?_, ?_⟩ <;>
      (intro k; cases k <;> simp [lock_counts.count, lock_counts.setCount, lock_call.locks,
        lock_call.unlocks, os_call.requests, os_call.releases, h2] <;> omega)
  | lock_pop o =>
    obtain ⟨h1, h2⟩ := lock_pop_success o c c1 os h
    subst h1
    rcases h2 with ⟨h2, h3⟩ | ⟨h2, h3⟩ <;> subst h3 <;>
      refine ⟨?_, ?_, ?_, ?_, ?_, ?_, ?_⟩ <;>
      (intro k; cases k <;> simp [lock_counts.count, lock_counts.setCount, lock_call.locks,
        lock_call.unlocks, os_call.requests, os_call.releases, h2] <;> omega)
  | unlock_header =>
    obtain ⟨h0, h1, h2⟩ := unlock_header_success none c c1 os h
    subst h1
    rcases h2 with ⟨h2, h3⟩ | ⟨h2, h3⟩ <;> subst h3 <;>
      refine ⟨?_, ?_, ?_, ?_, ?_, ?_, ?_⟩ <;>
      (intro k; cases k <;> simp [lock_counts.count, lock_counts.setCount, lock_call.locks,
        lock_call.unlocks, os_call.requests, os_call.releases, h2] <;> omega)
  | unlock_index =>
    obtain ⟨h0, h1, h2⟩ := unlock_index_success none c c1 os h
    subst h1
    rcases h2 with ⟨h2, h3⟩ | ⟨h2, h3⟩ <;> subst h3 <;>
      refine ⟨?_, ?_, ?_, ?_, ?_, ?_, ?_⟩ <;>
      (intro k; cases k <;> simp [lock_counts.count, lock_counts.setCount, lock_call.locks,
        lock_call.unlocks, os_call.requests, os_call.releases, h2] <;> omega)
  | unlock_pop =>
    obtain ⟨h0, h1, h2⟩ := unlock_pop_success none c c1 os h
    subst h1
    rcases h2 with ⟨h2, h3⟩ | ⟨h2, h3⟩ <;> subst h3 <;>
      refine ⟨?_, ?_, ?_, ?_, ?_, ?_, ?_⟩ <;>
      (intro k; cases k <;> simp [lock_counts.count, lock_counts.setCount, lock_call.locks,
        lock_call.unlocks, os_call.requests, os_call.releases, h2] <;> omega)

/-- A lock call that finds its counter above 0 (and below `INT_MAX`) returns 0
at once with the counter one higher; an unlock call that finds its counter
above 1 returns at once with the counter one lower. -/
theorem lock_call_held (reconstruct : Bool) (call : lock_call) (c : lock_counts)
    (k : lock_kind) :
    (call.locks = some k → 0 < c.count k → c.count k < INT_MAX →
      call.run reconstruct c = .returned none (c.setCount k (c.count k + 1)) []) ∧
    (call.unlocks = some k → 1 < c.count k →
      call.run reconstruct c = .returned none (c.setCount k (c.count k - 1)) []) := by
  constructor
  · intro hk h0 h1
    simp only [INT_MAX] at h1
    cases call <;> simp only [lock_call.locks, Option.some.injEq, reduceCtorEq] at hk <;>
      subst hk <;> simp only [lock_counts.count] at h0 h1 <;>
      simp only [lock_call.run, mailbox_lock_header, mailbox_lock_index,
        mailbox_lock_index_for_upgrade, mailbox_lock_pop, INT_MAX, lock_counts.count,
        lock_counts.setCount] <;>
      rw [if_neg (by omega), if_pos (by omega)]
  · intro hk h0
    cases call <;> simp only [lock_call.unlocks, Option.some.injEq, reduceCtorEq] at hk <;>
      subst hk <;> simp only [lock_counts.count] at h0 <;>
      simp only [lock_call.run, mailbox_unlock_header, mailbox_unlock_index,
        mailbox_unlock_pop, INT_MIN, lock_counts.count, lock_counts.setCount] <;>
      rw [if_neg (by omega), if_neg (by omega), if_neg (by omega)]

/-- C21: for each of the header, index and POP locks, a lock call that finds
the counter above 0 returns 0 at once with the counter one higher, and an unlock
call that finds it above 1 returns at once with the counter one lower, neither
calling the lock library.  In every sequence of successful lock and unlock calls
on a handle whose counters start non-negative (they start at 0): no counter ever
becomes negative; a call to the lock library that requests a lock is made only
by a lock call that finds the counter of that lock at 0, and one that releases a
lock only by the unlock call that brings the counter to 0.  Conversely a lock
call that finds the counter at 0 requests the lock and sets the counter to 1,
and an unlock call that finds it at 1 releases the lock. -/
theorem lock_counters_reentrant (reconstruct : Bool) (c : lock_counts)
    (calls : List lock_call) (steps : List lock_step)
    (hc : ∀ k, 0 ≤ c.count k)
    (hrun : lock_run reconstruct c calls = some steps) :
    (∀ (call : lock_call) (c0 : lock_counts) (k : lock_kind),
      (call.locks = some k → 0 < c0.count k → c0.count k < INT_MAX →
        call.run reconstruct c0 = .returned none (c0.setCount k (c0.count k + 1)) []) ∧
      (call.unlocks = some k → 1 < c0.count k →
        call.run reconstruct c0 = .returned none (c0.setCount k (c0.count k - 1)) [])) ∧
    ∀ s ∈ steps,
      (∀ k, 0 ≤ s.before.count k ∧ 0 ≤ s.after.count k) ∧
      (∀ e ∈ s.os, ∀ k, e.requests = some k →
        s.call.locks = some k ∧ s.before.count k = 0) ∧
      (∀ e ∈ s.os, ∀ k, e.releases = some k →
        s.call.unlocks = some k ∧ s.after.count k = 0) ∧
      (∀ k, s.call.locks = some k → 0 < s.before.count k →
        s.os = [] ∧ s.after = s.before.setCount k (s.before.count k + 1)) ∧
      (∀ k, s.call.unlocks = some k → 1 < s.before.count k →
        s.os = [] ∧ s.after = s.before.setCount k (s.before.count k - 1)) ∧
      (∀ k, s.call.locks = some k → s.before.count k = 0 →
        (∃ e ∈ s.os, e.requests = some k) ∧ s.after = s.before.setCount k 1) ∧
      (∀ k, s.call.unlocks = some k → s.before.count k = 1 →
        (∃ e ∈ s.os, e.releases = some k) ∧ s.after = s.before.setCount k 0) := by
  refine ⟨fun call c0 k => lock_call_held reconstruct call c0 k, ?_⟩
  intro s hs
  obtain ⟨hb, _, hr⟩ := lock_run_steps reconstruct (fun c => ∀ k, 0 ≤ c.count k)
    (fun c call c1 os hc h => (lock_call_success reconstruct call c c1 os hc h).1)
    calls c steps hc hrun s hs
  obtain ⟨h1, h2, h3, h4, h5, h6, h7⟩ :=
    lock_call_success reconstruct s.call s.before s.after s.os hb hr
  exact ⟨fun k => ⟨hb k, h1 k⟩, h2, h3, h4, h5, h6, h7⟩

/-- C21 (instance): the header lock is taken twice and given up twice on a handle
without locks, with the index lock taken and given up in between; the lock
library is called by the first, third, fourth and sixth call only, and every
request for a lock comes from a lock call that finds the counter at 0. -/
theorem lock_counters_reentrant_witness :
    (lock_run false no_locks nested_lock_calls).map (fun steps => steps.map (fun s => s.os))
      = some [[.lock_reopen_header], [], [.lock_blocking_index], [.lock_unlock_index], [],
          [.lock_unlock_header]] ∧
    ∀ s ∈ (lock_run false no_locks nested_lock_calls).getD [],
      ∀ e ∈ s.os, ∀ k, e.requests = some k → s.call.locks = some k ∧ s.before.count k = 0 :=
  ⟨rfl, fun s hs =>
    (lock_counters_reentrant false no_locks nested_lock_calls
      ((lock_run false no_locks nested_lock_calls).getD [])
      (by intro k; cases k <;> decide) rfl).2 s hs |>.2.1⟩

/-! ## Cached headers -/

/-- The byte right after a prefix. -/
theorem getD_append_cons (pre t : List Byte) (c : Byte) :
    (pre ++ c :: t).getD pre.length 0 = c := by
  induction pre with
  | nil => rfl
  | cons a pre ih => simpa using ih

/-- The loop of `mailbox_cached_header` on a string that fits: all of it is
copied in lower case. -/
theorem cached_header_copy_fits :
    ∀ (s : List Byte) (k : Nat) (hdr : List Byte), s.length ≤ k →
      cached_header_copy k s hdr = ([], hdr ++ s.map tolower) := by
  intro s
  induction s with
  | nil => intro k hdr _; cases k <;> simp [cached_header_copy]
  | cons c s ih =>
    intro k hdr hk
    cases k with
    | zero => simp at hk
    | succ k =>
      rw [cached_header_copy, ih k _ (by simpa using hk)]
      simp

/-- The loop of `mailbox_cached_header` on a string that does not fit: some of
it is left over. -/
theorem cached_header_copy_long :
    ∀ (k : Nat) (s : List Byte) (hdr : List Byte), k < s.length →
      (cached_header_copy k s hdr).1 ≠ [] := by
  intro k
  induction k with
  | zero =>
    intro s hdr hk
    rw [cached_header_copy]
    exact List.ne_nil_of_length_pos hk
  | succ k ih =>
    intro s hdr hk
    cases s with
    | nil => simp at hk
    | cons c s =>
      rw [cached_header_copy]
      exact ih s _ (by simpa using hk)

/-- The loop of `mailbox_cached_header_inline` on a name that is followed by
`:` within the bound: the name is looked up in lower case. -/
theorem cached_header_inline_loop_fits :
    ∀ (s pre rest buf : List Byte) (n : Nat),
      (∀ b ∈ s, b ≠ 58 ∧ b ≠ 13 ∧ b ≠ 10 ∧ b ≠ 0) → s.length < n →
      cached_header_inline_loop (pre ++ s ++ 58 :: rest) n pre.length buf
        = is_cached_header (buf ++ s.map tolower) := by
  intro s
  induction s with
  | nil =>
    intro pre rest buf n _ hn
    cases n with
    | zero => simp at hn
    | succ n =>
      rw [cached_header_inline_loop]
      have e : (pre ++ [] ++ 58 :: rest).getD pre.length 0 = 58 := by
        rw [List.append_nil]; exact getD_append_cons pre rest 58
      rw [e]
      simp
  | cons c s ih =>
    intro pre rest buf n hs hn
    cases n with
    | zero => simp at hn
    | succ n =>
      rw [cached_header_inline_loop]
      have e : (pre ++ c :: s ++ 58 :: rest).getD pre.length 0 = c := by
        rw [List.append_assoc]; exact getD_append_cons pre _ c
      rw [e]
      obtain ⟨h1, h2, h3, h4⟩ := hs c (List.mem_cons_self _ _)
      rw [if_neg (by simp [h2, h3, h4]), if_neg h1]
      have e2 : pre ++ c :: s ++ 58 :: rest = (pre ++ [c]) ++ s ++ 58 :: rest := by simp
      have e3 : pre.length + 1 = (pre ++ [c]).length := by simp
      rw [e2, e3, ih (pre ++ [c]) rest _ n (fun b hb => hs b (List.mem_cons_of_mem _ hb))
        (by simpa using hn)]
      simp

/-- The loop of `mailbox_cached_header_inline` on a name that is not followed by
`:` within the bound ends with `BIT32_MAX`. -/
theorem cached_header_inline_loop_long :
    ∀ (n : Nat) (s pre rest buf : List Byte),
      (∀ b ∈ s, b ≠ 58 ∧ b ≠ 13 ∧ b ≠ 10 ∧ b ≠ 0) → n ≤ s.length →
      cached_header_inline_loop (pre ++ s ++ rest) n pre.length buf = toInt32 BIT32_MAX := by
  intro n
  induction n with
  | zero => intro s pre rest buf _ _; rw [cached_header_inline_loop]
  | succ n ih =>
    intro s pre rest buf hs hn
    cases s with
    | nil => simp at hn
    | cons c s =>
      rw [cached_header_inline_loop]
      have e : (pre ++ c :: s ++ rest).getD pre.length 0 = c := by
        rw [List.append_assoc]; exact getD_append_cons pre _ c
      rw [e]
      obtain ⟨h1, h2, h3, h4⟩ := hs c (List.mem_cons_self _ _)
      rw [if_neg (by simp [h2, h3, h4]), if_neg h1]
      have e2 : pre ++ c :: s ++ rest = (pre ++ [c]) ++ s ++ rest := by simp
      have e3 : pre.length + 1 = (pre ++ [c]).length := by simp
      rw [e2, e3]
      exact ih s (pre ++ [c]) rest _ (fun b hb => hs b (List.mem_cons_of_mem _ hb))
        (by simpa using hn)

/-- For a header name without `:`, CR, LF and NUL whose length is not 31,
`mailbox_cached_header_inline` on the name followed by `:` returns what
`mailbox_cached_header` returns for the name. -/
theorem cached_header_inline_agrees (name rest : List Byte)
    (hfree : ∀ b ∈ name, b ≠ 58 ∧ b ≠ 13 ∧ b ≠ 10 ∧ b ≠ 0)
    (hlen : name.length ≠ MAX_CACHED_HEADER_SIZE - 1) :
    mailbox_cached_header_inline (name ++ 58 :: rest) = mailbox_cached_header name := by
  unfold mailbox_cached_header_inline mailbox_cached_header
  by_cases h : name.length < MAX_CACHED_HEADER_SIZE - 1
  · have e := cached_header_inline_loop_fits name [] rest [] _ hfree h
    simp only [List.nil_append, List.length_nil] at e
    rw [e, cached_header_copy_fits name _ [] (Nat.le_of_lt h)]
    simp
  · have h1 : MAX_CACHED_HEADER_SIZE - 1 < name.length := by omega
    have e := cached_header_inline_loop_long (MAX_CACHED_HEADER_SIZE - 1) name [] (58 :: rest) []
      hfree (Nat.le_of_lt h1)
    simp only [List.nil_append, List.length_nil] at e
    rw [e]
    have h2 := cached_header_copy_long _ name [] h1
    generalize cached_header_copy (MAX_CACHED_HEADER_SIZE - 1) name [] = p at h2
    obtain ⟨s, hdr⟩ := p
    simp only at h2
    simp [h2]

set_option maxRecDepth 20000 in
/-- C27 (the code at the failing input): the header name
`list-unsubscribe-post-extension` has 31 characters, none of them `:`, CR, LF
or NUL.  `mailbox_cached_header` returns 1 for it, and
`mailbox_cached_header_inline` returns `BIT32_MAX` converted to `int`, -1, for
the name followed by `:` and a value. -/
theorem cached_header_inline_differs :
    long_header_name.length = 31 ∧
    (∀ b ∈ long_header_name, b ≠ 58 ∧ b ≠ 13 ∧ b ≠ 10 ∧ b ≠ 0) ∧
    mailbox_cached_header long_header_name = 1 ∧
    mailbox_cached_header_inline (long_header_name ++ ascii ": <mailto:u@example.org>")
      = -1 := by
  refine ⟨?_, ?_, ?_, ?_⟩
  · rfl
  · decide
  · rfl
  · rfl

/-! ## Unique ids -/

/-- The byte of the character that `Nat.toDigits` gives for a digit. -/
theorem hexchar_spec (d : Nat) (hd : d < 16) :
    hexdigit (byteOf (Nat.digitChar d).toNat) = d ∧
    byteOf (Nat.digitChar d).toNat ∈ ascii "0123456789abcdef" := by
  interval_cases d <;> decide

/-- The number denoted by a string of hexadecimal digits, from a start value. -/
theorem hexval_foldl (s : List Byte) (v : Nat) :
    s.foldl (fun v b => v * 16 + hexdigit b) v = v * 16 ^ s.length + hexval s := by
  induction s generalizing v with
  | nil => simp [hexval]
  | cons b s ih =>
    have e1 : hexval (b :: s) = (0 * 16 + hexdigit b) * 16 ^ s.length + hexval s := by
      rw [hexval, List.foldl_cons, ih]
    rw [List.foldl_cons, ih, e1]
    simp only [List.length_cons, pow_succ]
    ring

theorem hexval_append (a b : List Byte) :
    hexval (a ++ b) = hexval a * 16 ^ b.length + hexval b := by
  rw [hexval, List.foldl_append, hexval_foldl]
  rfl

theorem hexval_replicate_zero (k : Nat) : hexval (List.replicate k (48 : Byte)) = 0 := by
  induction k with
  | zero => rfl
  | succ k ih =>
    rw [List.replicate_succ, show (48 : Byte) :: List.replicate k 48 = [48] ++ List.replicate k 48
      from rfl, hexval_append, ih]
    have : hexval [(48 : Byte)] = 0 := by decide
    rw [this]; simp

/-- The digits that `Nat.toDigitsCore` puts in front of `ds` for base 16, with
enough fuel: they denote `n`, they are lower-case hexadecimal digits, and there
are at most `e` of them when `n < 16 ^ e`. -/
theorem toDigitsCore_hex :
    ∀ (fuel n : Nat) (ds : List Char), n < fuel →
      ∃ pre : List Char, Nat.toDigitsCore 16 fuel n ds = pre ++ ds ∧
        hexval (pre.map (fun c => byteOf c.toNat)) = n ∧
        (∀ b ∈ pre.map (fun c => byteOf c.toNat), b ∈ ascii "0123456789abcdef") ∧
        (∀ e, 0 < e → n < 16 ^ e → pre.length ≤ e) := by
  intro fuel
  induction fuel with
  | zero => intro n ds h; omega
  | succ fuel ih =>
    intro n ds hn
    rw [Nat.toDigitsCore]
    have hd := hexchar_spec (n % 16) (Nat.mod_lt _ (by decide))
    by_cases h0 : n / 16 = 0
    · refine ⟨[Nat.digitChar (n % 16)], ?_, ?_, ?_, ?_⟩
      · simp [h0]
      · have : n < 16 := by omega
        simp only [List.map_cons, List.map_nil]
        rw [show hexval [byteOf (Nat.digitChar (n % 16)).toNat]
          = 0 * 16 + hexdigit (byteOf (Nat.digitChar (n % 16)).toNat) from rfl, hd.1]
        omega
      · intro b hb
        simp only [List.map_cons, List.map_nil, List.mem_singleton] at hb
        rw [hb]; exact hd.2
      · intro e he _
        simpa using he
    · have hlt : n / 16 < fuel := by omega
      obtain ⟨pre, h1, h2, h3, h4⟩ := ih (n / 16) (Nat.digitChar (n % 16) :: ds) hlt
      refine ⟨pre ++ [Nat.digitChar (n % 16)], ?_, ?_, ?_, ?_⟩
      · simp only [h0, if_false]
        rw [h1]; simp
      · rw [List.map_append, hexval_append, h2]
        simp only [List.map_cons, List.map_nil, List.length_singleton, pow_one]
        rw [show hexval [byteOf (Nat.digitChar (n % 16)).toNat]
          = 0 * 16 + hexdigit (byteOf (Nat.digitChar (n % 16)).toNat) from rfl, hd.1]
        omega
      · intro b hb
        rw [List.map_append, List.mem_append] at hb
        rcases hb with hb | hb
        · exact h3 b hb
        · simp only [List.map_cons, List.map_nil, List.mem_singleton] at hb
          rw [hb]; exact hd.2
      · intro e he hne
        cases e with
        | zero => omega
        | succ e =>
          have he0 : 0 < e := by
            rcases Nat.eq_zero_or_pos e with h | h
            · subst h; simp at hne; omega
            · exact h
          have := h4 e he0 (by rw [pow_succ] at hne; omega)
          simp only [List.length_append, List.length_singleton]
          omega

/-- The conversion `%08lx` of a value below 2^32: eight lower-case hexadecimal
digits that denote the value. -/
theorem hex08_spec (v : Nat) (hv : v < 4294967296) :
    (hex08 v).length = 8 ∧ (∀ b ∈ hex08 v, b ∈ ascii "0123456789abcdef") ∧
    hexval (hex08 v) = v := by
  obtain ⟨pre, h1, h2, h3, h4⟩ := toDigitsCore_hex (v + 1) v [] (Nat.lt_succ_self v)
  have hlen : pre.length ≤ 8 := h4 8 (by decide) (by simpa using hv)
  have e : hex08 v = List.replicate (8 - pre.length) 48 ++ pre.map (fun c => byteOf c.toNat) := by
    unfold hex08 Nat.toDigits
    rw [h1]
    simp
  rw [e]
  refine ⟨?_, ?_, ?_⟩
  · simp only [List.length_append, List.length_replicate, List.length_map]
    omega
  · intro b hb
    rw [List.mem_append] at hb
    rcases hb with hb | hb
    · rw [(List.mem_replicate.1 hb).2]; decide
    · exact h3 b hb
  · rw [hexval_append, hexval_replicate_zero, h2]
    simp

/-- For a name of 7-bit characters the hash computed in `unsigned long` is the
hash in closed form, and it is below the prime. -/
theorem uniqueid_hash_eq (name : List Byte) (h7 : ∀ c ∈ name, c.val < 128) :
    ∀ h : Nat, h < PRIME →
      name.foldl (fun hash c =>
        ((hash * 251 % 18446744073709551616 + char_to_ulong c) % 18446744073709551616) % PRIME) h
      = name.foldl (fun h c => (h * 251 + c.val) % 2147484043) h ∧
      name.foldl (fun h c => (h * 251 + c.val) % 2147484043) h < PRIME := by
  induction name with
  | nil => intro h hh; exact ⟨rfl, hh⟩
  | cons c name ih =>
    intro h hh
    have hc : c.val < 128 := h7 c (List.mem_cons_self _ _)
    simp only [List.foldl_cons]
    have e : ((h * 251 % 18446744073709551616 + char_to_ulong c) % 18446744073709551616) % PRIME
        = (h * 251 + c.val) % 2147484043 := by
      unfold char_to_ulong
      rw [if_pos hc]
      simp only [PRIME] at hh ⊢
      rw [Nat.mod_eq_of_lt (by omega : h * 251 < 18446744073709551616),
        Nat.mod_eq_of_lt (by omega : h * 251 + c.val < 18446744073709551616)]
    rw [e]
    exact ih (fun b hb => h7 b (List.mem_cons_of_mem _ hb)) _
      (by simp only [PRIME]; exact Nat.mod_lt _ (by decide))

/-- C26: for every mailbox name of 7-bit characters and every uidvalidity below
2^32, `mailbox_make_uniqueid` with `outlen` at least 17 leaves exactly 16
lower-case hexadecimal digits; the first eight denote the hash of the name in
closed form, `h := (h * 251 + byte) mod 2147484043` from 0, which is below 2^32,
and the last eight denote the uidvalidity, both padded with zeros as `%08lx`
does. -/
theorem make_uniqueid_spec (name : List Byte) (uidvalidity outlen : Nat)
    (h7 : ∀ c ∈ name, c.val < 128) (huv : uidvalidity < 4294967296) (hout : 17 ≤ outlen) :
    mailbox_make_uniqueid name uidvalidity outlen
      = hex08 (uniqueid_hash name) ++ hex08 uidvalidity ∧
    (mailbox_make_uniqueid name uidvalidity outlen).length = 16 ∧
    (∀ b ∈ mailbox_make_uniqueid name uidvalidity outlen, b ∈ ascii "0123456789abcdef") ∧
    hexval ((mailbox_make_uniqueid name uidvalidity outlen).take 8) = uniqueid_hash name ∧
    hexval ((mailbox_make_uniqueid name uidvalidity outlen).drop 8) = uidvalidity ∧
    uniqueid_hash name < 4294967296 := by
  obtain ⟨e1, e2⟩ := uniqueid_hash_eq name h7 0 (by decide)
  have hh : uniqueid_hash name < 4294967296 := by
    unfold uniqueid_hash
    simp only [PRIME] at e2
    omega
  obtain ⟨a1, a2, a3⟩ := hex08_spec (uniqueid_hash name) hh
  obtain ⟨b1, b2, b3⟩ := hex08_spec uidvalidity huv
  have e : mailbox_make_uniqueid name uidvalidity outlen
      = hex08 (uniqueid_hash name) ++ hex08 uidvalidity := by
    unfold mailbox_make_uniqueid
    simp only []
    rw [e1]
    apply List.take_of_length_le
    simp only [List.length_append, uniqueid_hash] at a1 ⊢
    omega
  rw [e]
  refine ⟨rfl, ?_, ?_, ?_, ?_, hh⟩
  · simp [a1, b1]
  · intro b hb
    rw [List.mem_append] at hb
    rcases hb with hb | hb
    · exact a2 b hb
    · exact b2 b hb
  · rw [List.take_append_of_le_length (by omega), List.take_of_length_le (by omega)]
    exact a3
  · rw [List.drop_append_of_le_length (by omega), List.drop_of_length_le (by omega)]
    simpa using b3

set_option maxRecDepth 8000 in
/-- C26 (instance): the unique id of `user.jane` with uidvalidity 9. -/
theorem make_uniqueid_spec_witness :
    (mailbox_make_uniqueid (ascii "user.jane") 9 17).length = 16 ∧
    hexval ((mailbox_make_uniqueid (ascii "user.jane") 9 17).drop 8) = 9 :=
  ⟨(make_uniqueid_spec (ascii "user.jane") 9 17 (by decide) (by decide) (by decide)).2.1,
   (make_uniqueid_spec (ascii "user.jane") 9 17 (by decide) (by decide) (by decide)).2.2.2.2.1⟩

/-! ## The generation check of `mailbox_open_index` -/

/-- One pass through the loop of `mailbox_open_index` when both files can be
opened, outside reconstruct mode. -/
theorem open_index_attempt_opened (le : Bool) (f c : List Byte) (m : mailbox) :
    open_index_attempt le false { index := some f, cache := some c } m =
      if f.length < 4 ∨ c.length < 4 then .returned IMAP_MAILBOX_BADFORMAT
      else if be32 f OFFSET_GENERATION_NO ≠ be32 c OFFSET_GENERATION_NO then
        .compared { m with index_fd := 0, index_base := [], cache_fd := 0, cache_base := [] }
          (be32 f OFFSET_GENERATION_NO) (be32 c OFFSET_GENERATION_NO)
      else
        .compared { m with index_fd := 0, index_base := f, cache_fd := 0, cache_base := c }
          (be32 f OFFSET_GENERATION_NO) (be32 c OFFSET_GENERATION_NO) := by
  unfold open_index_attempt
  simp only [Bool.false_eq_true, if_false, ntohl_load32, mailbox.index_len, mailbox.cache_len]
  rw [if_neg (by decide), if_neg (by decide)]

/-- After `k` attempts at which the generation numbers differ, an attempt at
which a file is shorter than 4 bytes ends the loop with
`IMAP_MAILBOX_BADFORMAT`. -/
theorem open_index_loop_short (le : Bool) (env : os_env) (index cache : Nat → List Byte) :
    ∀ (k left tries : Nat) (m : mailbox), k ≤ left →
      (∀ i < k, generations_differ (index (tries + i)) (cache (tries + i))) →
      ((index (tries + k)).length < 4 ∨ (cache (tries + k)).length < 4) →
      open_index_loop le false env (fun i => { index := some (index i), cache := some (cache i) })
        m left tries = .error IMAP_MAILBOX_BADFORMAT := by
  intro k
  induction k with
  | zero =>
    intro left tries m _ _ hs
    rw [open_index_loop]
    simp only [open_index_attempt_opened]
    rw [if_pos (by simpa using hs)]
  | succ k ih =>
    intro left tries m hk hd hs
    cases left with
    | zero => omega
    | succ left =>
      obtain ⟨d1, d2, d3⟩ := hd 0 (by omega)
      simp only [Nat.add_zero] at d1 d2 d3
      rw [open_index_loop]
      simp only [open_index_attempt_opened]
      rw [if_neg (by omega), if_pos d3]
      simp only [d3, ne_eq, not_false_eq_true, if_true]
      apply ih left (tries + 1) _ (by omega)
      · intro i hi
        have := hd (i + 1) (by omega)
        rwa [show tries + (i + 1) = tries + 1 + i by omega] at this
      · rwa [show tries + (k + 1) = tries + 1 + k by omega] at hs

/-- After `k` attempts at which the generation numbers differ, an attempt at
which they agree ends the loop: the index header is read with `generation_no`
set to the common value. -/
theorem open_index_loop_agree (le : Bool) (env : os_env) (index cache : Nat → List Byte) :
    ∀ (k left tries : Nat) (m : mailbox), k ≤ left →
      (∀ i < k, generations_differ (index (tries + i)) (cache (tries + i))) →
      4 ≤ (index (tries + k)).length → 4 ≤ (cache (tries + k)).length →
      be32 (index (tries + k)) OFFSET_GENERATION_NO
        = be32 (cache (tries + k)) OFFSET_GENERATION_NO →
      open_index_loop le false env (fun i => { index := some (index i), cache := some (cache i) })
        m left tries
      = mailbox_read_index_header le false env
          { m with index_fd := 0, index_base := index (tries + k), cache_fd := 0,
                   cache_base := cache (tries + k),
                   generation_no := be32 (index (tries + k)) OFFSET_GENERATION_NO } := by
  intro k
  induction k with
  | zero =>
    intro left tries m _ _ h1 h2 h3
    simp only [Nat.add_zero] at h1 h2 h3 ⊢
    rw [open_index_loop]
    simp only [open_index_attempt_opened]
    rw [if_neg (by omega), if_neg (by simp [h3])]
    simp only [h3, ne_eq, not_true_eq_false, if_false]
  | succ k ih =>
    intro left tries m hk hd h1 h2 h3
    cases left with
    | zero => omega
    | succ left =>
      obtain ⟨d1, d2, d3⟩ := hd 0 (by omega)
      simp only [Nat.add_zero] at d1 d2 d3
      rw [open_index_loop]
      simp only [open_index_attempt_opened]
      rw [if_neg (by omega), if_pos d3]
      simp only [d3, ne_eq, not_false_eq_true, if_true]
      rw [show tries + (k + 1) = tries + 1 + k by omega] at h1 h2 h3 ⊢
      rw [ih left (tries + 1) _ (by omega) (by
        intro i hi
        have := hd (i + 1) (by omega)
        rwa [show tries + (i + 1) = tries + 1 + i by omega] at this) h1 h2 h3]

/-- When the generation numbers differ at every attempt that the bound allows,
the loop ends with `IMAP_MAILBOX_BADFORMAT`. -/
theorem open_index_loop_exhausted (le : Bool) (env : os_env) (index cache : Nat → List Byte) :
    ∀ (left tries : Nat) (m : mailbox),
      (∀ i ≤ left, generations_differ (index (tries + i)) (cache (tries + i))) →
      open_index_loop le false env (fun i => { index := some (index i), cache := some (cache i) })
        m left tries = .error IMAP_MAILBOX_BADFORMAT := by
  intro left
  induction left with
  | zero =>
    intro tries m hd
    obtain ⟨d1, d2, d3⟩ := hd 0 (Nat.le_refl _)
    simp only [Nat.add_zero] at d1 d2 d3
    rw [open_index_loop]
    simp only [open_index_attempt_opened]
    rw [if_neg (by omega), if_pos d3]
    simp only [d3, ne_eq, not_false_eq_true, if_true]
  | succ left ih =>
    intro tries m hd
    obtain ⟨d1, d2, d3⟩ := hd 0 (by omega)
    simp only [Nat.add_zero] at d1 d2 d3
    rw [open_index_loop]
    simp only [open_index_attempt_opened]
    rw [if_neg (by omega), if_pos d3]
    simp only [d3, ne_eq, not_false_eq_true, if_true]
    apply ih (tries + 1)
    intro i hi
    have := hd (i + 1) (by omega)
    rwa [show tries + (i + 1) = tries + 1 + i by omega] at this

/-- The loop of `mailbox_open_index` looks at no more than `left + 1`
observations. -/
theorem open_index_loop_congr (le reconstruct : Bool) (env : os_env)
    (obs obs1 : Nat → files_obs) :
    ∀ (left tries : Nat) (m : mailbox), (∀ i ≤ left, obs1 (tries + i) = obs (tries + i)) →
      open_index_loop le reconstruct env obs1 m left tries
        = open_index_loop le reconstruct env obs m left tries := by
  intro left
  induction left with
  | zero =>
    intro tries m h
    have h0 := h 0 (Nat.le_refl _)
    simp only [Nat.add_zero] at h0
    rw [open_index_loop, open_index_loop, h0]
  | succ left ih =>
    intro tries m h
    have h0 := h 0 (by omega)
    simp only [Nat.add_zero] at h0
    rw [open_index_loop, open_index_loop, h0]
    have e : ∀ m1, open_index_loop le reconstruct env obs1 m1 left (tries + 1)
        = open_index_loop le reconstruct env obs m1 left (tries + 1) := by
      intro m1
      apply ih (tries + 1)
      intro i hi
      have := h (i + 1) (by omega)
      rwa [show tries + (i + 1) = tries + 1 + i by omega] at this
    simp only [e]

/-- The unmapping that opens `mailbox_open_index` does not show in the mailbox
with which the index header is read. -/
theorem open_index_unmapped (m : mailbox) (f c : List Byte) (g : Nat) :
    let m0 : mailbox := if m.index_fd ≠ -1 then { m with index_base := [] } else m
    let m1 : mailbox := if m0.cache_fd ≠ -1 then { m0 with cache_base := [] } else m0
    ({ m1 with index_fd := 0, index_base := f, cache_fd := 0, cache_base := c,
               generation_no := g } : mailbox)
      = { m with index_fd := 0, index_base := f, cache_fd := 0, cache_base := c,
                 generation_no := g } := by
  intro m0 m1
  simp only [m1, m0]
  split_ifs <;> rfl

/-- C23: outside reconstruct mode, with both files opened at every attempt, the
generation check of `mailbox_open_index` is a retry bounded by
`MAXTRIES + 1` = 61 comparisons.  After `k ≤ MAXTRIES` attempts at which the two
generation numbers differ, an attempt at which a file is shorter than 4 bytes
gives `IMAP_MAILBOX_BADFORMAT`, and an attempt at which the numbers agree makes
the function go on to read the index header with `generation_no` set to the
common value; when the numbers differ at all of the attempts 0 to `MAXTRIES`
the result is `IMAP_MAILBOX_BADFORMAT`.  The function is total, and in either
mode its result depends on the observations 0 to `MAXTRIES` only. -/
theorem open_index_bounded_retry (le : Bool) (env : os_env) (index cache : Nat → List Byte)
    (m : mailbox) :
    MAXTRIES + 1 = 61 ∧
    (∀ k ≤ MAXTRIES, (∀ i < k, generations_differ (index i) (cache i)) →
      ((index k).length < 4 ∨ (cache k).length < 4) →
      mailbox_open_index le false env
        (fun i => { index := some (index i), cache := some (cache i) }) m
        = .error IMAP_MAILBOX_BADFORMAT) ∧
    (∀ k ≤ MAXTRIES, (∀ i < k, generations_differ (index i) (cache i)) →
      4 ≤ (index k).length → 4 ≤ (cache k).length →
      be32 (index k) OFFSET_GENERATION_NO = be32 (cache k) OFFSET_GENERATION_NO →
      mailbox_open_index le false env
        (fun i => { index := some (index i), cache := some (cache i) }) m
        = mailbox_read_index_header le false env
            { m with index_fd := 0, index_base := index k, cache_fd := 0,
                     cache_base := cache k,
                     generation_no := be32 (index k) OFFSET_GENERATION_NO }) ∧
    ((∀ i ≤ MAXTRIES, generations_differ (index i) (cache i)) →
      mailbox_open_index le false env
        (fun i => { index := some (index i), cache := some (cache i) }) m
        = .error IMAP_MAILBOX_BADFORMAT) ∧
    (∀ (reconstruct : Bool) (obs obs1 : Nat → files_obs),
      (∀ i ≤ MAXTRIES, obs1 i = obs i) →
      mailbox_open_index le reconstruct env obs1 m
        = mailbox_open_index le reconstruct env obs m) := by
  refine ⟨rfl, ?_, ?_, ?_, ?_⟩
  · intro k hk hd hs
    unfold mailbox_open_index
    exact open_index_loop_short le env index cache k MAXTRIES 0 _ hk
      (by intro i hi; simpa using hd i hi) (by simpa using hs)
  · intro k hk hd h1 h2 h3
    unfold mailbox_open_index
    simp only []
    rw [open_index_loop_agree le env index cache k MAXTRIES 0 _ hk
      (by intro i hi; simpa using hd i hi) (by simpa using h1) (by simpa using h2)
      (by simpa using h3)]
    simp only [Nat.zero_add]
    exact congrArg _ (open_index_unmapped m (index k) (cache k) _)
  · intro hd
    unfold mailbox_open_index
    exact open_index_loop_exhausted le env index cache MAXTRIES 0 _
      (by intro i hi; simpa using hd i hi)
  · intro reconstruct obs obs1 h
    unfold mailbox_open_index
    exact open_index_loop_congr le reconstruct env obs obs1 MAXTRIES 0 _
      (by intro i hi; simpa using h i hi)

set_option maxRecDepth 8000 in
/-- C23 (instance): the index is one generation behind the cache at the first
two attempts and in step with it at the third; `mailbox_open_index` goes on to
read the index header with `generation_no` = 5, the common value. -/
theorem open_index_bounded_retry_witness :
    mailbox_open_index true false os_ok
      (fun i => { index := some (if i < 2 then stale_index else sample_index),
                  cache := some sample_cache }) sample_mailbox
      = mailbox_read_index_header true false os_ok
          { sample_mailbox with index_fd := 0, index_base := sample_index, cache_fd := 0,
                                cache_base := sample_cache, generation_no := 5 } :=
  (open_index_bounded_retry true os_ok (fun i => if i < 2 then stale_index else sample_index)
    (fun _ => sample_cache) sample_mailbox).2.2.1 2 (by decide)
    (by intro i hi; interval_cases i <;> decide) (by decide) (by decide) (by decide)

/-! ## `mailbox_hash_mbox` -/

/-- An output that fits in the buffer and has no NUL is stored whole. -/
theorem snprintf_fits (size : Nat) (text : List Byte) (h0 : cstring text)
    (hfit : text.length < size) : snprintf size text = text := by
  unfold snprintf
  rw [List.take_of_length_le (by omega)]
  rw [List.takeWhile_eq_self_iff]
  intro b hb
  simp only [ne_eq, decide_eq_true_eq]
  intro e
  rw [e] at hb
  exact h0 hb

/-- A character that is not in the string is not found. -/
theorem strchr_none (s : List Byte) (c : Byte) (h : c ∉ s) : strchr s c = none := by
  unfold strchr
  rw [if_neg h]

/-- The first occurrence of a character. -/
theorem strchr_first (first rest : List Byte) (c : Byte) (h : c ∉ first) :
    strchr (first ++ c :: rest) c = some first.length := by
  unfold strchr
  rw [if_pos (by simp)]
  congr 1
  induction first with
  | nil => simp
  | cons a first ih =>
    have ha : a ≠ c := fun e => h (by rw [e]; exact List.mem_cons_self _ _)
    have hf : c ∉ first := fun e => h (List.mem_cons_of_mem _ e)
    rw [List.cons_append, List.indexOf_cons_ne _ ha, ih hf]
    rfl

theorem cstring_append (a b : List Byte) (ha : cstring a) (hb : cstring b) :
    cstring (a ++ b) := by
  unfold cstring at *
  simp [ha, hb]

theorem length_dots_to_slashes (s : List Byte) : (dots_to_slashes s).length = s.length := by
  simp [dots_to_slashes]

/-- C24: for every root and mailbox name (C strings) whose path fits in the
buffer, with directory hashing disabled.  With virtual domains disabled,
`mailbox_hash_mbox` leaves `root`, unchanged, followed by `/` and the name with
every `.` replaced by `/`.  With virtual domains enabled and a name
`domain!local`, it leaves `root`, the domain directory prefix `FNAME_DOMAINDIR`
and the domain, all unchanged, followed by `/` and `local` with every `.`
replaced by `/`. -/
theorem hash_mbox_plain (FNAME_DOMAINDIR : List Byte) (dir_hash_c : List Byte → Int)
    (buf_len : Nat) (root : List Byte) (hroot : cstring root) :
    (∀ name : List Byte, cstring name → root.length + 1 + name.length < buf_len →
      mailbox_hash_mbox false false FNAME_DOMAINDIR dir_hash_c buf_len root name
        = some (root ++ [47] ++ dots_to_slashes name)) ∧
    (∀ domain local_part : List Byte, cstring FNAME_DOMAINDIR → cstring domain →
      cstring local_part → (33 : Byte) ∉ domain →
      root.length + FNAME_DOMAINDIR.length + domain.length + 1 + local_part.length < buf_len →
      mailbox_hash_mbox true false FNAME_DOMAINDIR dir_hash_c buf_len root
          (domain ++ 33 :: local_part)
        = some (root ++ (FNAME_DOMAINDIR ++ domain) ++ [47] ++ dots_to_slashes local_part)) := by
  constructor
  · intro name hname hfit
    unfold mailbox_hash_mbox
    rw [if_neg (by omega)]
    simp only [Bool.false_eq_true, if_false, List.append_nil, List.length_nil, Nat.sub_zero]
    rw [snprintf_fits buf_len root hroot (by omega)]
    rw [snprintf_fits _ ([47] ++ name)
      (cstring_append _ _ (by decide) hname) (by simp; omega)]
    simp [dots_to_slashes]
  · intro domain local_part hD hdom hloc hbang hfit
    unfold mailbox_hash_mbox
    rw [if_neg (by omega)]
    simp only [Bool.false_eq_true, if_false, if_true, strchr_first domain local_part 33 hbang,
      List.take_left, List.drop_left]
    rw [snprintf_fits buf_len root hroot (by omega)]
    rw [snprintf_fits _ (FNAME_DOMAINDIR ++ domain) (cstring_append _ _ hD hdom)
      (by simp; omega)]
    have e : (domain ++ 33 :: local_part).drop (domain.length + 1) = local_part := by
      rw [show domain ++ 33 :: local_part = (domain ++ [33]) ++ local_part by simp]
      exact List.drop_left' (by simp)
    rw [e]
    rw [snprintf_fits _ ([47] ++ local_part)
      (cstring_append _ _ (by decide) hloc) (by simp; omega)]
    simp [dots_to_slashes]

/-- C24 (instance): the mailbox `user.jane.work` under `/var/spool/imap`, and
the mailbox `example.com!user.jane` under the same root with the domain
directory prefix `/domain/`. -/
theorem hash_mbox_plain_witness :
    mailbox_hash_mbox false false (ascii "/domain/") sample_dir_hash_c 4096
        (ascii "/var/spool/imap") (ascii "user.jane.work")
      = some (ascii "/var/spool/imap/user/jane/work") ∧
    mailbox_hash_mbox true false (ascii "/domain/") sample_dir_hash_c 4096
        (ascii "/var/spool/imap") (ascii "example.com" ++ 33 :: ascii "user.jane")
      = some (ascii "/var/spool/imap/domain/example.com/user/jane") :=
  ⟨(hash_mbox_plain (ascii "/domain/") sample_dir_hash_c 4096 (ascii "/var/spool/imap")
      (by decide)).1 (ascii "user.jane.work") (by decide) (by decide),
   (hash_mbox_plain (ascii "/domain/") sample_dir_hash_c 4096 (ascii "/var/spool/imap")
      (by decide)).2 (ascii "example.com") (ascii "user.jane") (by decide) (by decide)
      (by decide) (by decide) (by decide)⟩

/-- C25 (counterexample): with directory hashing enabled and the bucket function
`sample_dir_hash_c`, the mailbox `user.jane` gets the hash character `j`, which
is the bucket of `jane`, the text after the first `.`; the bucket of the first
component `user` is `u`. -/
theorem hash_mbox_hashes_after_first_dot :
    mailbox_hash_mbox false true (ascii "/domain/") sample_dir_hash_c 4096
        (ascii "/var/spool/imap") (ascii "user.jane")
      = some (ascii "/var/spool/imap/j/user/jane") ∧
    to_char (sample_dir_hash_c (ascii "user")) = 117 ∧
    to_char (sample_dir_hash_c (ascii "jane")) = 106 := by
  refine ⟨?_, ?_, ?_⟩ <;> decide

/-- C25 (amended): with directory hashing enabled, for every root and name (C
strings) whose path fits in the buffer, the hash character that
`mailbox_hash_mbox` puts before the mailbox name is `dir_hash_c` applied to the
whole name when the name has no `.`, and applied to the text after its first
`.` otherwise.  With virtual domains enabled and a name `domain!local` the name
that is so hashed is `local`, the part after the first `!`, and the domain
directory gets a hash character of its own, `dir_hash_c` applied to the domain.
A hash character is taken not to be NUL, and the one before the name is, like
the name, stored as `/` if it is `.`. -/
theorem hash_mbox_hash_char (config_virtdomains : Bool) (FNAME_DOMAINDIR : List Byte)
    (dir_hash_c : List Byte → Int) (buf_len : Nat) (root : List Byte)
    (hroot : cstring root) :
    (∀ name : List Byte, cstring name →
      (config_virtdomains = true → (33 : Byte) ∉ name) →
      root.length + 3 + name.length < buf_len →
      ((46 : Byte) ∉ name → to_char (dir_hash_c name) ≠ 0 →
        mailbox_hash_mbox config_virtdomains true FNAME_DOMAINDIR dir_hash_c buf_len root name
          = some (root ++ dots_to_slashes ([47, to_char (dir_hash_c name), 47] ++ name))) ∧
      (∀ first rest : List Byte, name = first ++ 46 :: rest → (46 : Byte) ∉ first →
        to_char (dir_hash_c rest) ≠ 0 →
        mailbox_hash_mbox config_virtdomains true FNAME_DOMAINDIR dir_hash_c buf_len root name
          = some (root ++ dots_to_slashes ([47, to_char (dir_hash_c rest), 47] ++ name)))) ∧
    (∀ domain local_part : List Byte, config_virtdomains = true →
      cstring FNAME_DOMAINDIR → cstring domain → cstring local_part → (33 : Byte) ∉ domain →
      to_char (dir_hash_c domain) ≠ 0 →
      root.length + FNAME_DOMAINDIR.length + 2 + domain.length + 3 + local_part.length
        < buf_len →
      ((46 : Byte) ∉ local_part → to_char (dir_hash_c local_part) ≠ 0 →
        mailbox_hash_mbox config_virtdomains true FNAME_DOMAINDIR dir_hash_c buf_len root
            (domain ++ 33 :: local_part)
          = some (root ++ (FNAME_DOMAINDIR ++ [to_char (dir_hash_c domain), 47] ++ domain)
              ++ dots_to_slashes ([47, to_char (dir_hash_c local_part), 47] ++ local_part))) ∧
      (∀ first rest : List Byte, local_part = first ++ 46 :: rest → (46 : Byte) ∉ first →
        to_char (dir_hash_c rest) ≠ 0 →
        mailbox_hash_mbox config_virtdomains true FNAME_DOMAINDIR dir_hash_c buf_len root
            (domain ++ 33 :: local_part)
          = some (root ++ (FNAME_DOMAINDIR ++ [to_char (dir_hash_c domain), 47] ++ domain)
              ++ dots_to_slashes ([47, to_char (dir_hash_c rest), 47] ++ local_part)))) := by
  have hchar : ∀ (c : Byte) (t : List Byte), c ≠ 0 → cstring t →
      cstring ([47] ++ [c] ++ [47] ++ t) := by
    intro c t hc ht
    apply cstring_append _ _ _ ht
    unfold cstring
    simp only [List.cons_append, List.nil_append, List.mem_cons, List.mem_singleton,
      List.not_mem_nil, or_false, not_or]
    exact ⟨by decide, fun e => hc e.symm, by decide⟩
  constructor
  · intro name hname hvirt hfit
    have hsplit : (if config_virtdomains = true then strchr name 33 else none) = none := by
      cases config_virtdomains
      · rfl
      · simp only [if_true]
        exact strchr_none _ _ (hvirt rfl)
    constructor
    · intro hdot hc
      unfold mailbox_hash_mbox
      rw [if_neg (by omega)]
      simp only [hsplit, if_true, List.append_nil, List.length_nil, Nat.sub_zero,
        strchr_none name 46 hdot]
      rw [snprintf_fits buf_len root hroot (by omega)]
      rw [snprintf_fits _ ([47] ++ [to_char (dir_hash_c name)] ++ [47] ++ name)
        (hchar _ _ hc hname) (by simp; omega)]
      rfl
    · intro first rest hn hdot hc
      unfold mailbox_hash_mbox
      rw [if_neg (by omega)]
      have hs : strchr name 46 = some first.length := by
        rw [hn]; exact strchr_first first rest 46 hdot
      have e : name.drop (first.length + 1) = rest := by
        rw [hn, show first ++ 46 :: rest = (first ++ [46]) ++ rest by simp]
        exact List.drop_left' (by simp)
      simp only [hsplit, if_true, List.append_nil, List.length_nil, Nat.sub_zero, hs, e]
      rw [snprintf_fits buf_len root hroot (by omega)]
      rw [snprintf_fits _ ([47] ++ [to_char (dir_hash_c rest)] ++ [47] ++ name)
        (hchar _ _ hc hname) (by simp; omega)]
      rfl
  · intro domain local_part hv hD hdom hloc hbang hcd hfit
    have e : (domain ++ 33 :: local_part).drop (domain.length + 1) = local_part := by
      rw [show domain ++ 33 :: local_part = (domain ++ [33]) ++ local_part by simp]
      exact List.drop_left' (by simp)
    have hdtext : cstring (FNAME_DOMAINDIR ++ [to_char (dir_hash_c domain)] ++ [47] ++ domain) := by
      apply cstring_append _ _ _ hdom
      apply cstring_append _ _ _ (by decide)
      apply cstring_append _ _ hD
      unfold cstring
      simp only [List.mem_singleton]
      exact fun e => hcd e.symm
    have hdlen : (FNAME_DOMAINDIR ++ [to_char (dir_hash_c domain)] ++ [47] ++ domain).length
        = FNAME_DOMAINDIR.length + 2 + domain.length := by
      simp only [List.length_append, List.length_singleton]
    constructor
    · intro hdot hc
      unfold mailbox_hash_mbox
      rw [if_neg (by omega)]
      simp only [hv, if_true, strchr_first domain local_part 33 hbang, List.take_left, e,
        strchr_none local_part 46 hdot]
      rw [snprintf_fits buf_len root hroot (by omega)]
      rw [snprintf_fits _ _ hdtext (by rw [hdlen]; omega)]
      rw [snprintf_fits _ ([47] ++ [to_char (dir_hash_c local_part)] ++ [47] ++ local_part)
        (hchar _ _ hc hloc) (by rw [hdlen]; simp; omega)]
      simp [List.append_assoc]
    · intro first rest hn hdot hc
      have hs : strchr local_part 46 = some first.length := by
        rw [hn]; exact strchr_first first rest 46 hdot
      have e2 : local_part.drop (first.length + 1) = rest := by
        rw [hn, show first ++ 46 :: rest = (first ++ [46]) ++ rest by simp]
        exact List.drop_left' (by simp)
      unfold mailbox_hash_mbox
      rw [if_neg (by omega)]
      simp only [hv, if_true, strchr_first domain local_part 33 hbang, List.take_left, e, hs, e2]
      rw [snprintf_fits buf_len root hroot (by omega)]
      rw [snprintf_fits _ _ hdtext (by rw [hdlen]; omega)]
      rw [snprintf_fits _ ([47] ++ [to_char (dir_hash_c rest)] ++ [47] ++ local_part)
        (hchar _ _ hc hloc) (by rw [hdlen]; simp; omega)]
      simp [List.append_assoc]

/-- C25 (instances of the amended statement): the mailbox `user.jane.work` is
hashed by `jane.work`, the text after its first `.`; with virtual domains the
mailbox `example.com!user.jane` is hashed by `jane`, and its domain directory
by `example.com`. -/
theorem hash_mbox_hash_char_witness :
    mailbox_hash_mbox false true (ascii "/domain/") sample_dir_hash_c 4096
        (ascii "/var/spool/imap") (ascii "user.jane.work")
      = some (ascii "/var/spool/imap/j/user/jane/work") ∧
    mailbox_hash_mbox true true (ascii "/domain/") sample_dir_hash_c 4096
        (ascii "/var/spool/imap") (ascii "example.com" ++ 33 :: ascii "user.jane")
      = some (ascii "/var/spool/imap/domain/e/example.com/j/user/jane") :=
  ⟨((hash_mbox_hash_char false (ascii "/domain/") sample_dir_hash_c 4096
      (ascii "/var/spool/imap") (by decide)).1 (ascii "user.jane.work") (by decide)
      (by intro h; cases h) (by decide)).2 (ascii "user") (ascii "jane.work") (by decide)
      (by decide) (by decide),
   ((hash_mbox_hash_char true (ascii "/domain/") sample_dir_hash_c 4096
      (ascii "/var/spool/imap") (by decide)).2 (ascii "example.com") (ascii "user.jane") rfl
      (by decide) (by decide) (by decide) (by decide) (by decide) (by decide)).2
      (ascii "user") (ascii "jane") (by decide) (by decide) (by decide)⟩
/-! ## The settling loop of `mailbox_sync` -/

/-- The UIDs of an index are the UIDs of its readable records. -/
theorem mem_record_uids (le : Bool) (m : mailbox) (u : Nat) :
    u ∈ record_uids le m ↔
      ∃ k, 1 ≤ k ∧ k ≤ m.«exists» ∧ ∃ record, mailbox_read_index_record le m k = .ok record ∧
        record.uid = u := by
  unfold record_uids
  rw [List.mem_filterMap]
  constructor
  · rintro ⟨k, hk, h⟩
    rw [List.mem_range] at hk
    refine ⟨k + 1, by omega, by omega, ?_⟩
    cases hr : mailbox_read_index_record le m (k + 1) with
    | error e => simp [hr] at h
    | ok record =>
      simp only [hr, Option.some.injEq] at h
      exact ⟨record, rfl, h⟩
  · rintro ⟨k, h1, h2, record, hr, hu⟩
    refine ⟨k - 1, List.mem_range.2 (by omega), ?_⟩
    rw [show k - 1 + 1 = k by omega, hr]
    simp only [hu]

/-- In an index whose UIDs are strictly increasing, a later readable record has
the larger UID. -/
theorem record_uids_increasing (le : Bool) (m : mailbox)
    (h : (record_uids le m).Sorted (· < ·)) (i j : Nat) (ri rj : index_record)
    (h1 : 1 ≤ i) (hij : i < j) (hj : j ≤ m.«exists»)
    (hi : mailbox_read_index_record le m i = .ok ri)
    (hjr : mailbox_read_index_record le m j = .ok rj) : ri.uid < rj.uid := by
  unfold record_uids List.Sorted at h
  rw [List.pairwise_filterMap] at h
  have h2 := List.pairwise_iff_getElem.1 h (i - 1) (j - 1)
    (by rw [List.length_range]; omega) (by rw [List.length_range]; omega) (by omega)
  simp only [List.getElem_range] at h2
  rw [show i - 1 + 1 = i by omega, show j - 1 + 1 = j by omega, hi, hjr] at h2
  exact h2 ri.uid rfl rj.uid rfl

/-- The `do ... while` loop of `mailbox_sync` over an index with strictly
increasing UIDs: it moves `newmsgno` forward only, what it unlinks are UIDs
below `olduid` of records at or after the `newmsgno` it starts with, and when it
ends with `r` = 0 every record left has a UID above `olduid`. -/
theorem sync_skip_spec (le : Bool) (newmailbox : mailbox) (olduid : Nat)
    (hinc : ∀ (i j : Nat) (ri rj : index_record), 1 ≤ i → i < j → j ≤ newmailbox.«exists» →
      mailbox_read_index_record le newmailbox i = .ok ri →
      mailbox_read_index_record le newmailbox j = .ok rj → ri.uid < rj.uid) :
    ∀ (n : Nat) (st : sync_state) (r : Option imap_err) (st1 : sync_state),
      1 ≤ st.newmsgno → n + st.newmsgno = newmailbox.«exists» + 1 →
      sync_skip le newmailbox olduid n st = some (r, st1) →
      st.newmsgno ≤ st1.newmsgno ∧
      (∀ u ∈ st1.unlinked, u ∈ st.unlinked ∨
        (u < olduid ∧ ∃ (j : Nat) (record : index_record), st.newmsgno ≤ j ∧
          j ≤ newmailbox.«exists» ∧
          mailbox_read_index_record le newmailbox j = .ok record ∧ record.uid = u)) ∧
      (r = none → ∀ (j : Nat) (record : index_record), st1.newmsgno ≤ j →
        j ≤ newmailbox.«exists» →
        mailbox_read_index_record le newmailbox j = .ok record → olduid < record.uid) := by
  intro n
  induction n with
  | zero =>
    intro st r st1 h1 hf h
    rw [sync_skip] at h
    injection h with h
    injection h with hr hst
    subst hst
    exact ⟨Nat.le_refl _, fun u hu => Or.inl hu, fun _ j record hj hje _ => by omega⟩
  | succ n ih =>
    intro st r st1 h1 hf h
    rw [sync_skip] at h
    cases hrd : mailbox_read_index_record le newmailbox st.newmsgno with
    | error e =>
      simp only [hrd] at h
      injection h with h
      injection h with hr hst
      subst hst
      exact ⟨Nat.le_refl _, fun u hu => Or.inl hu, fun hn => by rw [← hr] at hn; cases hn⟩
    | ok newrecord =>
      simp only [hrd] at h
      by_cases hlt : newrecord.uid < olduid
      · simp only [hlt, if_true] at h
        by_cases hfmt : newmailbox.format = MAILBOX_FORMAT_NETNEWS
        · simp [hfmt] at h
        · simp only [hfmt, if_false] at h
          by_cases hmore : st.newmsgno + 1 ≤ newmailbox.«exists»
          · simp only [hmore, if_true] at h
            obtain ⟨a, b, c⟩ := ih _ r st1 (by simp) (by simp only []; omega) h
            simp only [] at a b c
            refine ⟨by omega, ?_, c⟩
            intro u hu
            rcases b u hu with hb | ⟨hb1, j, record, hb2, hb3, hb4, hb5⟩
            · rcases List.mem_append.1 hb with hb | hb
              · exact Or.inl hb
              · rw [List.mem_singleton] at hb
                exact Or.inr ⟨by rw [hb]; exact hlt, st.newmsgno, newrecord, Nat.le_refl _,
                  by omega, hrd, hb.symm⟩
            · exact Or.inr ⟨hb1, j, record, by omega, hb3, hb4, hb5⟩
          · simp only [hmore, if_false] at h
            injection h with h
            injection h with hr hst
            subst hst
            refine ⟨by simp, ?_, fun _ j record hj hje _ => by simp only [] at hj; omega⟩
            intro u hu
            rcases List.mem_append.1 hu with hb | hb
            · exact Or.inl hb
            · rw [List.mem_singleton] at hb
              exact Or.inr ⟨by rw [hb]; exact hlt, st.newmsgno, newrecord, Nat.le_refl _,
                by omega, hrd, hb.symm⟩
      · simp only [hlt, if_false] at h
        injection h with h
        injection h with hr hst
        subst hst
        refine ⟨by simp, fun u hu => Or.inl hu, ?_⟩
        intro _ j record hj hje hjr
        simp only [] at hj
        have := hinc st.newmsgno j newrecord record h1 (by omega) hje hrd hjr
        omega

/-- The loop of `mailbox_sync` over the old records, from a state in which
every unlinked UID of the old index is one that `mailbox_copyfile` unlinks and
every record left in the new index has a UID above those of the old records
already dealt with: a UID of the old index is unlinked only by
`mailbox_copyfile`, when it copies onto a file that exists, and not by the
`unlink` of the loop. -/
theorem sync_settle_spec (le : Bool) (renv : rename_env) (oldmailbox newmailbox : mailbox)
    (hold : ∀ (i j : Nat) (ri rj : index_record), 1 ≤ i → i < j → j ≤ oldmailbox.«exists» →
      mailbox_read_index_record le oldmailbox i = .ok ri →
      mailbox_read_index_record le oldmailbox j = .ok rj → ri.uid < rj.uid)
    (hnew : ∀ (i j : Nat) (ri rj : index_record), 1 ≤ i → i < j → j ≤ newmailbox.«exists» →
      mailbox_read_index_record le newmailbox i = .ok ri →
      mailbox_read_index_record le newmailbox j = .ok rj → ri.uid < rj.uid) :
    ∀ (n oldmsgno : Nat) (r0 : Option imap_err) (st : sync_state) (r : Option imap_err)
      (st1 : sync_state),
      1 ≤ oldmsgno → n + oldmsgno ≤ oldmailbox.«exists» + 1 → 1 ≤ st.newmsgno →
      (∀ u ∈ st.unlinked, u ∈ record_uids le oldmailbox →
        (mailbox_copyfile false (renv.copy_message u)).unlinked = true) →
      (∀ (j : Nat) (record : index_record), st.newmsgno ≤ j → j ≤ newmailbox.«exists» →
        mailbox_read_index_record le newmailbox j = .ok record →
        ∀ (i : Nat) (oldrecord : index_record), 1 ≤ i → i < oldmsgno →
          mailbox_read_index_record le oldmailbox i = .ok oldrecord →
          oldrecord.uid < record.uid) →
      sync_settle le renv oldmailbox newmailbox n oldmsgno r0 st = some (r, st1) →
      ∀ u ∈ st1.unlinked, u ∈ record_uids le oldmailbox →
        (mailbox_copyfile false (renv.copy_message u)).unlinked = true := by
  intro n
  induction n with
  | zero =>
    intro oldmsgno r0 st r st1 _ _ _ hI1 _ h
    rw [sync_settle] at h
    injection h with h
    injection h with _ hst
    subst hst
    exact hI1
  | succ n ih =>
    intro oldmsgno r0 st r st1 ho hf h0 hI1 hI3 h
    rw [sync_settle] at h
    cases hrd : mailbox_read_index_record le oldmailbox oldmsgno with
    | error e =>
      simp only [hrd] at h
      injection h with h
      injection h with _ hst
      subst hst
      exact hI1
    | ok oldrecord =>
      simp only [hrd] at h
      -- what the inner loop leaves
      have hskip : ∀ (r2 : Option imap_err) (st2 : sync_state),
          (if st.newmsgno ≤ newmailbox.«exists» then
            sync_skip le newmailbox oldrecord.uid (newmailbox.«exists» + 1 - st.newmsgno) st
           else some (none, st)) = some (r2, st2) →
          st.newmsgno ≤ st2.newmsgno ∧
          (∀ u ∈ st2.unlinked, u ∈ record_uids le oldmailbox →
            (mailbox_copyfile false (renv.copy_message u)).unlinked = true) ∧
          (r2 = none → ∀ (j : Nat) (record : index_record), st2.newmsgno ≤ j →
            j ≤ newmailbox.«exists» →
            mailbox_read_index_record le newmailbox j = .ok record →
            oldrecord.uid < record.uid) := by
        intro r2 st2 hs
        by_cases hle : st.newmsgno ≤ newmailbox.«exists»
        · rw [if_pos hle] at hs
          obtain ⟨a, b, c⟩ := sync_skip_spec le newmailbox oldrecord.uid hnew _ st r2 st2 h0
            (by omega) hs
          refine ⟨a, ?_, c⟩
          intro u hu
          rcases b u hu with hb | ⟨hb1, j, record, hb2, hb3, hb4, hb5⟩
          · exact hI1 u hb
          · intro hmem
            exfalso
            obtain ⟨i, hi1, hi2, orec, hi3, hi4⟩ := (mem_record_uids le oldmailbox u).1 hmem
            rcases Nat.lt_trichotomy i oldmsgno with hlt | heq | hgt
            · have := hI3 j record hb2 hb3 hb4 i orec hi1 hlt hi3
              omega
            · rw [heq, hrd] at hi3
              injection hi3 with hi3
              rw [← hi3] at hi4
              omega
            · have := hold oldmsgno i oldrecord orec ho hgt hi2 hrd hi3
              omega
        · rw [if_neg hle] at hs
          injection hs with hs
          injection hs with _ hst
          subst hst
          exact ⟨Nat.le_refl _, hI1, fun _ j record hj hje _ => by omega⟩
      generalize (if st.newmsgno ≤ newmailbox.«exists» then
            sync_skip le newmailbox oldrecord.uid (newmailbox.«exists» + 1 - st.newmsgno) st
           else some (none, st)) = skipped at h hskip
      cases skipped with
      | none => simp at h
      | some p =>
        obtain ⟨r2, st2⟩ := p
        obtain ⟨a, b, c⟩ := hskip r2 st2 rfl
        cases r2 with
        | some e =>
          simp only at h
          injection h with h
          injection h with _ hst
          subst hst
          exact b
        | none =>
          simp only at h
          have hI3n : ∀ (j : Nat) (record : index_record), st2.newmsgno ≤ j →
              j ≤ newmailbox.«exists» →
              mailbox_read_index_record le newmailbox j = .ok record →
              ∀ (i : Nat) (orec : index_record), 1 ≤ i → i < oldmsgno + 1 →
                mailbox_read_index_record le oldmailbox i = .ok orec →
                orec.uid < record.uid := by
            intro j record hj hje hjr i orec hi1 hi2 hi3
            rcases Nat.lt_or_ge i oldmsgno with hlt | hge
            · exact hI3 j record (by omega) hje hjr i orec hi1 hlt hi3
            · have heq : i = oldmsgno := by omega
              rw [heq, hrd] at hi3
              injection hi3 with hi3
              rw [← hi3]
              exact c rfl j record hj hje hjr
          by_cases hgt : st2.newmsgno > newmailbox.«exists»
          · simp only [hgt, if_true] at h
            by_cases hfmt : oldmailbox.format = MAILBOX_FORMAT_NETNEWS
            · simp [hfmt] at h
            · simp only [hfmt, if_false] at h
              obtain ⟨st3, hst3⟩ : ∃ st3 : sync_state, st3 =
                  (if (mailbox_copyfile false (renv.copy_message oldrecord.uid)).unlinked = true
                    then { st2 with unlinked := st2.unlinked ++ [oldrecord.uid] } else st2) :=
                ⟨_, rfl⟩
              rw [← hst3] at h
              have hn3 : st3.newmsgno = st2.newmsgno := by
                rw [hst3]; split_ifs <;> rfl
              have b3 : ∀ u ∈ st3.unlinked, u ∈ record_uids le oldmailbox →
                  (mailbox_copyfile false (renv.copy_message u)).unlinked = true := by
                intro u hu
                rw [hst3] at hu
                by_cases hcu :
                    (mailbox_copyfile false (renv.copy_message oldrecord.uid)).unlinked = true
                · rw [if_pos hcu] at hu
                  rcases List.mem_append.1 hu with hu | hu
                  · exact b u hu
                  · intro _
                    rw [List.mem_singleton.1 hu]
                    exact hcu
                · rw [if_neg hcu] at hu
                  exact b u hu
              cases hcp : (mailbox_copyfile false (renv.copy_message oldrecord.uid)).code with
              | some e =>
                simp only [hcp] at h
                injection h with h
                injection h with _ hst
                subst hst
                exact b3
              | none =>
                simp only [hcp] at h
                exact ih (oldmsgno + 1) none
                  { st3 with copied := st3.copied ++ [oldrecord.uid] } r st1 (by omega)
                  (by omega) (by show 1 ≤ st3.newmsgno; omega) b3
                  (fun j record hj => hI3n j record (by
                    have : st3.newmsgno ≤ j := hj
                    omega)) h
          · simp only [hgt, if_false] at h
            exact ih (oldmsgno + 1) none _ r st1 (by omega) (by omega) (by omega) b hI3n h

/-- For every pair of indexes whose UIDs are strictly increasing (with fewer
than 2^32 - 1 records each, so that the `unsigned` message numbers do not
wrap), whatever the settling loop of `mailbox_sync` has unlinked when it is left
(by its condition, by `break` or by `goto fail`): the `unlink` of the loop
never removes the file of a UID of the old index; such a file is removed only
by `mailbox_copyfile`, when it copies onto a file that exists. -/
theorem sync_unlinks_source_uid_by_copy_only (le : Bool) (renv : rename_env)
    (oldmailbox newmailbox : mailbox)
    (hold : (record_uids le oldmailbox).Sorted (· < ·))
    (hnew : (record_uids le newmailbox).Sorted (· < ·))
    (_hold_exists : oldmailbox.«exists» < 4294967295)
    (_hnew_exists : newmailbox.«exists» < 4294967295)
    (r0 r : Option imap_err) (st : sync_state)
    (h : sync_settle le renv oldmailbox newmailbox oldmailbox.«exists» 1 r0
      { newmsgno := 1, unlinked := [], copied := [] } = some (r, st)) :
    ∀ u ∈ st.unlinked, u ∈ record_uids le oldmailbox →
      (mailbox_copyfile false (renv.copy_message u)).unlinked = true :=
  sync_settle_spec le renv oldmailbox newmailbox
    (fun i j ri rj => record_uids_increasing le oldmailbox hold i j ri rj)
    (fun i j ri rj => record_uids_increasing le newmailbox hnew i j ri rj)
    oldmailbox.«exists» 1 r0 _ r st (Nat.le_refl _) (by omega) (Nat.le_refl _)
    (fun u hu => by simp at hu)
    (fun j record _ _ _ i oldrecord h1 h2 _ => by omega) h

set_option maxRecDepth 20000 in
/-- C29 (the code at the failing input): the old index holds UID 2 and the new
index the UIDs 1 and 2, both lists strictly increasing, and the new mailbox
holds the message files of its two UIDs.  The loop unlinks the file of UID 1,
reads the record of UID 2, which leaves `newmsgno` = 3 above `exists` = 2, and
so goes on to copy the message of UID 2 although the new mailbox has it:
`link` fails with `EEXIST` and `mailbox_copyfile` unlinks the file of UID 2 in
the new mailbox, the UID of a message of the old index, before it links it
anew. -/
theorem sync_copy_unlinks_source_uid :
    record_uids true (mailbox_of_uids [2] 100) = [2] ∧
    record_uids true (mailbox_of_uids [1, 2] 200) = [1, 2] ∧
    mailbox_copyfile false ((rename_onto [1, 2]).copy_message 2)
      = { code := none, unlinked := true } ∧
    sync_settle true (rename_onto [1, 2]) (mailbox_of_uids [2] 100)
      (mailbox_of_uids [1, 2] 200) 1 1 none
      { newmsgno := 1, unlinked := [], copied := [] }
      = some (none, { newmsgno := 3, unlinked := [1, 2], copied := [2] }) ∧
    2 ∈ record_uids true (mailbox_of_uids [2] 100) := by
  refine ⟨rfl, rfl, rfl, rfl, ?_⟩
  rw [show record_uids true (mailbox_of_uids [2] 100) = [2] from rfl]
  decide

end Cyrus
